import Mathlib

/-!
# Brändi Dog rules engine: move validation and turn execution

A shallow embedding of the game-state engine (`shared/game_types`, `shared/game_objects`,
`shared/game.cpp`, and the new-round step of `server/server.cpp`), of the JSON serializers of the
game state, of the name check of the server, of the message routing of the client
(`client/client.cpp`) and of the selection logic of the move-phase controller
(`client/MovePhaseController.cpp`), together with the properties established about them.

Conventions of the embedding

* `size_t` fields are natural numbers, `int` values are integers; the one place where unsigned
  wrap-around decides a branch (the finish-entry offset) uses `sizeSub`, subtraction modulo `2^64`.
* `std::array<T, 4>` is a function `Fin 4 → T`, the deck is the list of its 54 cards,
  `std::optional<T>` is `Option T`.
* A function of the engine that can dereference an empty optional, index out of bounds or throw
  returns `Except Fault _`; the value `.ok none` is the C++ result `std::nullopt`.
* Loops that scan the four seats or the four marbles run over `seatIds = [0, 1, 2, 3]`.
* A function that mutates the game state returns the new state; a `while (true)` loop is cut
  off after the number of passes that brings it back to its first iteration, and reports
  `Fault.nonTermination` when it has not left by then.
* The random shuffle of `dealCards` is a parameter: the shuffled index vector.
* A JSON value is a tree with integer numbers; the conversions of the JSON library return
  `Except JsonFault _`. The client is its routing state together with the list of the texts its
  update callback has been called with.
* The move-phase controller is the record of its fields together with the list of the moves it
  has passed to `sendPlayCard`; the game state it refers to is a field of the record.
* Where a statement is about the state an exception leaves behind, the mutation is modelled by
  a function that returns the state of the object together with the outcome
  (`executeMoveInPlace`).
-/

namespace BraendiDog

/-! ## game_types.hpp -/

/-- Card ranks. -/
inductive Rank
  | ACE | TWO | THREE | FOUR | FIVE | SIX | SEVEN | EIGHT | NINE | TEN | JACK | QUEEN | KING | JOKER
  deriving DecidableEq, Repr

/-- Card suits. -/
inductive Suit
  | CLUBS | DIAMONDS | HEARTS | SPADES | JOKER
  deriving DecidableEq, Repr

/-- Board areas. -/
inductive BoardLocation
  | HOME | TRACK | FINISH
  deriving DecidableEq, Repr

/-- Kinds of move rules. -/
inductive MoveType
  | SIMPLE | SEVEN | SWAP | JOKER | START
  deriving DecidableEq, Repr

/-- Ways in which a call can leave the defined behaviour of the engine. -/
inductive Fault
  | nullDeref
  | badOptionalAccess
  | outOfRange
  | nonTermination
  | signedOverflow
  deriving DecidableEq, Repr

/-- Struct `Position`: board area, index in the area, owner id. -/
structure Position where
  boardLocation : BoardLocation
  index : Nat
  playerID : Nat
  deriving DecidableEq, Repr

/-- The range check of the `Position` constructor. -/
def Position.inRange (p : Position) : Prop :=
  ¬ (p.playerID > 3 ∨ (p.boardLocation ≠ BoardLocation.TRACK ∧ p.index > 3) ∨
      (p.boardLocation = BoardLocation.TRACK ∧ p.index > 63))

instance (p : Position) : Decidable p.inRange :=
  inferInstanceAs (Decidable (¬ (p.playerID > 3 ∨
    (p.boardLocation ≠ BoardLocation.TRACK ∧ p.index > 3) ∨
    (p.boardLocation = BoardLocation.TRACK ∧ p.index > 63))))

/-- Method `Position::equals`. -/
def Position.equals (a b : Position) : Bool :=
  decide (a.boardLocation = b.boardLocation) && decide (a.index = b.index) &&
    (decide (a.playerID = b.playerID) || decide (a.boardLocation = BoardLocation.TRACK))

/-- Method `Position::isInHome`. -/
def Position.isInHome (p : Position) : Bool := decide (p.boardLocation = BoardLocation.HOME)

/-- Method `Position::isInFinish`. -/
def Position.isInFinish (p : Position) : Bool := decide (p.boardLocation = BoardLocation.FINISH)

/-- Struct `MarbleIdentifier`. -/
structure MarbleIdentifier where
  playerID : Nat
  marbleIdx : Nat
  deriving DecidableEq, Repr

/-- One entry of a movement list: a marble and its target position. -/
abbrev Movement := MarbleIdentifier × Position

/-- Struct `Move`. -/
structure Move where
  cardID : Nat
  handIndex : Nat
  movements : List Movement
  deriving DecidableEq, Repr

/-! ## game_objects -/

/-- Class `Card`. -/
structure Card where
  rank : Rank
  suit : Suit
  moveRules : List (MoveType × Int)
  deriving DecidableEq, Repr

/-- The move rules the `Card` constructor derives from the rank. -/
def Card.rulesOf : Rank → List (MoveType × Int)
  | Rank.ACE => [(MoveType.SIMPLE, 1), (MoveType.SIMPLE, 11), (MoveType.START, 0)]
  | Rank.TWO => [(MoveType.SIMPLE, 2)]
  | Rank.THREE => [(MoveType.SIMPLE, 3)]
  | Rank.FOUR => [(MoveType.SIMPLE, 4), (MoveType.SIMPLE, -4)]
  | Rank.FIVE => [(MoveType.SIMPLE, 5)]
  | Rank.SIX => [(MoveType.SIMPLE, 6)]
  | Rank.SEVEN => [(MoveType.SEVEN, 7)]
  | Rank.EIGHT => [(MoveType.SIMPLE, 8)]
  | Rank.NINE => [(MoveType.SIMPLE, 9)]
  | Rank.TEN => [(MoveType.SIMPLE, 10)]
  | Rank.JACK => [(MoveType.SWAP, 0)]
  | Rank.QUEEN => [(MoveType.SIMPLE, 12)]
  | Rank.KING => [(MoveType.SIMPLE, 13), (MoveType.START, 0)]
  | Rank.JOKER => [(MoveType.JOKER, 0)]

/-- Constructor `Card::Card(Rank, Suit)`. -/
def Card.new (r : Rank) (s : Suit) : Card := { rank := r, suit := s, moveRules := Card.rulesOf r }

/-- Class `Player`. -/
structure Player where
  id : Nat
  name : String
  startField : Nat
  startBlocked : Option Nat
  activeInRound : Bool
  activeInGame : Bool
  marbles : Fin 4 → Position
  hand : List Nat

/-- The indices `0, 1, 2, 3` of the seat array and of a marble array, in loop order. -/
def seatIds : List (Fin 4) := [0, 1, 2, 3]

/-- Constructor `Player::Player(id, name)`. -/
def Player.new (playerID : Nat) (playerName : String) : Player :=
  { id := playerID
    name := playerName
    startField := 16 * playerID
    startBlocked := none
    activeInRound := true
    activeInGame := true
    marbles := fun i => { boardLocation := BoardLocation.HOME, index := i.val, playerID := playerID }
    hand := [] }

/-- Method `Player::isStartBlocked`. -/
def Player.isStartBlocked (p : Player) : Bool := p.startBlocked.isSome

/-- Method `Player::getMarblePosition`, which throws for an index above 3. -/
def Player.getMarblePosition (p : Player) (marbleIndex : Nat) : Except Fault Position :=
  if h : marbleIndex < 4 then Except.ok (p.marbles ⟨marbleIndex, h⟩) else Except.error Fault.outOfRange

/-- Method `Player::getMarbleIndexByPos`: the first marble whose position equals `pos`. -/
def Player.getMarbleIndexByPos (p : Player) (pos : Position) : Option Nat :=
  (seatIds.find? fun i => (p.marbles i).equals pos).map fun i => i.val

/-- Method `Player::hasJokerInHand`. -/
def Player.hasJokerInHand (p : Player) : Bool :=
  p.hand.any fun cardId => decide (cardId = 52) || decide (cardId = 53)

/-- Method `Player::hasCardInHand`. -/
def Player.hasCardInHand (p : Player) (rank : Nat) : Bool :=
  p.hand.any fun cardId => decide (cardId % 13 + 1 = rank) && decide (cardId < 52)

/-- Method `Player::checkFinished`. -/
def Player.checkFinished (p : Player) : Bool :=
  seatIds.all fun i => (p.marbles i).isInFinish

/-! ## game.hpp: the game state -/

/-- Class `GameState`. -/
structure GameState where
  deck : List Card
  players : Fin 4 → Option Player
  currentPlayer : Nat
  roundStartPlayer : Nat
  roundCardCount : Nat
  lastPlayedCard : Option Nat
  leaderBoard : Fin 4 → Option Int

/-- The ranks `ACE .. KING` in enum order, as the deck loop casts them from `0 .. 12`. -/
def deckRanks : List Rank :=
  [Rank.ACE, Rank.TWO, Rank.THREE, Rank.FOUR, Rank.FIVE, Rank.SIX, Rank.SEVEN, Rank.EIGHT,
    Rank.NINE, Rank.TEN, Rank.JACK, Rank.QUEEN, Rank.KING]

/-- The suits in enum order, as the deck loop casts them from `0 .. 3`. -/
def deckSuits : List Suit := [Suit.CLUBS, Suit.DIAMONDS, Suit.HEARTS, Suit.SPADES]

/-- The deck the `GameState` constructor builds: suit by suit, rank by rank, then two jokers. -/
def standardDeck : List Card :=
  (deckSuits.flatMap fun s => deckRanks.map fun r => Card.new r s) ++
    [Card.new Rank.JOKER Suit.JOKER, Card.new Rank.JOKER Suit.JOKER]

/-- Constructor `GameState::GameState(gamePlayers)`. -/
def GameState.new (gamePlayers : Fin 4 → Option String) : GameState :=
  { deck := standardDeck
    players := fun i => (gamePlayers i).map fun n => Player.new i.val n
    currentPlayer := 0
    roundStartPlayer := 0
    roundCardCount := 6
    lastPlayedCard := none
    leaderBoard := fun _ => none }

/-- Access `players[index]`; an index outside the array is read as an empty seat, which every
caller below dereferences or skips exactly as it does an empty optional. -/
def GameState.getPlayerByIndex (s : GameState) (index : Nat) : Option Player :=
  if h : index < 4 then s.players ⟨index, h⟩ else none

/-- Dereference `players[index]->`, undefined for an empty seat. -/
def GameState.playerAt (s : GameState) (index : Nat) : Except Fault Player :=
  match s.getPlayerByIndex index with
  | none => Except.error Fault.nullDeref
  | some p => Except.ok p

/-- Access `deck[cardID]`, undefined outside the deck. -/
def GameState.cardAt (s : GameState) (cardID : Nat) : Except Fault Card :=
  match s.deck[cardID]? with
  | none => Except.error Fault.nullDeref
  | some c => Except.ok c

/-! ## game.cpp: occupancy -/

/-- The comparison in the inner loop of `isFieldOccupied`: on TRACK the owner id is ignored. -/
def fieldMatches (pos marblePos : Position) : Bool :=
  if pos.boardLocation = BoardLocation.TRACK then
    decide (marblePos.boardLocation = pos.boardLocation) && decide (marblePos.index = pos.index)
  else pos.equals marblePos

/-- Method `GameState::isFieldOccupied`: the first marble, in seat then marble order, that
stands on `pos`. -/
def isFieldOccupied (s : GameState) (pos : Position) : Option MarbleIdentifier :=
  seatIds.findSome? fun pID =>
    match s.players pID with
    | none => none
    | some pl =>
      (seatIds.find? fun mIdx => fieldMatches pos (pl.marbles mIdx)).map fun mIdx =>
        { playerID := pID.val, marbleIdx := mIdx.val }

/-- The test `occupant.has_value() && occupant->playerID == currentPlayer`. -/
def ownOccupant (s : GameState) (pos : Position) : Bool :=
  match isFieldOccupied s pos with
  | none => false
  | some occ => decide (occ.playerID = s.currentPlayer)

/-! ## game.cpp: simple and start moves -/

/-- The modulus of `size_t` arithmetic. -/
def sizeMod : Nat := 18446744073709551616

/-- Subtraction of `size_t` values, wrapping modulo `2^64`. -/
def sizeSub (a b : Nat) : Nat := (a % sizeMod + (sizeMod - b % sizeMod)) % sizeMod

/-- The track index reached from `index` by `moveValue` steps, with the wrap-around of
`checkSimpleMove` (integer `%` truncates towards zero). -/
def trackEndIndex (index : Nat) (moveValue : Int) : Nat :=
  let newIndex : Int := (index : Int) + moveValue
  if newIndex < 0 then (Int.tmod (64 + Int.tmod newIndex 64) 64).toNat
  else (Int.tmod newIndex 64).toNat

/-- The four-way case distinction of `checkSimpleMove` that decides whether the walk from `index`
to `endIndex` covers the start field `anyStartIdx`. -/
def pathCoversStart (index endIndex : Nat) (moveValue : Int) (anyStartIdx : Nat) : Bool :=
  if moveValue > 0 ∧ index < endIndex then
    decide (index ≤ anyStartIdx ∧ endIndex ≥ anyStartIdx)
  else if moveValue > 0 ∧ index > endIndex then
    decide (anyStartIdx ≥ index ∨ anyStartIdx ≤ endIndex)
  else if moveValue < 0 ∧ index > endIndex then
    decide (endIndex ≤ anyStartIdx ∧ anyStartIdx ≤ index)
  else if moveValue < 0 ∧ index < endIndex then
    decide (anyStartIdx ≤ index ∨ anyStartIdx ≥ endIndex)
  else false

/-- The loop of `checkSimpleMove` over the four seats: `none` when a blocked start field is
crossed (the early `return std::nullopt`), otherwise the final value of `crossesOurStart`. -/
def crossingScan (s : GameState) (index endIndex : Nat) (moveValue : Int) (startFieldIdx : Nat) :
    List (Fin 4) → Bool → Option Bool
  | [], crossesOurStart => some crossesOurStart
  | pID :: rest, crossesOurStart =>
    match s.players pID with
    | none => crossingScan s index endIndex moveValue startFieldIdx rest crossesOurStart
    | some pl =>
      let covered := pathCoversStart index endIndex moveValue pl.startField
      let ourStart := decide (pID.val = s.currentPlayer)
      if covered && pl.isStartBlocked then none
      else
        crossingScan s index endIndex moveValue startFieldIdx rest
          (crossesOurStart || (covered && ourStart && decide (endIndex ≠ startFieldIdx)))

/-- The offset into the finish lane computed after `crossesOurStart`, in `size_t` arithmetic. -/
def finishEntryIndex (moveValue : Int) (endIndex startFieldIdx : Nat) : Nat :=
  if moveValue > 0 then sizeSub (sizeSub endIndex startFieldIdx) 1
  else if startFieldIdx = 0 then sizeSub (sizeSub 64 endIndex) 1
  else sizeSub (sizeSub startFieldIdx endIndex) 1

/-- The finish slots `0 .. finishIndex` hold none of the current player's marbles. -/
def finishEntryFree (s : GameState) (finishIndex : Nat) : Bool :=
  (List.range (finishIndex + 1)).all fun checkIdx =>
    !ownOccupant s { boardLocation := BoardLocation.FINISH, index := checkIdx,
                     playerID := s.currentPlayer }

/-- The finish slots visited by the path check of a FINISH-to-FINISH move, in loop order. -/
def finishPathIndices (index : Nat) (targetIndex : Int) (moveValue : Int) : List Nat :=
  if moveValue > 0 then (List.range (targetIndex.toNat - index)).map fun k => index + 1 + k
  else (List.range (index - targetIndex.toNat)).map fun k => index - 1 - k

/-- First half of `checkSimpleMove`: the candidate end positions, or `none` for the early
`return std::nullopt`. -/
def possibleEndPositions (s : GameState) (cp : Player) (marblePos : Position) (moveValue : Int) :
    Option (List Position) :=
  if moveValue = 0 then
    some [{ boardLocation := BoardLocation.TRACK, index := cp.startField,
            playerID := s.currentPlayer }]
  else
    let startFieldIdx := cp.startField
    if marblePos.boardLocation = BoardLocation.FINISH then
      let targetIndex : Int := (marblePos.index : Int) + moveValue
      if targetIndex < 0 ∨ targetIndex > 3 then none
      else if (finishPathIndices marblePos.index targetIndex moveValue).any fun checkIdx =>
          ownOccupant s { boardLocation := BoardLocation.FINISH, index := checkIdx,
                          playerID := s.currentPlayer } then none
      else
        some [{ boardLocation := BoardLocation.FINISH, index := targetIndex.toNat,
                playerID := s.currentPlayer }]
    else
      let endIndex := trackEndIndex marblePos.index moveValue
      let trackEnd : Position :=
        { boardLocation := BoardLocation.TRACK, index := endIndex, playerID := s.currentPlayer }
      if cp.isStartBlocked ∧ marblePos.index = startFieldIdx then some [trackEnd]
      else
        match crossingScan s marblePos.index endIndex moveValue startFieldIdx seatIds false with
        | none => none
        | some crossesOurStart =>
          let finishIndex := finishEntryIndex moveValue endIndex startFieldIdx
          if crossesOurStart ∧ finishIndex ≤ 3 ∧ finishEntryFree s finishIndex = true then
            some [{ boardLocation := BoardLocation.FINISH, index := finishIndex,
                    playerID := s.currentPlayer }, trackEnd]
          else some [trackEnd]

/-- Second half of `checkSimpleMove`: the occupation test over the candidate end positions,
appending to `resultMoves`. -/
def occupationTest (s : GameState) (cp : Player) (marblePos : Position) :
    List Position → List Movement → Except Fault (List Movement)
  | [], resultMoves => Except.ok resultMoves
  | possibleEndPos :: rest, resultMoves =>
    match isFieldOccupied s possibleEndPos with
    | none =>
      match cp.getMarbleIndexByPos marblePos with
      | none => Except.error Fault.badOptionalAccess
      | some mIdx =>
        occupationTest s cp marblePos rest
          (resultMoves ++ [({ playerID := s.currentPlayer, marbleIdx := mIdx }, possibleEndPos)])
    | some occupyingMarble =>
      if occupyingMarble.playerID = s.currentPlayer then
        occupationTest s cp marblePos rest resultMoves
      else
        match cp.getMarbleIndexByPos marblePos with
        | none => Except.error Fault.badOptionalAccess
        | some mIdx =>
          occupationTest s cp marblePos rest
            (resultMoves ++
              [({ playerID := s.currentPlayer, marbleIdx := mIdx }, possibleEndPos),
               (occupyingMarble,
                { boardLocation := BoardLocation.HOME, index := occupyingMarble.marbleIdx,
                  playerID := occupyingMarble.playerID })])

/-- Method `GameState::checkSimpleMove`. -/
def checkSimpleMove (s : GameState) (marblePos : Position) (moveValue : Int) :
    Except Fault (Option (List Movement)) :=
  match s.getPlayerByIndex s.currentPlayer with
  | none => Except.error Fault.nullDeref
  | some cp =>
    match possibleEndPositions s cp marblePos moveValue with
    | none => Except.ok none
    | some vectorPossibleEndPos =>
      if vectorPossibleEndPos.isEmpty then Except.ok none
      else if vectorPossibleEndPos.length > 2 then Except.ok none
      else
        match occupationTest s cp marblePos vectorPossibleEndPos [] with
        | Except.error e => Except.error e
        | Except.ok resultMoves =>
          if resultMoves.isEmpty then Except.ok none else Except.ok (some resultMoves)

/-- Method `GameState::checkStartMove`. -/
def checkStartMove (s : GameState) (marblePos : Position) :
    Except Fault (Option (List Movement)) :=
  checkSimpleMove s marblePos 0

/-! ## game.cpp: swap moves -/

/-- Inner loop of `checkSwapMove` over the marbles of one opponent. -/
def swapCandidates (opp : Player) (pID : Fin 4) (movingMarble : MarbleIdentifier)
    (marblePos : Position) : List (Fin 4) → List Movement
  | [] => []
  | mIdx :: rest =>
    let opponentMarblePos := opp.marbles mIdx
    if opponentMarblePos.boardLocation = BoardLocation.TRACK then
      if opp.startBlocked = some mIdx.val then
        swapCandidates opp pID movingMarble marblePos rest
      else
        (movingMarble, opponentMarblePos) ::
          ({ playerID := pID.val, marbleIdx := mIdx.val }, marblePos) ::
            swapCandidates opp pID movingMarble marblePos rest
    else swapCandidates opp pID movingMarble marblePos rest

/-- Outer loop of `checkSwapMove` over the seats. -/
def swapScan (s : GameState) (movingMarble : MarbleIdentifier) (marblePos : Position) :
    List (Fin 4) → List Movement
  | [] => []
  | pID :: rest =>
    if pID.val = s.currentPlayer then swapScan s movingMarble marblePos rest
    else
      match s.players pID with
      | none => swapScan s movingMarble marblePos rest
      | some opp =>
        swapCandidates opp pID movingMarble marblePos seatIds ++
          swapScan s movingMarble marblePos rest

/-- Method `GameState::checkSwapMove`. -/
def checkSwapMove (s : GameState) (marblePos : Position) :
    Except Fault (Option (List Movement)) :=
  match s.getPlayerByIndex s.currentPlayer with
  | none => Except.error Fault.nullDeref
  | some cp =>
    match cp.getMarbleIndexByPos marblePos with
    | none => Except.error Fault.badOptionalAccess
    | some mIdx =>
      let movingMarble : MarbleIdentifier := { playerID := s.currentPlayer, marbleIdx := mIdx }
      if cp.startBlocked = some mIdx then Except.ok none
      else
        let swapMoves := swapScan s movingMarble marblePos seatIds
        if swapMoves.isEmpty then Except.ok none else Except.ok (some swapMoves)

/-! ## game.cpp: split moves -/

/-- The loop variables of `checkSevenMove` that survive an iteration. -/
structure SevenState where
  crossesOurStart : Bool
  sentHomeMarbles : List MarbleIdentifier
  walkingOptions : List Movement

/-- The entry that sends a captured marble to its own home slot. -/
def sendHome (m : MarbleIdentifier) : Movement :=
  (m, { boardLocation := BoardLocation.HOME, index := m.marbleIdx, playerID := m.playerID })

/-- The captures added to a finish-entry option of `checkSevenMove`: marbles whose index lies
after our start field are skipped. -/
def sevenFinishCaptures (s : GameState) (ourStartIdx : Nat) :
    List MarbleIdentifier → Except Fault (List Movement)
  | [] => Except.ok []
  | oppMarble :: rest =>
    match s.getPlayerByIndex oppMarble.playerID with
    | none => Except.error Fault.nullDeref
    | some opp =>
      match opp.getMarblePosition oppMarble.marbleIdx with
      | Except.error e => Except.error e
      | Except.ok pos =>
        match sevenFinishCaptures s ourStartIdx rest with
        | Except.error e => Except.error e
        | Except.ok more =>
          if pos.index > ourStartIdx then Except.ok more else Except.ok (sendHome oppMarble :: more)

/-- One iteration of the loop of `checkSevenMove` for the partial value `mvPart`; the flag is
`false` when the iteration leaves the loop with `break`. -/
def sevenStep (s : GameState) (cp : Player) (marblePos : Position)
    (movingMarble : MarbleIdentifier) (mvPart : Nat) (st : SevenState) :
    Except Fault (SevenState × Bool) :=
  if marblePos.boardLocation = BoardLocation.FINISH then
    let targetIndex := marblePos.index + mvPart
    if targetIndex > 3 then Except.ok (st, false)
    else
      let target : Position :=
        { boardLocation := BoardLocation.FINISH, index := targetIndex,
          playerID := s.currentPlayer }
      if (isFieldOccupied s target).isSome then Except.ok (st, false)
      else Except.ok ({ st with walkingOptions := st.walkingOptions ++ [(movingMarble, target)] }, true)
  else
    let endIndex := trackEndIndex marblePos.index (mvPart : Int)
    let ourStartIdx := cp.startField
    let crosses : Bool :=
      if st.crossesOurStart then true
      else if marblePos.index < endIndex then
        decide (marblePos.index ≤ ourStartIdx ∧ endIndex > ourStartIdx)
      else if marblePos.index > endIndex then
        decide (ourStartIdx ≥ marblePos.index ∨ ourStartIdx < endIndex)
      else false
    let trackEnd : Position :=
      { boardLocation := BoardLocation.TRACK, index := endIndex, playerID := s.currentPlayer }
    let occupant := isFieldOccupied s trackEnd
    let ownBlocker : Bool :=
      match occupant with
      | none => false
      | some occ => decide (occ.playerID = s.currentPlayer) && decide (cp.startBlocked = some occ.marbleIdx)
    if ownBlocker then Except.ok ({ st with crossesOurStart := crosses }, false)
    else
      let oppCheck : Except Fault (Option (List MarbleIdentifier)) :=
        match occupant with
        | none => Except.ok (some st.sentHomeMarbles)
        | some occ =>
          if occ.playerID = s.currentPlayer then Except.ok (some st.sentHomeMarbles)
          else
            match s.getPlayerByIndex occ.playerID with
            | none => Except.error Fault.nullDeref
            | some opp =>
              if opp.startBlocked = some occ.marbleIdx then Except.ok none
              else Except.ok (some (st.sentHomeMarbles ++ [occ]))
      match oppCheck with
      | Except.error e => Except.error e
      | Except.ok none =>
        Except.ok ({ st with crossesOurStart := crosses }, false)
      | Except.ok (some sent) =>
        let finishIndex := sizeSub (sizeSub endIndex ourStartIdx) 1
        let enterfinishAllowed : Bool :=
          crosses && decide (finishIndex ≤ 3) &&
            !decide (cp.startBlocked = some movingMarble.marbleIdx)
        let finishPos : Position :=
          { boardLocation := BoardLocation.FINISH, index := finishIndex,
            playerID := s.currentPlayer }
        let withFinish : Except Fault (List Movement) :=
          if enterfinishAllowed ∧ (isFieldOccupied s finishPos).isNone then
            match sevenFinishCaptures s ourStartIdx sent with
            | Except.error e => Except.error e
            | Except.ok caps => Except.ok (st.walkingOptions ++ (movingMarble, finishPos) :: caps)
          else Except.ok st.walkingOptions
        match withFinish with
        | Except.error e => Except.error e
        | Except.ok options =>
          let ownOnTrack : Bool :=
            match occupant with
            | none => false
            | some occ => decide (occ.playerID = s.currentPlayer)
          if ownOnTrack then
            Except.ok ({ crossesOurStart := crosses, sentHomeMarbles := sent,
                         walkingOptions := options }, true)
          else
            Except.ok ({ crossesOurStart := crosses, sentHomeMarbles := sent,
                         walkingOptions := options ++ (movingMarble, trackEnd) :: sent.map sendHome },
                       true)

/-- The loop `for (mvPart = 1; mvPart <= moveValue; ++mvPart)` of `checkSevenMove`, run over the
list of its partial values. -/
def sevenLoop (s : GameState) (cp : Player) (marblePos : Position)
    (movingMarble : MarbleIdentifier) : List Nat → SevenState → Except Fault SevenState
  | [], st => Except.ok st
  | mvPart :: rest, st =>
    match sevenStep s cp marblePos movingMarble mvPart st with
    | Except.error e => Except.error e
    | Except.ok (st1, false) => Except.ok st1
    | Except.ok (st1, true) => sevenLoop s cp marblePos movingMarble rest st1

/-- Method `GameState::checkSevenMove`. -/
def checkSevenMove (s : GameState) (marblePos : Position) (moveValue : Int) :
    Except Fault (Option (List Movement)) :=
  match s.getPlayerByIndex s.currentPlayer with
  | none => Except.error Fault.nullDeref
  | some cp =>
    match cp.getMarbleIndexByPos marblePos with
    | none => Except.error Fault.badOptionalAccess
    | some mIdx =>
      let movingMarble : MarbleIdentifier := { playerID := s.currentPlayer, marbleIdx := mIdx }
      match sevenLoop s cp marblePos movingMarble (List.range' 1 moveValue.toNat)
          { crossesOurStart := false, sentHomeMarbles := [], walkingOptions := [] } with
      | Except.error e => Except.error e
      | Except.ok st =>
        if st.walkingOptions.isEmpty then Except.ok none
        else Except.ok (some st.walkingOptions)

/-- Method `GameState::checkJokerMove`. -/
def checkJokerMove (_s : GameState) : Except Fault (Option (List Movement)) := Except.ok none

/-- Method `GameState::validateMove`; the card argument is not read by the C++ body. -/
def validateMove (s : GameState) (_card : Card) (marblePos : Position)
    (moveRule : MoveType × Int) (sevenCall : Bool) : Except Fault (Option (List Movement)) :=
  let moveType := moveRule.1
  let moveValue := moveRule.2
  match marblePos.boardLocation with
  | BoardLocation.HOME =>
    match moveType with
    | MoveType.START => checkStartMove s marblePos
    | _ => Except.ok none
  | BoardLocation.FINISH =>
    match moveType with
    | MoveType.SIMPLE => checkSimpleMove s marblePos moveValue
    | MoveType.SEVEN => if sevenCall then checkSevenMove s marblePos moveValue else Except.ok none
    | _ => Except.ok none
  | BoardLocation.TRACK =>
    match moveType with
    | MoveType.SIMPLE => checkSimpleMove s marblePos moveValue
    | MoveType.SEVEN => if sevenCall then checkSevenMove s marblePos moveValue else Except.ok none
    | MoveType.SWAP => checkSwapMove s marblePos
    | _ => Except.ok none

/-! ## game.cpp: computeLegalMoves -/

/-- Expansion of a START or SIMPLE result: a finish/track fork becomes two moves (the capture at
index 2 goes with the track option), any other result one move. The `Move` constructor cannot
throw here, `deck[toSetCardID]` having been read before. -/
def expandSimple (s : GameState) (toSetCardID toSetHandIndex : Nat) (movements : List Movement) :
    List Move :=
  match movements with
  | m0 :: m1 :: rest =>
    if m0.1.marbleIdx = m1.1.marbleIdx ∧ m0.1.playerID = m1.1.playerID ∧
        m0.2.boardLocation ≠ m1.2.boardLocation then
      let trackOption : List Movement :=
        match rest with
        | m2 :: _ =>
          if m2.1.playerID ≠ s.currentPlayer ∧ m2.2.boardLocation = BoardLocation.HOME then [m1, m2]
          else [m1]
        | [] => [m1]
      [{ cardID := toSetCardID, handIndex := toSetHandIndex, movements := [m0] },
       { cardID := toSetCardID, handIndex := toSetHandIndex, movements := trackOption }]
    else [{ cardID := toSetCardID, handIndex := toSetHandIndex, movements := movements }]
  | _ => [{ cardID := toSetCardID, handIndex := toSetHandIndex, movements := movements }]

/-- Expansion of a SWAP result, two entries per move; `at(i + 1)` throws on an odd length. -/
def expandSwap (toSetCardID toSetHandIndex : Nat) : List Movement → Except Fault (List Move)
  | [] => Except.ok []
  | [_] => Except.error Fault.outOfRange
  | a :: b :: rest =>
    match expandSwap toSetCardID toSetHandIndex rest with
    | Except.error e => Except.error e
    | Except.ok more =>
      Except.ok ({ cardID := toSetCardID, handIndex := toSetHandIndex, movements := [a, b] } :: more)

/-- The grouping loop of the SEVEN expansion: every entry opens a group and takes the entries
of other players that follow it. -/
def sevenGroups (currentPlayer : Nat) : List Movement → List (List Movement)
  | [] => []
  | m :: rest =>
    match rest, sevenGroups currentPlayer rest with
    | r :: _, g :: gs => if r.1.playerID ≠ currentPlayer then (m :: g) :: gs else [m] :: g :: gs
    | _, _ => [[m]]

/-- Duplication of a START move for the later marbles that are in HOME; `at(0)` throws on an
empty result. -/
def dupStart (cp : Player) (toSetCardID toSetHandIndex : Nat) (movedMarbles : List Movement) :
    List (Fin 4) → Except Fault (List Move)
  | [] => Except.ok []
  | mIdx :: rest =>
    if (cp.marbles mIdx).boardLocation ≠ BoardLocation.HOME then
      dupStart cp toSetCardID toSetHandIndex movedMarbles rest
    else
      match movedMarbles with
      | [] => Except.error Fault.outOfRange
      | first :: _ =>
        match dupStart cp toSetCardID toSetHandIndex movedMarbles rest with
        | Except.error e => Except.error e
        | Except.ok more =>
          Except.ok ({ cardID := toSetCardID, handIndex := toSetHandIndex,
                       movements := [({ first.1 with marbleIdx := mIdx.val }, first.2)] } :: more)

/-- The moves duplicated for one later marble of a SWAP result. -/
def dupSwapFor (cp : Player) (toSetCardID toSetHandIndex : Nat) (mIdx : Fin 4) :
    List Movement → Except Fault (List Move)
  | [] => Except.ok []
  | [_] => Except.error Fault.outOfRange
  | a :: b :: rest =>
    match dupSwapFor cp toSetCardID toSetHandIndex mIdx rest with
    | Except.error e => Except.error e
    | Except.ok more =>
      Except.ok ({ cardID := toSetCardID, handIndex := toSetHandIndex,
                   movements := [({ a.1 with marbleIdx := mIdx.val }, a.2),
                                 (b.1, cp.marbles mIdx)] } :: more)

/-- Duplication of a SWAP result for the later marbles on TRACK that do not block the start. -/
def dupSwap (cp : Player) (toSetCardID toSetHandIndex : Nat) (movedMarbles : List Movement) :
    List (Fin 4) → Except Fault (List Move)
  | [] => Except.ok []
  | mIdx :: rest =>
    if (cp.marbles mIdx).boardLocation ≠ BoardLocation.TRACK then
      dupSwap cp toSetCardID toSetHandIndex movedMarbles rest
    else if cp.startBlocked = some mIdx.val then
      dupSwap cp toSetCardID toSetHandIndex movedMarbles rest
    else
      match dupSwapFor cp toSetCardID toSetHandIndex mIdx movedMarbles with
      | Except.error e => Except.error e
      | Except.ok here =>
        match dupSwap cp toSetCardID toSetHandIndex movedMarbles rest with
        | Except.error e => Except.error e
        | Except.ok more => Except.ok (here ++ more)

/-- The loop of `computeLegalMoves` over the marbles of the current player, for one card and one
effective rule. -/
def marbleLoop (s : GameState) (cp : Player) (card : Card) (effectiveMoveType : MoveType)
    (effectiveMoveValue : Int) (sevenCall : Bool) (toSetCardID toSetHandIndex : Nat) :
    List (Fin 4) → Except Fault (List Move)
  | [] => Except.ok []
  | mIdx :: rest =>
    match validateMove s card (cp.marbles mIdx) (effectiveMoveType, effectiveMoveValue)
        sevenCall with
    | Except.error e => Except.error e
    | Except.ok none =>
      marbleLoop s cp card effectiveMoveType effectiveMoveValue sevenCall toSetCardID
        toSetHandIndex rest
    | Except.ok (some movedMarbles) =>
      match effectiveMoveType with
      | MoveType.START =>
        match dupStart cp toSetCardID toSetHandIndex movedMarbles rest with
        | Except.error e => Except.error e
        | Except.ok dups =>
          Except.ok (expandSimple s toSetCardID toSetHandIndex movedMarbles ++ dups)
      | MoveType.SIMPLE =>
        match marbleLoop s cp card effectiveMoveType effectiveMoveValue sevenCall toSetCardID
            toSetHandIndex rest with
        | Except.error e => Except.error e
        | Except.ok more =>
          Except.ok (expandSimple s toSetCardID toSetHandIndex movedMarbles ++ more)
      | MoveType.SWAP =>
        match expandSwap toSetCardID toSetHandIndex movedMarbles with
        | Except.error e => Except.error e
        | Except.ok own =>
          match dupSwap cp toSetCardID toSetHandIndex movedMarbles rest with
          | Except.error e => Except.error e
          | Except.ok dups => Except.ok (own ++ dups)
      | MoveType.SEVEN =>
        match marbleLoop s cp card effectiveMoveType effectiveMoveValue sevenCall toSetCardID
            toSetHandIndex rest with
        | Except.error e => Except.error e
        | Except.ok more =>
          Except.ok ((sevenGroups s.currentPlayer movedMarbles).map (fun g =>
              ({ cardID := toSetCardID, handIndex := toSetHandIndex, movements := g } : Move)) ++
            more)
      | MoveType.JOKER =>
        marbleLoop s cp card effectiveMoveType effectiveMoveValue sevenCall toSetCardID
          toSetHandIndex rest

/-- The loop of `computeLegalMoves` over the move rules of one card. -/
def ruleLoop (s : GameState) (cp : Player) (card : Card) (sevenCall : Bool)
    (toSetCardID toSetHandIndex : Nat) : List (MoveType × Int) → Except Fault (List Move)
  | [] => Except.ok []
  | moveRule :: rest =>
    if sevenCall ∧ ((moveRule.1 = MoveType.SIMPLE ∧ (moveRule.2 > 7 ∨ moveRule.2 < 1)) ∨
        (moveRule.1 ≠ MoveType.SIMPLE ∧ moveRule.1 ≠ MoveType.SEVEN)) then
      ruleLoop s cp card sevenCall toSetCardID toSetHandIndex rest
    else
      let effectiveMoveType :=
        if sevenCall ∧ moveRule.1 = MoveType.SIMPLE then MoveType.SEVEN else moveRule.1
      match marbleLoop s cp card effectiveMoveType moveRule.2 sevenCall toSetCardID
          toSetHandIndex seatIds with
      | Except.error e => Except.error e
      | Except.ok here =>
        match ruleLoop s cp card sevenCall toSetCardID toSetHandIndex rest with
        | Except.error e => Except.error e
        | Except.ok more => Except.ok (here ++ more)

/-- The card id and hand index written into the moves of one hand card: the entries of
`Special` in a joker or split call (`Special.value()` throws when there is none), the card's own
otherwise. -/
def toSetTarget (special : Option (Nat × Nat × Nat)) (jokerCall sevenCall : Bool)
    (handIndex cardID : Nat) : Except Fault (Nat × Nat) :=
  if jokerCall ∨ sevenCall then
    match special with
    | none => Except.error Fault.badOptionalAccess
    | some sp => Except.ok (sp.2.1, sp.2.2)
  else Except.ok (handIndex, cardID)

/-- The loop of `computeLegalMoves` over the hand, from hand index `handIndex` on. -/
def handLoop (s : GameState) (cp : Player) (special : Option (Nat × Nat × Nat))
    (jokerCall sevenCall : Bool) : List Nat → Nat → Except Fault (List Move)
  | [], _ => Except.ok []
  | cardID :: rest, handIndex =>
    match s.cardAt cardID with
    | Except.error e => Except.error e
    | Except.ok card =>
      match toSetTarget special jokerCall sevenCall handIndex cardID with
      | Except.error e => Except.error e
      | Except.ok target =>
        match ruleLoop s cp card sevenCall target.2 target.1 card.moveRules with
        | Except.error e => Except.error e
        | Except.ok here =>
          match handLoop s cp special jokerCall sevenCall rest (handIndex + 1) with
          | Except.error e => Except.error e
          | Except.ok more => Except.ok (here ++ more)

/-- Method `GameState::computeLegalMoves(Special, sevenCall)`; `special` holds the three entries
of the `Special` array. -/
def computeLegalMoves (s : GameState) (special : Option (Nat × Nat × Nat)) (sevenCall : Bool) :
    Except Fault (List Move) :=
  match s.getPlayerByIndex s.currentPlayer with
  | none => Except.error Fault.badOptionalAccess
  | some cp =>
    match special with
    | some sp =>
      match s.cardAt sp.2.2 with
      | Except.error e => Except.error e
      | Except.ok synthetic =>
        handLoop s cp special (decide (synthetic.rank = Rank.JOKER)) sevenCall [sp.1] 0
    | none => handLoop s cp special false sevenCall cp.hand 0

/-! ## game.cpp: fold predicates -/

/-- The loop of `validJokerFold` that collects the blocked start fields. An empty seat is skipped
only when it is the current player's; any other empty seat is dereferenced. -/
def jokerBlockedStarts (s : GameState) : List (Fin 4) → Except Fault (List Nat)
  | [] => Except.ok []
  | pIdx :: rest =>
    match s.players pIdx with
    | none =>
      if pIdx.val = s.currentPlayer then jokerBlockedStarts s rest
      else Except.error Fault.nullDeref
    | some pl =>
      match jokerBlockedStarts s rest with
      | Except.error e => Except.error e
      | Except.ok more =>
        if pl.isStartBlocked then Except.ok (pl.startField :: more) else Except.ok more

/-- The loop of `validJokerFold` over the marbles of the current player. -/
def jokerFoldScan (s : GameState) (cp : Player) (blockedStarts : List Nat) :
    List (Fin 4) → Except Fault Bool
  | [] => Except.ok true
  | mIdx :: rest =>
    let marblePos := cp.marbles mIdx
    if marblePos.boardLocation = BoardLocation.HOME then Except.ok false
    else
      let swapFound : Except Fault Bool :=
        if marblePos.boardLocation = BoardLocation.TRACK then
          match checkSwapMove s marblePos with
          | Except.error e => Except.error e
          | Except.ok swapMoves => Except.ok swapMoves.isSome
        else Except.ok false
      match swapFound with
      | Except.error e => Except.error e
      | Except.ok true => Except.ok false
      | Except.ok false =>
        if marblePos.boardLocation = BoardLocation.FINISH ∧ marblePos.index = 3 then
          jokerFoldScan s cp blockedStarts rest
        else
          let nextIndex :=
            if marblePos.boardLocation = BoardLocation.TRACK ∧ marblePos.index = 63 then 0
            else marblePos.index + 1
          let nextPos : Position :=
            { boardLocation := marblePos.boardLocation, index := nextIndex,
              playerID := s.currentPlayer }
          match isFieldOccupied s nextPos with
          | none => Except.ok false
          | some occupant =>
            if occupant.playerID = s.currentPlayer then jokerFoldScan s cp blockedStarts rest
            else if marblePos.boardLocation = BoardLocation.TRACK ∧ nextPos.index ∈ blockedStarts then
              jokerFoldScan s cp blockedStarts rest
            else Except.ok false

/-- Method `GameState::validJokerFold`. -/
def validJokerFold (s : GameState) : Except Fault Bool :=
  match s.getPlayerByIndex s.currentPlayer with
  | none => Except.error Fault.badOptionalAccess
  | some cp =>
    if ¬ cp.hasJokerInHand then Except.ok true
    else
      match jokerBlockedStarts s seatIds with
      | Except.error e => Except.error e
      | Except.ok blockedStarts => jokerFoldScan s cp blockedStarts seatIds

/-- The loop of `validSevenFold` that collects the blocked start fields, skipping empty seats. -/
def sevenBlockedStarts (s : GameState) : List (Fin 4) → List Nat
  | [] => []
  | pIdx :: rest =>
    match s.players pIdx with
    | none => sevenBlockedStarts s rest
    | some pl =>
      if pl.isStartBlocked then pl.startField :: sevenBlockedStarts s rest
      else sevenBlockedStarts s rest

/-- The inner loop of `validSevenFold` for one marble, with `fuel` iterations left: `none` when
the function returns `false` from inside the loop, otherwise `unblockedFieldCount` on leaving
the loop. -/
def sevenFoldWalk (s : GameState) (loc : BoardLocation) (blockedStarts : List Nat) :
    Nat → Nat → Nat → Nat → Option Nat
  | 0, _, _, unblockedFieldCount => some unblockedFieldCount
  | fuel + 1, nextIndex, ownMarblesSkipped, unblockedFieldCount =>
    let nextIndex1 := if loc = BoardLocation.TRACK ∧ nextIndex = 63 then 0 else nextIndex + 1
    if loc = BoardLocation.FINISH ∧ nextIndex1 = 4 then
      some (sizeSub unblockedFieldCount ownMarblesSkipped)
    else if loc = BoardLocation.TRACK ∧ nextIndex1 ∈ blockedStarts then
      some (sizeSub unblockedFieldCount ownMarblesSkipped)
    else
      let skipped1 :=
        if ownOccupant s { boardLocation := loc, index := nextIndex1,
                           playerID := s.currentPlayer } then ownMarblesSkipped + 1
        else ownMarblesSkipped
      if unblockedFieldCount + 1 ≥ 7 then none
      else sevenFoldWalk s loc blockedStarts fuel nextIndex1 skipped1 (unblockedFieldCount + 1)

/-- The loop of `validSevenFold` over the marbles of the current player, threading
`unblockedFieldCount`. -/
def sevenFoldScan (s : GameState) (cp : Player) (blockedStarts : List Nat) :
    List (Fin 4) → Nat → Bool
  | [], unblockedFieldCount => !decide (unblockedFieldCount ≥ 7)
  | mIdx :: rest, unblockedFieldCount =>
    let marblePos := cp.marbles mIdx
    if marblePos.boardLocation = BoardLocation.HOME then
      sevenFoldScan s cp blockedStarts rest unblockedFieldCount
    else if marblePos.boardLocation = BoardLocation.FINISH ∧ marblePos.index = 3 then
      sevenFoldScan s cp blockedStarts rest unblockedFieldCount
    else
      match sevenFoldWalk s marblePos.boardLocation blockedStarts 8 marblePos.index 0
          unblockedFieldCount with
      | none => false
      | some count => if count ≥ 7 then false else sevenFoldScan s cp blockedStarts rest count

/-- Method `GameState::validSevenFold`. -/
def validSevenFold (s : GameState) : Except Fault Bool :=
  match s.getPlayerByIndex s.currentPlayer with
  | none => Except.error Fault.badOptionalAccess
  | some cp =>
    if ¬ cp.hasCardInHand 7 then Except.ok true
    else Except.ok (sevenFoldScan s cp (sevenBlockedStarts s seatIds) seatIds 0)

/-- Method `GameState::hasSpecialMoves`. -/
def hasSpecialMoves (s : GameState) : Except Fault (Bool × Bool) :=
  match validJokerFold s with
  | Except.error e => Except.error e
  | Except.ok jokerFold =>
    match validSevenFold s with
    | Except.error e => Except.error e
    | Except.ok sevenFold => Except.ok (!jokerFold, !sevenFold)

/-- Method `GameState::hasLegalMoves`. -/
def hasLegalMoves (s : GameState) : Except Fault Bool :=
  match computeLegalMoves s none false with
  | Except.error e => Except.error e
  | Except.ok legalMoves =>
    match hasSpecialMoves s with
    | Except.error e => Except.error e
    | Except.ok (hasJokerMoves, hasSevenMoves) =>
      Except.ok (!legalMoves.isEmpty || hasJokerMoves || hasSevenMoves)

/-! ## game.cpp: server-side validation of a turn -/

/-- The four-field comparison of `isValidTurn`; the owner id of the position is not compared. -/
def movementMatches (a b : Movement) : Bool :=
  decide (a.1.playerID = b.1.playerID) && decide (a.1.marbleIdx = b.1.marbleIdx) &&
    decide (a.2.boardLocation = b.2.boardLocation) && decide (a.2.index = b.2.index)

/-- The comparison of the client's movements with the movements of one rule: a shorter client
list must be a subset, an equally long one must contain every server movement, a longer one
never matches. -/
def ruleMatches (movements valMoves : List Movement) : Bool :=
  if movements.length < valMoves.length then
    movements.all fun clientMove => valMoves.any fun validMove => movementMatches validMove clientMove
  else if valMoves.length ≠ movements.length then false
  else valMoves.all fun valMove => movements.any fun moveMovement => movementMatches valMove moveMovement

/-- The loop of `isValidTurn` over the move rules of the card. -/
def validateRules (s : GameState) (card : Card) (activeMarblePos : Position)
    (movements : List Movement) : List (MoveType × Int) → Except Fault Bool
  | [] => Except.ok false
  | moveRule :: rest =>
    match validateMove s card activeMarblePos moveRule false with
    | Except.error e => Except.error e
    | Except.ok none => validateRules s card activeMarblePos movements rest
    | Except.ok (some valMoves) =>
      if ruleMatches movements valMoves then Except.ok true
      else validateRules s card activeMarblePos movements rest

/-- Method `GameState::isValidTurn`; a move without movements is a fold. -/
def isValidTurn (s : GameState) (move : Move) : Except Fault Bool :=
  match move.movements with
  | [] =>
    match hasLegalMoves s with
    | Except.error e => Except.error e
    | Except.ok legal => Except.ok (!legal)
  | first :: _ =>
    match s.cardAt move.cardID with
    | Except.error e => Except.error e
    | Except.ok card =>
      let activeMarbleID := first.1
      if activeMarbleID.playerID ≠ s.currentPlayer then Except.ok false
      else if card.rank = Rank.JOKER then Except.ok true
      else if card.rank = Rank.SEVEN then Except.ok true
      else
        match s.playerAt activeMarbleID.playerID with
        | Except.error e => Except.error e
        | Except.ok pl =>
          match pl.getMarblePosition activeMarbleID.marbleIdx with
          | Except.error e => Except.error e
          | Except.ok activeMarblePos =>
            validateRules s card activeMarblePos move.movements card.moveRules

/-! ## game_objects: mutation of a player -/

/-- Method `Player::setMarblePosition`, which throws for an index above 3. -/
def Player.setMarblePosition (p : Player) (marbleIndex : Nat) (newPosition : Position) :
    Except Fault Player :=
  if h : marbleIndex < 4 then
    Except.ok { p with marbles := Function.update p.marbles ⟨marbleIndex, h⟩ newPosition }
  else Except.error Fault.outOfRange

/-- Method `Player::popCardFromHand`: throws for an index outside the hand, otherwise erases
the entry at that index and returns its card id together with the player after the removal. -/
def Player.popCardFromHand (p : Player) (handIndex : Nat) : Except Fault (Nat × Player) :=
  match p.hand[handIndex]? with
  | none => Except.error Fault.outOfRange
  | some cardId => Except.ok (cardId, { p with hand := p.hand.eraseIdx handIndex })

/-! ## game.cpp: turn order, round counters and leaderboard -/

/-- Assignment to the player stored at `players[index]`; nothing is stored outside the array. -/
def GameState.setPlayerAt (s : GameState) (index : Nat) (pl : Player) : GameState :=
  if h : index < 4 then { s with players := Function.update s.players ⟨index, h⟩ (some pl) }
  else s

/-- The probing loop shared by `updateCurrentPlayer` and `updateRoundStartPlayer`, cut off after
`fuel` probes: starting at seat `nextPlayer` it returns the first seat that is present and
satisfies `active`, stepping by `(nextPlayer + 1) % 4`. The source loop is `while (true)`. -/
def probeSeat (s : GameState) (active : Player → Bool) : Nat → Nat → Option Nat
  | 0, _ => none
  | fuel + 1, nextPlayer =>
    match s.getPlayerByIndex nextPlayer with
    | none => probeSeat s active fuel ((nextPlayer + 1) % 4)
    | some pl =>
      if active pl then some nextPlayer else probeSeat s active fuel ((nextPlayer + 1) % 4)

/-- Method `GameState::updateCurrentPlayer`. Four probes visit every seat; the loop state after
them is the one it started in, so a loop that has not left by then never leaves. -/
def updateCurrentPlayer (s : GameState) : Except Fault GameState :=
  match probeSeat s (fun pl => pl.activeInRound) 4 ((s.currentPlayer + 1) % 4) with
  | none => Except.error Fault.nonTermination
  | some nextPlayer => Except.ok { s with currentPlayer := nextPlayer }

/-- Method `GameState::updateRoundStartPlayer`, with the same loop over `activeInGame`. -/
def updateRoundStartPlayer (s : GameState) : Except Fault GameState :=
  match probeSeat s (fun pl => pl.activeInGame) 4 ((s.roundStartPlayer + 1) % 4) with
  | none => Except.error Fault.nonTermination
  | some nextPlayer => Except.ok { s with roundStartPlayer := nextPlayer }

/-- Method `GameState::updateRoundCardCount`. -/
def updateRoundCardCount (s : GameState) : GameState :=
  { s with roundCardCount := if s.roundCardCount > 2 then s.roundCardCount - 1 else 6 }

/-- The reading of a leaderboard entry in the comparator of `addLeaderBoardFinished`: the value,
or `0` for an unset entry. -/
def rankValue (entry : Option Int) : Int :=
  match entry with
  | some v => v
  | none => 0

/-- The entry `std::max_element` returns on the leaderboard with that comparator: the first seat
is the candidate, and a later seat replaces the candidate when the candidate compares less. -/
def maxLeaderBoardEntry (s : GameState) : Option Int :=
  ([1, 2, 3] : List (Fin 4)).foldl
    (fun largest q =>
      if rankValue largest < rankValue (s.leaderBoard q) then s.leaderBoard q else largest)
    (s.leaderBoard 0)

/-- The largest value of `int`. -/
def intMax : Int := 2147483647

/-- Assignment `leaderBoard[playerID] = value`, undefined outside the array. -/
def GameState.setLeaderBoard (s : GameState) (playerID : Nat) (value : Int) :
    Except Fault GameState :=
  if h : playerID < 4 then
    Except.ok { s with leaderBoard := Function.update s.leaderBoard ⟨playerID, h⟩ (some value) }
  else Except.error Fault.outOfRange

/-- Method `GameState::addLeaderBoardFinished`: the entry becomes `value_or(0) + 1` of the
maximal entry; the addition is undefined on the largest `int`. -/
def addLeaderBoardFinished (s : GameState) (playerID : Nat) : Except Fault GameState :=
  if (maxLeaderBoardEntry s).getD 0 = intMax then Except.error Fault.signedOverflow
  else s.setLeaderBoard playerID ((maxLeaderBoardEntry s).getD 0 + 1)

/-- Method `GameState::addLeaderBoardUnfinished`. -/
def addLeaderBoardUnfinished (s : GameState) (playerID : Nat) : Except Fault GameState :=
  s.setLeaderBoard playerID 0

/-- Method `GameState::addLeaderBoardDisconnected`: an entry that has a value is kept. -/
def addLeaderBoardDisconnected (s : GameState) (playerID : Nat) : Except Fault GameState :=
  if h : playerID < 4 then
    if (s.leaderBoard ⟨playerID, h⟩).isSome then Except.ok s else s.setLeaderBoard playerID (-1)
  else Except.error Fault.outOfRange

/-- The test `playerOpt.has_value() && playerOpt->isActiveInRound()` on seat `q`. -/
def seatActiveInRound (s : GameState) (q : Fin 4) : Bool :=
  match s.players q with
  | none => false
  | some pl => pl.activeInRound

/-- The test `playerOpt.has_value() && playerOpt->isActiveInGame()` on seat `q`. -/
def seatActiveInGame (s : GameState) (q : Fin 4) : Bool :=
  match s.players q with
  | none => false
  | some pl => pl.activeInGame

/-- Method `GameState::getActiveInRoundCount`. -/
def getActiveInRoundCount (s : GameState) : Nat := seatIds.countP (seatActiveInRound s)

/-- Method `GameState::getActiveInGameCount`. -/
def getActiveInGameCount (s : GameState) : Nat := seatIds.countP (seatActiveInGame s)

/-- Method `GameState::checkRoundEnd`. -/
def checkRoundEnd (s : GameState) : Bool := decide (getActiveInRoundCount s = 0)

/-- Method `GameState::checkGameEnd`. -/
def checkGameEnd (s : GameState) : Bool := decide (getActiveInGameCount s ≤ 1)

/-- Method `GameState::getActivePlayerIndices`: the seats that are present and active in the
game, in ascending order. -/
def getActivePlayerIndices (s : GameState) : List (Fin 4) := seatIds.filter (seatActiveInGame s)

/-- The loop of `endTurn` that sets `activeInRound` for every player that is active in the
game. -/
def reactivatePlayers (s : GameState) : GameState :=
  { s with players := fun q =>
      (s.players q).map fun pl => if pl.activeInGame then { pl with activeInRound := true } else pl }

/-- The statement `addLeaderBoardUnfinished(getActivePlayerIndices()[0])`, undefined on an empty
vector. -/
def rankRemainingPlayer (s : GameState) : Except Fault GameState :=
  match getActivePlayerIndices s with
  | [] => Except.error Fault.outOfRange
  | remainingPlayer :: _ => addLeaderBoardUnfinished s remainingPlayer.val

/-- Method `GameState::endTurn`; the result carries the pair `(gameEnded, roundEnded)`. -/
def endTurn (s : GameState) : Except Fault (GameState × (Bool × Bool)) :=
  if checkGameEnd s then
    match rankRemainingPlayer s with
    | Except.error e => Except.error e
    | Except.ok s1 => Except.ok (s1, (checkGameEnd s, checkRoundEnd s))
  else if checkRoundEnd s then
    match updateRoundStartPlayer s with
    | Except.error e => Except.error e
    | Except.ok s1 =>
      Except.ok (reactivatePlayers (updateRoundCardCount s1), (checkGameEnd s, checkRoundEnd s))
  else
    match updateCurrentPlayer s with
    | Except.error e => Except.error e
    | Except.ok s1 => Except.ok (s1, (checkGameEnd s, checkRoundEnd s))

/-! ## game.cpp: execution of a turn -/

/-- The statement `if (hand.empty()) setActiveInRound(false)` of `executeFold` and
`executeMove`. -/
def leaveRoundIfEmpty (pl : Player) : Player :=
  if pl.hand.isEmpty then { pl with activeInRound := false } else pl

/-- Method `GameState::executeFold`. -/
def executeFold (s : GameState) : Except Fault GameState :=
  match s.getPlayerByIndex s.currentPlayer with
  | none => Except.error Fault.nullDeref
  | some cp =>
    Except.ok (s.setPlayerAt s.currentPlayer (leaveRoundIfEmpty { cp with hand := [] }))

/-- The update of the start-blocked flag after one movement of `executeMove`, on the moved
player: only a marble of the current player touches the flag. -/
def startBlockUpdate (currentPlayer : Nat) (marble : MarbleIdentifier) (moveFromHome : Bool)
    (pl : Player) : Player :=
  if marble.playerID = currentPlayer then
    if pl.startBlocked = some marble.marbleIdx then { pl with startBlocked := none }
    else if moveFromHome then { pl with startBlocked := some marble.marbleIdx }
    else pl
  else pl

/-- One pass of the movement loop of `executeMove`. -/
def applyMovement (s : GameState) (movement : Movement) : Except Fault GameState :=
  match s.playerAt movement.1.playerID with
  | Except.error e => Except.error e
  | Except.ok pl =>
    match pl.getMarblePosition movement.1.marbleIdx with
    | Except.error e => Except.error e
    | Except.ok oldPos =>
      match pl.setMarblePosition movement.1.marbleIdx movement.2 with
      | Except.error e => Except.error e
      | Except.ok moved =>
        Except.ok (s.setPlayerAt movement.1.playerID
          (startBlockUpdate s.currentPlayer movement.1 oldPos.isInHome moved))

/-- The movement loop of `executeMove`. -/
def applyMovements : GameState → List Movement → Except Fault GameState
  | s, [] => Except.ok s
  | s, movement :: rest =>
    match applyMovement s movement with
    | Except.error e => Except.error e
    | Except.ok s1 => applyMovements s1 rest

/-- The part of `executeMove` after the movement loop: the card is popped and recorded, and a
player whose marbles are all in FINISH loses the rest of the hand, leaves round and game and is
ranked. -/
def finishTurn (s : GameState) (handIndex : Nat) : Except Fault (GameState × Bool) :=
  match s.playerAt s.currentPlayer with
  | Except.error e => Except.error e
  | Except.ok cp =>
    match cp.popCardFromHand handIndex with
    | Except.error e => Except.error e
    | Except.ok (cardId, popped) =>
      if (leaveRoundIfEmpty popped).checkFinished then
        match addLeaderBoardFinished
            ({ s with lastPlayedCard := some cardId }.setPlayerAt s.currentPlayer
              { leaveRoundIfEmpty popped with
                hand := [], activeInRound := false, activeInGame := false })
            s.currentPlayer with
        | Except.error e => Except.error e
        | Except.ok s1 => Except.ok (s1, true)
      else
        Except.ok ({ s with lastPlayedCard := some cardId }.setPlayerAt s.currentPlayer
          (leaveRoundIfEmpty popped), false)

/-- Method `GameState::executeMove`; the boolean is the return value. -/
def executeMove (s : GameState) (move : Move) : Except Fault (GameState × Bool) :=
  match applyMovements s move.movements with
  | Except.error e => Except.error e
  | Except.ok s1 => finishTurn s1 move.handIndex

/-- Method `GameState::disconnectPlayer` up to the leaderboard entry of the leaving player, for a
seat of the array. The current player is advanced before the player is deactivated. -/
def disconnectSeat (s : GameState) (seat : Fin 4) : Except Fault GameState :=
  match s.players seat with
  | none => Except.ok s
  | some player =>
    match (if player.id = seat.val then updateCurrentPlayer s else Except.ok s) with
    | Except.error e => Except.error e
    | Except.ok s1 =>
      addLeaderBoardDisconnected
        (s1.setPlayerAt seat.val
          { player with
            activeInGame := false
            activeInRound := false
            hand := []
            marbles := fun mIdx =>
              if (player.marbles mIdx).boardLocation ≠ BoardLocation.TRACK then player.marbles mIdx
              else { boardLocation := BoardLocation.HOME, index := mIdx.val, playerID := seat.val } })
        seat.val

/-- Method `GameState::disconnectPlayer`; an index outside the seat array is undefined. -/
def disconnectPlayer (s : GameState) (playerIndex : Nat) : Except Fault GameState :=
  if h : playerIndex < 4 then
    match disconnectSeat s ⟨playerIndex, h⟩ with
    | Except.error e => Except.error e
    | Except.ok s1 => if checkGameEnd s1 then rankRemainingPlayer s1 else Except.ok s1
  else Except.error Fault.outOfRange

/-! ## game.cpp: dealing -/

/-- The comparator of the sort in `dealCards`: jokers last, otherwise by rank, then by id. -/
def cardBefore (a b : Nat) : Bool :=
  if a ≥ 52 ∧ b ≥ 52 then decide (a < b)
  else if a ≥ 52 then false
  else if b ≥ 52 then true
  else if a % 13 ≠ b % 13 then decide (a % 13 < b % 13)
  else decide (a < b)

/-- The dealing loop of `dealCards`: each active player takes the next `roundCardCount` entries
of the shuffled index vector; a range that leaves the vector is undefined. -/
def dealLoop (cardIndices : List Nat) (roundCardCount : Nat) :
    List (Fin 4) → Nat → Except Fault (List (Fin 4 × List Nat))
  | [], _ => Except.ok []
  | playerID :: rest, cardIdx =>
    if cardIdx + roundCardCount ≤ cardIndices.length then
      match dealLoop cardIndices roundCardCount rest (cardIdx + roundCardCount) with
      | Except.error e => Except.error e
      | Except.ok more =>
        Except.ok ((playerID, (cardIndices.drop cardIdx).take roundCardCount) :: more)
    else Except.error Fault.outOfRange

/-- Method `GameState::dealCards`, as a function of the outcome `cardIndices` of the shuffle of
`0 .. deck.size() - 1`. The map is the list of its entries in key order. The comparator is a
strict total order on distinct ids, so the sorted hand does not depend on the algorithm. -/
def dealCards (s : GameState) (cardIndices : List Nat) :
    Except Fault (List (Fin 4 × List Nat)) :=
  match dealLoop cardIndices s.roundCardCount (getActivePlayerIndices s) 0 with
  | Except.error e => Except.error e
  | Except.ok dealt =>
    Except.ok (dealt.map fun entry =>
      (entry.1, entry.2.insertionSort fun a b => cardBefore a b = true))

/-! ## server.cpp: a new round -/

/-- The loop of `Server::newRound` that stores the dealt hands in the game state. -/
def storeHands (s : GameState) : List (Fin 4 × List Nat) → GameState
  | [] => s
  | entry :: rest =>
    match s.players entry.1 with
    | none => storeHands s rest
    | some pl => storeHands (s.setPlayerAt entry.1.val { pl with hand := entry.2 }) rest

/-- Method `Server::newRound` on the game state. -/
def newRound (s : GameState) (cardIndices : List Nat) : Except Fault GameState :=
  match dealCards s cardIndices with
  | Except.error e => Except.error e
  | Except.ok dealt => Except.ok (storeHands s dealt)

/-! ## game_types.cpp: construction of a move -/

/-- Constructor `Move::Move(cID, hIndex, moves)`: stores its arguments and throws
`std::out_of_range` if `cID > 54`. -/
def Move.new (cID hIndex : Nat) (moves : List Movement) : Except Fault Move :=
  if cID > 54 then Except.error Fault.outOfRange
  else Except.ok { cardID := cID, handIndex := hIndex, movements := moves }

/-! ## Serialization: JSON values and the conversions the serializers call -/

/-- A JSON value as the serializers build and read it. Numbers are kept as integers of the
embedding: a `size_t` or `int` stored by `to_json` is the number itself. Floating-point numbers
do not occur in the serializers and are left out. -/
inductive Json where
  | null
  | boolean (b : Bool)
  | number (n : Int)
  | string (s : String)
  | array (elems : List Json)
  | object (members : List (String × Json))

/-- The exceptions of the JSON library (`type_error`, `out_of_range`), and a cast to an enum
from a number that is none of its enumerators. -/
inductive JsonFault
  | typeError
  | outOfRange
  | noEnumerator
  deriving DecidableEq, Repr

/-- Access `j.at(key)`: throws `type_error` on a value that is not an object and `out_of_range`
on a missing key. -/
def Json.atKey (j : Json) (key : String) : Except JsonFault Json :=
  match j with
  | Json.object members =>
    match members.lookup key with
    | some v => Except.ok v
    | none => Except.error JsonFault.outOfRange
  | _ => Except.error JsonFault.typeError

/-- Access `j.at(i)` on an array. -/
def Json.atIndex (j : Json) (i : Nat) : Except JsonFault Json :=
  match j with
  | Json.array elems =>
    match elems[i]? with
    | some v => Except.ok v
    | none => Except.error JsonFault.outOfRange
  | _ => Except.error JsonFault.typeError

/-- Test `j.is_null()`. -/
def Json.isNull (j : Json) : Bool :=
  match j with
  | Json.null => true
  | _ => false

/-- Conversion `j.get<size_t>()`: a number is cast to `size_t`, a negative one modulo `2^64`. -/
def Json.getSize (j : Json) : Except JsonFault Nat :=
  match j with
  | Json.number n => Except.ok (if 0 ≤ n then n.toNat else (n % sizeMod).toNat)
  | _ => Except.error JsonFault.typeError

/-- Conversion `j.get<int>()`: a number, or a boolean read as `0` or `1`. -/
def Json.getInt (j : Json) : Except JsonFault Int :=
  match j with
  | Json.number n => Except.ok n
  | Json.boolean b => Except.ok (if b then 1 else 0)
  | _ => Except.error JsonFault.typeError

/-- Conversion `j.get<bool>()`. -/
def Json.getBool (j : Json) : Except JsonFault Bool :=
  match j with
  | Json.boolean b => Except.ok b
  | _ => Except.error JsonFault.typeError

/-- Conversion `j.get<std::string>()`. -/
def Json.getString (j : Json) : Except JsonFault String :=
  match j with
  | Json.string s => Except.ok s
  | _ => Except.error JsonFault.typeError

/-- The values a range-based `for` over `j` visits: the elements of an array, the values of an
object, nothing for `null`, the value itself otherwise. -/
def Json.items (j : Json) : List Json :=
  match j with
  | Json.array elems => elems
  | Json.object members => members.map fun m => m.2
  | Json.null => []
  | other => [other]

/-- Conversion of the values of a list one after the other, stopping at the first exception. -/
def Json.getList {α : Type} (get : Json → Except JsonFault α) :
    List Json → Except JsonFault (List α)
  | [] => Except.ok []
  | e :: rest =>
    match get e with
    | Except.error x => Except.error x
    | Except.ok a =>
      match Json.getList get rest with
      | Except.error x => Except.error x
      | Except.ok more => Except.ok (a :: more)

/-- Conversion `j.get<std::array<T, n>>()` as a list: `arr[i] = j.at(i).get<T>()` for
`i = 0 .. n - 1` in turn, so that an element that does not convert is reported before a missing
one. -/
def Json.getArray {α : Type} (n : Nat) (get : Json → Except JsonFault α) (j : Json) :
    Except JsonFault (List α) :=
  match j with
  | Json.array elems =>
    match Json.getList get (elems.take n) with
    | Except.error x => Except.error x
    | Except.ok l => if elems.length < n then Except.error JsonFault.outOfRange else Except.ok l
  | _ => Except.error JsonFault.typeError

/-- Conversion `j.get<std::array<T, 4>>()`. -/
def Json.getArray4 {α : Type} (get : Json → Except JsonFault α) (j : Json) :
    Except JsonFault (Fin 4 → α) :=
  match Json.getArray 4 get j with
  | Except.ok [a0, a1, a2, a3] => Except.ok ![a0, a1, a2, a3]
  | Except.ok _ => Except.error JsonFault.outOfRange
  | Except.error x => Except.error x

/-- Serialization of a `std::array<T, 4>`. -/
def Json.ofArray4 {α : Type} (put : α → Json) (a : Fin 4 → α) : Json :=
  Json.array (seatIds.map fun i => put (a i))

/-- Serializer `adl_serializer<std::optional<T>>::to_json`. -/
def Json.ofOptional {α : Type} (put : α → Json) (opt : Option α) : Json :=
  match opt with
  | some v => put v
  | none => Json.null

/-- Serializer `adl_serializer<std::optional<T>>::from_json`. -/
def Json.getOptional {α : Type} (get : Json → Except JsonFault α) (j : Json) :
    Except JsonFault (Option α) :=
  if j.isNull then Except.ok none
  else
    match get j with
    | Except.error x => Except.error x
    | Except.ok v => Except.ok (some v)

/-- Serialization of a `size_t`. -/
def Json.ofSize (n : Nat) : Json := Json.number (n : Int)

/-- The enumerators of `BoardLocation` in declaration order. -/
def boardLocations : List BoardLocation :=
  [BoardLocation.HOME, BoardLocation.TRACK, BoardLocation.FINISH]

/-- The enumerators of `MoveType` in declaration order. -/
def moveTypes : List MoveType :=
  [MoveType.SIMPLE, MoveType.SEVEN, MoveType.SWAP, MoveType.JOKER, MoveType.START]

/-- The cast `static_cast<int>(rank)`. -/
def Rank.toInt : Rank → Int
  | Rank.ACE => 0 | Rank.TWO => 1 | Rank.THREE => 2 | Rank.FOUR => 3 | Rank.FIVE => 4
  | Rank.SIX => 5 | Rank.SEVEN => 6 | Rank.EIGHT => 7 | Rank.NINE => 8 | Rank.TEN => 9
  | Rank.JACK => 10 | Rank.QUEEN => 11 | Rank.KING => 12 | Rank.JOKER => 13

/-- The cast `static_cast<int>(suit)`. -/
def Suit.toInt : Suit → Int
  | Suit.CLUBS => 0 | Suit.DIAMONDS => 1 | Suit.HEARTS => 2 | Suit.SPADES => 3 | Suit.JOKER => 4

/-- The cast `static_cast<int>(boardLocation)`. -/
def BoardLocation.toInt : BoardLocation → Int
  | BoardLocation.HOME => 0 | BoardLocation.TRACK => 1 | BoardLocation.FINISH => 2

/-- The cast `static_cast<int>(moveType)`. -/
def MoveType.toInt : MoveType → Int
  | MoveType.SIMPLE => 0 | MoveType.SEVEN => 1 | MoveType.SWAP => 2 | MoveType.JOKER => 3
  | MoveType.START => 4

/-- The cast from `int` to an enum given by its enumerators and their numbers. -/
def enumOfInt {α : Type} (all : List α) (toInt : α → Int) (n : Int) : Except JsonFault α :=
  match all.find? fun e => decide (toInt e = n) with
  | some e => Except.ok e
  | none => Except.error JsonFault.noEnumerator

/-- The cast `static_cast<Rank>(n)`. -/
def Rank.ofInt (n : Int) : Except JsonFault Rank := enumOfInt (deckRanks ++ [Rank.JOKER]) Rank.toInt n

/-- The cast `static_cast<Suit>(n)`. -/
def Suit.ofInt (n : Int) : Except JsonFault Suit := enumOfInt (deckSuits ++ [Suit.JOKER]) Suit.toInt n

/-- The cast `static_cast<BoardLocation>(n)`. -/
def BoardLocation.ofInt (n : Int) : Except JsonFault BoardLocation :=
  enumOfInt boardLocations BoardLocation.toInt n

/-- The cast `static_cast<MoveType>(n)`. -/
def MoveType.ofInt (n : Int) : Except JsonFault MoveType := enumOfInt moveTypes MoveType.toInt n

/-! ## Serialization: game_types.hpp, game_objects.hpp, game.hpp -/

/-- Function `to_json(j, pos)` for a `Position`. -/
def Position.to_json (pos : Position) : Json :=
  Json.object [("boardLocation", Json.number pos.boardLocation.toInt),
    ("index", Json.ofSize pos.index), ("playerID", Json.ofSize pos.playerID)]

/-- Function `from_json(j, pos)` for a `Position`. -/
def Position.from_json (j : Json) : Except JsonFault Position := do
  let boardLocation ← (← (← j.atKey "boardLocation").getInt) |> BoardLocation.ofInt
  let index ← (← j.atKey "index").getSize
  let playerID ← (← j.atKey "playerID").getSize
  pure { boardLocation := boardLocation, index := index, playerID := playerID }

/-- The object `ruleJson` that `to_json` appends for one move rule of a card. -/
def ruleToJson (rule : MoveType × Int) : Json :=
  Json.object [("type", Json.number rule.1.toInt), ("value", Json.number rule.2)]

/-- The pair that `from_json` appends for one entry of `moveRules`. -/
def ruleFromJson (ruleJson : Json) : Except JsonFault (MoveType × Int) := do
  let type ← (← (← ruleJson.atKey "type").getInt) |> MoveType.ofInt
  let value ← (← ruleJson.atKey "value").getInt
  pure (type, value)

/-- Function `to_json(j, card)` for a `Card`. -/
def Card.to_json (card : Card) : Json :=
  Json.object [("rank", Json.number card.rank.toInt), ("suit", Json.number card.suit.toInt),
    ("moveRules", Json.array (card.moveRules.map ruleToJson))]

/-- Function `from_json(j, card)` for a `Card`. -/
def Card.from_json (j : Json) : Except JsonFault Card := do
  let rank ← (← (← j.atKey "rank").getInt) |> Rank.ofInt
  let suit ← (← (← j.atKey "suit").getInt) |> Suit.ofInt
  let moveRules ← Json.getList ruleFromJson (← j.atKey "moveRules").items
  pure { rank := rank, suit := suit, moveRules := moveRules }

/-- Function `to_json(j, player)` for a `Player`; the hand is not written. -/
def Player.to_json (player : Player) : Json :=
  Json.object [("id", Json.ofSize player.id), ("name", Json.string player.name),
    ("startField", Json.ofSize player.startField),
    ("startBlocked", match player.startBlocked with
      | some k => Json.ofSize k
      | none => Json.null),
    ("marbles", Json.ofArray4 Position.to_json player.marbles),
    ("activeInRound", Json.boolean player.activeInRound),
    ("activeInGame", Json.boolean player.activeInGame)]

/-- Function `from_json(j, player)` for a `Player`, on the value-initialized player that
`get<Player>()` passes in: the hand stays the empty vector. -/
def Player.from_json (j : Json) : Except JsonFault Player := do
  let id ← (← j.atKey "id").getSize
  let name ← (← j.atKey "name").getString
  let startField ← (← j.atKey "startField").getSize
  let startBlocked ←
    if (← j.atKey "startBlocked").isNull then pure none
    else (fun k => some k) <$> (← j.atKey "startBlocked").getSize
  let marbles ← Json.getArray4 Position.from_json (← j.atKey "marbles")
  let activeInRound ← (← j.atKey "activeInRound").getBool
  let activeInGame ← (← j.atKey "activeInGame").getBool
  pure { id := id, name := name, startField := startField, startBlocked := startBlocked,
         activeInRound := activeInRound, activeInGame := activeInGame, marbles := marbles,
         hand := [] }

/-- Function `to_json(j, gs)` for a `GameState`. -/
def GameState.to_json (gs : GameState) : Json :=
  Json.object [("deck", Json.array (gs.deck.map Card.to_json)),
    ("players", Json.ofArray4 (Json.ofOptional Player.to_json) gs.players),
    ("currentPlayer", Json.ofSize gs.currentPlayer),
    ("roundStartPlayer", Json.ofSize gs.roundStartPlayer),
    ("roundCardCount", Json.ofSize gs.roundCardCount),
    ("lastPlayedCard", Json.ofOptional Json.ofSize gs.lastPlayedCard),
    ("leaderBoard", Json.ofArray4 (Json.ofOptional Json.number) gs.leaderBoard)]

/-- Function `from_json(j, gs)` for a `GameState`. -/
def GameState.from_json (j : Json) : Except JsonFault GameState := do
  let deck ← Json.getArray 54 Card.from_json (← j.atKey "deck")
  let players ← Json.getArray4 (Json.getOptional Player.from_json) (← j.atKey "players")
  let currentPlayer ← (← j.atKey "currentPlayer").getSize
  let roundStartPlayer ← (← j.atKey "roundStartPlayer").getSize
  let roundCardCount ← (← j.atKey "roundCardCount").getSize
  let lastPlayedCard ← Json.getOptional Json.getSize (← j.atKey "lastPlayedCard")
  let leaderBoard ← Json.getArray4 (Json.getOptional Json.getInt) (← j.atKey "leaderBoard")
  pure { deck := deck, players := players, currentPlayer := currentPlayer,
         roundStartPlayer := roundStartPlayer, roundCardCount := roundCardCount,
         lastPlayedCard := lastPlayedCard, leaderBoard := leaderBoard }

/-! ## server.cpp: names in the seat table -/

/-- Struct `Server::ClientInfo` without its socket. -/
structure ClientInfo where
  threadId : Int
  id : Int
  name : String
  isActive : Bool
  isReady : Bool
  deriving DecidableEq, Repr

/-- The default-constructed slot. -/
def ClientInfo.new : ClientInfo :=
  { threadId := -1, id := -1, name := "", isActive := false, isReady := false }

/-- Method `Server::isValidName` on the seat table `players_`. -/
def isValidName (players_ : Fin 4 → ClientInfo) (name : String) : Bool :=
  if name.isEmpty then false
  else !(seatIds.any fun i => decide ((players_ i).name = name))

/-! ## client.cpp: routing of server messages -/

/-- Enum `Client::ClientState`. -/
inductive ClientState
  | LOBBY | TRANSITIONING | GAME
  deriving DecidableEq, Repr

/-- Enum `MessageType`. -/
inductive MessageType
  | RESP_CONNECT | RESP_READY | RESP_START_GAME | RESP_PLAY_CARD | RESP_SKIP_TURN
  | BRDC_PLAYER_LIST | BRDC_GAME_START | BRDC_GAMESTATE_UPDATE | BRDC_PLAYER_DISCONNECTED
  | BRDC_PLAYER_FINISHED | BRDC_RESULTS
  | PRIV_CARDS_DEALT
  | REQ_CONNECT | REQ_READY | REQ_START_GAME | REQ_PLAY_CARD | REQ_SKIP_TURN
  deriving DecidableEq, Repr

/-- A message as `handleServerMessage` reads it: the type `Message::fromJson` finds (`none` when
it throws) and the text `message.dump()`. -/
structure ServerMessage where
  messageType : Option MessageType
  dump : String
  deriving DecidableEq, Repr

/-- The routing part of class `Client`: state, the two queues (front first), whether
`updateCallback` is set, and the texts the callback has been called with, oldest first. -/
structure Client where
  state_ : ClientState
  transitionBuffer_ : List String
  pendingMessages_ : List String
  callbackSet : Bool
  delivered : List String
  deriving DecidableEq, Repr

/-- Method `Client::notifyUpdate`. -/
def Client.notifyUpdate (c : Client) (message : String) : Client :=
  if c.callbackSet then { c with delivered := c.delivered ++ [message] }
  else { c with pendingMessages_ := c.pendingMessages_ ++ [message] }

/-- Method `Client::setUpdateCallback` with a non-empty callback. -/
def Client.setUpdateCallback (c : Client) : Client :=
  { c with callbackSet := true, delivered := c.delivered ++ c.pendingMessages_,
           pendingMessages_ := [] }

/-- Method `Client::beginTransitionToGame`. -/
def Client.beginTransitionToGame (c : Client) : Client :=
  { c with state_ := ClientState.TRANSITIONING }

/-- Method `Client::handleServerMessage`, without the player list it keeps for the lobby. -/
def Client.handleServerMessage (c : Client) (message : ServerMessage) : Client :=
  match message.messageType with
  | none => c
  | some messageType =>
    if c.state_ = ClientState.TRANSITIONING then
      { c with transitionBuffer_ := c.transitionBuffer_ ++ [message.dump] }
    else
      match messageType with
      | MessageType.BRDC_GAME_START => c.beginTransitionToGame.notifyUpdate message.dump
      | MessageType.BRDC_PLAYER_LIST => c.notifyUpdate message.dump
      | MessageType.BRDC_GAMESTATE_UPDATE => c.notifyUpdate message.dump
      | MessageType.BRDC_PLAYER_DISCONNECTED => c.notifyUpdate message.dump
      | MessageType.BRDC_PLAYER_FINISHED => c.notifyUpdate message.dump
      | MessageType.BRDC_RESULTS => c.notifyUpdate message.dump
      | MessageType.PRIV_CARDS_DEALT => c.notifyUpdate message.dump
      | MessageType.RESP_START_GAME => c.notifyUpdate message.dump
      | MessageType.RESP_PLAY_CARD => c.notifyUpdate message.dump
      | MessageType.RESP_SKIP_TURN => c.notifyUpdate message.dump
      | _ => c

/-- The text `completeTransitionToGame` searches a buffered message for. -/
def gameStateMarker : String := "\x22msgType\x22:\x22BRDC_GAMESTATE_UPDATE\x22"

/-- The test `msg.find(marker) != std::string::npos`. -/
def containsMarker (msg : String) : Bool :=
  msg.toList.tails.any fun t => gameStateMarker.toList.isPrefixOf t

/-- The first loop of `completeTransitionToGame`: every message with the marker is assigned to
`gameStateMsg`, every other one is pushed to `reordered`. -/
def sortBuffer : List String → Option String → List String → Option String × List String
  | [], gameStateMsg, reordered => (gameStateMsg, reordered)
  | msg :: rest, gameStateMsg, reordered =>
    if containsMarker msg then sortBuffer rest (some msg) reordered
    else sortBuffer rest gameStateMsg (reordered ++ [msg])

/-- Method `Client::completeTransitionToGame`. -/
def Client.completeTransitionToGame (c : Client) : Client :=
  match sortBuffer c.transitionBuffer_ none [] with
  | (gameStateMsg, reordered) =>
    if c.callbackSet then
      { c with transitionBuffer_ := [], state_ := ClientState.GAME,
               delivered := c.delivered ++ gameStateMsg.toList ++ reordered }
    else { c with transitionBuffer_ := [], state_ := ClientState.GAME }

/-! ## game.cpp: execution of a turn as a mutation -/

/-- The movement loop of `executeMove` as a mutation of the game state object: the state in
which the loop is left, and the fault that ended it, if any. -/
def applyMovementsInPlace : GameState → List Movement → GameState × Option Fault
  | s, [] => (s, none)
  | s, movement :: rest =>
    match applyMovement s movement with
    | Except.error e => (s, some e)
    | Except.ok s1 => applyMovementsInPlace s1 rest

/-- Method `GameState::executeMove` as a mutation of the game state object: the state in which
the call is left, by return or by exception, and the return value. `popCardFromHand` throws
before it assigns anything, so that a call it ends leaves the object in the state after the
movement loop; that state is given for the other faults of the tail as well. -/
def executeMoveInPlace (s : GameState) (move : Move) : GameState × Except Fault Bool :=
  match applyMovementsInPlace s move.movements with
  | (s1, some e) => (s1, Except.error e)
  | (s1, none) =>
    match finishTurn s1 move.handIndex with
    | Except.error e => (s1, Except.error e)
    | Except.ok (s2, playerFinished) => (s2, Except.ok playerFinished)

/-! ## game.cpp: the scratch state of a split move -/

/-- One pass of the loop of `applyTempSevenMove`: an empty seat is skipped, the marble is moved
and a start-blocking marble that moves unblocks its start. -/
def applyTempMovement (s : GameState) (movement : Movement) : Except Fault GameState :=
  if movement.1.playerID < 4 then
    match s.getPlayerByIndex movement.1.playerID with
    | none => Except.ok s
    | some pl =>
      match pl.setMarblePosition movement.1.marbleIdx movement.2 with
      | Except.error e => Except.error e
      | Except.ok moved =>
        Except.ok (s.setPlayerAt movement.1.playerID
          (if moved.startBlocked = some movement.1.marbleIdx then
            { moved with startBlocked := none }
           else moved))
  else Except.error Fault.outOfRange

/-- Method `GameState::applyTempSevenMove`. -/
def applyTempSevenMove : GameState → List Movement → Except Fault GameState
  | s, [] => Except.ok s
  | s, movement :: rest =>
    match applyTempMovement s movement with
    | Except.error e => Except.error e
    | Except.ok s1 => applyTempSevenMove s1 rest

/-- Method `GameState::isMyTurn`. -/
def GameState.isMyTurn (s : GameState) (playerIndex : Nat) : Bool :=
  decide (s.currentPlayer = playerIndex)

/-! ## MovePhaseController.cpp: selection of card, marble and destination -/

/-- Method `MovePhaseController::calculateMoveSteps`, in `size_t` arithmetic. -/
def calculateMoveSteps (gameState_ : GameState) (myPlayerIndex_ : Nat)
    (fromPos toPos : Position) : Except Fault Nat :=
  if fromPos.boardLocation = BoardLocation.FINISH ∧ toPos.boardLocation = BoardLocation.FINISH then
    Except.ok (sizeSub toPos.index fromPos.index)
  else if fromPos.boardLocation = BoardLocation.TRACK ∧
      toPos.boardLocation = BoardLocation.FINISH then
    match gameState_.getPlayerByIndex myPlayerIndex_ with
    | none => Except.error Fault.badOptionalAccess
    | some pl =>
      let startIdx := pl.startField
      let distToStart :=
        if startIdx ≥ fromPos.index then sizeSub startIdx fromPos.index
        else (sizeSub 64 fromPos.index + startIdx) % sizeMod
      Except.ok ((distToStart + toPos.index + 1) % sizeMod)
  else if fromPos.boardLocation = BoardLocation.TRACK ∧
      toPos.boardLocation = BoardLocation.TRACK then
    if toPos.index ≥ fromPos.index then Except.ok (sizeSub toPos.index fromPos.index)
    else Except.ok ((sizeSub 64 fromPos.index + toPos.index) % sizeMod)
  else Except.ok 0

/-- The value-initialized `Move()`. -/
def Move.empty : Move := { cardID := 0, handIndex := 0, movements := [] }

/-- Class `MovePhaseController`: the referenced game state, the cached move lists, the state of a
split in progress and the selection. The moves passed to `client_->sendPlayCard` are collected
in `sentMoves`, oldest first; the status texts are left out. -/
structure MovePhaseController where
  myPlayerIndex_ : Nat
  gameState_ : GameState
  legalMoves_ : List Move
  filteredMoves_ : List Move
  jokerMoves_ : List Move
  sevenMoves_ : List Move
  sevenTempGameState_ : Option GameState
  builtSevenMove_ : Move
  totalSevenMoveValue_ : Nat
  selectedHandIndex_ : Int
  selectedCardID_ : Int
  selectedMarble_ : Option MarbleIdentifier
  jokerSelectedRank_ : Int
  sentMoves : List Move

/-- Constructor `MovePhaseController::MovePhaseController`. -/
def MovePhaseController.new (myPlayerIndex : Nat) (gameState : GameState) :
    MovePhaseController :=
  { myPlayerIndex_ := myPlayerIndex, gameState_ := gameState, legalMoves_ := [],
    filteredMoves_ := [], jokerMoves_ := [], sevenMoves_ := [], sevenTempGameState_ := none,
    builtSevenMove_ := Move.empty, totalSevenMoveValue_ := 0, selectedHandIndex_ := -1,
    selectedCardID_ := -1, selectedMarble_ := none, jokerSelectedRank_ := -1, sentMoves := [] }

/-- Method `MovePhaseController::setLegalMoves`. -/
def MovePhaseController.setLegalMoves (c : MovePhaseController) (moves : List Move) :
    MovePhaseController :=
  { c with legalMoves_ := moves, filteredMoves_ := [], jokerMoves_ := [], sevenMoves_ := [],
           builtSevenMove_ := Move.empty, totalSevenMoveValue_ := 0,
           sevenTempGameState_ := none }

/-- Method `MovePhaseController::setSevenMoves`. -/
def MovePhaseController.setSevenMoves (c : MovePhaseController) (moves : List Move) :
    MovePhaseController :=
  { c with sevenMoves_ := moves }

/-- Method `MovePhaseController::clearSelection`. -/
def MovePhaseController.clearSelection (c : MovePhaseController) : MovePhaseController :=
  { c with selectedHandIndex_ := -1, selectedCardID_ := -1, jokerSelectedRank_ := -1,
           jokerMoves_ := [], selectedMarble_ := none, filteredMoves_ := [],
           sevenTempGameState_ := none, totalSevenMoveValue_ := 0,
           builtSevenMove_ := Move.empty }

/-- The expression `gameState_.getPlayers()[myPlayerIndex_].value().getHand()[handIndex]`: the
`value()` of an empty seat throws, an index outside the hand is undefined. -/
def MovePhaseController.handCard (c : MovePhaseController) (handIndex : Int) :
    Except Fault Nat :=
  match c.gameState_.getPlayerByIndex c.myPlayerIndex_ with
  | none => Except.error Fault.badOptionalAccess
  | some pl =>
    if handIndex < 0 then Except.error Fault.outOfRange
    else
      match pl.hand[handIndex.toNat]? with
      | none => Except.error Fault.outOfRange
      | some cardID => Except.ok cardID

/-- The test `isSevenMove` of the controller on the card with id `cardID`: a SEVEN, or a joker
for which rank 7 is selected. -/
def MovePhaseController.isSevenSelection (c : MovePhaseController) (cardID : Nat) :
    Except Fault Bool :=
  match c.gameState_.cardAt cardID with
  | Except.error e => Except.error e
  | Except.ok card =>
    Except.ok (decide (card.rank = Rank.SEVEN) ||
      (decide (card.rank = Rank.JOKER) && decide (c.jokerSelectedRank_ = 7)))

/-- The loop of `filterByCard` over `legalMoves_`: the first run of consecutive moves with the
hand index. -/
def handIndexRun (handIndex : Nat) : List Move → List Move → List Move
  | [], filtered => filtered
  | move :: rest, filtered =>
    if move.handIndex = handIndex then handIndexRun handIndex rest (filtered ++ [move])
    else if ¬ filtered.isEmpty then filtered
    else handIndexRun handIndex rest filtered

/-- Method `MovePhaseController::filterByCard`. -/
def MovePhaseController.filterByCard (c : MovePhaseController) (handIndex : Int) :
    Except Fault MovePhaseController :=
  match c.handCard handIndex with
  | Except.error e => Except.error e
  | Except.ok selectedCardID =>
    match c.gameState_.cardAt selectedCardID with
    | Except.error e => Except.error e
    | Except.ok selectedCard =>
      if selectedCard.rank = Rank.SEVEN ∨
          (selectedCard.rank = Rank.JOKER ∧ c.jokerSelectedRank_ = 7) then
        Except.ok { c with filteredMoves_ := c.sevenMoves_ }
      else if selectedCard.rank = Rank.JOKER then
        Except.ok { c with filteredMoves_ := c.jokerMoves_ }
      else
        Except.ok { c with filteredMoves_ := handIndexRun handIndex.toNat c.legalMoves_ [] }

/-- The loop of `filterByMarble`: the moves whose first movement moves the marble;
`getMovements()[0]` is undefined on a move without movements. -/
def movesOfMarble (marbleId : MarbleIdentifier) : List Move → Except Fault (List Move)
  | [] => Except.ok []
  | move :: rest =>
    match move.movements with
    | [] => Except.error Fault.outOfRange
    | first :: _ =>
      match movesOfMarble marbleId rest with
      | Except.error e => Except.error e
      | Except.ok more =>
        if first.1.playerID = marbleId.playerID ∧ first.1.marbleIdx = marbleId.marbleIdx then
          Except.ok (move :: more)
        else Except.ok more

/-- Method `MovePhaseController::filterByMarble`. -/
def MovePhaseController.filterByMarble (c : MovePhaseController) (marbleId : MarbleIdentifier) :
    Except Fault (MovePhaseController × Bool) :=
  match movesOfMarble marbleId c.filteredMoves_ with
  | Except.error e => Except.error e
  | Except.ok newFiltered =>
    if newFiltered.isEmpty then Except.ok (c, false)
    else Except.ok ({ c with filteredMoves_ := newFiltered }, true)

/-- The loop of `findMatchingMove` over the filtered moves. -/
def matchingMove (dest : Position) : List Move → Except Fault (Option Move)
  | [] => Except.ok none
  | move :: rest =>
    match move.movements with
    | [] => Except.error Fault.outOfRange
    | first :: _ =>
      if first.2.boardLocation = dest.boardLocation ∧ first.2.index = dest.index ∧
          ((dest.boardLocation = BoardLocation.HOME ∨ dest.boardLocation = BoardLocation.FINISH) →
            first.2.playerID = dest.playerID) then
        Except.ok (some move)
      else matchingMove dest rest

/-- Method `MovePhaseController::findMatchingMove`. -/
def MovePhaseController.findMatchingMove (c : MovePhaseController) (dest : Position) :
    Except Fault (Option Move) :=
  matchingMove dest c.filteredMoves_

/-- Method `MovePhaseController::setJokerRank`. -/
def MovePhaseController.setJokerRank (c : MovePhaseController) (rank : Int)
    (jokerHandIndex : Nat) : Except Fault MovePhaseController :=
  if rank = -1 then Except.ok { c with jokerSelectedRank_ := rank, jokerMoves_ := [] }
  else
    match c.handCard (jokerHandIndex : Int) with
    | Except.error e => Except.error e
    | Except.ok jID =>
      match computeLegalMoves c.gameState_
          (some (((rank - 1) % sizeMod).toNat, jokerHandIndex, jID)) false with
      | Except.error e => Except.error e
      | Except.ok moves => Except.ok { c with jokerSelectedRank_ := rank, jokerMoves_ := moves }

/-- Method `MovePhaseController::onCardClicked`. -/
def MovePhaseController.onCardClicked (c : MovePhaseController) (handIndex : Int) :
    Except Fault MovePhaseController :=
  if ¬ c.gameState_.isMyTurn c.myPlayerIndex_ then Except.ok c
  else
    match c.handCard handIndex with
    | Except.error e => Except.error e
    | Except.ok clickedCardID =>
      if c.selectedHandIndex_ = handIndex ∧ ¬ (clickedCardID = 52 ∨ clickedCardID = 53) then
        Except.ok c.clearSelection
      else
        match c.isSevenSelection clickedCardID with
        | Except.error e => Except.error e
        | Except.ok isSevenCard =>
          let selected : MovePhaseController :=
            { c with selectedHandIndex_ := handIndex, selectedCardID_ := (clickedCardID : Int) }
          let prepared : MovePhaseController :=
            if isSevenCard then
              { selected with sevenTempGameState_ := some c.gameState_,
                              totalSevenMoveValue_ := 0, builtSevenMove_ := Move.empty }
            else { selected with sevenTempGameState_ := none }
          MovePhaseController.filterByCard { prepared with selectedMarble_ := none } handIndex

/-- The part of `onBoardPositionClicked` that appends the matching move to the split move under
construction; the `Move` constructor throws for a card id above 54. -/
def appendToBuilt (built matching : Move) : Except Fault Move :=
  if built.movements.isEmpty then Except.ok matching
  else Move.new built.cardID built.handIndex (built.movements ++ matching.movements)

/-- The step count of the split branch of `onBoardPositionClicked`: the position of the selected
marble is read from the scratch state of the split (from the game state when there is none),
`calculateMoveSteps` gives the steps from there to the clicked position, and the result is the
total after `totalSevenMoveValue_ += moveValue`, in `size_t` arithmetic. -/
def MovePhaseController.countSevenPart (c : MovePhaseController)
    (selectedMarble : MarbleIdentifier) (pos : Position) : Except Fault Nat :=
  let stateOfMarble := c.sevenTempGameState_.getD c.gameState_
  if selectedMarble.playerID < 4 then
    match stateOfMarble.getPlayerByIndex selectedMarble.playerID with
    | none => Except.error Fault.badOptionalAccess
    | some owner =>
      match owner.getMarblePosition selectedMarble.marbleIdx with
      | Except.error e => Except.error e
      | Except.ok currentPos =>
        match calculateMoveSteps c.gameState_ c.myPlayerIndex_ currentPos pos with
        | Except.error e => Except.error e
        | Except.ok moveValue => Except.ok ((c.totalSevenMoveValue_ + moveValue) % sizeMod)
  else Except.error Fault.outOfRange

/-- The split branch of `onBoardPositionClicked` (CASE 4 with a SEVEN or a joker played as one)
for the selected marble and the matching move: the steps are counted (`countSevenPart`), the
matching move is appended to the move under construction and applied to the scratch state; a
total of 7 sends the built move; a total above 7 clears the selection and, there being no
`return` in that branch, goes on to the submission of a normal move, which sends the matching
move; a total below 7 computes the options of the remaining budget. -/
def MovePhaseController.submitSevenPart (c : MovePhaseController)
    (selectedMarble : MarbleIdentifier) (pos : Position) (matching : Move) :
    Except Fault MovePhaseController :=
  match c.countSevenPart selectedMarble pos with
  | Except.error e => Except.error e
  | Except.ok total =>
    match appendToBuilt c.builtSevenMove_ matching with
    | Except.error e => Except.error e
    | Except.ok built =>
      let tempResult : Except Fault (Option GameState) :=
        match c.sevenTempGameState_ with
        | none => Except.ok none
        | some temp =>
          match applyTempSevenMove temp matching.movements with
          | Except.error e => Except.error e
          | Except.ok temp1 => Except.ok (some temp1)
      match tempResult with
      | Except.error e => Except.error e
      | Except.ok temp1 =>
        let c1 : MovePhaseController :=
          { c with totalSevenMoveValue_ := total, builtSevenMove_ := built,
                   sevenTempGameState_ := temp1 }
        if total = 7 then
          Except.ok { c1 with sentMoves := c1.sentMoves ++ [built] }.clearSelection
        else if total > 7 then
          Except.ok
            { c1.clearSelection with
              sentMoves := c1.sentMoves ++ [matching] }.clearSelection
        else
          let syntheticCardID := 7 - total - 1
          match temp1 with
          | none => Except.ok { c1 with selectedMarble_ := none }
          | some temp2 =>
            if c1.selectedHandIndex_ < 0 ∨ c1.selectedCardID_ < 0 then
              Except.error Fault.outOfRange
            else
              match computeLegalMoves temp2
                  (some (syntheticCardID, c1.selectedHandIndex_.toNat,
                    c1.selectedCardID_.toNat)) true with
              | Except.error e => Except.error e
              | Except.ok moves =>
                MovePhaseController.filterByCard
                  { c1 with selectedMarble_ := none, sevenMoves_ := moves }
                  c1.selectedHandIndex_

/-- Method `MovePhaseController::onBoardPositionClicked`. -/
def MovePhaseController.onBoardPositionClicked (c : MovePhaseController) (pos : Position) :
    Except Fault MovePhaseController :=
  if ¬ c.gameState_.isMyTurn c.myPlayerIndex_ then Except.ok c
  else
    let marbleId := isFieldOccupied (c.sevenTempGameState_.getD c.gameState_) pos
    if c.selectedHandIndex_ = -1 then Except.ok c
    else
      match marbleId.filter fun occ => decide (occ.playerID = c.myPlayerIndex_) with
      | some own =>
        match c.filterByCard c.selectedHandIndex_ with
        | Except.error e => Except.error e
        | Except.ok c1 =>
          match c1.filterByMarble own with
          | Except.error e => Except.error e
          | Except.ok (c2, hasMovesForMarble) =>
            if ¬ hasMovesForMarble then Except.ok c2
            else Except.ok { c2 with selectedMarble_ := some own }
      | none =>
        match c.selectedMarble_ with
        | none => Except.ok c
        | some selectedMarble =>
          match c.findMatchingMove pos with
          | Except.error e => Except.error e
          | Except.ok none => Except.ok c
          | Except.ok (some matching) =>
            match c.handCard c.selectedHandIndex_ with
            | Except.error e => Except.error e
            | Except.ok selectedCardID =>
              match c.isSevenSelection selectedCardID with
              | Except.error e => Except.error e
              | Except.ok true => c.submitSevenPart selectedMarble pos matching
              | Except.ok false =>
                Except.ok { c with sentMoves := c.sentMoves ++ [matching] }.clearSelection

/-! ## Vocabulary of the statements -/

instance instDecidableEqExcept {ε α : Type} [DecidableEq ε] [DecidableEq α] :
    DecidableEq (Except ε α)
  | Except.ok a, Except.ok b => decidable_of_iff (a = b) ⟨congrArg Except.ok, Except.ok.inj⟩
  | Except.error a, Except.error b =>
    decidable_of_iff (a = b) ⟨congrArg Except.error, Except.error.inj⟩
  | Except.ok _, Except.error _ => isFalse (fun h => nomatch h)
  | Except.error _, Except.ok _ => isFalse (fun h => nomatch h)

/-- Marble `k` of seat `q` stands on `pos`, compared the way `isFieldOccupied` compares: on
TRACK by index alone, in HOME and FINISH by index and owner. -/
def GameState.stands (s : GameState) (q k : Fin 4) (pos : Position) : Bool :=
  match s.players q with
  | none => false
  | some pl => fieldMatches pos (pl.marbles k)

/-- Seat invariant of the data model: the player at seat `q` has id `q` and start field
`16 * q`. -/
def GameState.seatsWellFormed (s : GameState) : Bool :=
  seatIds.all fun q =>
    match s.players q with
    | none => true
    | some pl => decide (pl.id = q.val) && decide (pl.startField = 16 * q.val)

/-- Some present player whose start is flagged blocked has `field` as start field. -/
def GameState.blockedStartAt (s : GameState) (field : Nat) : Bool :=
  seatIds.any fun q =>
    match s.players q with
    | none => false
    | some pl => pl.isStartBlocked && decide (pl.startField = field)

/-- The `j`-th field of the walk of `moveValue` steps from track index `index`, in the direction
of travel and with wrap-around; `j = 0` is the origin, `j = |moveValue|` the destination. -/
def walkField (index : Nat) (moveValue : Int) (j : Nat) : Nat :=
  (((index : Int) + (if moveValue < 0 then -(j : Int) else (j : Int))) % 64).toNat

/-- No other marble of the player shares the position of marble `m`, so that the position
identifies the marble. -/
def Player.marbleIdentified (p : Player) (m : Fin 4) : Bool :=
  seatIds.all fun j => !(p.marbles j).equals (p.marbles m) || decide (j = m)

/-- The marbles a swap can take, in seat then marble order, each with its position: the
marbles of the other present players that are on TRACK and are not their owner's start-blocking
marble. -/
def swapTargets (s : GameState) : List (MarbleIdentifier × Position) :=
  seatIds.flatMap fun q =>
    match s.players q with
    | none => []
    | some opp =>
      if q.val = s.currentPlayer then []
      else
        (seatIds.filter fun k =>
          decide ((opp.marbles k).boardLocation = BoardLocation.TRACK) &&
            !decide (opp.startBlocked = some k.val)).map fun k =>
          ({ playerID := q.val, marbleIdx := k.val }, opp.marbles k)

/-- A move is justified by a rule of its card when its first movement moves a marble `m` of the
current player and the comparison of `isValidTurn` accepts its movements against the result of
`validateMove` for `m` and that rule. -/
def Justified (s : GameState) (cp : Player) (card : Card) (rule : MoveType × Int) (mv : Move) :
    Prop :=
  ∃ (m : Fin 4) (e : Position) (rest val : List Movement),
    mv.movements = ({ playerID := s.currentPlayer, marbleIdx := m.val }, e) :: rest ∧
    validateMove s card (cp.marbles m) rule false = Except.ok (some val) ∧
    ruleMatches mv.movements val = true

/-- Two records of a player agree in everything but the marbles and the start-blocked flag. -/
def Player.sameCore (a b : Player) : Prop :=
  a.hand = b.hand ∧ a.activeInRound = b.activeInRound ∧ a.activeInGame = b.activeInGame ∧
    a.id = b.id ∧ a.startField = b.startField

/-- Two states have the same seats taken, agree on every player in everything but the marbles
and the start-blocked flag, and on every field of the state besides the players. -/
def GameState.sameFrame (s s1 : GameState) : Prop :=
  s1.currentPlayer = s.currentPlayer ∧ s1.leaderBoard = s.leaderBoard ∧
    s1.roundStartPlayer = s.roundStartPlayer ∧ s1.roundCardCount = s.roundCardCount ∧
    s1.lastPlayedCard = s.lastPlayedCard ∧ s1.deck = s.deck ∧
    ∀ q : Fin 4,
      match s.players q, s1.players q with
      | none, none => True
      | some a, some b => b.sameCore a
      | _, _ => False

/-- Every movement of the list names a present seat and a marble index below 4. -/
def GameState.movementsWellFormed (s : GameState) (movements : List Movement) : Bool :=
  movements.all fun x => decide (x.1.marbleIdx < 4) && (s.getPlayerByIndex x.1.playerID).isSome

/-- No leaderboard entry is the largest `int`, so that the next rank can be computed. -/
def GameState.ranksInRange (s : GameState) : Bool :=
  seatIds.all fun q =>
    match s.leaderBoard q with
    | none => true
    | some r => decide (r < intMax)

/-- The leaderboard entry of seat `index`, unset outside the array. -/
def GameState.rankAt (s : GameState) (index : Nat) : Option Int :=
  if h : index < 4 then s.leaderBoard ⟨index, h⟩ else none
/-- Seat `index` is present and its player satisfies `active`: the test of the probing loop. -/
def GameState.seatSatisfies (s : GameState) (active : Player → Bool) (index : Nat) : Bool :=
  match s.getPlayerByIndex index with
  | none => false
  | some pl => active pl

/-- The largest finish rank on the leaderboard, `0` when no seat holds one: the maximum over
the entries that are at least 1. -/
def largestFinishRank (s : GameState) : Int :=
  seatIds.foldl
    (fun best q =>
      match s.leaderBoard q with
      | some r => if 1 ≤ r then max best r else best
      | none => best)
    0

/-- The states of a game after `n` moves that finished their player: a game starts from the
constructor, and goes on by a new round, a move, a fold, the end of a turn or the disconnection
of a seat, each as far as the call returns. -/
inductive GameRun : Nat → GameState → Prop
  | start (gamePlayers : Fin 4 → Option String) : GameRun 0 (GameState.new gamePlayers)
  | deal {n : Nat} {s : GameState} (cardIndices : List Nat) (s1 : GameState) :
      GameRun n s → newRound s cardIndices = Except.ok s1 → GameRun n s1
  | move {n : Nat} {s : GameState} (mv : Move) (s1 : GameState) (fin : Bool) :
      GameRun n s → executeMove s mv = Except.ok (s1, fin) →
      GameRun (if fin then n + 1 else n) s1
  | fold {n : Nat} {s : GameState} (s1 : GameState) :
      GameRun n s → executeFold s = Except.ok s1 → GameRun n s1
  | turn {n : Nat} {s : GameState} (s1 : GameState) (r : Bool × Bool) :
      GameRun n s → endTurn s = Except.ok (s1, r) → GameRun n s1
  | disconnect {n : Nat} {s : GameState} (playerIndex : Nat) (s1 : GameState) :
      GameRun n s → disconnectPlayer s playerIndex = Except.ok s1 → GameRun n s1

/-- The leaderboard after `n` finishing moves: no entry is above `n`, every rank from 1 to `n`
is held by a seat, and a player whose seat holds a rank or the entry -1 has no cards and is not
active in the game. -/
def GameState.rankedUpTo (s : GameState) (n : Nat) : Prop :=
  (∀ q r, s.leaderBoard q = some r → r ≤ (n : Int)) ∧
  (∀ r : Nat, 1 ≤ r → r ≤ n → ∃ q, s.leaderBoard q = some (r : Int)) ∧
  (∀ q pl, s.players q = some pl → s.leaderBoard q ≠ none → s.leaderBoard q ≠ some 0 →
    pl.hand = [] ∧ pl.activeInGame = false)

/-- A step of a game that assigns no finish rank: a leaderboard entry changes only from unset
or 0, to 0 or to -1, in the latter case for a player left without cards and not active in the
game; every player is there before and after; no player becomes active in the game, and a
hand changes only to the empty hand or for a player that was active in the game or held a
card. -/
def GameState.stepsTo (s s1 : GameState) : Prop :=
  (∀ q, s1.leaderBoard q = s.leaderBoard q ∨
    ((s.leaderBoard q = none ∨ s.leaderBoard q = some 0) ∧
      (s1.leaderBoard q = some 0 ∨
        (s1.leaderBoard q = some (-1) ∧
          ∀ pl1, s1.players q = some pl1 → pl1.hand = [] ∧ pl1.activeInGame = false)))) ∧
  (∀ q pl1, s1.players q = some pl1 → ∃ pl, s.players q = some pl ∧
    (pl1.activeInGame = false ∨ pl1.activeInGame = pl.activeInGame) ∧
    (pl1.hand = [] ∨ pl1.hand = pl.hand ∨ pl.activeInGame = true ∨ pl.hand ≠ []))

/-- A player without the cards in hand. -/
def Player.withoutHand (p : Player) : Player := { p with hand := [] }

/-- A game state in which the hand of every present player is emptied. -/
def GameState.withoutHands (s : GameState) : GameState :=
  { s with players := fun q => (s.players q).map Player.withoutHand }

/-- A target position is a stopping option of `k` steps for a marble on track index `i` of a
player with start field `startField`: the TRACK field `k` steps ahead, or a FINISH slot whose
index, the steps to the start field and the step from the start field into the lane add up to
`k`. -/
def isOptionOfSteps (startField i k : Nat) (target : Position) : Bool :=
  (decide (target.boardLocation = BoardLocation.TRACK) && decide (target.index = (i + k) % 64)) ||
    (decide (target.boardLocation = BoardLocation.FINISH) &&
      decide ((startField + 64 - i) % 64 + target.index + 1 = k))

/-- The value of the finish-entry offset of `checkSimpleMove` computed in the integers. -/
def finishEntryExact (moveValue : Int) (endIndex startFieldIdx : Nat) : Int :=
  if moveValue > 0 then (endIndex : Int) - startFieldIdx - 1
  else if startFieldIdx = 0 then 64 - (endIndex : Int) - 1
  else (startFieldIdx : Int) - endIndex - 1

/-- Marbles `m` of seat `p` and `n` of seat `q` do not stand on the same field, in the sense of
`Position::equals`; an empty seat has no marbles. -/
def standsApart (s : GameState) (p m q n : Fin 4) : Bool :=
  match s.players p, s.players q with
  | some pl, some ql => !((pl.marbles m).equals (ql.marbles n))
  | _, _ => true

/-- No two marbles occupy the same field. -/
def exclusiveOccupancy (s : GameState) : Bool :=
  decide (∀ p m q n : Fin 4, (p ≠ q ∨ m ≠ n) → standsApart s p m q n = true)

/-- Marble `m` of seat `p` is not in HOME or sits in its own home slot, slot `m` of seat `p`. -/
def inOwnSlot (s : GameState) (p m : Fin 4) : Bool :=
  match s.players p with
  | none => true
  | some pl =>
    decide ((pl.marbles m).boardLocation = BoardLocation.HOME →
      pl.marbles m = { boardLocation := BoardLocation.HOME, index := m.val, playerID := p.val })

/-- Every marble in HOME sits in its own home slot. -/
def homeInOwnSlot (s : GameState) : Bool :=
  decide (∀ p m : Fin 4, inOwnSlot s p m = true)

/-- The position of the marble `x`: none for an empty seat, a seat outside the array or a
marble index above 3. -/
def GameState.marbleAt (s : GameState) (x : MarbleIdentifier) : Option Position :=
  match s.getPlayerByIndex x.playerID with
  | none => none
  | some pl => if h : x.marbleIdx < 4 then some (pl.marbles ⟨x.marbleIdx, h⟩) else none

/-- No two marbles of an assignment of positions stand on the same field. -/
def positionsExclusive (f : MarbleIdentifier → Option Position) : Prop :=
  ∀ x y a b, x ≠ y → f x = some a → f y = some b → a.equals b = false

/-- Every marble of an assignment of positions that is in HOME sits in its own home slot. -/
def positionsHomeOwn (f : MarbleIdentifier → Option Position) : Prop :=
  ∀ x a, f x = some a → a.boardLocation = BoardLocation.HOME → a = (sendHome x).2

/-- The target of the last movement of the list that moves the marble `y`. -/
def lastTarget : List Movement → MarbleIdentifier → Option Position
  | [], _ => none
  | x :: rest, y =>
    match lastTarget rest y with
    | some t => some t
    | none => if x.1 = y then some x.2 else none

/-- The positions after the movements of the list: the last target of a marble that is moved,
the old position of any other. -/
def writtenPositions (f : MarbleIdentifier → Option Position) (l : List Movement) :
    MarbleIdentifier → Option Position :=
  fun y =>
    match lastTarget l y with
    | some t => some t
    | none => f y

/-- A list of movements in which the marble `mover` walks and captures: every movement takes
the mover to a field outside HOME or another marble to its own home slot, and a marble that
holds the last target of the mover is moved by the list. -/
def captureWalk (s : GameState) (mover : MarbleIdentifier) (l : List Movement) : Prop :=
  (∀ x ∈ l, (x.1 = mover ∧ x.2.boardLocation ≠ BoardLocation.HOME) ∨
    (x.1 ≠ mover ∧ x.2 = (sendHome x.1).2)) ∧
  ∀ t, lastTarget l mover = some t →
    isFieldOccupied s t = none ∨
      ∃ occ, isFieldOccupied s t = some occ ∧ occ ≠ mover ∧ lastTarget l occ ≠ none

/-- The entries the occupation test of `checkSimpleMove` appends for one candidate end
position: the movement of the mover if the field is free, nothing if a marble of the current
player holds it, the movement and the capture if a marble of another player holds it. -/
def occupationBlock (s : GameState) (mover : MarbleIdentifier) (e : Position) : List Movement :=
  match isFieldOccupied s e with
  | none => [(mover, e)]
  | some occ => if occ.playerID = s.currentPlayer then [] else [(mover, e), sendHome occ]

/-- The walking options `checkSevenMove` returns for the budget `r`; the empty list stands for
`std::nullopt`. -/
def sevenOptions (s : GameState) (marblePos : Position) (r : Nat) :
    Except Fault (List Movement) :=
  (checkSevenMove s marblePos (r : Int)).map fun res => res.getD []

/-- The entries of one step of a split walk, as the statements about `checkSevenMove` describe
them: an entry sends a marble of another player to HOME, or moves the mover to a target that
the controller counts as `k` steps from `pos`. -/
def stepEntries (s : GameState) (pos : Position) (mover : MarbleIdentifier) (k : Nat)
    (added : List Movement) : Prop :=
  (∀ x rest, added = x :: rest → x.1 = mover) ∧
  ∀ x ∈ added,
    (x.1.playerID ≠ s.currentPlayer ∧ x.2.boardLocation = BoardLocation.HOME) ∨
    (x.1 = mover ∧ calculateMoveSteps s s.currentPlayer pos x.2 = Except.ok k)

/-- The rule of the start-blocked flag for one movement of a marble of the current player: the
flag is unset when the marble is the one recorded as start-blocking, becomes the index of the
marble when the marble stood in HOME, and stays what it was otherwise. -/
def flagAfterMovement (flag : Option Nat) (wasInHome : Bool) (marbleIdx : Nat) : Option Nat :=
  if flag = some marbleIdx then none
  else if wasInHome then some marbleIdx
  else flag

/-- The start-blocked flag and the marbles of the current player along the movements of a move:
each movement of a marble of the current player changes the flag by `flagAfterMovement` and
puts the marble on its target; the movements of other marbles change neither. -/
def ownTrace (currentPlayer : Nat) :
    Option Nat × (Fin 4 → Position) → List Movement → Option Nat × (Fin 4 → Position)
  | st, [] => st
  | st, x :: rest =>
    if h : x.1.playerID = currentPlayer ∧ x.1.marbleIdx < 4 then
      ownTrace currentPlayer
        (flagAfterMovement st.1 (st.2 ⟨x.1.marbleIdx, h.2⟩).isInHome x.1.marbleIdx,
         Function.update st.2 ⟨x.1.marbleIdx, h.2⟩ x.2) rest
    else ownTrace currentPlayer st rest

/-! ## Example states -/

/-- Replace marble `i` of a player. -/
def Player.withMarble (p : Player) (i : Fin 4) (pos : Position) : Player :=
  { p with marbles := Function.update p.marbles i pos }

/-- Apply `f` to the player at seat `q`, if present. -/
def GameState.mapPlayer (s : GameState) (q : Fin 4) (f : Player → Player) : GameState :=
  { s with players := Function.update s.players q ((s.players q).map f) }

/-- Fresh game with seats 0 and 1 taken, as in the test suite. -/
def twoPlayers : GameState := GameState.new ![some "ID0", some "ID1", none, none]

/-- Fresh game with all four seats taken. -/
def fourPlayers : GameState := GameState.new ![some "ID0", some "ID1", some "ID2", some "ID3"]

/-- Replace the hand of a player. -/
def Player.withHand (p : Player) (cards : List Nat) : Player := { p with hand := cards }

/-- Flag marble `k` as blocking the start of a player. -/
def Player.withStartBlocked (p : Player) (k : Nat) : Player := { p with startBlocked := some k }

/-- The two-seat game with the given players at seats 0 and 1. -/
def twoSeats (p0 p1 : Player) : GameState :=
  { twoPlayers with players := ![some p0, some p1, none, none] }

/-- Seat 0 of the test `validateSimpleMove`: marble 0 on TRACK 5, a FIVE in hand. -/
def walkerP0 : Player :=
  ((Player.new 0 "ID0").withMarble 0
    { boardLocation := BoardLocation.TRACK, index := 5, playerID := 0 }).withHand [4]

/-- Seat 1 with marble 0 on TRACK 10. -/
def targetP1 : Player :=
  (Player.new 1 "ID1").withMarble 0
    { boardLocation := BoardLocation.TRACK, index := 10, playerID := 0 }

/-- State of the test `ValidMoveWithKickout`: seat 0 on TRACK 5 with a FIVE, seat 1 on TRACK 10. -/
def kickoutState : GameState := twoSeats walkerP0 targetP1

/-- Seat 1 with marble 0 on seat 0's start field. -/
def squatterP1 : Player :=
  (Player.new 1 "ID1").withMarble 0
    { boardLocation := BoardLocation.TRACK, index := 0, playerID := 1 }

/-- Seat 0 holds an ACE, all marbles in HOME; a marble of seat 1 stands on seat 0's start. -/
def startCaptureState : GameState := twoSeats ((Player.new 0 "ID0").withHand [0]) squatterP1

/-- Seat 0 with marble 0 on TRACK 13, three fields before seat 1's start field. -/
def approachP0 : Player :=
  ((Player.new 0 "ID0").withMarble 0
    { boardLocation := BoardLocation.TRACK, index := 13, playerID := 0 }).withHand [4]

/-- Seat 1 with marble 0 on its own start field, flagged as blocking it. -/
def blockerP1 : Player :=
  ((Player.new 1 "ID1").withMarble 0
    { boardLocation := BoardLocation.TRACK, index := 16, playerID := 1 }).withStartBlocked 0

/-- State of the test `CannotCrossBlockedStartField`. -/
def blockedCrossState : GameState := twoSeats approachP0 blockerP1

/-- Seat 0 with marble 0 on its own start field, flagged as blocking it, a THREE in hand. -/
def onStartP0 : Player :=
  (((Player.new 0 "ID0").withMarble 0
    { boardLocation := BoardLocation.TRACK, index := 0, playerID := 0 }).withStartBlocked 0).withHand [2]

/-- State of the test `BlockedStartPreventesFinishEntry`. -/
def onStartState : GameState := twoSeats onStartP0 (Player.new 1 "ID1")

/-- Seat 0 with marble 0 on FINISH 0, a THREE in hand. -/
def finishP0 : Player :=
  ((Player.new 0 "ID0").withMarble 0
    { boardLocation := BoardLocation.FINISH, index := 0, playerID := 0 }).withHand [2]

/-- Seat 0 with marble 0 on TRACK 20, a JACK in hand. -/
def swapP0 : Player :=
  ((Player.new 0 "ID0").withMarble 0
    { boardLocation := BoardLocation.TRACK, index := 20, playerID := 0 }).withHand [10]

/-- Seat 1 with marble 0 on TRACK 30. -/
def swapP1 : Player :=
  (Player.new 1 "ID1").withMarble 0
    { boardLocation := BoardLocation.TRACK, index := 30, playerID := 1 }

/-- State of the test `validateSwapMove`. -/
def swapState : GameState := twoSeats swapP0 swapP1

/-- Seat 0 with marbles on TRACK 62 and TRACK 40, two in HOME, holding an ACE, a JACK and a
FOUR. -/
def richP0 : Player :=
  (((Player.new 0 "ID0").withMarble 0
    { boardLocation := BoardLocation.TRACK, index := 62, playerID := 0 }).withMarble 1
    { boardLocation := BoardLocation.TRACK, index := 40, playerID := 0 }).withHand [0, 10, 3]

/-- Seat 1 with marbles on TRACK 30 and on seat 0's start field. -/
def richP1 : Player :=
  ((Player.new 1 "ID1").withMarble 0
    { boardLocation := BoardLocation.TRACK, index := 30, playerID := 1 }).withMarble 1
    { boardLocation := BoardLocation.TRACK, index := 0, playerID := 1 }

/-- A state in which the legal moves include start moves with a capture, a finish/track fork,
backward moves and swaps. -/
def richState : GameState := twoSeats richP0 richP1

/-- State of the test `ValidSimpleMove`: seat 0 on TRACK 5 with a FIVE, nothing else on the
track. -/
def walkerState : GameState := twoSeats walkerP0 (Player.new 1 "ID1")

/-- State of the test `InvalidMoveWrongMarble`: seat 0 on TRACK 5 and TRACK 15 with a FIVE. -/
def twoWalkersState : GameState :=
  twoSeats (walkerP0.withMarble 1
    { boardLocation := BoardLocation.TRACK, index := 15, playerID := 0 }) (Player.new 1 "ID1")

/-- State of the test `InvalidFoldWithLegalMoves`: seat 0 holds an ACE, all marbles in HOME. -/
def aceState : GameState := twoSeats ((Player.new 0 "ID0").withHand [0]) (Player.new 1 "ID1")

/-- State of the test `CannotExceedFinishZone`: marble 0 of seat 0 on FINISH 3. -/
def finishEndState : GameState :=
  twoSeats (finishP0.withMarble 0
    { boardLocation := BoardLocation.FINISH, index := 3, playerID := 0 }) (Player.new 1 "ID1")

/-- Seat 0 one step from finishing: marbles on FINISH 3, 2, 1 and on TRACK 63, holding a TWO
and a SIX. -/
def lastStepP0 : Player :=
  (((((Player.new 0 "ID0").withMarble 0
    { boardLocation := BoardLocation.FINISH, index := 3, playerID := 0 }).withMarble 1
    { boardLocation := BoardLocation.FINISH, index := 2, playerID := 0 }).withMarble 2
    { boardLocation := BoardLocation.FINISH, index := 1, playerID := 0 }).withMarble 3
    { boardLocation := BoardLocation.TRACK, index := 63, playerID := 0 }).withHand [1, 5]

/-- The two-seat game in which seat 0 is one step from finishing. -/
def lastStepState : GameState := twoSeats lastStepP0 (Player.new 1 "ID1")

/-- The TWO at hand index 0 takes marble 3 of seat 0 from TRACK 63 to FINISH 0. -/
def lastStepMove : Move :=
  { cardID := 1, handIndex := 0,
    movements := [({ playerID := 0, marbleIdx := 3 },
      { boardLocation := BoardLocation.FINISH, index := 0, playerID := 0 })] }

/-- The ACE at hand index 0 takes marble 0 of seat 0 from HOME to the start field. -/
def startMove : Move :=
  { cardID := 0, handIndex := 0,
    movements := [({ playerID := 0, marbleIdx := 0 },
      { boardLocation := BoardLocation.TRACK, index := 0, playerID := 0 })] }

/-- Take a player out of the round. -/
def Player.outOfRound (p : Player) : Player := { p with activeInRound := false }

/-- A two-seat game in which both players have left the round. -/
def roundOverState : GameState :=
  twoSeats (Player.new 0 "ID0").outOfRound (Player.new 1 "ID1").outOfRound

/-- Seat 0 is one step from finishing and holds a TWO as its last card; seats 1 and 2 have left
the round and are active in the game. -/
def roundFinishState : GameState :=
  { fourPlayers with
    players := ![some (lastStepP0.withHand [1]), some (Player.new 1 "ID1").outOfRound,
      some (Player.new 2 "ID2").outOfRound, none] }

/-- The START move that `computeLegalMoves` duplicates for marble 1 of seat 0. -/
def duplicateStartMove : Move :=
  { cardID := 0, handIndex := 0,
    movements := [({ playerID := 0, marbleIdx := 1 },
      { boardLocation := BoardLocation.TRACK, index := 0, playerID := 0 })] }

/-- A move whose card id is 54, one past the last deck index, for marble 0 of seat 0. -/
def card54Move : Move :=
  { cardID := 54, handIndex := 0,
    movements := [({ playerID := 0, marbleIdx := 0 },
      { boardLocation := BoardLocation.TRACK, index := 0, playerID := 0 })] }

/-- A seat table during a game: seat 0 is connected as "Anna", seat 1 was left by "Bob", seats 2
and 3 were never taken. -/
def leftSeatTable : Fin 4 → ClientInfo :=
  ![{ threadId := 0, id := 0, name := "Anna", isActive := true, isReady := true },
    { threadId := 1, id := 1, name := "Bob", isActive := false, isReady := false },
    ClientInfo.new, ClientInfo.new]

/-- Seat 0 with marbles on FINISH 3, FINISH 2, TRACK 15 and TRACK 14, holding a joker. -/
def jokerFoldP0 : Player :=
  (((((Player.new 0 "ID0").withMarble 0
    { boardLocation := BoardLocation.FINISH, index := 3, playerID := 0 }).withMarble 1
    { boardLocation := BoardLocation.FINISH, index := 2, playerID := 0 }).withMarble 2
    { boardLocation := BoardLocation.TRACK, index := 15, playerID := 0 }).withMarble 3
    { boardLocation := BoardLocation.TRACK, index := 14, playerID := 0 }).withHand [52]

/-- A four-seat game in which every marble of seat 0 has an own marble, a blocked start field
or the end of the finish lane right ahead: marble 0 of seat 1 blocks its start field 16. -/
def jokerFoldState : GameState :=
  { fourPlayers with
    players := ![some jokerFoldP0, some blockerP1, some (Player.new 2 "ID2"),
      some (Player.new 3 "ID3")] }

/-- Seat 0 with marble 0 on TRACK 5 and marble 1 two fields ahead on TRACK 7, holding a SEVEN;
its start is not blocked. -/
def sevenP0 : Player :=
  (((Player.new 0 "ID0").withMarble 0
    { boardLocation := BoardLocation.TRACK, index := 5, playerID := 0 }).withMarble 1
    { boardLocation := BoardLocation.TRACK, index := 7, playerID := 0 }).withHand [6]

/-- A two-seat game in which a marble of seat 0 has another marble of seat 0 ahead. -/
def sevenState : GameState := twoSeats sevenP0 (Player.new 1 "ID1")

/-- Seat 0 with marble 0 on TRACK 60 and marble 1 blocking its start field 0, four fields ahead,
holding a SEVEN. -/
def sevenBlockedP0 : Player :=
  ((((Player.new 0 "ID0").withMarble 0
    { boardLocation := BoardLocation.TRACK, index := 60, playerID := 0 }).withMarble 1
    { boardLocation := BoardLocation.TRACK, index := 0, playerID := 0 }).withStartBlocked 1).withHand
    [6]

/-- A two-seat game in which a marble of seat 0 has the start-blocking marble of seat 0 ahead. -/
def sevenBlockedState : GameState := twoSeats sevenBlockedP0 (Player.new 1 "ID1")

/-- A three-seat game at the last turn of a round that seat 0 started: seats 0 and 1 have played
their cards, seat 2 is the current player and holds its last card, a FIVE, with marble 0 on
TRACK 40. -/
def lastTurnState : GameState :=
  { fourPlayers with
    players := ![some (Player.new 0 "ID0").outOfRound, some (Player.new 1 "ID1").outOfRound,
      some (((Player.new 2 "ID2").withMarble 0
        { boardLocation := BoardLocation.TRACK, index := 40, playerID := 2 }).withHand [4]), none],
    currentPlayer := 2 }

/-- The FIVE at hand index 0 takes marble 0 of seat 2 from TRACK 40 to TRACK 45. -/
def lastTurnMove : Move :=
  { cardID := 4, handIndex := 0,
    movements := [({ playerID := 2, marbleIdx := 0 },
      { boardLocation := BoardLocation.TRACK, index := 45, playerID := 2 })] }

/-- A game-state update as the client buffers it. -/
def updateText (turn : String) : String :=
  "\x7b\x22gameState\x22:" ++ turn ++ ",\x22msgType\x22:\x22BRDC_GAMESTATE_UPDATE\x22\x7d"

/-- The private message with the dealt cards as the client buffers it. -/
def cardsDealtText : String := "\x7b\x22cards\x22:[3,17],\x22msgType\x22:\x22PRIV_CARDS_DEALT\x22\x7d"

/-- The client in the lobby, with the callback of the lobby frame set. -/
def lobbyClient : Client :=
  { state_ := ClientState.LOBBY, transitionBuffer_ := [], pendingMessages_ := [],
    callbackSet := true, delivered := [] }

/-- The game-start broadcast. -/
def gameStartMessage : ServerMessage :=
  { messageType := some MessageType.BRDC_GAME_START,
    dump := "\x7b\x22msgType\x22:\x22BRDC_GAME_START\x22\x7d" }

/-- What arrives while the game frame is built: the first game state, the dealt cards, and the
game state after the first turn. -/
def transitionMessages : List ServerMessage :=
  [{ messageType := some MessageType.BRDC_GAMESTATE_UPDATE, dump := updateText "1" },
   { messageType := some MessageType.PRIV_CARDS_DEALT, dump := cardsDealtText },
   { messageType := some MessageType.BRDC_GAMESTATE_UPDATE, dump := updateText "2" }]

/-- Fresh game with seats 0, 1 and 2 taken. -/
def threePlayers : GameState := GameState.new ![some "ID0", some "ID1", some "ID2", none]

/-- An ACE walk of marble 0 of seat 0 from TRACK 5 to TRACK 6, played by a player who holds no
ACE. -/
def wrongCardMove : Move :=
  { cardID := 0, handIndex := 0,
    movements := [({ playerID := 0, marbleIdx := 0 },
      { boardLocation := BoardLocation.TRACK, index := 6, playerID := 0 })] }

/-- A fold: a move without movements. -/
def foldMove : Move := { cardID := 52, handIndex := 0, movements := [] }

/-- The two-seat game in which seat 0 holds a JOKER, all marbles in HOME. -/
def jokerTwoSeats : GameState :=
  twoSeats ((Player.new 0 "ID0").withHand [52]) (Player.new 1 "ID1")

/-- The FIVE walk of marble 0 of seat 0 from TRACK 5 to TRACK 10 with hand index 1, one past the
only card of the hand. -/
def badIndexMove : Move :=
  { cardID := 4, handIndex := 1,
    movements := [({ playerID := 0, marbleIdx := 0 },
      { boardLocation := BoardLocation.TRACK, index := 10, playerID := 0 })] }

/-- Seat 0 with marble 0 on TRACK 63, one field before its start field, and marble 1 on the
first slot of its finish lane, holding a SEVEN. -/
def passFinishP0 : Player :=
  (((Player.new 0 "ID0").withMarble 0
    { boardLocation := BoardLocation.TRACK, index := 63, playerID := 0 }).withMarble 1
    { boardLocation := BoardLocation.FINISH, index := 0, playerID := 0 }).withHand [6]

/-- A two-seat game in which a marble of seat 0 is about to enter the finish lane, whose first
slot holds another marble of seat 0. -/
def passFinishState : GameState := twoSeats passFinishP0 (Player.new 1 "ID1")

/-- Seat 0 with marble 0 on TRACK 5, marble 1 on TRACK 20, marble 2 on the last finish slot and
marble 3 in HOME, holding an ACE. -/
def pickerP0 : Player :=
  ((((Player.new 0 "ID0").withMarble 0
    { boardLocation := BoardLocation.TRACK, index := 5, playerID := 0 }).withMarble 1
    { boardLocation := BoardLocation.TRACK, index := 20, playerID := 0 }).withMarble 2
    { boardLocation := BoardLocation.FINISH, index := 3, playerID := 0 }).withHand [0]

/-- A two-seat game in which seat 0 has marbles that can move with the ACE and one that
cannot. -/
def pickerState : GameState := twoSeats pickerP0 (Player.new 1 "ID1")

/-- The controller of seat 0 on `pickerState` after the legal moves have been set, the ACE has
been clicked and marble 0 has been selected by a click on TRACK 5. -/
def pickerSelected : Except Fault MovePhaseController :=
  (computeLegalMoves pickerState none false).bind fun moves =>
    (((MovePhaseController.new 0 pickerState).setLegalMoves moves).onCardClicked 0).bind fun c =>
      c.onBoardPositionClicked { boardLocation := BoardLocation.TRACK, index := 5, playerID := 0 }

/-- The controller `pickerSelected` after a click on marble 2 of seat 0, which has no move. -/
def pickerMissed : Except Fault MovePhaseController :=
  pickerSelected.bind fun c =>
    c.onBoardPositionClicked { boardLocation := BoardLocation.FINISH, index := 3, playerID := 0 }

/-- The marbles of the first movements of the filtered moves of a controller. -/
def MovePhaseController.filteredMarbles (c : MovePhaseController) : List (Option MarbleIdentifier) :=
  c.filteredMoves_.map fun mv => mv.movements.head?.map fun x => x.1

/-- The move of `kickoutState` that takes marble 0 of seat 0 five steps on and sends the marble
of seat 1 it meets home. -/
def kickoutMove : Move :=
  { cardID := 4, handIndex := 0,
    movements :=
      [({ playerID := 0, marbleIdx := 0 },
        { boardLocation := BoardLocation.TRACK, index := 10, playerID := 0 }),
       ({ playerID := 1, marbleIdx := 0 },
        { boardLocation := BoardLocation.HOME, index := 0, playerID := 1 })] }

/-- A two-seat game in which seat 1 is to play, holding an ACE and a KING with all marbles in
HOME, while marble 0 of seat 0 stands on TRACK 16, the start field of seat 1; seat 0 has left
the round. -/
def sharedStartBase : GameState :=
  { twoSeats
      ((Player.new 0 "ID0").withMarble 0
        { boardLocation := BoardLocation.TRACK, index := 16, playerID := 0 }).outOfRound
      ((Player.new 1 "ID1").withHand [0, 12]) with
    currentPlayer := 1 }

/-- The START move that `computeLegalMoves` lists for marble 1 of seat 1 in `sharedStartBase`:
the ACE at hand index 0 takes the marble onto TRACK 16, without a movement for the marble of
seat 0 that stands there. -/
def dupStartOfSeat1 : Move :=
  { cardID := 0, handIndex := 0,
    movements := [({ playerID := 1, marbleIdx := 1 },
      { boardLocation := BoardLocation.TRACK, index := 16, playerID := 1 })] }

/-- The game after seat 1 has played `dupStartOfSeat1` in `sharedStartBase` and the turn has
ended. -/
def sharedStart : Except Fault GameState :=
  (executeMove sharedStartBase dupStartOfSeat1).bind fun r => (endTurn r.1).map fun t => t.1

/-- A two-seat game in which seat 1 is to play, holding a TWO and a FIVE, with marble 0 on
TRACK 25 and marble 1 on TRACK 28, while marble 0 of seat 0 stands on TRACK 30; seat 0 has left
the round. -/
def sharedTrackBase : GameState :=
  { twoSeats
      ((Player.new 0 "ID0").withMarble 0
        { boardLocation := BoardLocation.TRACK, index := 30, playerID := 0 }).outOfRound
      ((((Player.new 1 "ID1").withMarble 0
        { boardLocation := BoardLocation.TRACK, index := 25, playerID := 1 }).withMarble 1
        { boardLocation := BoardLocation.TRACK, index := 28, playerID := 1 }).withHand [1, 4]) with
    currentPlayer := 1 }

/-- The TWO at hand index 0 takes marble 1 of seat 1 from TRACK 28 to TRACK 30, without a
movement for the marble of seat 0 that stands there. -/
def bareTwoMove : Move :=
  { cardID := 1, handIndex := 0,
    movements := [({ playerID := 1, marbleIdx := 1 },
      { boardLocation := BoardLocation.TRACK, index := 30, playerID := 1 })] }

/-- The game after seat 1 has played `bareTwoMove` in `sharedTrackBase` and the turn has
ended. -/
def sharedTrack : Except Fault GameState :=
  (executeMove sharedTrackBase bareTwoMove).bind fun r => (endTurn r.1).map fun t => t.1

/-- The value of a computation that returns, and `fallback` for one that does not. -/
def valueOr {α : Type} (fallback : α) : Except Fault α → α
  | Except.ok a => a
  | Except.error _ => fallback

/-- The move that puts the four marbles of a seat on the four slots of its finish lane, played
with the card at hand index 0. -/
def finishingMove (seat cardID : Nat) : Move :=
  { cardID := cardID, handIndex := 0,
    movements := seatIds.map fun m =>
      ({ playerID := seat, marbleIdx := m.val },
       { boardLocation := BoardLocation.FINISH, index := m.val, playerID := seat }) }

/-- The three-seat game after the first deal, the shuffle having left the cards in order. -/
def runDealt : GameState := valueOr threePlayers (newRound threePlayers (List.range 54))

/-- The game `runDealt` after the finishing move of seat 0. -/
def runFirstFinish : GameState :=
  (valueOr (runDealt, false) (executeMove runDealt (finishingMove 0 0))).1

/-- The game `runFirstFinish` after the end of the turn: seat 1 is to play. -/
def runSecondTurn : GameState :=
  (valueOr (runFirstFinish, (false, false)) (endTurn runFirstFinish)).1

/-- The state `pickerState` with a SEVEN in the hand of seat 0 instead of the ACE: marble 0 on
TRACK 5, marble 1 on TRACK 20, marble 2 on the last finish slot, marble 3 in HOME. -/
def splitPickerState : GameState := twoSeats (pickerP0.withHand [6]) (Player.new 1 "ID1")

/-- The controller of seat 0 on a state after the legal moves and the moves of the SEVEN at hand
index 0 have been set, as the game panel sets them, and the SEVEN has been clicked. -/
def splitOpened (s : GameState) : Except Fault MovePhaseController :=
  (computeLegalMoves s none false).bind fun moves =>
    (computeLegalMoves s (some (6, 0, 6)) true).bind fun seven =>
      (((MovePhaseController.new 0 s).setLegalMoves moves).setSevenMoves seven).onCardClicked 0

/-- The controller after a sequence of clicks on board positions. -/
def clicks (c : Except Fault MovePhaseController) : List Position → Except Fault MovePhaseController
  | [] => c
  | pos :: rest => clicks (c.bind fun c1 => c1.onBoardPositionClicked pos) rest

/-- The controller `splitOpened splitPickerState` after marble 0 has been selected by a click on
TRACK 5 and marble 2, which has no move, has been clicked on FINISH 3. -/
def splitMissed : Except Fault MovePhaseController :=
  clicks (splitOpened splitPickerState)
    [{ boardLocation := BoardLocation.TRACK, index := 5, playerID := 0 },
     { boardLocation := BoardLocation.FINISH, index := 3, playerID := 0 }]

/-- The option of one step of marble 1 of seat 0 in `splitPickerState`, from TRACK 20 to
TRACK 21, as a play of the SEVEN. -/
def oneStepOption : Move :=
  { cardID := 6, handIndex := 0,
    movements := [({ playerID := 0, marbleIdx := 1 },
      { boardLocation := BoardLocation.TRACK, index := 21, playerID := 0 })] }

/-- Seat 0 with marble 0 on TRACK 5 and marble 1 on the first slot of its finish lane, the
others in HOME, holding a SEVEN. -/
def laneP0 : Player :=
  (((Player.new 0 "ID0").withMarble 0
    { boardLocation := BoardLocation.TRACK, index := 5, playerID := 0 }).withMarble 1
    { boardLocation := BoardLocation.FINISH, index := 0, playerID := 0 }).withHand [6]

/-- A two-seat game in which seat 0 has a marble on the track and one on its finish lane. -/
def laneState : GameState := twoSeats laneP0 (Player.new 1 "ID1")

/-- The controller `splitOpened laneState` after marble 1 has been selected by a click on
FINISH 0, marble 2, which has no move, has been clicked in HOME, and TRACK 10, the target of
the option of five steps of marble 0, has been clicked. -/
def laneFirstPart : Except Fault MovePhaseController :=
  clicks (splitOpened laneState)
    [{ boardLocation := BoardLocation.FINISH, index := 0, playerID := 0 },
     { boardLocation := BoardLocation.HOME, index := 2, playerID := 0 },
     { boardLocation := BoardLocation.TRACK, index := 10, playerID := 0 }]

/-- The SEVEN at hand index 0 of `sevenBlockedState` split in two: the start-blocking marble 1
of seat 0 walks five fields from TRACK 0 to TRACK 5, marble 0 two fields from TRACK 60 to
TRACK 62. -/
def splitBlockedMove : Move :=
  { cardID := 6, handIndex := 0,
    movements :=
      [({ playerID := 0, marbleIdx := 1 },
        { boardLocation := BoardLocation.TRACK, index := 5, playerID := 0 }),
       ({ playerID := 0, marbleIdx := 0 },
        { boardLocation := BoardLocation.TRACK, index := 62, playerID := 0 })] }

/-! ## Basic facts -/

theorem mem_seatIds (q : Fin 4) : q ∈ seatIds := by
  fin_cases q <;> simp [seatIds]

theorem getPlayerByIndex_some {s : GameState} {i : Nat} {p : Player}
    (h : s.getPlayerByIndex i = some p) : ∃ hi : i < 4, s.players ⟨i, hi⟩ = some p := by
  unfold GameState.getPlayerByIndex at h
  split at h
  · exact ⟨_, h⟩
  · cases h

theorem getPlayerByIndex_val (s : GameState) (q : Fin 4) :
    s.getPlayerByIndex q.val = s.players q := by
  unfold GameState.getPlayerByIndex
  simp [q.isLt]

theorem Position.equals_refl (p : Position) : p.equals p = true := by
  simp [Position.equals]

theorem fieldMatches_self (p : Position) : fieldMatches p p = true := by
  unfold fieldMatches
  split <;> simp [Position.equals]

theorem find?_unique {α : Type} (p : α → Bool) (l : List α) (a : α) (ha : a ∈ l)
    (hpa : p a = true) (huniq : ∀ b ∈ l, p b = true → b = a) : l.find? p = some a := by
  induction l with
  | nil => cases ha
  | cons x xs ih =>
    by_cases hx : p x = true
    · have := huniq x (List.mem_cons_self _ _) hx
      subst this
      simp [List.find?, hx]
    · have hne : a ≠ x := fun h => hx (h ▸ hpa)
      have ha2 : a ∈ xs := by
        rcases List.mem_cons.1 ha with h | h
        · exact absurd h hne
        · exact h
      simp only [Bool.not_eq_true] at hx
      simp only [List.find?, hx]
      exact ih ha2 (fun b hb => huniq b (List.mem_cons_of_mem _ hb))

theorem marbleIdentified_spec {p : Player} {m : Fin 4} (h : p.marbleIdentified m = true)
    (j : Fin 4) (hj : (p.marbles j).equals (p.marbles m) = true) : j = m := by
  unfold Player.marbleIdentified at h
  have := (List.all_eq_true.1 h) j (mem_seatIds j)
  simpa [hj] using this

theorem getMarbleIndexByPos_own (cp : Player) (m : Fin 4) (hid : cp.marbleIdentified m = true) :
    cp.getMarbleIndexByPos (cp.marbles m) = some m.val := by
  unfold Player.getMarbleIndexByPos
  rw [find?_unique _ seatIds m (mem_seatIds m) (Position.equals_refl _)
    (fun b _ hb => marbleIdentified_spec hid b hb)]
  rfl

theorem getMarbleIndexByPos_isSome (cp : Player) (m : Fin 4) :
    ∃ k : Fin 4, cp.getMarbleIndexByPos (cp.marbles m) = some k.val := by
  unfold Player.getMarbleIndexByPos
  cases h : seatIds.find? fun i => (cp.marbles i).equals (cp.marbles m) with
  | none =>
    rw [List.find?_eq_none] at h
    exact absurd (Position.equals_refl _) (h m (mem_seatIds m))
  | some k => exact ⟨k, rfl⟩

theorem isFieldOccupied_none_iff (s : GameState) (pos : Position) :
    isFieldOccupied s pos = none ↔ ∀ q k, s.stands q k pos = false := by
  unfold isFieldOccupied GameState.stands
  rw [List.findSome?_eq_none_iff]
  constructor
  · intro h q k
    have hq := h q (mem_seatIds q)
    cases hp : s.players q with
    | none => rfl
    | some pl =>
      rw [hp] at hq
      simp only [Option.map_eq_none', List.find?_eq_none] at hq
      simpa using hq k (mem_seatIds k)
  · intro h q _
    cases hp : s.players q with
    | none => rfl
    | some pl =>
      simp only [Option.map_eq_none', List.find?_eq_none]
      intro k _
      have := h q k
      rw [hp] at this
      simpa using this

theorem isFieldOccupied_some_stands {s : GameState} {pos : Position} {occ : MarbleIdentifier}
    (h : isFieldOccupied s pos = some occ) :
    ∃ q k : Fin 4, occ = { playerID := q.val, marbleIdx := k.val } ∧ s.stands q k pos = true := by
  unfold isFieldOccupied at h
  obtain ⟨q, -, hq⟩ := List.exists_of_findSome?_eq_some h
  cases hp : s.players q with
  | none => rw [hp] at hq; cases hq
  | some pl =>
    rw [hp] at hq
    simp only [Option.map_eq_some'] at hq
    obtain ⟨k, hk, rfl⟩ := hq
    refine ⟨q, k, rfl, ?_⟩
    unfold GameState.stands
    rw [hp]
    exact List.find?_some (p := fun mIdx => fieldMatches pos (pl.marbles mIdx)) hk

theorem isFieldOccupied_unique {s : GameState} {pos : Position} {q k : Fin 4}
    (hst : s.stands q k pos = true)
    (huniq : ∀ q1 k1, s.stands q1 k1 pos = true → q1 = q ∧ k1 = k) :
    isFieldOccupied s pos = some { playerID := q.val, marbleIdx := k.val } := by
  cases h : isFieldOccupied s pos with
  | none =>
    have := (isFieldOccupied_none_iff s pos).1 h q k
    rw [hst] at this; cases this
  | some occ =>
    obtain ⟨q1, k1, rfl, h1⟩ := isFieldOccupied_some_stands h
    obtain ⟨rfl, rfl⟩ := huniq q1 k1 h1
    rfl

theorem ownOccupant_true {s : GameState} {pos : Position} {q k : Fin 4}
    (hst : s.stands q k pos = true)
    (hall : ∀ q1 k1, s.stands q1 k1 pos = true → q1.val = s.currentPlayer) :
    ownOccupant s pos = true := by
  unfold ownOccupant
  cases ho : isFieldOccupied s pos with
  | none =>
    have := (isFieldOccupied_none_iff s pos).1 ho q k
    rw [hst] at this; cases this
  | some occ =>
    obtain ⟨q1, k1, rfl, h1⟩ := isFieldOccupied_some_stands ho
    simp [hall q1 k1 h1]

theorem seatsWellFormed_spec {s : GameState} (h : s.seatsWellFormed = true) {q : Fin 4}
    {pl : Player} (hp : s.players q = some pl) : pl.id = q.val ∧ pl.startField = 16 * q.val := by
  unfold GameState.seatsWellFormed at h
  have := (List.all_eq_true.1 h) q (mem_seatIds q)
  rw [hp] at this
  simpa using this

theorem seatsWellFormed_current {s : GameState} (h : s.seatsWellFormed = true) {cp : Player}
    (hcp : s.getPlayerByIndex s.currentPlayer = some cp) :
    cp.startField = 16 * s.currentPlayer := by
  obtain ⟨hi, hp⟩ := getPlayerByIndex_some hcp
  exact (seatsWellFormed_spec h hp).2

/-! ## Start and simple moves: the occupation test on one candidate -/

theorem checkSimpleMove_single_free {s : GameState} {cp : Player} {marblePos e : Position}
    {moveValue : Int} {k : Nat}
    (hcp : s.getPlayerByIndex s.currentPlayer = some cp)
    (hends : possibleEndPositions s cp marblePos moveValue = some [e])
    (hk : cp.getMarbleIndexByPos marblePos = some k)
    (hfree : isFieldOccupied s e = none) :
    checkSimpleMove s marblePos moveValue =
      Except.ok (some [({ playerID := s.currentPlayer, marbleIdx := k }, e)]) := by
  simp [checkSimpleMove, hcp, hends, occupationTest, hfree, hk]

theorem checkSimpleMove_single_own {s : GameState} {cp : Player} {marblePos e : Position}
    {moveValue : Int}
    (hcp : s.getPlayerByIndex s.currentPlayer = some cp)
    (hends : possibleEndPositions s cp marblePos moveValue = some [e])
    (hown : ownOccupant s e = true) :
    checkSimpleMove s marblePos moveValue = Except.ok none := by
  unfold ownOccupant at hown
  cases ho : isFieldOccupied s e with
  | none => rw [ho] at hown; cases hown
  | some occ =>
    rw [ho] at hown
    have hocc : occ.playerID = s.currentPlayer := by simpa using hown
    simp [checkSimpleMove, hcp, hends, occupationTest, ho, hocc]

theorem checkSimpleMove_single_capture {s : GameState} {cp : Player} {marblePos e : Position}
    {moveValue : Int} {k : Nat} {occ : MarbleIdentifier}
    (hcp : s.getPlayerByIndex s.currentPlayer = some cp)
    (hends : possibleEndPositions s cp marblePos moveValue = some [e])
    (hk : cp.getMarbleIndexByPos marblePos = some k)
    (hocc : isFieldOccupied s e = some occ) (hopp : occ.playerID ≠ s.currentPlayer) :
    checkSimpleMove s marblePos moveValue =
      Except.ok (some [({ playerID := s.currentPlayer, marbleIdx := k }, e),
        (occ, { boardLocation := BoardLocation.HOME, index := occ.marbleIdx,
                playerID := occ.playerID })]) := by
  simp [checkSimpleMove, hcp, hends, occupationTest, hocc, hopp, hk]

/-- The three outcomes of the occupation test when `checkSimpleMove` has the single candidate
end position `e` and the marble is identified by its position. -/
theorem checkSimpleMove_single {s : GameState} {cp : Player} {m : Fin 4} {e : Position}
    {moveValue : Int}
    (hcp : s.getPlayerByIndex s.currentPlayer = some cp)
    (hid : cp.marbleIdentified m = true)
    (hends : possibleEndPositions s cp (cp.marbles m) moveValue = some [e]) :
    ((∃ q k : Fin 4, q.val = s.currentPlayer ∧ s.stands q k e = true) →
        (∀ q k : Fin 4, s.stands q k e = true → q.val = s.currentPlayer) →
        checkSimpleMove s (cp.marbles m) moveValue = Except.ok none) ∧
    ((∀ q k : Fin 4, s.stands q k e = false) →
        checkSimpleMove s (cp.marbles m) moveValue =
          Except.ok (some [({ playerID := s.currentPlayer, marbleIdx := m.val }, e)])) ∧
    (∀ q k : Fin 4, q.val ≠ s.currentPlayer → s.stands q k e = true →
        (∀ q1 k1 : Fin 4, s.stands q1 k1 e = true → q1 = q ∧ k1 = k) →
        checkSimpleMove s (cp.marbles m) moveValue =
          Except.ok (some [({ playerID := s.currentPlayer, marbleIdx := m.val }, e),
            ({ playerID := q.val, marbleIdx := k.val },
             { boardLocation := BoardLocation.HOME, index := k.val, playerID := q.val })])) := by
  have hk := getMarbleIndexByPos_own cp m hid
  refine ⟨?_, ?_, ?_⟩
  · rintro ⟨q, k, -, hst⟩ hall
    exact checkSimpleMove_single_own hcp hends (ownOccupant_true hst hall)
  · intro hfree
    exact checkSimpleMove_single_free hcp hends hk ((isFieldOccupied_none_iff s e).2 hfree)
  · intro q k hq hst huniq
    exact checkSimpleMove_single_capture hcp hends hk (isFieldOccupied_unique hst huniq) hq

/-! ## Track geometry -/

theorem tmod_of_neg (x : Int) (hx : x < 0) : Int.tmod x 64 = -((-x) % 64) := by
  cases x with
  | ofNat n => exact absurd hx (by simp)
  | negSucc n =>
    have h1 : Int.tmod (Int.negSucc n) 64 = -(((n + 1) % 64 : Nat) : Int) := rfl
    have h2 : -Int.negSucc n = ((n + 1 : Nat) : Int) := rfl
    rw [h1, h2]
    norm_cast

/-- The wrap-around of `checkSimpleMove` is reduction modulo 64 in both directions. -/
theorem trackEndIndex_eq (i : Nat) (V : Int) :
    trackEndIndex i V = (((i : Int) + V) % 64).toNat := by
  unfold trackEndIndex
  simp only
  split
  · rename_i h
    rw [tmod_of_neg _ h]
    rw [Int.tmod_eq_emod (by omega) (by omega)]
    congr 1
    omega
  · rename_i h
    rw [Int.tmod_eq_emod (by omega) (by omega)]

theorem trackEndIndex_lt (i : Nat) (V : Int) : trackEndIndex i V < 64 := by
  rw [trackEndIndex_eq]
  omega

theorem walkField_zero (i : Nat) (V : Int) (hi : i < 64) : walkField i V 0 = i := by
  unfold walkField
  split <;> omega

theorem walkField_last (i : Nat) (V : Int) :
    walkField i V V.natAbs = (((i : Int) + V) % 64).toNat := by
  unfold walkField
  split <;> congr 2 <;> omega

/-- A start field that the case distinction of `checkSimpleMove` reports as covered lies on the
walk, origin included. -/
theorem covers_on_walk (i a : Nat) (V : Int) (hi : i < 64) (ha : a < 64)
    (hV : (1 ≤ V ∧ V ≤ 13) ∨ (-13 ≤ V ∧ V ≤ -1))
    (h : pathCoversStart i (trackEndIndex i V) V a = true) :
    ∃ j, j ≤ V.natAbs ∧ walkField i V j = a := by
  rw [trackEndIndex_eq] at h
  unfold pathCoversStart at h
  rcases hV with hV | hV
  · refine ⟨(a + 64 - i) % 64, ?_⟩
    unfold walkField
    have hneg : ¬ V < 0 := by omega
    simp only [hneg, if_false, false_and] at h ⊢
    split at h
    · simp only [decide_eq_true_eq] at h
      omega
    · split at h
      · simp only [decide_eq_true_eq] at h
        omega
      · simp at h
  · refine ⟨(i + 64 - a) % 64, ?_⟩
    unfold walkField
    have hneg : V < 0 := by omega
    have hpos : ¬ V > 0 := by omega
    simp only [hneg, hpos, if_true, false_and, if_false, true_and] at h ⊢
    split at h
    · simp only [decide_eq_true_eq] at h
      omega
    · split at h
      · simp only [decide_eq_true_eq] at h
        omega
      · simp at h

/-- A start field on one of the fields stepped onto (origin excluded) is reported as covered. -/
theorem walk_covered (i a : Nat) (V : Int) (hi : i < 64)
    (hV : (1 ≤ V ∧ V ≤ 13) ∨ (-13 ≤ V ∧ V ≤ -1))
    (j : Nat) (hj1 : 1 ≤ j) (hj : j ≤ V.natAbs) (ha : walkField i V j = a) :
    pathCoversStart i (trackEndIndex i V) V a = true := by
  rw [trackEndIndex_eq]
  unfold pathCoversStart
  unfold walkField at ha
  rcases hV with hV | hV
  · have hneg : ¬ V < 0 := by omega
    simp only [hneg, if_false, false_and] at ha ⊢
    split
    · simp only [decide_eq_true_eq]
      omega
    · split
      · simp only [decide_eq_true_eq]
        omega
      · omega
  · have hneg : V < 0 := by omega
    have hpos : ¬ V > 0 := by omega
    simp only [hneg, hpos, if_true, false_and, if_false, true_and] at ha ⊢
    split
    · simp only [decide_eq_true_eq]
      omega
    · split
      · simp only [decide_eq_true_eq]
        omega
      · omega

theorem blockedStartAt_false {s : GameState} {f : Nat} (h : s.blockedStartAt f = false)
    {q : Fin 4} {pl : Player} (hp : s.players q = some pl) (hb : pl.isStartBlocked = true) :
    pl.startField ≠ f := by
  unfold GameState.blockedStartAt at h
  rw [List.any_eq_false] at h
  have := h q (mem_seatIds q)
  rw [hp] at this
  simpa [hb] using this

theorem blockedStartAt_true {s : GameState} {q : Fin 4} {pl : Player}
    (hp : s.players q = some pl) (hb : pl.isStartBlocked = true) :
    s.blockedStartAt pl.startField = true := by
  unfold GameState.blockedStartAt
  rw [List.any_eq_true]
  exact ⟨q, mem_seatIds q, by rw [hp]; simp [hb]⟩

theorem blockedStartAt_elim {s : GameState} {f : Nat} (h : s.blockedStartAt f = true) :
    ∃ (q : Fin 4) (pl : Player), s.players q = some pl ∧ pl.isStartBlocked = true ∧
      pl.startField = f := by
  unfold GameState.blockedStartAt at h
  rw [List.any_eq_true] at h
  obtain ⟨q, -, hq⟩ := h
  cases hp : s.players q with
  | none => rw [hp] at hq; cases hq
  | some pl =>
    rw [hp] at hq
    simp only [Bool.and_eq_true, decide_eq_true_eq] at hq
    exact ⟨q, pl, hp, hq.1, hq.2⟩

/-- The seat loop of `checkSimpleMove` leaves the flag untouched when every covered start field
is unblocked and belongs to another player. -/
theorem crossingScan_clear (s : GameState) (i e : Nat) (V : Int) (sf : Nat) (l : List (Fin 4))
    (b : Bool)
    (h : ∀ q ∈ l, ∀ pl, s.players q = some pl →
      pathCoversStart i e V pl.startField = true →
        pl.isStartBlocked = false ∧ q.val ≠ s.currentPlayer) :
    crossingScan s i e V sf l b = some b := by
  induction l generalizing b with
  | nil => rfl
  | cons q rest ih =>
    have ih2 := fun b => ih b (fun q1 hq1 => h q1 (List.mem_cons_of_mem _ hq1))
    unfold crossingScan
    cases hp : s.players q with
    | none => exact ih2 b
    | some pl =>
      simp only
      by_cases hc : pathCoversStart i e V pl.startField = true
      · obtain ⟨hb, hq⟩ := h q (List.mem_cons_self _ _) pl hp hc
        simp [hc, hb, hq, ih2]
      · simp only [Bool.not_eq_true] at hc
        simp [hc, ih2]

/-- The seat loop of `checkSimpleMove` returns early as soon as a covered start field is
blocked. -/
theorem crossingScan_blocked (s : GameState) (i e : Nat) (V : Int) (sf : Nat) (l : List (Fin 4))
    (b : Bool) (q : Fin 4) (pl : Player) (hq : q ∈ l) (hp : s.players q = some pl)
    (hc : pathCoversStart i e V pl.startField = true) (hb : pl.isStartBlocked = true) :
    crossingScan s i e V sf l b = none := by
  induction l generalizing b with
  | nil => cases hq
  | cons q1 rest ih =>
    unfold crossingScan
    by_cases hq1 : q = q1
    · subst hq1
      simp [hp, hc, hb]
    · have hmem : q ∈ rest := by
        rcases List.mem_cons.1 hq with h | h
        · exact absurd h hq1
        · exact h
      cases hp1 : s.players q1 with
      | none => exact ih b hmem
      | some pl1 =>
        simp only
        split
        · rfl
        · exact ih _ hmem

/-- Without a start field on the walk the only candidate end position of a TRACK marble is the
track field reached. -/
theorem possibleEndPositions_track_plain (s : GameState) (cp : Player) (m : Fin 4) (V : Int)
    (hcp : s.getPlayerByIndex s.currentPlayer = some cp)
    (hwf : s.seatsWellFormed = true)
    (htrack : (cp.marbles m).boardLocation = BoardLocation.TRACK)
    (hi : (cp.marbles m).index < 64)
    (hV : (1 ≤ V ∧ V ≤ 13) ∨ V = -4)
    (hwalk : ∀ j, j ≤ V.natAbs →
      walkField (cp.marbles m).index V j ≠ cp.startField ∧
        s.blockedStartAt (walkField (cp.marbles m).index V j) = false) :
    possibleEndPositions s cp (cp.marbles m) V =
      some [{ boardLocation := BoardLocation.TRACK,
              index := ((((cp.marbles m).index : Int) + V) % 64).toNat,
              playerID := s.currentPlayer }] := by
  have hV0 : V ≠ 0 := by omega
  have hV2 : (1 ≤ V ∧ V ≤ 13) ∨ (-13 ≤ V ∧ V ≤ -1) := by omega
  have horigin : (cp.marbles m).index ≠ cp.startField := by
    have := (hwalk 0 (Nat.zero_le _)).1
    rwa [walkField_zero _ _ hi] at this
  obtain ⟨hcur, hpcur⟩ := getPlayerByIndex_some hcp
  have hscan : crossingScan s (cp.marbles m).index (trackEndIndex (cp.marbles m).index V) V
      cp.startField seatIds false = some false := by
    apply crossingScan_clear
    intro q _ pl hp hc
    have hsf := (seatsWellFormed_spec hwf hp).2
    have hlt : pl.startField < 64 := by have := q.isLt; omega
    obtain ⟨j, hj, hjf⟩ := covers_on_walk _ _ V hi hlt hV2 hc
    have hw := hwalk j hj
    rw [hjf] at hw
    constructor
    · cases hb : pl.isStartBlocked with
      | false => rfl
      | true => exact absurd rfl (blockedStartAt_false hw.2 hp hb)
    · intro hq
      have hqe : q = ⟨s.currentPlayer, hcur⟩ := Fin.ext hq
      rw [hqe, hpcur] at hp
      cases hp
      exact hw.1 rfl
  rw [trackEndIndex_eq] at hscan
  unfold possibleEndPositions
  simp only [hV0, if_false, htrack, horigin, and_false, trackEndIndex_eq, hscan]
  simp

/-- The shape of the result of `checkSimpleMove` when the single candidate end position is `e`:
the call returns, and every offered movement is either the mover going to `e` or another
player's marble going to HOME. -/
theorem checkSimpleMove_single_shape {s : GameState} {cp : Player} {m : Fin 4} {e : Position}
    {moveValue : Int}
    (hcp : s.getPlayerByIndex s.currentPlayer = some cp)
    (hends : possibleEndPositions s cp (cp.marbles m) moveValue = some [e]) :
    ∃ r, checkSimpleMove s (cp.marbles m) moveValue = Except.ok r ∧
      ∀ moves, r = some moves → ∀ mv ∈ moves,
        (mv.1.playerID = s.currentPlayer ∧ mv.2 = e) ∨
        (mv.1.playerID ≠ s.currentPlayer ∧ mv.2.boardLocation = BoardLocation.HOME) := by
  obtain ⟨k, hk⟩ := getMarbleIndexByPos_isSome cp m
  cases ho : isFieldOccupied s e with
  | none =>
    refine ⟨_, checkSimpleMove_single_free hcp hends hk ho, ?_⟩
    intro moves hm mv hmv
    cases hm
    simp only [List.mem_singleton] at hmv
    subst hmv
    exact Or.inl ⟨rfl, rfl⟩
  | some occ =>
    by_cases hocc : occ.playerID = s.currentPlayer
    · refine ⟨none, ?_, ?_⟩
      · apply checkSimpleMove_single_own hcp hends
        unfold ownOccupant
        rw [ho]
        simp [hocc]
      · intro moves hm
        cases hm
    · refine ⟨_, checkSimpleMove_single_capture hcp hends hk ho hocc, ?_⟩
      intro moves hm mv hmv
      cases hm
      simp only [List.mem_cons, List.mem_singleton, List.not_mem_nil, or_false] at hmv
      rcases hmv with rfl | rfl
      · exact Or.inl ⟨rfl, rfl⟩
      · exact Or.inr ⟨hocc, rfl⟩

/-! ## Swap moves -/

theorem swapCandidates_eq (opp : Player) (pID : Fin 4) (mover : MarbleIdentifier)
    (marblePos : Position) (l : List (Fin 4)) :
    swapCandidates opp pID mover marblePos l =
      ((l.filter fun k =>
          decide ((opp.marbles k).boardLocation = BoardLocation.TRACK) &&
            !decide (opp.startBlocked = some k.val)).map fun k =>
          (({ playerID := pID.val, marbleIdx := k.val } : MarbleIdentifier),
            opp.marbles k)).flatMap fun t => [(mover, t.2), (t.1, marblePos)] := by
  induction l with
  | nil => rfl
  | cons k rest ih =>
    unfold swapCandidates
    by_cases h1 : (opp.marbles k).boardLocation = BoardLocation.TRACK
    · by_cases h2 : opp.startBlocked = some k.val
      · simp [h1, h2, ih]
      · simp [h1, h2, ih]
    · simp [h1, ih]

theorem swapScan_eq (s : GameState) (mover : MarbleIdentifier) (marblePos : Position)
    (l : List (Fin 4)) :
    swapScan s mover marblePos l =
      (l.flatMap fun q =>
        match s.players q with
        | none => []
        | some opp =>
          if q.val = s.currentPlayer then []
          else
            (seatIds.filter fun k =>
              decide ((opp.marbles k).boardLocation = BoardLocation.TRACK) &&
                !decide (opp.startBlocked = some k.val)).map fun k =>
              (({ playerID := q.val, marbleIdx := k.val } : MarbleIdentifier),
                opp.marbles k)).flatMap fun t => [(mover, t.2), (t.1, marblePos)] := by
  induction l with
  | nil => rfl
  | cons q rest ih =>
    unfold swapScan
    by_cases hq : q.val = s.currentPlayer
    · cases hp : s.players q <;> simp [hq, hp, ih]
    · cases hp : s.players q with
      | none => simp [hq, hp, ih]
      | some opp => simp [hq, hp, ih, swapCandidates_eq]

theorem swapScan_seatIds (s : GameState) (mover : MarbleIdentifier) (marblePos : Position) :
    swapScan s mover marblePos seatIds =
      (swapTargets s).flatMap fun t => [(mover, t.2), (t.1, marblePos)] := by
  rw [swapScan_eq]
  rfl

theorem swapPairs_isEmpty (mover : MarbleIdentifier) (marblePos : Position)
    (l : List (MarbleIdentifier × Position)) :
    (l.flatMap fun t => [(mover, t.2), (t.1, marblePos)]).isEmpty = l.isEmpty := by
  cases l <;> simp

/-- The result of `checkSwapMove` for an identified marble of the current player, in closed
form. -/
theorem checkSwapMove_eq (s : GameState) (cp : Player) (m : Fin 4)
    (hcp : s.getPlayerByIndex s.currentPlayer = some cp)
    (hid : cp.marbleIdentified m = true) :
    checkSwapMove s (cp.marbles m) =
      Except.ok
        (if cp.startBlocked = some m.val ∨ swapTargets s = [] then none
         else some ((swapTargets s).flatMap fun t =>
            [(({ playerID := s.currentPlayer, marbleIdx := m.val } : MarbleIdentifier), t.2),
             (t.1, cp.marbles m)])) := by
  unfold checkSwapMove
  simp only [hcp, getMarbleIndexByPos_own cp m hid]
  by_cases hb : cp.startBlocked = some m.val
  · simp [hb]
  · simp only [hb, if_false, false_or, swapScan_seatIds, swapPairs_isEmpty]
    cases hl : swapTargets s <;> simp

/-! ## The checkers return on the marbles of the current player -/

theorem occupationTest_ok (s : GameState) (cp : Player) (marblePos : Position) (k : Nat)
    (hk : cp.getMarbleIndexByPos marblePos = some k) (ends : List Position) :
    ∀ acc, ∃ res, occupationTest s cp marblePos ends acc = Except.ok res := by
  induction ends with
  | nil => intro acc; exact ⟨acc, rfl⟩
  | cons e rest ih =>
    intro acc
    unfold occupationTest
    cases isFieldOccupied s e with
    | none => simp only [hk]; exact ih _
    | some occ =>
      simp only [hk]
      split
      · exact ih _
      · exact ih _

theorem checkSimpleMove_ok (s : GameState) (cp : Player) (m : Fin 4) (V : Int)
    (hcp : s.getPlayerByIndex s.currentPlayer = some cp) :
    ∃ r, checkSimpleMove s (cp.marbles m) V = Except.ok r ∧ ∀ l, r = some l → l ≠ [] := by
  obtain ⟨k, hk⟩ := getMarbleIndexByPos_isSome cp m
  unfold checkSimpleMove
  simp only [hcp]
  cases possibleEndPositions s cp (cp.marbles m) V with
  | none => exact ⟨none, rfl, fun l h => by cases h⟩
  | some ends =>
    simp only
    split
    · exact ⟨none, rfl, fun l h => by cases h⟩
    · split
      · exact ⟨none, rfl, fun l h => by cases h⟩
      · obtain ⟨res, hres⟩ := occupationTest_ok s cp (cp.marbles m) k.val hk ends []
        rw [hres]
        simp only
        cases res with
        | nil => exact ⟨none, rfl, fun l h => by cases h⟩
        | cons a as =>
          refine ⟨some (a :: as), rfl, ?_⟩
          intro l h
          cases h
          simp

theorem checkSwapMove_ok (s : GameState) (cp : Player) (m : Fin 4)
    (hcp : s.getPlayerByIndex s.currentPlayer = some cp) :
    ∃ r, checkSwapMove s (cp.marbles m) = Except.ok r ∧
      ∀ l, r = some l → ∃ (mover : MarbleIdentifier) (targets : List (MarbleIdentifier × Position)),
        l = targets.flatMap fun t => [(mover, t.2), (t.1, cp.marbles m)] := by
  obtain ⟨k, hk⟩ := getMarbleIndexByPos_isSome cp m
  unfold checkSwapMove
  simp only [hcp, hk]
  split
  · exact ⟨none, rfl, fun l h => by cases h⟩
  · split
    · exact ⟨none, rfl, fun l h => by cases h⟩
    · refine ⟨_, rfl, ?_⟩
      intro l h
      cases h
      exact ⟨_, swapTargets s, swapScan_seatIds s _ _⟩

theorem validateMove_ok (s : GameState) (cp : Player) (m : Fin 4) (card : Card)
    (rule : MoveType × Int)
    (hcp : s.getPlayerByIndex s.currentPlayer = some cp) :
    ∃ r, validateMove s card (cp.marbles m) rule false = Except.ok r ∧
      (rule.1 = MoveType.START ∨ rule.1 = MoveType.SIMPLE → ∀ l, r = some l → l ≠ []) ∧
      (rule.1 = MoveType.SWAP → ∀ l, r = some l →
        ∃ (mover : MarbleIdentifier) (targets : List (MarbleIdentifier × Position)),
          l = targets.flatMap fun t => [(mover, t.2), (t.1, cp.marbles m)]) ∧
      (rule.1 = MoveType.SEVEN ∨ rule.1 = MoveType.JOKER → r = none) := by
  obtain ⟨ty, V⟩ := rule
  obtain ⟨r0, hr0, hne0⟩ := checkSimpleMove_ok s cp m 0 hcp
  obtain ⟨r1, hr1, hne1⟩ := checkSimpleMove_ok s cp m V hcp
  obtain ⟨r2, hr2, hsw⟩ := checkSwapMove_ok s cp m hcp
  unfold validateMove
  cases hloc : (cp.marbles m).boardLocation <;> cases ty <;>
    simp only [checkStartMove, hr0, hr1, hr2, Bool.false_eq_true, if_false] <;>
    first
    | exact ⟨none, rfl, by simp, by simp, by simp⟩
    | exact ⟨_, rfl, fun _ => hne0, by simp, by simp⟩
    | exact ⟨_, rfl, fun _ => hne1, by simp, by simp⟩
    | exact ⟨_, rfl, by simp, fun _ => hsw, by simp⟩

theorem expandSwap_pairs (c h : Nat) (mover : MarbleIdentifier) (marblePos : Position)
    (targets : List (MarbleIdentifier × Position)) :
    expandSwap c h (targets.flatMap fun t => [(mover, t.2), (t.1, marblePos)]) =
      Except.ok (targets.map fun t =>
        ({ cardID := c, handIndex := h, movements := [(mover, t.2), (t.1, marblePos)] } : Move)) := by
  induction targets with
  | nil => rfl
  | cons t rest ih =>
    simp only [List.flatMap_cons, List.cons_append, List.nil_append, List.map_cons]
    unfold expandSwap
    rw [ih]

theorem dupSwapFor_pairs (cp : Player) (c h : Nat) (mIdx : Fin 4) (mover : MarbleIdentifier)
    (marblePos : Position) (targets : List (MarbleIdentifier × Position)) :
    dupSwapFor cp c h mIdx (targets.flatMap fun t => [(mover, t.2), (t.1, marblePos)]) =
      Except.ok (targets.map fun t =>
        ({ cardID := c, handIndex := h,
           movements := [({ mover with marbleIdx := mIdx.val }, t.2), (t.1, cp.marbles mIdx)] } :
          Move)) := by
  induction targets with
  | nil => rfl
  | cons t rest ih =>
    simp only [List.flatMap_cons, List.cons_append, List.nil_append, List.map_cons]
    unfold dupSwapFor
    rw [ih]

theorem dupSwap_ok (cp : Player) (c h : Nat) (mover : MarbleIdentifier) (marblePos : Position)
    (targets : List (MarbleIdentifier × Position)) (l : List (Fin 4)) :
    ∃ mvs, dupSwap cp c h (targets.flatMap fun t => [(mover, t.2), (t.1, marblePos)]) l =
      Except.ok mvs := by
  induction l with
  | nil => exact ⟨[], rfl⟩
  | cons mIdx rest ih =>
    obtain ⟨more, hmore⟩ := ih
    unfold dupSwap
    split
    · exact ⟨more, hmore⟩
    · split
      · exact ⟨more, hmore⟩
      · rw [dupSwapFor_pairs, hmore]
        exact ⟨_, rfl⟩

theorem dupStart_ok (cp : Player) (c h : Nat) (moved : List Movement) (hne : moved ≠ [])
    (l : List (Fin 4)) : ∃ mvs, dupStart cp c h moved l = Except.ok mvs := by
  induction l with
  | nil => exact ⟨[], rfl⟩
  | cons mIdx rest ih =>
    obtain ⟨more, hmore⟩ := ih
    unfold dupStart
    split
    · exact ⟨more, hmore⟩
    · cases moved with
      | nil => exact absurd rfl hne
      | cons first tl =>
        simp only [hmore]
        exact ⟨_, rfl⟩

theorem marbleLoop_ok (s : GameState) (cp : Player) (card : Card) (ty : MoveType) (V : Int)
    (c h : Nat) (hcp : s.getPlayerByIndex s.currentPlayer = some cp) (l : List (Fin 4)) :
    ∃ mvs, marbleLoop s cp card ty V false c h l = Except.ok mvs := by
  induction l with
  | nil => exact ⟨[], rfl⟩
  | cons mIdx rest ih =>
    obtain ⟨more, hmore⟩ := ih
    obtain ⟨r, hr, hstart, hswap, hnone⟩ := validateMove_ok s cp mIdx card (ty, V) hcp
    unfold marbleLoop
    rw [hr]
    cases r with
    | none => exact ⟨more, hmore⟩
    | some moved =>
      cases ty with
      | START =>
        obtain ⟨dups, hdups⟩ := dupStart_ok cp c h moved (hstart (Or.inl rfl) moved rfl) rest
        simp only [hdups]
        exact ⟨_, rfl⟩
      | SIMPLE =>
        simp only [hmore]
        exact ⟨_, rfl⟩
      | SWAP =>
        obtain ⟨mover, targets, rfl⟩ := hswap rfl moved rfl
        obtain ⟨dups, hdups⟩ := dupSwap_ok cp c h mover (cp.marbles mIdx) targets rest
        simp only [expandSwap_pairs, hdups]
        exact ⟨_, rfl⟩
      | SEVEN => exact absurd (hnone (Or.inl rfl)) (by simp)
      | JOKER => exact absurd (hnone (Or.inr rfl)) (by simp)

theorem ruleLoop_ok (s : GameState) (cp : Player) (card : Card) (c h : Nat)
    (hcp : s.getPlayerByIndex s.currentPlayer = some cp) (rules : List (MoveType × Int)) :
    ∃ mvs, ruleLoop s cp card false c h rules = Except.ok mvs := by
  induction rules with
  | nil => exact ⟨[], rfl⟩
  | cons rule rest ih =>
    obtain ⟨more, hmore⟩ := ih
    obtain ⟨here, hhere⟩ := marbleLoop_ok s cp card rule.1 rule.2 c h hcp seatIds
    unfold ruleLoop
    simp only [Bool.false_eq_true, false_and, if_false, hhere, hmore]
    exact ⟨_, rfl⟩

theorem cardAt_ok (s : GameState) (c : Nat) (hc : c < s.deck.length) :
    ∃ card, s.cardAt c = Except.ok card := by
  unfold GameState.cardAt
  rw [List.getElem?_eq_getElem hc]
  exact ⟨_, rfl⟩

theorem handLoop_ok (s : GameState) (cp : Player)
    (hcp : s.getPlayerByIndex s.currentPlayer = some cp) (hand : List Nat)
    (hhand : ∀ c ∈ hand, c < s.deck.length) :
    ∀ handIndex, ∃ mvs, handLoop s cp none false false hand handIndex = Except.ok mvs := by
  induction hand with
  | nil => intro _; exact ⟨[], rfl⟩
  | cons c rest ih =>
    intro handIndex
    obtain ⟨more, hmore⟩ := ih (fun x hx => hhand x (List.mem_cons_of_mem _ hx)) (handIndex + 1)
    obtain ⟨card, hcard⟩ := cardAt_ok s c (hhand c (List.mem_cons_self _ _))
    obtain ⟨here, hhere⟩ := ruleLoop_ok s cp card c handIndex hcp card.moveRules
    unfold handLoop
    simp only [hcard, toSetTarget, Bool.false_eq_true, or_self, if_false, hhere, hmore]
    exact ⟨_, rfl⟩

/-- On a state whose current player is present and holds card ids of the deck,
`computeLegalMoves()` returns. -/
theorem computeLegalMoves_ok (s : GameState) (cp : Player)
    (hcp : s.getPlayerByIndex s.currentPlayer = some cp)
    (hhand : ∀ c ∈ cp.hand, c < s.deck.length) :
    ∃ mvs, computeLegalMoves s none false = Except.ok mvs := by
  unfold computeLegalMoves
  simp only [hcp]
  exact handLoop_ok s cp hcp cp.hand hhand 0

theorem movementMatches_self (a : Movement) : movementMatches a a = true := by
  simp [movementMatches]

theorem any_matches_of_mem {v : Movement} {l : List Movement} (h : v ∈ l) :
    (l.any fun x => movementMatches v x) = true :=
  List.any_eq_true.2 ⟨v, h, movementMatches_self v⟩

theorem any_matches_of_mem' {c : Movement} {l : List Movement} (h : c ∈ l) :
    (l.any fun x => movementMatches x c) = true :=
  List.any_eq_true.2 ⟨c, h, movementMatches_self c⟩

/-- A shorter list of movements taken from the server's list, or an equally long list that
contains the server's list, passes the comparison. -/
theorem ruleMatches_of_subset {client val : List Movement}
    (hsub : ∀ c ∈ client, c ∈ val) (hlen : client.length ≤ val.length)
    (heq : client.length = val.length → ∀ v ∈ val, v ∈ client) :
    ruleMatches client val = true := by
  unfold ruleMatches
  by_cases hlt : client.length < val.length
  · simp only [hlt, if_true, List.all_eq_true]
    intro c hc
    exact any_matches_of_mem' (hsub c hc)
  · have hle : client.length = val.length := by omega
    have hne : ¬ (val.length ≠ client.length) := by omega
    simp only [hlt, if_false, hne, List.all_eq_true]
    intro v hv
    exact any_matches_of_mem (heq hle v hv)

theorem ruleMatches_self (l : List Movement) : ruleMatches l l = true :=
  ruleMatches_of_subset (fun _ h => h) (Nat.le_refl _) (fun _ _ h => h)

theorem occupationTest_append (s : GameState) (cp : Player) (marblePos : Position) (k : Nat)
    (hk : cp.getMarbleIndexByPos marblePos = some k) (ends : List Position) :
    ∀ acc res, occupationTest s cp marblePos ends acc = Except.ok res →
      ∃ tail, res = acc ++ tail ∧
        (tail = [] ∨ ∃ e rest, tail =
          (({ playerID := s.currentPlayer, marbleIdx := k } : MarbleIdentifier), e) :: rest) := by
  induction ends with
  | nil =>
    intro acc res h
    unfold occupationTest at h
    cases h
    exact ⟨[], by simp, Or.inl rfl⟩
  | cons e rest ih =>
    intro acc res h
    unfold occupationTest at h
    cases ho : isFieldOccupied s e with
    | none =>
      simp only [ho, hk] at h
      obtain ⟨tail, rfl, -⟩ := ih _ _ h
      exact ⟨({ playerID := s.currentPlayer, marbleIdx := k }, e) :: tail, by simp,
        Or.inr ⟨_, _, rfl⟩⟩
    | some occ =>
      simp only [ho, hk] at h
      split at h
      · exact ih _ _ h
      · obtain ⟨tail, rfl, -⟩ := ih _ _ h
        exact ⟨({ playerID := s.currentPlayer, marbleIdx := k }, e) ::
          (occ, { boardLocation := BoardLocation.HOME, index := occ.marbleIdx,
                  playerID := occ.playerID }) :: tail, by simp, Or.inr ⟨_, _, rfl⟩⟩

/-- The first movement of a result of `checkSimpleMove` moves the marble asked about. -/
theorem checkSimpleMove_head (s : GameState) (cp : Player) (m : Fin 4) (V : Int)
    (hcp : s.getPlayerByIndex s.currentPlayer = some cp)
    (hid : cp.marbleIdentified m = true) (l : List Movement)
    (h : checkSimpleMove s (cp.marbles m) V = Except.ok (some l)) :
    ∃ e rest, l =
      (({ playerID := s.currentPlayer, marbleIdx := m.val } : MarbleIdentifier), e) :: rest := by
  have hk := getMarbleIndexByPos_own cp m hid
  unfold checkSimpleMove at h
  simp only [hcp] at h
  cases hends : possibleEndPositions s cp (cp.marbles m) V with
  | none => simp [hends] at h
  | some ends =>
    simp only [hends] at h
    split at h
    · cases h
    · split at h
      · cases h
      · cases hocc : occupationTest s cp (cp.marbles m) ends [] with
        | error e => simp [hocc] at h
        | ok res =>
          simp only [hocc] at h
          obtain ⟨tail, hres, htail⟩ := occupationTest_append s cp _ _ hk ends [] res hocc
          simp only [List.nil_append] at hres
          subst hres
          rcases htail with rfl | ⟨e, rest, rfl⟩
          · simp at h
          · simp only [List.isEmpty_cons, Bool.false_eq_true, if_false, Except.ok.injEq,
              Option.some.injEq] at h
            exact ⟨e, rest, h.symm⟩

theorem validateMove_start_eq {s : GameState} {card : Card} {pos : Position} {V : Int}
    {moved : List Movement}
    (h : validateMove s card pos (MoveType.START, V) false = Except.ok (some moved)) :
    pos.boardLocation = BoardLocation.HOME ∧
      checkSimpleMove s pos 0 = Except.ok (some moved) := by
  unfold validateMove at h
  cases hloc : pos.boardLocation <;> simp only [hloc] at h
  · exact ⟨rfl, h⟩
  · cases h
  · cases h

theorem validateMove_start_of_home {s : GameState} {card : Card} {pos : Position} {V : Int}
    (hloc : pos.boardLocation = BoardLocation.HOME) :
    validateMove s card pos (MoveType.START, V) false = checkSimpleMove s pos 0 := by
  unfold validateMove
  simp [hloc, checkStartMove]

theorem validateMove_simple_eq {s : GameState} {card : Card} {pos : Position} {V : Int}
    {moved : List Movement}
    (h : validateMove s card pos (MoveType.SIMPLE, V) false = Except.ok (some moved)) :
    checkSimpleMove s pos V = Except.ok (some moved) := by
  unfold validateMove at h
  cases hloc : pos.boardLocation <;> simp only [hloc] at h
  · cases h
  · exact h
  · exact h

theorem validateMove_swap_eq {s : GameState} {card : Card} {pos : Position} {V : Int}
    {moved : List Movement}
    (h : validateMove s card pos (MoveType.SWAP, V) false = Except.ok (some moved)) :
    pos.boardLocation = BoardLocation.TRACK ∧ checkSwapMove s pos = Except.ok (some moved) := by
  unfold validateMove at h
  cases hloc : pos.boardLocation <;> simp only [hloc] at h
  · cases h
  · exact ⟨rfl, h⟩
  · cases h

theorem validateMove_swap_of_track {s : GameState} {card : Card} {pos : Position} {V : Int}
    (hloc : pos.boardLocation = BoardLocation.TRACK) :
    validateMove s card pos (MoveType.SWAP, V) false = checkSwapMove s pos := by
  unfold validateMove
  simp [hloc]

/-- The moves that `computeLegalMoves` makes of a START or SIMPLE result are justified. -/
theorem expandSimple_justified (s : GameState) (cp : Player) (card : Card)
    (rule : MoveType × Int) (c h : Nat) (m : Fin 4) (e : Position) (rest : List Movement)
    (hval : validateMove s card (cp.marbles m) rule false =
      Except.ok (some (({ playerID := s.currentPlayer, marbleIdx := m.val }, e) :: rest))) :
    ∀ mv ∈ expandSimple s c h (({ playerID := s.currentPlayer, marbleIdx := m.val }, e) :: rest),
      mv.cardID = c ∧ Justified s cp card rule mv := by
  have hwhole : Justified s cp card rule
      { cardID := c, handIndex := h,
        movements := ({ playerID := s.currentPlayer, marbleIdx := m.val }, e) :: rest } :=
    ⟨m, e, rest, _, rfl, hval, ruleMatches_self _⟩
  intro mv hmv
  unfold expandSimple at hmv
  cases rest with
  | nil =>
    simp only [List.mem_singleton] at hmv
    subst hmv
    exact ⟨rfl, hwhole⟩
  | cons m1 rest1 =>
    simp only at hmv
    split at hmv
    · rename_i hfork
      obtain ⟨hidx, hpid, -⟩ := hfork
      have hm1 : m1 = (({ playerID := s.currentPlayer, marbleIdx := m.val } : MarbleIdentifier),
          m1.2) := by
        obtain ⟨⟨p1, i1⟩, pos1⟩ := m1
        simp only at hidx hpid
        subst hidx hpid
        rfl
      simp only [List.mem_cons, List.mem_singleton, List.not_mem_nil, or_false] at hmv
      rcases hmv with rfl | rfl
      · refine ⟨rfl, m, e, [], _, rfl, hval, ?_⟩
        apply ruleMatches_of_subset
        · intro x hx
          simp only [List.mem_singleton] at hx
          subst hx
          exact List.mem_cons_self _ _
        · simp
        · intro hlen
          simp at hlen
      · refine ⟨rfl, m, m1.2, ?_⟩
        cases rest1 with
        | nil =>
          refine ⟨[], _, by simp only; rw [← hm1], hval, ?_⟩
          apply ruleMatches_of_subset
          · intro x hx
            simp only [List.mem_singleton] at hx
            subst hx
            simp
          · simp
          · intro hlen
            simp at hlen
        | cons m2 rest2 =>
          simp only
          split
          · refine ⟨[m2], _, by rw [← hm1], hval, ?_⟩
            apply ruleMatches_of_subset
            · intro x hx
              simp only [List.mem_cons, List.mem_singleton, List.not_mem_nil, or_false] at hx
              rcases hx with rfl | rfl <;> simp
            · simp
            · intro hlen
              simp at hlen
          · refine ⟨[], _, by rw [← hm1], hval, ?_⟩
            apply ruleMatches_of_subset
            · intro x hx
              simp only [List.mem_singleton] at hx
              subst hx
              simp
            · simp
            · intro hlen
              simp at hlen
    · simp only [List.mem_singleton] at hmv
      subst hmv
      exact ⟨rfl, hwhole⟩

/-- The START result for one HOME marble is the START result for another with the mover
replaced. -/
theorem checkSimpleMove_start_transfer (s : GameState) (cp : Player)
    (hcp : s.getPlayerByIndex s.currentPlayer = some cp) (m m1 : Fin 4)
    (hid : cp.marbleIdentified m = true) (hid1 : cp.marbleIdentified m1 = true)
    (e : Position) (rest : List Movement)
    (h : checkSimpleMove s (cp.marbles m) 0 =
      Except.ok (some (({ playerID := s.currentPlayer, marbleIdx := m.val }, e) :: rest))) :
    checkSimpleMove s (cp.marbles m1) 0 =
      Except.ok (some (({ playerID := s.currentPlayer, marbleIdx := m1.val }, e) :: rest)) := by
  have hends : ∀ pos, possibleEndPositions s cp pos 0 =
      some [{ boardLocation := BoardLocation.TRACK, index := cp.startField,
              playerID := s.currentPlayer }] := by
    intro pos
    simp [possibleEndPositions]
  have hk := getMarbleIndexByPos_own cp m hid
  have hk1 := getMarbleIndexByPos_own cp m1 hid1
  cases ho : isFieldOccupied s { boardLocation := BoardLocation.TRACK, index := cp.startField,
                                 playerID := s.currentPlayer } with
  | none =>
    rw [checkSimpleMove_single_free hcp (hends _) hk ho] at h
    rw [checkSimpleMove_single_free hcp (hends _) hk1 ho]
    simp only [Except.ok.injEq, Option.some.injEq, List.cons.injEq, Prod.mk.injEq, true_and] at h
    obtain ⟨rfl, rfl⟩ := h
    rfl
  | some occ =>
    by_cases hocc : occ.playerID = s.currentPlayer
    · have hown : ownOccupant s { boardLocation := BoardLocation.TRACK, index := cp.startField,
                                  playerID := s.currentPlayer } = true := by
        unfold ownOccupant
        rw [ho]
        simp [hocc]
      rw [checkSimpleMove_single_own hcp (hends _) hown] at h
      cases h
    · rw [checkSimpleMove_single_capture hcp (hends _) hk ho hocc] at h
      rw [checkSimpleMove_single_capture hcp (hends _) hk1 ho hocc]
      simp only [Except.ok.injEq, Option.some.injEq, List.cons.injEq, Prod.mk.injEq,
        true_and] at h
      obtain ⟨rfl, rfl⟩ := h
      rfl

/-- The START moves duplicated for the later HOME marbles are justified. -/
theorem dupStart_justified (s : GameState) (cp : Player) (card : Card) (V : Int) (c h : Nat)
    (hcp : s.getPlayerByIndex s.currentPlayer = some cp)
    (hdist : ∀ m : Fin 4, cp.marbleIdentified m = true) (m : Fin 4) (e : Position)
    (rest : List Movement)
    (hval : checkSimpleMove s (cp.marbles m) 0 =
      Except.ok (some (({ playerID := s.currentPlayer, marbleIdx := m.val }, e) :: rest)))
    (l : List (Fin 4)) :
    ∀ mvs, dupStart cp c h (({ playerID := s.currentPlayer, marbleIdx := m.val }, e) :: rest) l =
        Except.ok mvs →
      ∀ mv ∈ mvs, mv.cardID = c ∧ Justified s cp card (MoveType.START, V) mv := by
  induction l with
  | nil =>
    intro mvs hmvs mv hmv
    unfold dupStart at hmvs
    cases hmvs
    cases hmv
  | cons m1 rest1 ih =>
    intro mvs hmvs mv hmv
    unfold dupStart at hmvs
    split at hmvs
    · exact ih mvs hmvs mv hmv
    · rename_i hhome
      simp only [ne_eq, Decidable.not_not] at hhome
      cases hrec : dupStart cp c h
          (({ playerID := s.currentPlayer, marbleIdx := m.val }, e) :: rest) rest1 with
      | error err => simp [hrec] at hmvs
      | ok more =>
        simp only [hrec, Except.ok.injEq] at hmvs
        subst hmvs
        rcases List.mem_cons.1 hmv with rfl | hmem
        · refine ⟨rfl, m1, e, [],
            ({ playerID := s.currentPlayer, marbleIdx := m1.val }, e) :: rest, rfl, ?_, ?_⟩
          · rw [validateMove_start_of_home hhome]
            exact checkSimpleMove_start_transfer s cp hcp m m1 (hdist m) (hdist m1) e rest hval
          · apply ruleMatches_of_subset
            · intro x hx
              simp only [List.mem_singleton] at hx
              subst hx
              exact List.mem_cons_self _ _
            · simp
            · intro hlen
              have : rest = [] := by
                cases rest with
                | nil => rfl
                | cons a as => simp at hlen
              subst this
              intro v hv
              exact hv
        · exact ih more hrec mv hmem

theorem swapPairs_length (mover : MarbleIdentifier) (marblePos : Position)
    (l : List (MarbleIdentifier × Position)) :
    (l.flatMap fun t => [(mover, t.2), (t.1, marblePos)]).length = 2 * l.length := by
  induction l with
  | nil => rfl
  | cons a as ih =>
    simp only [List.flatMap_cons, List.length_append, List.length_cons, List.length_nil, ih]
    omega

/-- One swap pair passes the comparison against the list of all swap pairs. -/
theorem swapPair_matches (mover : MarbleIdentifier) (marblePos : Position)
    (targets : List (MarbleIdentifier × Position)) (t : MarbleIdentifier × Position)
    (ht : t ∈ targets) :
    ruleMatches [(mover, t.2), (t.1, marblePos)]
      (targets.flatMap fun t => [(mover, t.2), (t.1, marblePos)]) = true := by
  apply ruleMatches_of_subset
  · intro x hx
    exact List.mem_flatMap.2 ⟨t, ht, hx⟩
  · rw [swapPairs_length]
    have : 0 < targets.length := List.length_pos_of_mem ht
    simp only [List.length_cons, List.length_nil]
    omega
  · intro hlen
    rw [swapPairs_length] at hlen
    simp only [List.length_cons, List.length_nil] at hlen
    have h1 : targets.length = 1 := by omega
    match targets, h1, ht with
    | [a], _, ht =>
      simp only [List.mem_singleton] at ht
      subst ht
      intro v hv
      simpa using hv

/-- A SWAP result of `validateMove` for an identified marble is the list of all swap pairs, the
marble is on TRACK and is not the start-blocking one. -/
theorem validateMove_swap_shape (s : GameState) (cp : Player) (card : Card) (V : Int)
    (m : Fin 4) (hcp : s.getPlayerByIndex s.currentPlayer = some cp)
    (hid : cp.marbleIdentified m = true) (moved : List Movement)
    (h : validateMove s card (cp.marbles m) (MoveType.SWAP, V) false = Except.ok (some moved)) :
    swapTargets s ≠ [] ∧
    moved = (swapTargets s).flatMap fun t =>
      [(({ playerID := s.currentPlayer, marbleIdx := m.val } : MarbleIdentifier), t.2),
       (t.1, cp.marbles m)] := by
  obtain ⟨-, hsw⟩ := validateMove_swap_eq h
  rw [checkSwapMove_eq s cp m hcp hid] at hsw
  split at hsw
  · cases hsw
  · rename_i hcond
    simp only [Except.ok.injEq, Option.some.injEq] at hsw
    exact ⟨fun hn => hcond (Or.inr hn), hsw.symm⟩

/-- The SWAP moves duplicated for the later TRACK marbles are justified. -/
theorem dupSwap_justified (s : GameState) (cp : Player) (card : Card) (V : Int) (c h : Nat)
    (hcp : s.getPlayerByIndex s.currentPlayer = some cp)
    (hdist : ∀ m : Fin 4, cp.marbleIdentified m = true) (m : Fin 4)
    (hne : swapTargets s ≠ []) (l : List (Fin 4)) :
    ∀ mvs, dupSwap cp c h ((swapTargets s).flatMap fun t =>
        [(({ playerID := s.currentPlayer, marbleIdx := m.val } : MarbleIdentifier), t.2),
         (t.1, cp.marbles m)]) l = Except.ok mvs →
      ∀ mv ∈ mvs, mv.cardID = c ∧ Justified s cp card (MoveType.SWAP, V) mv := by
  induction l with
  | nil =>
    intro mvs hmvs mv hmv
    unfold dupSwap at hmvs
    cases hmvs
    cases hmv
  | cons m1 rest1 ih =>
    intro mvs hmvs mv hmv
    unfold dupSwap at hmvs
    split at hmvs
    · exact ih mvs hmvs mv hmv
    · rename_i htrack
      simp only [ne_eq, Decidable.not_not] at htrack
      split at hmvs
      · exact ih mvs hmvs mv hmv
      · rename_i hnb
        rw [dupSwapFor_pairs] at hmvs
        simp only at hmvs
        cases hrec : dupSwap cp c h ((swapTargets s).flatMap fun t =>
            [(({ playerID := s.currentPlayer, marbleIdx := m.val } : MarbleIdentifier), t.2),
             (t.1, cp.marbles m)]) rest1 with
        | error err => simp [hrec] at hmvs
        | ok more =>
          simp only [hrec, Except.ok.injEq] at hmvs
          subst hmvs
          rcases List.mem_append.1 hmv with hmem | hmem
          · obtain ⟨t, ht, rfl⟩ := List.mem_map.1 hmem
            refine ⟨rfl, m1, t.2, [(t.1, cp.marbles m1)],
              ((swapTargets s).flatMap fun t =>
                [(({ playerID := s.currentPlayer, marbleIdx := m1.val } : MarbleIdentifier), t.2),
                 (t.1, cp.marbles m1)]), rfl, ?_, ?_⟩
            · rw [validateMove_swap_of_track htrack, checkSwapMove_eq s cp m1 hcp (hdist m1)]
              simp [hnb, hne]
            · exact swapPair_matches _ _ _ t ht
          · exact ih more hrec mv hmem

/-- Every move the marble loop of `computeLegalMoves` produces for a rule carries the card id
given to the loop and is justified by that rule. -/
theorem marbleLoop_justified (s : GameState) (cp : Player) (card : Card) (ty : MoveType)
    (V : Int) (c h : Nat) (hcp : s.getPlayerByIndex s.currentPlayer = some cp)
    (hdist : ∀ m : Fin 4, cp.marbleIdentified m = true) (l : List (Fin 4)) :
    ∀ mvs, marbleLoop s cp card ty V false c h l = Except.ok mvs →
      ∀ mv ∈ mvs, mv.cardID = c ∧ Justified s cp card (ty, V) mv := by
  induction l with
  | nil =>
    intro mvs hmvs mv hmv
    unfold marbleLoop at hmvs
    cases hmvs
    cases hmv
  | cons m rest ih =>
    intro mvs hmvs mv hmv
    obtain ⟨r, hr, -, -, hnone⟩ := validateMove_ok s cp m card (ty, V) hcp
    unfold marbleLoop at hmvs
    rw [hr] at hmvs
    cases r with
    | none => exact ih mvs hmvs mv hmv
    | some moved =>
      cases ty with
      | START =>
        obtain ⟨-, hsimple⟩ := validateMove_start_eq hr
        obtain ⟨e, tl, rfl⟩ := checkSimpleMove_head s cp m 0 hcp (hdist m) moved hsimple
        simp only at hmvs
        cases hd : dupStart cp c h
            (({ playerID := s.currentPlayer, marbleIdx := m.val }, e) :: tl) rest with
        | error err => simp [hd] at hmvs
        | ok dups =>
          simp only [hd, Except.ok.injEq] at hmvs
          subst hmvs
          rcases List.mem_append.1 hmv with hmem | hmem
          · exact expandSimple_justified s cp card _ c h m e tl hr mv hmem
          · exact dupStart_justified s cp card V c h hcp hdist m e tl hsimple rest dups hd mv hmem
      | SIMPLE =>
        have hsimple := validateMove_simple_eq hr
        obtain ⟨e, tl, rfl⟩ := checkSimpleMove_head s cp m V hcp (hdist m) moved hsimple
        simp only at hmvs
        cases hrec : marbleLoop s cp card MoveType.SIMPLE V false c h rest with
        | error err => simp [hrec] at hmvs
        | ok more =>
          simp only [hrec, Except.ok.injEq] at hmvs
          subst hmvs
          rcases List.mem_append.1 hmv with hmem | hmem
          · exact expandSimple_justified s cp card _ c h m e tl hr mv hmem
          · exact ih more hrec mv hmem
      | SWAP =>
        obtain ⟨hne, rfl⟩ := validateMove_swap_shape s cp card V m hcp (hdist m) moved hr
        simp only [expandSwap_pairs] at hmvs
        cases hd : dupSwap cp c h ((swapTargets s).flatMap fun t =>
            [(({ playerID := s.currentPlayer, marbleIdx := m.val } : MarbleIdentifier), t.2),
             (t.1, cp.marbles m)]) rest with
        | error err => simp [hd] at hmvs
        | ok dups =>
          simp only [hd, Except.ok.injEq] at hmvs
          subst hmvs
          rcases List.mem_append.1 hmv with hmem | hmem
          · obtain ⟨t, ht, rfl⟩ := List.mem_map.1 hmem
            exact ⟨rfl, m, t.2, [(t.1, cp.marbles m)], _, rfl, hr, swapPair_matches _ _ _ t ht⟩
          · exact dupSwap_justified s cp card V c h hcp hdist m hne rest dups hd mv hmem
      | SEVEN => exact absurd (hnone (Or.inl rfl)) (by simp)
      | JOKER => exact absurd (hnone (Or.inr rfl)) (by simp)

theorem ruleLoop_justified (s : GameState) (cp : Player) (card : Card) (c h : Nat)
    (hcp : s.getPlayerByIndex s.currentPlayer = some cp)
    (hdist : ∀ m : Fin 4, cp.marbleIdentified m = true) (rules : List (MoveType × Int)) :
    ∀ mvs, ruleLoop s cp card false c h rules = Except.ok mvs →
      ∀ mv ∈ mvs, mv.cardID = c ∧ ∃ rule ∈ rules, Justified s cp card rule mv := by
  induction rules with
  | nil =>
    intro mvs hmvs mv hmv
    unfold ruleLoop at hmvs
    cases hmvs
    cases hmv
  | cons rule rest ih =>
    intro mvs hmvs mv hmv
    unfold ruleLoop at hmvs
    simp only [Bool.false_eq_true, false_and, if_false] at hmvs
    cases hhere : marbleLoop s cp card rule.1 rule.2 false c h seatIds with
    | error err => simp [hhere] at hmvs
    | ok here =>
      cases hmore : ruleLoop s cp card false c h rest with
      | error err => simp [hhere, hmore] at hmvs
      | ok more =>
        simp only [hhere, hmore, Except.ok.injEq] at hmvs
        subst hmvs
        rcases List.mem_append.1 hmv with hmem | hmem
        · obtain ⟨h1, h2⟩ :=
            marbleLoop_justified s cp card rule.1 rule.2 c h hcp hdist seatIds here hhere mv hmem
          exact ⟨h1, rule, List.mem_cons_self _ _, h2⟩
        · obtain ⟨h1, r, hr, h2⟩ := ih more hmore mv hmem
          exact ⟨h1, r, List.mem_cons_of_mem _ hr, h2⟩

theorem handLoop_justified (s : GameState) (cp : Player)
    (hcp : s.getPlayerByIndex s.currentPlayer = some cp)
    (hdist : ∀ m : Fin 4, cp.marbleIdentified m = true) (hand : List Nat) :
    ∀ handIndex mvs, handLoop s cp none false false hand handIndex = Except.ok mvs →
      ∀ mv ∈ mvs, ∃ card, s.cardAt mv.cardID = Except.ok card ∧
        ∃ rule ∈ card.moveRules, Justified s cp card rule mv := by
  induction hand with
  | nil =>
    intro handIndex mvs hmvs mv hmv
    unfold handLoop at hmvs
    cases hmvs
    cases hmv
  | cons c rest ih =>
    intro handIndex mvs hmvs mv hmv
    unfold handLoop at hmvs
    cases hcard : s.cardAt c with
    | error err => simp [hcard] at hmvs
    | ok card =>
      simp only [hcard, toSetTarget, Bool.false_eq_true, or_self, if_false] at hmvs
      cases hhere : ruleLoop s cp card false c handIndex card.moveRules with
      | error err => simp [hhere] at hmvs
      | ok here =>
        cases hmore : handLoop s cp none false false rest (handIndex + 1) with
        | error err => simp [hhere, hmore] at hmvs
        | ok more =>
          simp only [hhere, hmore, Except.ok.injEq] at hmvs
          subst hmvs
          rcases List.mem_append.1 hmv with hmem | hmem
          · obtain ⟨h1, h2⟩ :=
              ruleLoop_justified s cp card c handIndex hcp hdist card.moveRules here hhere mv hmem
            exact ⟨card, by rw [h1]; exact hcard, h2⟩
          · exact ih (handIndex + 1) more hmore mv hmem

/-- The rule loop of `isValidTurn` accepts as soon as one rule of the list has a result that
passes the comparison. -/
theorem validateRules_true (s : GameState) (cp : Player) (m : Fin 4) (card : Card)
    (movements : List Movement) (hcp : s.getPlayerByIndex s.currentPlayer = some cp)
    (rules : List (MoveType × Int)) (rule : MoveType × Int) (hrule : rule ∈ rules)
    (val : List Movement)
    (hval : validateMove s card (cp.marbles m) rule false = Except.ok (some val))
    (hmatch : ruleMatches movements val = true) :
    validateRules s card (cp.marbles m) movements rules = Except.ok true := by
  induction rules with
  | nil => cases hrule
  | cons r rest ih =>
    unfold validateRules
    by_cases hr : rule = r
    · subst hr
      simp [hval, hmatch]
    · have hmem : rule ∈ rest := by
        rcases List.mem_cons.1 hrule with h | h
        · exact absurd h hr
        · exact h
      obtain ⟨x, hx, -⟩ := validateMove_ok s cp m card r hcp
      rw [hx]
      cases x with
      | none => exact ih hmem
      | some v =>
        simp only
        split
        · rfl
        · exact ih hmem

/-- A move that is justified by a rule of its card is accepted by `isValidTurn`. -/
theorem isValidTurn_of_justified (s : GameState) (cp : Player) (mv : Move) (card : Card)
    (rule : MoveType × Int)
    (hcp : s.getPlayerByIndex s.currentPlayer = some cp)
    (hcard : s.cardAt mv.cardID = Except.ok card) (hrule : rule ∈ card.moveRules)
    (hj : Justified s cp card rule mv) :
    isValidTurn s mv = Except.ok true := by
  obtain ⟨m, e, rest, val, hmov, hval, hmatch⟩ := hj
  unfold isValidTurn
  rw [hmov] at hmatch ⊢
  simp only [hcard, ne_eq, not_true_eq_false, if_false]
  split
  · rfl
  · split
    · rfl
    · have hpl : s.playerAt s.currentPlayer = Except.ok cp := by
        unfold GameState.playerAt
        rw [hcp]
      have hpos : cp.getMarblePosition m.val = Except.ok (cp.marbles m) := by
        unfold Player.getMarblePosition
        simp [m.isLt]
      simp only [hpl, hpos]
      exact validateRules_true s cp m card _ hcp card.moveRules rule hrule val hval hmatch

/-! ## The embedding on the inputs of the test suite -/

/-- The embedding returns what `tests/test_game.cpp` expects of the engine: `ValidSimpleMove`,
`InvalidMoveWrongEndPosition`, `InvalidMoveWrongMarble`, `ValidMoveWithKickout`,
`ValidStartMove`, `ValidSwapMove`, `InvalidFoldWithLegalMoves`, `CannotExceedFinishZone` and the
own-marble case of `validateSimpleMove`. -/
theorem engine_agrees_with_tests :
    isValidTurn walkerState
        { cardID := 4, handIndex := 0,
          movements := [({ playerID := 0, marbleIdx := 0 },
            { boardLocation := BoardLocation.TRACK, index := 10, playerID := 0 })] } =
      Except.ok true ∧
    isValidTurn walkerState
        { cardID := 4, handIndex := 0,
          movements := [({ playerID := 0, marbleIdx := 0 },
            { boardLocation := BoardLocation.TRACK, index := 12, playerID := 0 })] } =
      Except.ok false ∧
    isValidTurn twoWalkersState
        { cardID := 4, handIndex := 0,
          movements := [({ playerID := 0, marbleIdx := 1 },
            { boardLocation := BoardLocation.TRACK, index := 10, playerID := 0 })] } =
      Except.ok false ∧
    isValidTurn kickoutState
        { cardID := 4, handIndex := 0,
          movements := [({ playerID := 0, marbleIdx := 0 },
              { boardLocation := BoardLocation.TRACK, index := 10, playerID := 0 }),
            ({ playerID := 1, marbleIdx := 0 },
              { boardLocation := BoardLocation.HOME, index := 0, playerID := 1 })] } =
      Except.ok true ∧
    isValidTurn aceState
        { cardID := 0, handIndex := 0,
          movements := [({ playerID := 0, marbleIdx := 0 },
            { boardLocation := BoardLocation.TRACK, index := 0, playerID := 0 })] } =
      Except.ok true ∧
    isValidTurn swapState
        { cardID := 10, handIndex := 0,
          movements := [({ playerID := 0, marbleIdx := 0 },
              { boardLocation := BoardLocation.TRACK, index := 30, playerID := 1 }),
            ({ playerID := 1, marbleIdx := 0 },
              { boardLocation := BoardLocation.TRACK, index := 20, playerID := 0 })] } =
      Except.ok true ∧
    isValidTurn aceState { cardID := 0, handIndex := 0, movements := [] } = Except.ok false ∧
    validateMove finishEndState (Card.new Rank.THREE Suit.DIAMONDS)
        { boardLocation := BoardLocation.FINISH, index := 3, playerID := 0 }
        (MoveType.SIMPLE, 3) false = Except.ok none ∧
    validateMove twoWalkersState (Card.new Rank.TEN Suit.HEARTS)
        { boardLocation := BoardLocation.TRACK, index := 5, playerID := 0 }
        (MoveType.SIMPLE, 10) false = Except.ok none := by
  decide

/-- The expectations of the tests `ExecuteMove.*`, `MoveLogic.StartFieldBlocking` and
`MoveLogic.StartFieldUnblocking`, evaluated in the embedding. -/
theorem execution_agrees_with_tests :
    -- ExecuteMove.MarblePositionUpdate, LastPlayedCardUpdated
    (executeMove walkerState
        { cardID := 4, handIndex := 0,
          movements := [({ playerID := 0, marbleIdx := 0 },
            { boardLocation := BoardLocation.TRACK, index := 10, playerID := 0 })] }).map
        (fun r => ((r.1.getPlayerByIndex 0).map (fun pl => pl.marbles 0), r.1.lastPlayedCard)) =
      Except.ok (some { boardLocation := BoardLocation.TRACK, index := 10, playerID := 0 },
        some 4) ∧
    -- ExecuteMove.CardRemovedFromHand
    (executeMove (twoSeats (walkerP0.withHand [4, 5, 6]) (Player.new 1 "ID1"))
        { cardID := 4, handIndex := 0,
          movements := [({ playerID := 0, marbleIdx := 0 },
            { boardLocation := BoardLocation.TRACK, index := 10, playerID := 0 })] }).map
        (fun r => (r.1.getPlayerByIndex 0).map (fun pl => pl.hand)) =
      Except.ok (some [5, 6]) ∧
    -- ExecuteMove.PlayerFinishDetection
    (executeMove
        (twoSeats ((((((Player.new 0 "ID0").withMarble 0
            { boardLocation := BoardLocation.FINISH, index := 3, playerID := 0 }).withMarble 1
            { boardLocation := BoardLocation.FINISH, index := 3, playerID := 0 }).withMarble 2
            { boardLocation := BoardLocation.FINISH, index := 3, playerID := 0 }).withMarble 3
            { boardLocation := BoardLocation.FINISH, index := 2, playerID := 0 }).withHand [0])
          (Player.new 1 "ID1"))
        { cardID := 0, handIndex := 0,
          movements := [({ playerID := 0, marbleIdx := 3 },
            { boardLocation := BoardLocation.FINISH, index := 3, playerID := 0 })] }).map
        (fun r => ((r.1.getPlayerByIndex 0).map (fun pl => pl.activeInGame),
          r.1.leaderBoard 0)) =
      Except.ok (some false, some 1) ∧
    -- MoveLogic.StartFieldBlocking
    isValidTurn aceState startMove = Except.ok true ∧
    (executeMove aceState startMove).map
        (fun r => (r.1.getPlayerByIndex 0).map (fun pl => pl.startBlocked)) =
      Except.ok (some (some 0)) ∧
    -- MoveLogic.StartFieldUnblocking
    (executeMove (twoSeats (onStartP0.withHand [4]) (Player.new 1 "ID1"))
        { cardID := 4, handIndex := 0,
          movements := [({ playerID := 0, marbleIdx := 0 },
            { boardLocation := BoardLocation.TRACK, index := 5, playerID := 0 })] }).map
        (fun r => (r.1.getPlayerByIndex 0).map (fun pl => pl.startBlocked)) =
      Except.ok (some none) ∧
    -- GameStateTest.DealCards, on the unshuffled index vector
    (dealCards fourPlayers (List.range 54)).map
        (fun dealt => (dealt.map (fun e => (e.1, e.2.length)),
          (dealt.flatMap (fun e => e.2)).dedup.length)) =
      Except.ok ([(0, 6), (1, 6), (2, 6), (3, 6)], 24) :=
  ⟨by decide, by decide, by decide, by decide, by decide, by decide, by decide⟩

/-! ## State updates -/

theorem setPlayerAt_players (s : GameState) (q : Fin 4) (pl : Player) (q1 : Fin 4) :
    (s.setPlayerAt q.val pl).players q1 = if q1 = q then some pl else s.players q1 := by
  unfold GameState.setPlayerAt
  rw [dif_pos q.isLt]
  by_cases h : q1 = q
  · subst h; simp
  · simp [Function.update, h]

theorem setPlayerAt_get (s : GameState) (i : Nat) (pl : Player) (j : Nat) :
    (s.setPlayerAt i pl).getPlayerByIndex j =
      if j = i ∧ i < 4 then some pl else s.getPlayerByIndex j := by
  unfold GameState.setPlayerAt GameState.getPlayerByIndex
  by_cases hi : i < 4
  · by_cases hj : j < 4
    · by_cases hji : j = i
      · subst hji; simp [hi]
      · have : (⟨j, hj⟩ : Fin 4) ≠ ⟨i, hi⟩ := fun h => hji (Fin.mk.inj h)
        simp [hi, hj, hji, Function.update, this]
    · have hji : j ≠ i := by omega
      simp [hi, hj, hji]
  · simp [hi]

theorem setPlayerAt_fields (s : GameState) (i : Nat) (pl : Player) :
    (s.setPlayerAt i pl).currentPlayer = s.currentPlayer ∧
    (s.setPlayerAt i pl).leaderBoard = s.leaderBoard ∧
    (s.setPlayerAt i pl).roundStartPlayer = s.roundStartPlayer ∧
    (s.setPlayerAt i pl).roundCardCount = s.roundCardCount ∧
    (s.setPlayerAt i pl).lastPlayedCard = s.lastPlayedCard ∧
    (s.setPlayerAt i pl).deck = s.deck := by
  unfold GameState.setPlayerAt
  split <;> simp

theorem getPlayerByIndex_fin (s : GameState) (q : Fin 4) :
    s.getPlayerByIndex q.val = s.players q := by
  simp [GameState.getPlayerByIndex, q.isLt]

theorem getPlayerByIndex_lt {s : GameState} {i : Nat} {pl : Player}
    (h : s.getPlayerByIndex i = some pl) : i < 4 := by
  unfold GameState.getPlayerByIndex at h
  split at h
  · assumption
  · cases h

/-- Inversion of one pass of the movement loop. -/
theorem applyMovement_inv {s s1 : GameState} {x : Movement} (h : applyMovement s x = Except.ok s1) :
    ∃ (q m : Fin 4) (pl : Player), q.val = x.1.playerID ∧ m.val = x.1.marbleIdx ∧
      s.players q = some pl ∧
      s1 = s.setPlayerAt q.val (startBlockUpdate s.currentPlayer x.1 (pl.marbles m).isInHome
        { pl with marbles := Function.update pl.marbles m x.2 }) := by
  unfold applyMovement GameState.playerAt at h
  cases hpl : s.getPlayerByIndex x.1.playerID with
  | none => simp [hpl] at h
  | some pl =>
    have hq := getPlayerByIndex_lt hpl
    simp only [hpl] at h
    unfold Player.getMarblePosition Player.setMarblePosition at h
    by_cases hm : x.1.marbleIdx < 4
    · simp only [dif_pos hm] at h
      refine ⟨⟨_, hq⟩, ⟨_, hm⟩, pl, rfl, rfl, ?_, ?_⟩
      · rw [← getPlayerByIndex_fin]; exact hpl
      · exact (Except.ok.inj h).symm
    · simp [dif_neg hm] at h

/-- One pass of the movement loop returns on a present seat and a marble index below 4. -/
theorem applyMovement_eq {s : GameState} {x : Movement} (q m : Fin 4) {pl : Player}
    (hq : q.val = x.1.playerID) (hm : m.val = x.1.marbleIdx) (hpl : s.players q = some pl) :
    applyMovement s x = Except.ok (s.setPlayerAt q.val
      (startBlockUpdate s.currentPlayer x.1 (pl.marbles m).isInHome
        { pl with marbles := Function.update pl.marbles m x.2 })) := by
  have hg : s.getPlayerByIndex x.1.playerID = some pl := by
    rw [← hq, getPlayerByIndex_fin]; exact hpl
  have hm4 : x.1.marbleIdx < 4 := hm ▸ m.isLt
  have hmm : (⟨x.1.marbleIdx, hm4⟩ : Fin 4) = m := Fin.ext hm.symm
  unfold applyMovement GameState.playerAt
  simp only [hg]
  unfold Player.getMarblePosition Player.setMarblePosition
  simp only [dif_pos hm4, hmm, hq]


theorem sameCore_refl (a : Player) : a.sameCore a := ⟨rfl, rfl, rfl, rfl, rfl⟩

theorem sameCore_trans {a b c : Player} (h1 : a.sameCore b) (h2 : b.sameCore c) : a.sameCore c :=
  ⟨h1.1.trans h2.1, h1.2.1.trans h2.2.1, h1.2.2.1.trans h2.2.2.1, h1.2.2.2.1.trans h2.2.2.2.1,
    h1.2.2.2.2.trans h2.2.2.2.2⟩

theorem sameFrame_refl (s : GameState) : s.sameFrame s := by
  refine ⟨rfl, rfl, rfl, rfl, rfl, rfl, fun q => ?_⟩
  cases s.players q with
  | none => trivial
  | some a => exact sameCore_refl a

theorem sameFrame_trans {s s1 s2 : GameState} (h1 : s.sameFrame s1) (h2 : s1.sameFrame s2) :
    s.sameFrame s2 := by
  obtain ⟨a1, a2, a3, a4, a5, a6, a7⟩ := h1
  obtain ⟨b1, b2, b3, b4, b5, b6, b7⟩ := h2
  refine ⟨b1.trans a1, b2.trans a2, b3.trans a3, b4.trans a4, b5.trans a5, b6.trans a6,
    fun q => ?_⟩
  have h7 := a7 q
  have g7 := b7 q
  cases hs : s.players q <;> cases hs1 : s1.players q <;> cases hs2 : s2.players q <;>
    simp only [hs, hs1, hs2] at h7 g7 ⊢
  all_goals first | trivial | exact sameCore_trans g7 h7

theorem sameFrame_some {s s1 : GameState} (h : s.sameFrame s1) {q : Fin 4} {pl : Player}
    (hq : s.players q = some pl) : ∃ pl1, s1.players q = some pl1 ∧ pl1.sameCore pl := by
  have h7 := h.2.2.2.2.2.2 q
  cases hs1 : s1.players q with
  | none => simp only [hq, hs1] at h7
  | some b => simp only [hq, hs1] at h7; exact ⟨b, rfl, h7⟩

theorem sameFrame_some_inv {s s1 : GameState} (h : s.sameFrame s1) {q : Fin 4} {pl1 : Player}
    (hq : s1.players q = some pl1) : ∃ pl, s.players q = some pl ∧ pl1.sameCore pl := by
  have h7 := h.2.2.2.2.2.2 q
  cases hs : s.players q with
  | none => simp only [hq, hs] at h7
  | some b => simp only [hq, hs] at h7; exact ⟨b, rfl, h7⟩

theorem sameFrame_get {s s1 : GameState} (h : s.sameFrame s1) {i : Nat} {pl : Player}
    (hq : s.getPlayerByIndex i = some pl) :
    ∃ pl1, s1.getPlayerByIndex i = some pl1 ∧ pl1.sameCore pl := by
  have hi := getPlayerByIndex_lt hq
  have := getPlayerByIndex_fin s ⟨i, hi⟩
  have h1 := getPlayerByIndex_fin s1 ⟨i, hi⟩
  simp only at this h1
  rw [this] at hq
  rw [h1]
  exact sameFrame_some h hq

theorem startBlockUpdate_sameCore (c : Nat) (mk : MarbleIdentifier) (b : Bool) (pl : Player) :
    (startBlockUpdate c mk b pl).sameCore pl ∧ (startBlockUpdate c mk b pl).marbles = pl.marbles := by
  unfold startBlockUpdate
  split
  · split
    · exact ⟨⟨rfl, rfl, rfl, rfl, rfl⟩, rfl⟩
    · split
      · exact ⟨⟨rfl, rfl, rfl, rfl, rfl⟩, rfl⟩
      · exact ⟨sameCore_refl _, rfl⟩
  · exact ⟨sameCore_refl _, rfl⟩

theorem startBlockUpdate_flag (c : Nat) (mk : MarbleIdentifier) (b : Bool) (pl : Player) :
    (startBlockUpdate c mk b pl).startBlocked =
      if mk.playerID = c then
        if pl.startBlocked = some mk.marbleIdx then none
        else if b then some mk.marbleIdx else pl.startBlocked
      else pl.startBlocked := by
  unfold startBlockUpdate
  split
  · split
    · rfl
    · split <;> rfl
  · rfl

/-- What one pass of the movement loop changes: the marbles and the flag of the moved seat. -/
theorem applyMovement_frame {s s1 : GameState} {x : Movement}
    (h : applyMovement s x = Except.ok s1) :
    s.sameFrame s1 ∧ ∀ q : Fin 4, q.val ≠ x.1.playerID → s1.players q = s.players q := by
  obtain ⟨q, m, pl, hq, hm, hpl, rfl⟩ := applyMovement_inv h
  obtain ⟨f1, f2, f3, f4, f5, f6⟩ := setPlayerAt_fields s q.val
    (startBlockUpdate s.currentPlayer x.1 (pl.marbles m).isInHome
      { pl with marbles := Function.update pl.marbles m x.2 })
  refine ⟨⟨f1, f2, f3, f4, f5, f6, fun q1 => ?_⟩, fun q1 hq1 => ?_⟩
  · rw [setPlayerAt_players]
    by_cases hqq : q1 = q
    · subst hqq
      simp only [hpl, if_true]
      exact (startBlockUpdate_sameCore _ _ _ _).1
    · simp only [hqq, if_false]
      cases s.players q1 with
      | none => trivial
      | some a => exact sameCore_refl a
  · rw [setPlayerAt_players]
    have : q1 ≠ q := fun e => hq1 (e ▸ hq)
    simp [this]

theorem applyMovements_frame {l : List Movement} :
    ∀ {s s1 : GameState}, applyMovements s l = Except.ok s1 →
      s.sameFrame s1 ∧
      ∀ q : Fin 4, (∀ x ∈ l, x.1.playerID ≠ q.val) → s1.players q = s.players q := by
  induction l with
  | nil =>
    intro s s1 h
    simp only [applyMovements] at h
    cases Except.ok.inj h
    exact ⟨sameFrame_refl s, fun _ _ => rfl⟩
  | cons x rest ih =>
    intro s s1 h
    simp only [applyMovements] at h
    cases hx : applyMovement s x with
    | error e => simp [hx] at h
    | ok s2 =>
      simp only [hx] at h
      obtain ⟨g1, g2⟩ := applyMovement_frame hx
      obtain ⟨k1, k2⟩ := ih h
      refine ⟨sameFrame_trans g1 k1, fun q hq => ?_⟩
      rw [k2 q (fun y hy => hq y (List.mem_cons_of_mem _ hy)),
        g2 q (fun e => hq x (List.mem_cons_self _ _) e.symm)]

theorem movementsWellFormed_spec {s : GameState} {l : List Movement}
    (h : s.movementsWellFormed l = true) :
    ∀ x ∈ l, x.1.marbleIdx < 4 ∧ (s.getPlayerByIndex x.1.playerID).isSome = true := by
  intro x hx
  unfold GameState.movementsWellFormed at h
  rw [List.all_eq_true] at h
  simpa using h x hx

theorem ranksInRange_spec {s : GameState} (h : s.ranksInRange = true) :
    ∀ q r, s.leaderBoard q = some r → r < intMax := by
  intro q r hq
  unfold GameState.ranksInRange at h
  rw [List.all_eq_true] at h
  have := h q (mem_seatIds q)
  simpa [hq] using this

/-- The movement loop returns on a list of well-formed movements. -/
theorem applyMovements_ok {l : List Movement} :
    ∀ {s : GameState}, s.movementsWellFormed l = true →
      ∃ s1, applyMovements s l = Except.ok s1 := by
  induction l with
  | nil => intro s _; exact ⟨s, rfl⟩
  | cons x rest ih =>
    intro s hwf0
    have hwf := movementsWellFormed_spec hwf0
    obtain ⟨hm, hp⟩ := hwf x (List.mem_cons_self _ _)
    obtain ⟨pl, hpl⟩ := Option.isSome_iff_exists.mp hp
    have hq := getPlayerByIndex_lt hpl
    have hpl1 : s.players ⟨_, hq⟩ = some pl := by rw [← getPlayerByIndex_fin]; exact hpl
    have hx := @applyMovement_eq s x ⟨_, hq⟩ ⟨_, hm⟩ pl rfl rfl hpl1
    simp only [applyMovements, hx]
    obtain ⟨g1, _⟩ := applyMovement_frame hx
    apply ih
    unfold GameState.movementsWellFormed
    rw [List.all_eq_true]
    intro y hy
    obtain ⟨hym, hyp⟩ := hwf y (List.mem_cons_of_mem _ hy)
    obtain ⟨ply, hply⟩ := Option.isSome_iff_exists.mp hyp
    obtain ⟨pl1, h1, _⟩ := sameFrame_get g1 hply
    simp [hym, h1]


theorem leaveRoundIfEmpty_spec (pl : Player) :
    (leaveRoundIfEmpty pl).hand = pl.hand ∧
    (leaveRoundIfEmpty pl).activeInRound = (pl.activeInRound && !pl.hand.isEmpty) ∧
    (leaveRoundIfEmpty pl).activeInGame = pl.activeInGame ∧
    (leaveRoundIfEmpty pl).marbles = pl.marbles ∧
    (leaveRoundIfEmpty pl).startBlocked = pl.startBlocked ∧
    (leaveRoundIfEmpty pl).id = pl.id ∧
    (leaveRoundIfEmpty pl).startField = pl.startField := by
  unfold leaveRoundIfEmpty
  split
  · rename_i h; simp [h]
  · rename_i h; simp [h]

theorem rankAt_fin (s : GameState) (q : Fin 4) : s.rankAt q.val = s.leaderBoard q := by
  simp [GameState.rankAt, q.isLt]

theorem maxLeaderBoardEntry_congr {s s1 : GameState} (h : s1.leaderBoard = s.leaderBoard) :
    maxLeaderBoardEntry s1 = maxLeaderBoardEntry s := by
  unfold maxLeaderBoardEntry
  rw [h]

theorem setLeaderBoard_spec (s : GameState) (q : Fin 4) (v : Int) :
    ∃ s1, s.setLeaderBoard q.val v = Except.ok s1 ∧ s1.players = s.players ∧
      s1.currentPlayer = s.currentPlayer ∧ s1.roundStartPlayer = s.roundStartPlayer ∧
      s1.roundCardCount = s.roundCardCount ∧ s1.lastPlayedCard = s.lastPlayedCard ∧
      s1.deck = s.deck ∧ s1.leaderBoard = Function.update s.leaderBoard q (some v) := by
  unfold GameState.setLeaderBoard
  rw [dif_pos q.isLt]
  exact ⟨_, rfl, rfl, rfl, rfl, rfl, rfl, rfl, rfl⟩

theorem addLeaderBoardFinished_spec (s : GameState) (q : Fin 4)
    (hM : (maxLeaderBoardEntry s).getD 0 ≠ intMax) :
    ∃ s1, addLeaderBoardFinished s q.val = Except.ok s1 ∧ s1.players = s.players ∧
      s1.currentPlayer = s.currentPlayer ∧ s1.roundStartPlayer = s.roundStartPlayer ∧
      s1.roundCardCount = s.roundCardCount ∧ s1.lastPlayedCard = s.lastPlayedCard ∧
      s1.deck = s.deck ∧
      s1.leaderBoard =
        Function.update s.leaderBoard q (some ((maxLeaderBoardEntry s).getD 0 + 1)) := by
  unfold addLeaderBoardFinished
  rw [if_neg hM]
  exact setLeaderBoard_spec s q _

theorem getPlayerByIndex_congr {s s1 : GameState} (h : s1.players = s.players) (i : Nat) :
    s1.getPlayerByIndex i = s.getPlayerByIndex i := by
  unfold GameState.getPlayerByIndex
  rw [h]

/-- Inversion of the tail of `executeMove`. -/
theorem finishTurn_inv {s : GameState} {i : Nat} {r : GameState × Bool}
    (h : finishTurn s i = Except.ok r) :
    ∃ cp c, s.getPlayerByIndex s.currentPlayer = some cp ∧ cp.hand[i]? = some c ∧
      (cp.checkFinished = true → (maxLeaderBoardEntry s).getD 0 ≠ intMax) := by
  unfold finishTurn GameState.playerAt at h
  cases hcp : s.getPlayerByIndex s.currentPlayer with
  | none => simp [hcp] at h
  | some cp =>
    simp only [hcp] at h
    unfold Player.popCardFromHand at h
    cases hc : cp.hand[i]? with
    | none => simp [hc] at h
    | some c =>
      refine ⟨cp, c, rfl, hc, fun hfin hM => ?_⟩
      simp only [hc] at h
      have hfin1 : (leaveRoundIfEmpty { cp with hand := cp.hand.eraseIdx i }).checkFinished = true := by
        unfold Player.checkFinished at hfin ⊢
        rw [(leaveRoundIfEmpty_spec _).2.2.2.1]
        exact hfin
      rw [if_pos hfin1] at h
      unfold addLeaderBoardFinished at h
      have hM1 : (maxLeaderBoardEntry
          ({ s with lastPlayedCard := some c }.setPlayerAt s.currentPlayer
            { leaveRoundIfEmpty { cp with hand := cp.hand.eraseIdx i } with
              hand := [], activeInRound := false, activeInGame := false })).getD 0 = intMax := by
        rw [maxLeaderBoardEntry_congr (setPlayerAt_fields _ _ _).2.1]
        exact hM
      rw [if_pos hM1] at h
      simp at h

/-- The tail of `executeMove` on a valid hand index: the result and what it changes. -/
theorem finishTurn_spec {s : GameState} {i : Nat} {cp : Player} {c : Nat}
    (hcp : s.getPlayerByIndex s.currentPlayer = some cp) (hc : cp.hand[i]? = some c)
    (hM : cp.checkFinished = true → (maxLeaderBoardEntry s).getD 0 ≠ intMax) :
    ∃ s1 cp1, finishTurn s i = Except.ok (s1, cp.checkFinished) ∧
      s1.getPlayerByIndex s.currentPlayer = some cp1 ∧
      s1.currentPlayer = s.currentPlayer ∧ s1.lastPlayedCard = some c ∧
      s1.roundStartPlayer = s.roundStartPlayer ∧ s1.roundCardCount = s.roundCardCount ∧
      s1.deck = s.deck ∧
      (∀ q : Fin 4, q.val ≠ s.currentPlayer →
        s1.players q = s.players q ∧ s1.leaderBoard q = s.leaderBoard q) ∧
      cp1.marbles = cp.marbles ∧ cp1.startBlocked = cp.startBlocked ∧ cp1.id = cp.id ∧
      cp1.startField = cp.startField ∧
      (cp.checkFinished = false →
        cp1.hand = cp.hand.eraseIdx i ∧
        cp1.activeInRound = (cp.activeInRound && !(cp.hand.eraseIdx i).isEmpty) ∧
        cp1.activeInGame = cp.activeInGame ∧ s1.leaderBoard = s.leaderBoard) ∧
      (cp.checkFinished = true →
        cp1.hand = [] ∧ cp1.activeInRound = false ∧ cp1.activeInGame = false ∧
        s1.rankAt s.currentPlayer = some ((maxLeaderBoardEntry s).getD 0 + 1)) := by
  have hlt := getPlayerByIndex_lt hcp
  have hL := leaveRoundIfEmpty_spec { cp with hand := cp.hand.eraseIdx i }
  have hfinEq : (leaveRoundIfEmpty { cp with hand := cp.hand.eraseIdx i }).checkFinished =
      cp.checkFinished := by
    unfold Player.checkFinished
    rw [hL.2.2.2.1]
  unfold finishTurn GameState.playerAt
  simp only [hcp]
  unfold Player.popCardFromHand
  simp only [hc, hfinEq]
  cases hfin : cp.checkFinished with
  | false =>
    simp only [Bool.false_eq_true, if_false]
    refine ⟨_, _, rfl, ?_, ?_, ?_, ?_, ?_, ?_, ?_, hL.2.2.2.1, hL.2.2.2.2.1, hL.2.2.2.2.2.1,
      hL.2.2.2.2.2.2, ?_, ?_⟩
    · rw [setPlayerAt_get]; simp [hlt]
    · exact (setPlayerAt_fields _ _ _).1
    · exact (setPlayerAt_fields _ _ _).2.2.2.2.1
    · exact (setPlayerAt_fields _ _ _).2.2.1
    · exact (setPlayerAt_fields _ _ _).2.2.2.1
    · exact (setPlayerAt_fields _ _ _).2.2.2.2.2
    · intro q hq
      have hq1 : q ≠ ⟨s.currentPlayer, hlt⟩ := fun e => hq (congrArg Fin.val e)
      have := setPlayerAt_players { s with lastPlayedCard := some c } ⟨s.currentPlayer, hlt⟩
        (leaveRoundIfEmpty { cp with hand := cp.hand.eraseIdx i }) q
      simp only [hq1, if_false] at this
      refine ⟨this, ?_⟩
      rw [(setPlayerAt_fields _ _ _).2.1]
    · intro _
      exact ⟨hL.1, hL.2.1, hL.2.2.1, (setPlayerAt_fields _ _ _).2.1⟩
    · intro h; cases h
  | true =>
    have hM0 := hM hfin
    rw [if_pos rfl]
    have hMb : (maxLeaderBoardEntry
        ({ s with lastPlayedCard := some c }.setPlayerAt s.currentPlayer
          { leaveRoundIfEmpty { cp with hand := cp.hand.eraseIdx i } with
            hand := [], activeInRound := false, activeInGame := false })).getD 0 ≠ intMax := by
      rw [maxLeaderBoardEntry_congr (setPlayerAt_fields _ _ _).2.1]
      exact hM0
    obtain ⟨s1, e1, p1, p2, p3, p4, p5, p6, p7⟩ :=
      addLeaderBoardFinished_spec _ ⟨s.currentPlayer, hlt⟩ hMb
    simp only at e1
    simp only [e1]
    rw [maxLeaderBoardEntry_congr (setPlayerAt_fields _ _ _).2.1] at p7
    have hMs : maxLeaderBoardEntry { s with lastPlayedCard := some c } = maxLeaderBoardEntry s :=
      rfl
    rw [hMs] at p7
    refine ⟨s1, { leaveRoundIfEmpty { cp with hand := cp.hand.eraseIdx i } with
        hand := [], activeInRound := false, activeInGame := false },
      rfl, ?_, ?_, ?_, ?_, ?_, ?_, ?_, hL.2.2.2.1, hL.2.2.2.2.1, hL.2.2.2.2.2.1,
      hL.2.2.2.2.2.2, ?_, ?_⟩
    · rw [getPlayerByIndex_congr p1, setPlayerAt_get]; simp [hlt]
    · rw [p2]; exact (setPlayerAt_fields _ _ _).1
    · rw [p5]; exact (setPlayerAt_fields _ _ _).2.2.2.2.1
    · rw [p3]; exact (setPlayerAt_fields _ _ _).2.2.1
    · rw [p4]; exact (setPlayerAt_fields _ _ _).2.2.2.1
    · rw [p6]; exact (setPlayerAt_fields _ _ _).2.2.2.2.2
    · intro q hq
      have hq1 : q ≠ ⟨s.currentPlayer, hlt⟩ := fun e => hq (congrArg Fin.val e)
      have := setPlayerAt_players { s with lastPlayedCard := some c } ⟨s.currentPlayer, hlt⟩
        { leaveRoundIfEmpty { cp with hand := cp.hand.eraseIdx i } with
          hand := [], activeInRound := false, activeInGame := false } q
      simp only [hq1, if_false] at this
      refine ⟨by rw [p1]; exact this, ?_⟩
      rw [p7, Function.update_noteq hq1, (setPlayerAt_fields _ _ _).2.1]
    · intro h; cases h
    · intro _
      refine ⟨rfl, rfl, rfl, ?_⟩
      unfold GameState.rankAt
      simp only [dif_pos hlt]
      rw [p7, Function.update_same]


theorem rankValue_eq_getD (e : Option Int) : rankValue e = e.getD 0 := by
  cases e <;> rfl

/-- The entry `std::max_element` returns is an entry of the leaderboard and no entry reads
greater. -/
theorem maxLeaderBoardEntry_spec (s : GameState) :
    (∃ q, maxLeaderBoardEntry s = s.leaderBoard q) ∧
    ∀ q, rankValue (s.leaderBoard q) ≤ rankValue (maxLeaderBoardEntry s) := by
  unfold maxLeaderBoardEntry
  simp only [List.foldl]
  constructor
  · split_ifs <;> first | exact ⟨0, rfl⟩ | exact ⟨1, rfl⟩ | exact ⟨2, rfl⟩ | exact ⟨3, rfl⟩
  · intro q
    split_ifs <;> fin_cases q <;> simp only [Fin.zero_eta, Fin.mk_one, Fin.reduceFinMk] <;> omega

theorem maxLeaderBoardEntry_bound (s : GameState)
    (hlb : ∀ q r, s.leaderBoard q = some r → r < intMax) :
    (maxLeaderBoardEntry s).getD 0 ≠ intMax := by
  obtain ⟨q, hq⟩ := (maxLeaderBoardEntry_spec s).1
  rw [hq]
  cases h : s.leaderBoard q with
  | none => simp [intMax]
  | some r =>
    have := hlb q r h
    simp only [Option.getD_some]
    omega

/-- Inversion of `executeMove`. -/
theorem executeMove_inv {s : GameState} {mv : Move} {r : GameState × Bool}
    (h : executeMove s mv = Except.ok r) :
    ∃ s1, applyMovements s mv.movements = Except.ok s1 ∧ finishTurn s1 mv.handIndex = Except.ok r := by
  unfold executeMove at h
  cases h1 : applyMovements s mv.movements with
  | error e => simp [h1] at h
  | ok s1 => simp only [h1] at h; exact ⟨s1, rfl, h⟩

/-- The record of the current player after the movement loop when the list holds no movement of
the current player, or exactly one. -/
theorem applyMovements_own {l : List Movement} (c : Nat) :
    ∀ {s s1 : GameState} {cp : Player}, s.currentPlayer = c →
      s.getPlayerByIndex c = some cp → applyMovements s l = Except.ok s1 →
      (l.filter (fun x => decide (x.1.playerID = c)) = [] →
        s1.getPlayerByIndex c = some cp) ∧
      (∀ (m : Fin 4) (pos : Position),
        l.filter (fun x => decide (x.1.playerID = c)) =
          [({ playerID := c, marbleIdx := m.val }, pos)] →
        ∃ cp1, s1.getPlayerByIndex c = some cp1 ∧
          cp1.startBlocked =
            (if cp.startBlocked = some m.val then none
             else if (cp.marbles m).isInHome then some m.val else cp.startBlocked) ∧
          cp1.marbles = Function.update cp.marbles m pos) := by
  induction l with
  | nil =>
    intro s s1 cp hc hcp h
    simp only [applyMovements] at h
    cases Except.ok.inj h
    exact ⟨fun _ => hcp, fun m pos hf => by simp at hf⟩
  | cons x rest ih =>
    intro s s1 cp hc hcp h
    simp only [applyMovements] at h
    cases hx : applyMovement s x with
    | error e => simp [hx] at h
    | ok s2 =>
      simp only [hx] at h
      have hlt := getPlayerByIndex_lt hcp
      have hcpf : s.players ⟨c, hlt⟩ = some cp := by
        rw [← getPlayerByIndex_fin]; exact hcp
      obtain ⟨g1, g2⟩ := applyMovement_frame hx
      have hc2 : s2.currentPlayer = c := g1.1.trans hc
      by_cases hown : x.1.playerID = c
      · obtain ⟨q, m1, pl, hq, hm, hpl, hs2⟩ := applyMovement_inv hx
        have hqc : q = ⟨c, hlt⟩ := Fin.ext (hq.trans hown)
        subst hqc
        rw [hcpf] at hpl
        cases Option.some.inj hpl
        have hcp2 : s2.getPlayerByIndex c = some (startBlockUpdate s.currentPlayer x.1
            (cp.marbles m1).isInHome { cp with marbles := Function.update cp.marbles m1 x.2 }) := by
          rw [hs2, setPlayerAt_get]; simp [hlt]
        obtain ⟨k1, _⟩ := ih hc2 hcp2 h
        refine ⟨fun hf => ?_, fun m pos hf => ?_⟩
        · simp [List.filter, hown] at hf
        · have hf1 : x :: rest.filter (fun x => decide (x.1.playerID = c)) =
              [({ playerID := c, marbleIdx := m.val }, pos)] := by
            simpa [List.filter, hown] using hf
          have hxe : x = ({ playerID := c, marbleIdx := m.val }, pos) := (List.cons.inj hf1).1
          have hre := (List.cons.inj hf1).2
          have hmm : m1 = m := by
            apply Fin.ext
            rw [hm, hxe]
          subst hmm
          refine ⟨_, k1 hre, ?_, ?_⟩
          · rw [startBlockUpdate_flag]
            simp [hc, hxe]
          · rw [(startBlockUpdate_sameCore _ _ _ _).2, hxe]
      · have hcp2 : s2.getPlayerByIndex c = some cp := by
          have := g2 ⟨c, hlt⟩ (fun e => hown e.symm)
          rw [← getPlayerByIndex_fin] at this
          exact this.trans hcpf
        obtain ⟨k1, k2⟩ := ih hc2 hcp2 h
        have hfe : (x :: rest).filter (fun x => decide (x.1.playerID = c)) =
            rest.filter (fun x => decide (x.1.playerID = c)) := by
          simp [List.filter, hown]
        rw [hfe]
        exact ⟨k1, k2⟩


/-- The movement loop followed by the tail, on well-formed input. -/
theorem executeMove_run {s : GameState} {mv : Move} {cp : Player} {c : Nat}
    (hcp : s.getPlayerByIndex s.currentPlayer = some cp)
    (hwf : s.movementsWellFormed mv.movements = true)
    (hc : cp.hand[mv.handIndex]? = some c)
    (hlb : s.ranksInRange = true) :
    ∃ s1 cp1, applyMovements s mv.movements = Except.ok s1 ∧ s.sameFrame s1 ∧
      s1.getPlayerByIndex s.currentPlayer = some cp1 ∧ cp1.sameCore cp ∧
      cp1.hand[mv.handIndex]? = some c ∧
      (cp1.checkFinished = true → (maxLeaderBoardEntry s1).getD 0 ≠ intMax) ∧
      executeMove s mv = finishTurn s1 mv.handIndex := by
  obtain ⟨s1, h1⟩ := applyMovements_ok hwf
  obtain ⟨g1, _⟩ := applyMovements_frame h1
  obtain ⟨cp1, hcp1, hcore⟩ := sameFrame_get g1 hcp
  refine ⟨s1, cp1, h1, g1, hcp1, hcore, ?_, ?_, ?_⟩
  · rw [hcore.1]; exact hc
  · intro _
    rw [maxLeaderBoardEntry_congr g1.2.1]
    exact maxLeaderBoardEntry_bound s (ranksInRange_spec hlb)
  · unfold executeMove
    rw [h1]

/-- The movement loop leaves the start-blocked flag of every seat but the current one. -/
theorem applyMovements_flags {l : List Movement} :
    ∀ {s s1 : GameState}, applyMovements s l = Except.ok s1 →
      ∀ (q : Fin 4) (pl : Player), q.val ≠ s.currentPlayer → s.players q = some pl →
        ∃ pl1, s1.players q = some pl1 ∧ pl1.startBlocked = pl.startBlocked := by
  induction l with
  | nil =>
    intro s s1 h q pl _ hpl
    simp only [applyMovements] at h
    cases Except.ok.inj h
    exact ⟨pl, hpl, rfl⟩
  | cons x rest ih =>
    intro s s1 h q pl hq hpl
    simp only [applyMovements] at h
    cases hx : applyMovement s x with
    | error e => simp [hx] at h
    | ok s2 =>
      simp only [hx] at h
      obtain ⟨g1, g2⟩ := applyMovement_frame hx
      have hstep : ∃ pl2, s2.players q = some pl2 ∧ pl2.startBlocked = pl.startBlocked := by
        by_cases hqx : q.val = x.1.playerID
        · obtain ⟨q1, m1, pl0, hq1, _, hpl0, hs2⟩ := applyMovement_inv hx
          have hqq : q1 = q := Fin.ext (hq1.trans hqx.symm)
          subst hqq
          rw [hpl] at hpl0
          cases Option.some.inj hpl0
          refine ⟨startBlockUpdate s.currentPlayer x.1 (pl.marbles m1).isInHome
            { pl with marbles := Function.update pl.marbles m1 x.2 },
            by rw [hs2, setPlayerAt_players]; simp, ?_⟩
          rw [startBlockUpdate_flag, if_neg (fun e => hq (hq1.trans e))]
        · exact ⟨pl, by rw [g2 q hqx]; exact hpl, rfl⟩
      obtain ⟨pl2, hpl2, hf2⟩ := hstep
      obtain ⟨pl1, hpl1, hf1⟩ := ih h q pl2 (by rw [g1.1]; exact hq) hpl2
      exact ⟨pl1, hpl1, hf1.trans hf2⟩

/-! ## Turn order -/

theorem probeSeat_step (s : GameState) (active : Player → Bool) (fuel start : Nat) :
    probeSeat s active (fuel + 1) start =
      if s.seatSatisfies active start then some start
      else probeSeat s active fuel ((start + 1) % 4) := by
  unfold GameState.seatSatisfies
  conv => lhs; unfold probeSeat
  cases s.getPlayerByIndex start with
  | none => simp
  | some pl => cases h : active pl <;> simp [h]

/-- The probing loop stops at the first seat, in cyclic order from `start`, that passes the
test; it runs out of fuel when none of the seats probed does. -/
theorem probeSeat_spec (s : GameState) (active : Player → Bool) :
    ∀ (fuel start : Nat), start < 4 →
      match probeSeat s active fuel start with
      | some n =>
        ∃ k, k < fuel ∧ n = (start + k) % 4 ∧ s.seatSatisfies active n = true ∧
          ∀ j, j < k → s.seatSatisfies active ((start + j) % 4) = false
      | none => ∀ j, j < fuel → s.seatSatisfies active ((start + j) % 4) = false := by
  intro fuel
  induction fuel with
  | zero =>
    intro start _
    simp [probeSeat]
  | succ fuel ih =>
    intro start hs
    rw [probeSeat_step]
    by_cases hact : s.seatSatisfies active start = true
    · rw [if_pos hact]
      refine ⟨0, Nat.succ_pos _, ?_, hact, fun j hj => absurd hj (Nat.not_lt_zero j)⟩
      simp [Nat.mod_eq_of_lt hs]
    · rw [if_neg hact]
      have hact1 : s.seatSatisfies active start = false := by simpa using hact
      have hnext : (start + 1) % 4 < 4 := Nat.mod_lt _ (by decide)
      have hih := ih ((start + 1) % 4) hnext
      have hshift : ∀ j, ((start + 1) % 4 + j) % 4 = (start + (j + 1)) % 4 := by
        intro j; omega
      cases hp : probeSeat s active fuel ((start + 1) % 4) with
      | none =>
        rw [hp] at hih
        intro j hj
        cases j with
        | zero => simpa [Nat.mod_eq_of_lt hs] using hact1
        | succ j =>
          rw [← hshift]
          exact hih j (by omega)
      | some n =>
        rw [hp] at hih
        obtain ⟨k, hk, hn, hsat, hbefore⟩ := hih
        refine ⟨k + 1, by omega, ?_, hsat, fun j hj => ?_⟩
        · rw [hn, hshift]
        · cases j with
          | zero => simpa [Nat.mod_eq_of_lt hs] using hact1
          | succ j =>
            rw [← hshift]
            exact hbefore j (by omega)

/-- Four probes find a seat as soon as some seat passes the test. -/
theorem probeSeat_finds (s : GameState) (active : Player → Bool) (start : Nat) (hs : start < 4)
    (q : Nat) (hq : s.seatSatisfies active q = true) :
    ∃ n, probeSeat s active 4 start = some n := by
  have hq4 : q < 4 := by
    unfold GameState.seatSatisfies at hq
    cases hg : s.getPlayerByIndex q with
    | none => simp [hg] at hq
    | some pl => exact getPlayerByIndex_lt hg
  have h := probeSeat_spec s active 4 start hs
  cases hp : probeSeat s active 4 start with
  | some n => exact ⟨n, rfl⟩
  | none =>
    rw [hp] at h
    have := h ((q + 4 - start) % 4) (Nat.mod_lt _ (by decide))
    have he : (start + (q + 4 - start) % 4) % 4 = q := by omega
    rw [he, hq] at this
    cases this

/-- More fuel than four probes changes nothing: a loop that has not left after four probes
never leaves. -/
theorem probeSeat_fuel (s : GameState) (active : Player → Bool) (start : Nat) (hs : start < 4)
    (fuel : Nat) (hf : 4 ≤ fuel) :
    probeSeat s active fuel start = probeSeat s active 4 start := by
  have h4 := probeSeat_spec s active 4 start hs
  have hf0 := probeSeat_spec s active fuel start hs
  cases hp : probeSeat s active 4 start with
  | some n =>
    rw [hp] at h4
    obtain ⟨k, hk, hn, hsat, hbefore⟩ := h4
    cases hq : probeSeat s active fuel start with
    | none =>
      rw [hq] at hf0
      have := hf0 k (by omega)
      rw [← hn, hsat] at this
      cases this
    | some n1 =>
      rw [hq] at hf0
      obtain ⟨k1, hk1, hn1, hsat1, hbefore1⟩ := hf0
      have hkk : k1 = k := by
        rcases Nat.lt_trichotomy k1 k with hlt | heq | hgt
        · have := hbefore k1 hlt
          rw [← hn1, hsat1] at this
          cases this
        · exact heq
        · have := hbefore1 k hgt
          rw [← hn, hsat] at this
          cases this
      rw [hn1, hn, hkk]
  | none =>
    rw [hp] at h4
    cases hq : probeSeat s active fuel start with
    | none => rfl
    | some n1 =>
      rw [hq] at hf0
      obtain ⟨k1, hk1, hn1, hsat1, hbefore1⟩ := hf0
      have := h4 (k1 % 4) (Nat.mod_lt _ (by decide))
      have he : (start + k1 % 4) % 4 = (start + k1) % 4 := by omega
      rw [he, ← hn1, hsat1] at this
      cases this

theorem seatSatisfies_fin (s : GameState) (active : Player → Bool) (q : Fin 4) :
    s.seatSatisfies active q.val =
      match s.players q with
      | none => false
      | some pl => active pl := by
  unfold GameState.seatSatisfies
  rw [getPlayerByIndex_fin]

theorem seatActiveInGame_eq (s : GameState) (q : Fin 4) :
    seatActiveInGame s q = s.seatSatisfies (fun pl => pl.activeInGame) q.val := by
  rw [seatSatisfies_fin]; rfl

theorem seatActiveInRound_eq (s : GameState) (q : Fin 4) :
    seatActiveInRound s q = s.seatSatisfies (fun pl => pl.activeInRound) q.val := by
  rw [seatSatisfies_fin]; rfl

/-- Counting over the four seats: at most one seat passes a test exactly when any two seats
that pass it are the same seat. -/
theorem countP_le_one_iff (f : Fin 4 → Bool) :
    seatIds.countP f ≤ 1 ↔ ∀ q1 q2, f q1 = true → f q2 = true → q1 = q2 := by
  have key : ∀ b0 b1 b2 b3 : Bool,
      (seatIds.countP ![b0, b1, b2, b3] ≤ 1 ↔
        ∀ q1 q2 : Fin 4, ![b0, b1, b2, b3] q1 = true → ![b0, b1, b2, b3] q2 = true → q1 = q2) := by
    decide
  have hf : f = ![f 0, f 1, f 2, f 3] := by
    funext q; fin_cases q <;> rfl
  rw [hf]
  exact key _ _ _ _

theorem countP_eq_zero_iff (f : Fin 4 → Bool) :
    seatIds.countP f = 0 ↔ ∀ q, f q = false := by
  rw [List.countP_eq_zero]
  constructor
  · intro h q
    have := h q (mem_seatIds q)
    simpa using this
  · intro h q _
    simp [h q]

theorem checkGameEnd_iff (s : GameState) :
    checkGameEnd s = true ↔
      ∀ q1 q2, seatActiveInGame s q1 = true → seatActiveInGame s q2 = true → q1 = q2 := by
  unfold checkGameEnd getActiveInGameCount
  rw [decide_eq_true_iff]
  exact countP_le_one_iff _

theorem checkRoundEnd_iff (s : GameState) :
    checkRoundEnd s = true ↔ ∀ q, seatActiveInRound s q = false := by
  unfold checkRoundEnd getActiveInRoundCount
  rw [decide_eq_true_iff]
  exact countP_eq_zero_iff _

theorem rankRemainingPlayer_spec (s : GameState) (h : ∃ q, seatActiveInGame s q = true) :
    ∃ r s1, seatActiveInGame s r = true ∧ rankRemainingPlayer s = Except.ok s1 ∧
      s1.players = s.players ∧ s1.currentPlayer = s.currentPlayer ∧
      s1.roundStartPlayer = s.roundStartPlayer ∧ s1.roundCardCount = s.roundCardCount ∧
      s1.lastPlayedCard = s.lastPlayedCard ∧ s1.deck = s.deck ∧
      s1.leaderBoard = Function.update s.leaderBoard r (some 0) := by
  obtain ⟨q, hq⟩ := h
  unfold rankRemainingPlayer getActivePlayerIndices addLeaderBoardUnfinished
  cases hl : seatIds.filter (seatActiveInGame s) with
  | nil =>
    have : q ∈ seatIds.filter (seatActiveInGame s) := List.mem_filter.mpr ⟨mem_seatIds q, hq⟩
    rw [hl] at this
    cases this
  | cons r rest =>
    have hr : r ∈ seatIds.filter (seatActiveInGame s) := by rw [hl]; exact List.mem_cons_self _ _
    obtain ⟨s1, e1, p⟩ := setLeaderBoard_spec s r 0
    exact ⟨r, s1, (List.mem_filter.mp hr).2, e1, p⟩

/-- The three branches of `endTurn`. -/
theorem endTurn_cases (s : GameState) :
    (checkGameEnd s = true → (∃ q, seatActiveInGame s q = true) →
      ∃ r s1, seatActiveInGame s r = true ∧
        endTurn s = Except.ok (s1, (true, checkRoundEnd s)) ∧
        s1.players = s.players ∧ s1.currentPlayer = s.currentPlayer ∧
        s1.roundStartPlayer = s.roundStartPlayer ∧ s1.roundCardCount = s.roundCardCount ∧
        s1.lastPlayedCard = s.lastPlayedCard ∧ s1.deck = s.deck ∧
        s1.leaderBoard = Function.update s.leaderBoard r (some 0)) ∧
    (checkGameEnd s = false → checkRoundEnd s = true →
      ∃ n, probeSeat s (fun pl => pl.activeInGame) 4 ((s.roundStartPlayer + 1) % 4) = some n ∧
        endTurn s = Except.ok
          (reactivatePlayers (updateRoundCardCount { s with roundStartPlayer := n }),
            (false, true))) ∧
    (checkGameEnd s = false → checkRoundEnd s = false →
      ∃ n, probeSeat s (fun pl => pl.activeInRound) 4 ((s.currentPlayer + 1) % 4) = some n ∧
        endTurn s = Except.ok ({ s with currentPlayer := n }, (false, false))) := by
  refine ⟨fun hg hq => ?_, fun hg hr => ?_, fun hg hr => ?_⟩
  · obtain ⟨r, s1, hr, e1, p⟩ := rankRemainingPlayer_spec s hq
    refine ⟨r, s1, hr, ?_, p⟩
    unfold endTurn
    rw [if_pos hg, e1]
    simp only [hg]
  · have hex : ∃ q, seatActiveInGame s q = true := by
      by_contra hne
      have hall : ∀ q1 q2, seatActiveInGame s q1 = true → seatActiveInGame s q2 = true →
          q1 = q2 := fun q1 _ h1 _ => absurd ⟨q1, h1⟩ hne
      rw [(checkGameEnd_iff s).mpr hall] at hg
      cases hg
    obtain ⟨q, hq⟩ := hex
    rw [seatActiveInGame_eq] at hq
    obtain ⟨n, hn⟩ := probeSeat_finds s (fun pl => pl.activeInGame)
      ((s.roundStartPlayer + 1) % 4) (Nat.mod_lt _ (by decide)) q.val hq
    refine ⟨n, hn, ?_⟩
    unfold endTurn updateRoundStartPlayer
    simp [hg, hr, hn]
  · have hex : ∃ q, seatActiveInRound s q = true := by
      by_contra hne
      have hall : ∀ q, seatActiveInRound s q = false := fun q => by
        cases h : seatActiveInRound s q with
        | false => rfl
        | true => exact absurd ⟨q, h⟩ hne
      rw [(checkRoundEnd_iff s).mpr hall] at hr
      cases hr
    obtain ⟨q, hq⟩ := hex
    rw [seatActiveInRound_eq] at hq
    obtain ⟨n, hn⟩ := probeSeat_finds s (fun pl => pl.activeInRound)
      ((s.currentPlayer + 1) % 4) (Nat.mod_lt _ (by decide)) q.val hq
    refine ⟨n, hn, ?_⟩
    unfold endTurn updateCurrentPlayer
    simp [hg, hr, hn]

/-! ## Disconnection -/

theorem addLeaderBoardDisconnected_spec (s : GameState) (q : Fin 4) :
    ∃ s1, addLeaderBoardDisconnected s q.val = Except.ok s1 ∧ s1.players = s.players ∧
      s1.currentPlayer = s.currentPlayer ∧ s1.roundStartPlayer = s.roundStartPlayer ∧
      s1.roundCardCount = s.roundCardCount ∧ s1.lastPlayedCard = s.lastPlayedCard ∧
      s1.deck = s.deck ∧
      s1.leaderBoard = Function.update s.leaderBoard q
        (match s.leaderBoard q with
         | some v => some v
         | none => some (-1)) := by
  unfold addLeaderBoardDisconnected
  rw [dif_pos q.isLt]
  cases h : s.leaderBoard q with
  | none =>
    simp only [Fin.eta, h, Option.isSome_none, Bool.false_eq_true, if_false]
    exact setLeaderBoard_spec s q (-1)
  | some v =>
    simp only [Fin.eta, h, Option.isSome_some, if_true]
    refine ⟨s, rfl, rfl, rfl, rfl, rfl, rfl, rfl, ?_⟩
    rw [← h, Function.update_eq_self]

/-- The first part of `disconnectPlayer` on a present seat, another seat being active in the
round. -/
theorem disconnectSeat_spec (s : GameState) (p : Fin 4) (pl : Player)
    (hp : s.players p = some pl)
    (hround : ∃ q, q ≠ p ∧ seatActiveInRound s q = true) :
    ∃ s1, disconnectSeat s p = Except.ok s1 ∧
      s1.players = Function.update s.players p (some
        { pl with
          activeInGame := false
          activeInRound := false
          hand := []
          marbles := fun mIdx =>
            if (pl.marbles mIdx).boardLocation ≠ BoardLocation.TRACK then pl.marbles mIdx
            else { boardLocation := BoardLocation.HOME, index := mIdx.val, playerID := p.val } }) ∧
      s1.roundStartPlayer = s.roundStartPlayer ∧ s1.roundCardCount = s.roundCardCount ∧
      s1.lastPlayedCard = s.lastPlayedCard ∧ s1.deck = s.deck ∧
      s1.leaderBoard = Function.update s.leaderBoard p
        (match s.leaderBoard p with
         | some v => some v
         | none => some (-1)) := by
  obtain ⟨q, _, hq⟩ := hround
  rw [seatActiveInRound_eq] at hq
  obtain ⟨n, hn⟩ := probeSeat_finds s (fun pl => pl.activeInRound)
    ((s.currentPlayer + 1) % 4) (Nat.mod_lt _ (by decide)) q.val hq
  have hupd : updateCurrentPlayer s = Except.ok { s with currentPlayer := n } := by
    unfold updateCurrentPlayer
    rw [hn]
  unfold disconnectSeat
  simp only [hp]
  by_cases hid : pl.id = p.val
  · rw [if_pos hid, hupd]
    simp only
    obtain ⟨s1, e1, p1, _, p3, p4, p5, p6, p7⟩ := addLeaderBoardDisconnected_spec
      (({ s with currentPlayer := n } : GameState).setPlayerAt p.val
        { pl with
          activeInGame := false
          activeInRound := false
          hand := []
          marbles := fun mIdx =>
            if (pl.marbles mIdx).boardLocation ≠ BoardLocation.TRACK then pl.marbles mIdx
            else { boardLocation := BoardLocation.HOME, index := mIdx.val, playerID := p.val } }) p
    refine ⟨s1, e1, ?_, ?_, ?_, ?_, ?_, ?_⟩
    · rw [p1]; funext q1; rw [setPlayerAt_players]
      by_cases h : q1 = p
      · subst h; simp
      · simp [h, Function.update_noteq h]
    · rw [p3]; exact (setPlayerAt_fields _ _ _).2.2.1
    · rw [p4]; exact (setPlayerAt_fields _ _ _).2.2.2.1
    · rw [p5]; exact (setPlayerAt_fields _ _ _).2.2.2.2.1
    · rw [p6]; exact (setPlayerAt_fields _ _ _).2.2.2.2.2
    · rw [p7, (setPlayerAt_fields _ _ _).2.1]
  · rw [if_neg hid]
    simp only
    obtain ⟨s1, e1, p1, _, p3, p4, p5, p6, p7⟩ := addLeaderBoardDisconnected_spec
      (s.setPlayerAt p.val
        { pl with
          activeInGame := false
          activeInRound := false
          hand := []
          marbles := fun mIdx =>
            if (pl.marbles mIdx).boardLocation ≠ BoardLocation.TRACK then pl.marbles mIdx
            else { boardLocation := BoardLocation.HOME, index := mIdx.val, playerID := p.val } }) p
    refine ⟨s1, e1, ?_, ?_, ?_, ?_, ?_, ?_⟩
    · rw [p1]; funext q1; rw [setPlayerAt_players]
      by_cases h : q1 = p
      · subst h; simp
      · simp [h, Function.update_noteq h]
    · rw [p3]; exact (setPlayerAt_fields _ _ _).2.2.1
    · rw [p4]; exact (setPlayerAt_fields _ _ _).2.2.2.1
    · rw [p5]; exact (setPlayerAt_fields _ _ _).2.2.2.2.1
    · rw [p6]; exact (setPlayerAt_fields _ _ _).2.2.2.2.2
    · rw [p7, (setPlayerAt_fields _ _ _).2.1]

/-! ## The leaderboard along a game -/

theorem largestFinishRank_fold (lb : Fin 4 → Option Int) :
    ∀ (l : List (Fin 4)) (b : Int),
      b ≤ l.foldl (fun best q =>
          match lb q with
          | some r => if 1 ≤ r then max best r else best
          | none => best) b ∧
      (∀ q ∈ l, ∀ r, lb q = some r → 1 ≤ r →
        r ≤ l.foldl (fun best q =>
          match lb q with
          | some r => if 1 ≤ r then max best r else best
          | none => best) b) ∧
      (l.foldl (fun best q =>
          match lb q with
          | some r => if 1 ≤ r then max best r else best
          | none => best) b = b ∨
        ∃ q ∈ l, lb q = some (l.foldl (fun best q =>
          match lb q with
          | some r => if 1 ≤ r then max best r else best
          | none => best) b) ∧
          1 ≤ l.foldl (fun best q =>
            match lb q with
            | some r => if 1 ≤ r then max best r else best
            | none => best) b) := by
  intro l
  induction l with
  | nil => intro b; exact ⟨le_refl _, fun q hq => (by cases hq), Or.inl rfl⟩
  | cons a rest ih =>
    intro b
    simp only [List.foldl_cons]
    cases ha : lb a with
    | none =>
      simp only
      obtain ⟨i1, i2, i3⟩ := ih b
      refine ⟨i1, fun q hq r hr h1 => ?_, ?_⟩
      · rcases List.mem_cons.mp hq with rfl | hq
        · rw [ha] at hr; cases hr
        · exact i2 q hq r hr h1
      · rcases i3 with h | ⟨q, hq, h⟩
        · exact Or.inl h
        · exact Or.inr ⟨q, List.mem_cons_of_mem _ hq, h⟩
    | some v =>
      simp only
      by_cases hv : 1 ≤ v
      · rw [if_pos hv]
        obtain ⟨i1, i2, i3⟩ := ih (max b v)
        refine ⟨le_trans (le_max_left _ _) i1, fun q hq r hr h1 => ?_, ?_⟩
        · rcases List.mem_cons.mp hq with rfl | hq
          · rw [ha] at hr
            cases Option.some.inj hr
            exact le_trans (le_max_right _ _) i1
          · exact i2 q hq r hr h1
        · rcases i3 with h | ⟨q, hq, h⟩
          · rcases le_total b v with hbv | hvb
            · rw [max_eq_right hbv] at h
              refine Or.inr ⟨a, List.mem_cons_self _ _, ?_, ?_⟩
              · rw [max_eq_right hbv, h]; exact ha
              · rw [max_eq_right hbv, h]; exact hv
            · rw [max_eq_left hvb] at h
              left
              rw [max_eq_left hvb]; exact h
          · exact Or.inr ⟨q, List.mem_cons_of_mem _ hq, h⟩
      · rw [if_neg hv]
        obtain ⟨i1, i2, i3⟩ := ih b
        refine ⟨i1, fun q hq r hr h1 => ?_, ?_⟩
        · rcases List.mem_cons.mp hq with rfl | hq
          · rw [ha] at hr
            cases Option.some.inj hr
            exact absurd h1 hv
          · exact i2 q hq r hr h1
        · rcases i3 with h | ⟨q, hq, h⟩
          · exact Or.inl h
          · exact Or.inr ⟨q, List.mem_cons_of_mem _ hq, h⟩

/-- The largest finish rank is an upper bound of the finish ranks and is 0 or one of them. -/
theorem largestFinishRank_spec (s : GameState) :
    0 ≤ largestFinishRank s ∧
    (∀ q r, s.leaderBoard q = some r → 1 ≤ r → r ≤ largestFinishRank s) ∧
    (largestFinishRank s = 0 ∨
      ∃ q, s.leaderBoard q = some (largestFinishRank s) ∧ 1 ≤ largestFinishRank s) := by
  obtain ⟨h1, h2, h3⟩ := largestFinishRank_fold s.leaderBoard seatIds 0
  refine ⟨h1, fun q r hr hr1 => h2 q (mem_seatIds q) r hr hr1, ?_⟩
  rcases h3 with h | ⟨q, _, h⟩
  · exact Or.inl h
  · exact Or.inr ⟨q, h⟩

/-- With an entry that is unset or not negative, the value `std::max_element` reads is the
largest finish rank, or 0 without a finish rank. -/
theorem largestFinishRank_eq (s : GameState) (h : ∃ q, 0 ≤ rankValue (s.leaderBoard q)) :
    (maxLeaderBoardEntry s).getD 0 = largestFinishRank s := by
  obtain ⟨⟨qm, hqm⟩, hge⟩ := maxLeaderBoardEntry_spec s
  obtain ⟨l1, l2, l3⟩ := largestFinishRank_spec s
  obtain ⟨q0, hq0⟩ := h
  have hpos : 0 ≤ rankValue (maxLeaderBoardEntry s) := le_trans hq0 (hge q0)
  rw [← rankValue_eq_getD]
  apply le_antisymm
  · rw [hqm]
    cases hq : s.leaderBoard qm with
    | none => exact l1
    | some r =>
      show r ≤ _
      by_cases hr : 1 ≤ r
      · exact l2 qm r hq hr
      · omega
  · rcases l3 with h0 | ⟨q, hq, _⟩
    · rw [h0]; exact hpos
    · have := hge q
      rw [hq] at this
      exact this

theorem rankedUpTo_stepsTo {s s1 : GameState} {n : Nat} (h : s.rankedUpTo n)
    (hstep : s.stepsTo s1) : s1.rankedUpTo n := by
  obtain ⟨j1, j2, j3⟩ := h
  obtain ⟨r1, r2⟩ := hstep
  refine ⟨fun q r hr => ?_, fun r hr1 hrn => ?_, fun q pl1 hpl1 hne hn0 => ?_⟩
  · rcases r1 q with he | ⟨_, h0 | ⟨hm, _⟩⟩
    · exact j1 q r (he ▸ hr)
    · rw [h0] at hr; cases Option.some.inj hr; omega
    · rw [hm] at hr; cases Option.some.inj hr; omega
  · obtain ⟨q, hq⟩ := j2 r hr1 hrn
    refine ⟨q, ?_⟩
    rcases r1 q with he | ⟨hold, _⟩
    · rw [he]; exact hq
    · rcases hold with hn | h0
      · rw [hn] at hq; cases hq
      · rw [h0] at hq
        have := Option.some.inj hq
        omega
  · obtain ⟨pl, hpl, ha, hh⟩ := r2 q pl1 hpl1
    rcases r1 q with he | ⟨_, h0 | ⟨_, hm⟩⟩
    · rw [he] at hne hn0
      obtain ⟨k1, k2⟩ := j3 q pl hpl hne hn0
      refine ⟨?_, ?_⟩
      · rcases hh with h | h | h | h
        · exact h
        · rw [h]; exact k1
        · rw [k2] at h; cases h
        · exact absurd k1 h
      · rcases ha with h | h
        · exact h
        · rw [h]; exact k2
    · exact absurd h0 hn0
    · exact hm pl1 hpl1

theorem stepsTo_of_same {s s1 : GameState} (hlb : s1.leaderBoard = s.leaderBoard)
    (hpl : ∀ q, (s1.players q).map (fun pl => (pl.hand, pl.activeInGame)) =
      (s.players q).map (fun pl => (pl.hand, pl.activeInGame))) : s.stepsTo s1 := by
  refine ⟨fun q => Or.inl (by rw [hlb]), fun q pl1 hpl1 => ?_⟩
  have := hpl q
  rw [hpl1] at this
  cases hs : s.players q with
  | none => rw [hs] at this; cases this
  | some pl =>
    rw [hs] at this
    simp only [Option.map_some', Option.some.injEq, Prod.mk.injEq] at this
    exact ⟨pl, rfl, Or.inr this.2, Or.inr (Or.inl this.1)⟩

theorem rankedUpTo_start (gamePlayers : Fin 4 → Option String) :
    (GameState.new gamePlayers).rankedUpTo 0 := by
  refine ⟨fun q r hr => (by cases hr), fun r h1 h0 => (by omega), fun q pl _ hne _ => ?_⟩
  exact absurd rfl hne

/-- No more finish ranks than seats. -/
theorem rankedUpTo_le {s : GameState} {n : Nat} (h : s.rankedUpTo n) : n ≤ 4 := by
  obtain ⟨_, j2, _⟩ := h
  by_contra hn
  have hn5 : 5 ≤ n := by omega
  obtain ⟨q1, h1⟩ := j2 1 (by omega) (by omega)
  obtain ⟨q2, h2⟩ := j2 2 (by omega) (by omega)
  obtain ⟨q3, h3⟩ := j2 3 (by omega) (by omega)
  obtain ⟨q4, h4⟩ := j2 4 (by omega) (by omega)
  obtain ⟨q5, h5⟩ := j2 5 (by omega) (by omega)
  have d : ∀ (a b : Fin 4) (x y : Nat), s.leaderBoard a = some (x : Int) →
      s.leaderBoard b = some (y : Int) → x ≠ y → a ≠ b := by
    intro a b x y ha hb hxy e
    rw [e, hb] at ha
    have := Option.some.inj ha
    omega
  have d12 := d q1 q2 1 2 h1 h2 (by decide)
  have d13 := d q1 q3 1 3 h1 h3 (by decide)
  have d14 := d q1 q4 1 4 h1 h4 (by decide)
  have d15 := d q1 q5 1 5 h1 h5 (by decide)
  have d23 := d q2 q3 2 3 h2 h3 (by decide)
  have d24 := d q2 q4 2 4 h2 h4 (by decide)
  have d25 := d q2 q5 2 5 h2 h5 (by decide)
  have d34 := d q3 q4 3 4 h3 h4 (by decide)
  have d35 := d q3 q5 3 5 h3 h5 (by decide)
  have d45 := d q4 q5 4 5 h4 h5 (by decide)
  omega

theorem rankedUpTo_inRange {s : GameState} {n : Nat} (h : s.rankedUpTo n) :
    s.ranksInRange = true := by
  have hn := rankedUpTo_le h
  unfold GameState.ranksInRange
  rw [List.all_eq_true]
  intro q _
  cases hq : s.leaderBoard q with
  | none => rfl
  | some r =>
    have := h.1 q r hq
    simp only [decide_eq_true_eq, intMax]
    omega

theorem dealLoop_keys (cards : List Nat) (rc : Nat) :
    ∀ (l : List (Fin 4)) (cardIdx : Nat) (raw : List (Fin 4 × List Nat)),
      dealLoop cards rc l cardIdx = Except.ok raw → raw.map Prod.fst = l := by
  intro l
  induction l with
  | nil =>
    intro cardIdx raw h
    simp only [dealLoop] at h
    cases Except.ok.inj h
    rfl
  | cons p rest ih =>
    intro cardIdx raw h
    simp only [dealLoop] at h
    split_ifs at h
    cases hr : dealLoop cards rc rest (cardIdx + rc) with
    | error e => simp [hr] at h
    | ok more =>
      simp only [hr] at h
      cases Except.ok.inj h
      simp [ih _ _ hr]

/-- Storing dealt hands for seats that are active in the game. -/
theorem storeHands_stepsTo :
    ∀ (dealt : List (Fin 4 × List Nat)) (s : GameState),
      (∀ e ∈ dealt, seatActiveInGame s e.1 = true) →
      (storeHands s dealt).leaderBoard = s.leaderBoard ∧
      ∀ q pl1, (storeHands s dealt).players q = some pl1 → ∃ pl, s.players q = some pl ∧
        pl1.activeInGame = pl.activeInGame ∧ (pl1.hand = pl.hand ∨ pl.activeInGame = true) := by
  intro dealt
  induction dealt with
  | nil =>
    intro s _
    exact ⟨rfl, fun q pl1 h => ⟨pl1, h, rfl, Or.inl rfl⟩⟩
  | cons e rest ih =>
    intro s hact
    have he := hact e (List.mem_cons_self _ _)
    unfold seatActiveInGame at he
    cases hp : s.players e.1 with
    | none => rw [hp] at he; cases he
    | some pl0 =>
      rw [hp] at he
      simp only at he
      simp only [storeHands, hp]
      have hact1 : ∀ e1 ∈ rest,
          seatActiveInGame (s.setPlayerAt e.1.val { pl0 with hand := e.2 }) e1.1 = true := by
        intro e1 he1
        have := hact e1 (List.mem_cons_of_mem _ he1)
        unfold seatActiveInGame at this ⊢
        rw [setPlayerAt_players]
        by_cases h : e1.1 = e.1
        · simp [h, he]
        · simpa [h] using this
      obtain ⟨i1, i2⟩ := ih _ hact1
      refine ⟨i1.trans (setPlayerAt_fields _ _ _).2.1, fun q pl1 hq => ?_⟩
      obtain ⟨pl, hpl, ha, hh⟩ := i2 q pl1 hq
      rw [setPlayerAt_players] at hpl
      by_cases h : q = e.1
      · subst h
        simp only [if_true, Option.some.injEq] at hpl
        subst hpl
        exact ⟨pl0, hp, ha, Or.inr he⟩
      · simp only [h, if_false] at hpl
        exact ⟨pl, hpl, ha, hh⟩

theorem newRound_stepsTo {s s1 : GameState} {cardIndices : List Nat}
    (h : newRound s cardIndices = Except.ok s1) : s.stepsTo s1 := by
  unfold newRound dealCards at h
  cases hd : dealLoop cardIndices s.roundCardCount (getActivePlayerIndices s) 0 with
  | error e => simp [hd] at h
  | ok raw =>
    simp only [hd] at h
    cases Except.ok.inj h
    have hkeys := dealLoop_keys _ _ _ _ _ hd
    have hact : ∀ e ∈ raw.map (fun entry =>
        (entry.1, entry.2.insertionSort fun a b => cardBefore a b = true)),
        seatActiveInGame s e.1 = true := by
      intro e he
      obtain ⟨e0, he0, rfl⟩ := List.mem_map.mp he
      have : e0.1 ∈ getActivePlayerIndices s := by
        rw [← hkeys]; exact List.mem_map_of_mem _ he0
      exact (List.mem_filter.mp this).2
    obtain ⟨f1, f2⟩ := storeHands_stepsTo _ s hact
    refine ⟨fun q => Or.inl (by rw [f1]), fun q pl1 hq => ?_⟩
    obtain ⟨pl, hpl, ha, hh⟩ := f2 q pl1 hq
    refine ⟨pl, hpl, Or.inr ha, ?_⟩
    rcases hh with h | h
    · exact Or.inr (Or.inl h)
    · exact Or.inr (Or.inr (Or.inl h))

theorem executeFold_stepsTo {s s1 : GameState} (h : executeFold s = Except.ok s1) :
    s.stepsTo s1 := by
  unfold executeFold at h
  cases hcp : s.getPlayerByIndex s.currentPlayer with
  | none => simp [hcp] at h
  | some cp =>
    simp only [hcp] at h
    cases Except.ok.inj h
    have hlt := getPlayerByIndex_lt hcp
    have hcpf : s.players ⟨s.currentPlayer, hlt⟩ = some cp := by
      rw [← getPlayerByIndex_fin]; exact hcp
    have hL := leaveRoundIfEmpty_spec { cp with hand := [] }
    refine ⟨fun q => Or.inl (by rw [(setPlayerAt_fields _ _ _).2.1]), fun q pl1 hq => ?_⟩
    have hq1 := setPlayerAt_players s ⟨s.currentPlayer, hlt⟩
      (leaveRoundIfEmpty { cp with hand := [] }) q
    simp only at hq1
    rw [hq1] at hq
    by_cases hqc : q = ⟨s.currentPlayer, hlt⟩
    · subst hqc
      simp only [if_true, Option.some.injEq] at hq
      subst hq
      exact ⟨cp, hcpf, Or.inr hL.2.2.1, Or.inl hL.1⟩
    · simp only [hqc, if_false] at hq
      exact ⟨pl1, hq, Or.inr rfl, Or.inr (Or.inl rfl)⟩

/-- A seat that is active in the game holds no rank and is not marked as disconnected. -/
theorem rankedUpTo_active {s : GameState} {n : Nat} (h : s.rankedUpTo n) {q : Fin 4}
    (hq : seatActiveInGame s q = true) :
    s.leaderBoard q = none ∨ s.leaderBoard q = some 0 := by
  unfold seatActiveInGame at hq
  cases hp : s.players q with
  | none => rw [hp] at hq; cases hq
  | some pl =>
    rw [hp] at hq
    simp only at hq
    by_contra hne
    push_neg at hne
    have := (h.2.2 q pl hp hne.1 hne.2).2
    rw [this] at hq
    cases hq

theorem rankRemainingPlayer_stepsTo {s s1 : GameState} {n : Nat} (hJ : s.rankedUpTo n)
    (h : rankRemainingPlayer s = Except.ok s1) : s.stepsTo s1 := by
  by_cases hex : ∃ q, seatActiveInGame s q = true
  · obtain ⟨r, s2, hr, e2, r1, _, _, _, _, _, r7⟩ := rankRemainingPlayer_spec s hex
    rw [e2] at h
    cases Except.ok.inj h
    refine ⟨fun q => ?_, fun q pl1 hq => ?_⟩
    · by_cases hqr : q = r
      · subst hqr
        right
        exact ⟨rankedUpTo_active hJ hr, Or.inl (by rw [r7, Function.update_same])⟩
      · left
        rw [r7, Function.update_noteq hqr]
    · rw [r1] at hq
      exact ⟨pl1, hq, Or.inr rfl, Or.inr (Or.inl rfl)⟩
  · exfalso
    unfold rankRemainingPlayer getActivePlayerIndices at h
    cases hl : seatIds.filter (seatActiveInGame s) with
    | nil => simp [hl] at h
    | cons r rest =>
      have hr : r ∈ seatIds.filter (seatActiveInGame s) := by
        rw [hl]; exact List.mem_cons_self _ _
      exact hex ⟨r, (List.mem_filter.mp hr).2⟩

theorem stepsTo_refl (s : GameState) : s.stepsTo s :=
  stepsTo_of_same rfl (fun _ => rfl)

theorem endTurn_stepsTo {s s1 : GameState} {n : Nat} {r : Bool × Bool} (hJ : s.rankedUpTo n)
    (h : endTurn s = Except.ok (s1, r)) : s.stepsTo s1 := by
  obtain ⟨_, c2, c3⟩ := endTurn_cases s
  cases hg : checkGameEnd s with
  | true =>
    unfold endTurn at h
    rw [if_pos hg] at h
    cases hr : rankRemainingPlayer s with
    | error e => simp [hr] at h
    | ok s2 =>
      simp only [hr] at h
      cases Except.ok.inj h
      exact rankRemainingPlayer_stepsTo hJ hr
  | false =>
    cases hr : checkRoundEnd s with
    | true =>
      obtain ⟨k, _, e1⟩ := c2 hg hr
      rw [e1] at h
      cases Except.ok.inj h
      refine stepsTo_of_same rfl (fun q => ?_)
      show ((s.players q).map _).map _ = _
      cases s.players q with
      | none => rfl
      | some pl =>
        simp only [Option.map_some']
        split_ifs <;> rfl
    | false =>
      obtain ⟨k, _, e1⟩ := c3 hg hr
      rw [e1] at h
      cases Except.ok.inj h
      exact stepsTo_of_same rfl (fun _ => rfl)

theorem updateCurrentPlayer_frame {s s0 : GameState} (h : updateCurrentPlayer s = Except.ok s0) :
    s0.players = s.players ∧ s0.leaderBoard = s.leaderBoard ∧
      s0.roundStartPlayer = s.roundStartPlayer ∧ s0.roundCardCount = s.roundCardCount ∧
      s0.lastPlayedCard = s.lastPlayedCard ∧ s0.deck = s.deck := by
  unfold updateCurrentPlayer at h
  cases hp : probeSeat s (fun pl => pl.activeInRound) 4 ((s.currentPlayer + 1) % 4) with
  | none => simp [hp] at h
  | some k =>
    simp only [hp] at h
    cases Except.ok.inj h
    exact ⟨rfl, rfl, rfl, rfl, rfl, rfl⟩

/-- Inversion of the first part of `disconnectPlayer` on a present seat. -/
theorem disconnectSeat_inv {s s1 : GameState} {p : Fin 4} {pl : Player}
    (hp : s.players p = some pl) (h : disconnectSeat s p = Except.ok s1) :
    ∃ pl1, pl1.hand = [] ∧ pl1.activeInGame = false ∧
      s1.players = Function.update s.players p (some pl1) ∧
      s1.leaderBoard = Function.update s.leaderBoard p
        (match s.leaderBoard p with
         | some v => some v
         | none => some (-1)) := by
  unfold disconnectSeat at h
  simp only [hp] at h
  cases h0 : (if pl.id = p.val then updateCurrentPlayer s else Except.ok s) with
  | error e => simp [h0] at h
  | ok s0 =>
    simp only [h0] at h
    have hfr : s0.players = s.players ∧ s0.leaderBoard = s.leaderBoard := by
      split_ifs at h0
      · exact ⟨(updateCurrentPlayer_frame h0).1, (updateCurrentPlayer_frame h0).2.1⟩
      · cases Except.ok.inj h0; exact ⟨rfl, rfl⟩
    obtain ⟨s2, e2, p1, _, _, _, _, _, p7⟩ := addLeaderBoardDisconnected_spec
      (s0.setPlayerAt p.val
        { pl with
          activeInGame := false
          activeInRound := false
          hand := []
          marbles := fun mIdx =>
            if (pl.marbles mIdx).boardLocation ≠ BoardLocation.TRACK then pl.marbles mIdx
            else { boardLocation := BoardLocation.HOME, index := mIdx.val, playerID := p.val } }) p
    rw [e2] at h
    cases Except.ok.inj h
    refine ⟨{ pl with
          activeInGame := false
          activeInRound := false
          hand := []
          marbles := fun mIdx =>
            if (pl.marbles mIdx).boardLocation ≠ BoardLocation.TRACK then pl.marbles mIdx
            else { boardLocation := BoardLocation.HOME, index := mIdx.val, playerID := p.val } },
      rfl, rfl, ?_, ?_⟩
    · rw [p1]; funext q1; rw [setPlayerAt_players, hfr.1]
      by_cases hq : q1 = p
      · subst hq; simp
      · simp [hq, Function.update_noteq hq]
    · rw [p7, (setPlayerAt_fields _ _ _).2.1, hfr.2]

theorem disconnectPlayer_ranked {s s1 : GameState} {n : Nat} {playerIndex : Nat}
    (hJ : s.rankedUpTo n) (h : disconnectPlayer s playerIndex = Except.ok s1) :
    s1.rankedUpTo n := by
  unfold disconnectPlayer at h
  by_cases hlt : playerIndex < 4
  · rw [dif_pos hlt] at h
    cases hd : disconnectSeat s ⟨playerIndex, hlt⟩ with
    | error e => simp [hd] at h
    | ok s2 =>
      simp only [hd] at h
      have hJ2 : s2.rankedUpTo n := by
        cases hp : s.players ⟨playerIndex, hlt⟩ with
        | none =>
          unfold disconnectSeat at hd
          simp only [hp] at hd
          cases Except.ok.inj hd
          exact hJ
        | some pl =>
          obtain ⟨pl1, k1, k2, k3, k4⟩ := disconnectSeat_inv hp hd
          refine rankedUpTo_stepsTo hJ ⟨fun q => ?_, fun q pl2 hq => ?_⟩
          · by_cases hq : q = ⟨playerIndex, hlt⟩
            · subst hq
              cases hl : s.leaderBoard ⟨playerIndex, hlt⟩ with
              | some v =>
                left
                rw [k4, Function.update_same, hl]
              | none =>
                right
                refine ⟨Or.inl rfl, Or.inr ⟨by rw [k4, Function.update_same, hl], ?_⟩⟩
                intro pl2 hpl2
                rw [k3, Function.update_same] at hpl2
                cases Option.some.inj hpl2
                exact ⟨k1, k2⟩
            · left
              rw [k4, Function.update_noteq hq]
          · rw [k3] at hq
            by_cases hqp : q = ⟨playerIndex, hlt⟩
            · subst hqp
              rw [Function.update_same] at hq
              cases Option.some.inj hq
              exact ⟨pl, hp, Or.inl k2, Or.inl k1⟩
            · rw [Function.update_noteq hqp] at hq
              exact ⟨pl2, hq, Or.inr rfl, Or.inr (Or.inl rfl)⟩
      split_ifs at h
      · exact rankedUpTo_stepsTo hJ2 (rankRemainingPlayer_stepsTo hJ2 h)
      · cases Except.ok.inj h
        exact hJ2
  · rw [dif_neg hlt] at h
    cases h

/-- Inversion of `executeMove` down to the record of the current player. -/
theorem executeMove_inv_full {s s2 : GameState} {mv : Move} {fin : Bool}
    (h : executeMove s mv = Except.ok (s2, fin)) :
    ∃ s1 cp cp1 c cp2, s.getPlayerByIndex s.currentPlayer = some cp ∧
      applyMovements s mv.movements = Except.ok s1 ∧ s.sameFrame s1 ∧
      s1.getPlayerByIndex s.currentPlayer = some cp1 ∧ cp1.sameCore cp ∧
      cp.hand[mv.handIndex]? = some c ∧ fin = cp1.checkFinished ∧
      s2.getPlayerByIndex s.currentPlayer = some cp2 ∧
      (∀ q : Fin 4, q.val ≠ s.currentPlayer →
        s2.players q = s1.players q ∧ s2.leaderBoard q = s.leaderBoard q) ∧
      (fin = false →
        cp2.hand = cp.hand.eraseIdx mv.handIndex ∧ cp2.activeInGame = cp.activeInGame ∧
        s2.leaderBoard = s.leaderBoard) ∧
      (fin = true →
        cp2.hand = [] ∧ cp2.activeInRound = false ∧ cp2.activeInGame = false ∧
        (maxLeaderBoardEntry s).getD 0 ≠ intMax ∧
        s2.rankAt s.currentPlayer = some ((maxLeaderBoardEntry s).getD 0 + 1)) := by
  obtain ⟨s1, h1, h2⟩ := executeMove_inv h
  obtain ⟨g1, _⟩ := applyMovements_frame h1
  obtain ⟨cp1, c, hcp1, hc1, hM⟩ := finishTurn_inv h2
  obtain ⟨s2a, cp2, e2, p1, _, _, _, _, _, pq, _, _, _, _, pf, pt⟩ := finishTurn_spec hcp1 hc1 hM
  rw [e2] at h2
  have hpair := Except.ok.inj h2
  have hs2 : s2a = s2 := (Prod.mk.inj hpair).1
  have hfin : cp1.checkFinished = fin := (Prod.mk.inj hpair).2
  subst hs2
  rw [g1.1] at hcp1 p1 pq
  have hlt := getPlayerByIndex_lt hcp1
  obtain ⟨cp, hcp, hcore⟩ := sameFrame_some_inv g1
    (by rw [← getPlayerByIndex_fin] at *; exact hcp1 : s1.players ⟨s.currentPlayer, hlt⟩ = some cp1)
  have hcpg : s.getPlayerByIndex s.currentPlayer = some cp := by
    have := getPlayerByIndex_fin s ⟨s.currentPlayer, hlt⟩
    simp only at this
    rw [this]; exact hcp
  have hMs : maxLeaderBoardEntry s1 = maxLeaderBoardEntry s := maxLeaderBoardEntry_congr g1.2.1
  refine ⟨s1, cp, cp1, c, cp2, hcpg, h1, g1, hcp1, hcore, by rw [← hcore.1]; exact hc1, hfin.symm,
    p1, fun q hq => ⟨(pq q hq).1, by rw [(pq q hq).2, g1.2.1]⟩, fun hf => ?_, fun hf => ?_⟩
  · obtain ⟨a1, _, a3, a4⟩ := pf (hfin.trans hf)
    exact ⟨by rw [a1, hcore.1], by rw [a3, hcore.2.2.1], by rw [a4, g1.2.1]⟩
  · obtain ⟨a1, a2, a3, a4⟩ := pt (hfin.trans hf)
    refine ⟨a1, a2, a3, ?_, ?_⟩
    · rw [← hMs]; exact hM (hfin.trans hf)
    · rw [g1.1, hMs] at a4; exact a4

theorem executeMove_stepsTo {s s2 : GameState} {mv : Move}
    (h : executeMove s mv = Except.ok (s2, false)) : s.stepsTo s2 := by
  obtain ⟨s1, cp, cp1, c, cp2, hcp, _, g1, hcp1, hcore, hc, _, hcp2, pq, pf, _⟩ :=
    executeMove_inv_full h
  obtain ⟨a1, a3, a4⟩ := pf rfl
  have hlt := getPlayerByIndex_lt hcp
  refine ⟨fun q => Or.inl (by rw [a4]), fun q pl2 hq => ?_⟩
  by_cases hqc : q.val = s.currentPlayer
  · have e1 := getPlayerByIndex_fin s2 q
    have e2 := getPlayerByIndex_fin s q
    rw [hqc] at e1 e2
    rw [hcp2, hq] at e1
    cases Option.some.inj e1
    refine ⟨cp, by rw [← e2]; exact hcp, Or.inr a3, Or.inr (Or.inr (Or.inr ?_))⟩
    intro hnil
    rw [hnil] at hc
    simp at hc
  · rw [(pq q hqc).1] at hq
    obtain ⟨pl, hpl, hsc⟩ := sameFrame_some_inv g1 hq
    exact ⟨pl, hpl, Or.inr hsc.2.2.1, Or.inr (Or.inl hsc.1)⟩

/-- Under the invariant of a game, the largest finish rank is the number of finishing moves. -/
theorem rankedUpTo_largest {s : GameState} {n : Nat} (hJ : s.rankedUpTo n) :
    largestFinishRank s = (n : Int) := by
  obtain ⟨l1, l2, l3⟩ := largestFinishRank_spec s
  apply le_antisymm
  · rcases l3 with h0 | ⟨q, hq, _⟩
    · rw [h0]; omega
    · exact hJ.1 q _ hq
  · by_cases hn : n = 0
    · rw [hn]; exact l1
    · obtain ⟨q, hq⟩ := hJ.2.1 n (by omega) (le_refl _)
      exact l2 q _ hq (by omega)

/-- A finishing move under the invariant of a game: the player takes the next rank. -/
theorem executeMove_ranked_fin {s s2 : GameState} {mv : Move} {n : Nat} (hJ : s.rankedUpTo n)
    (h : executeMove s mv = Except.ok (s2, true)) :
    s2.rankedUpTo (n + 1) ∧ s2.rankAt s.currentPlayer = some ((n : Int) + 1) := by
  obtain ⟨s1, cp, cp1, c, cp2, hcp, _, g1, hcp1, hcore, hc, _, hcp2, pq, _, pt⟩ :=
    executeMove_inv_full h
  obtain ⟨a1, _, a3, _, a5⟩ := pt rfl
  have hlt := getPlayerByIndex_lt hcp
  have hcpf : s.players ⟨s.currentPlayer, hlt⟩ = some cp := by
    rw [← getPlayerByIndex_fin]; exact hcp
  have hhand : cp.hand ≠ [] := by
    intro hnil
    rw [hnil] at hc
    simp at hc
  have hown : s.leaderBoard ⟨s.currentPlayer, hlt⟩ = none ∨
      s.leaderBoard ⟨s.currentPlayer, hlt⟩ = some 0 := by
    by_contra hne
    push_neg at hne
    exact hhand (hJ.2.2 _ cp hcpf hne.1 hne.2).1
  have hnonneg : ∃ q, 0 ≤ rankValue (s.leaderBoard q) := by
    refine ⟨⟨s.currentPlayer, hlt⟩, ?_⟩
    rcases hown with h0 | h0 <;> rw [h0] <;> simp [rankValue]
  have hrank : s2.rankAt s.currentPlayer = some ((n : Int) + 1) := by
    rw [a5, largestFinishRank_eq s hnonneg, rankedUpTo_largest hJ]
  have hrankf : s2.leaderBoard ⟨s.currentPlayer, hlt⟩ = some ((n : Int) + 1) := by
    have := rankAt_fin s2 ⟨s.currentPlayer, hlt⟩
    simp only at this
    rw [← this]; exact hrank
  refine ⟨⟨fun q r hr => ?_, fun r hr1 hrn => ?_, fun q pl2 hq hne hn0 => ?_⟩, hrank⟩
  · by_cases hqc : q.val = s.currentPlayer
    · have hq : q = ⟨s.currentPlayer, hlt⟩ := Fin.ext hqc
      rw [hq, hrankf] at hr
      have := Option.some.inj hr
      push_cast
      omega
    · rw [(pq q hqc).2] at hr
      have := hJ.1 q r hr
      push_cast
      omega
  · by_cases hrn1 : r = n + 1
    · refine ⟨⟨s.currentPlayer, hlt⟩, ?_⟩
      rw [hrankf, hrn1]
      push_cast
      rfl
    · obtain ⟨q, hq⟩ := hJ.2.1 r hr1 (by omega)
      have hqc : q.val ≠ s.currentPlayer := by
        intro e
        have hqe : q = ⟨s.currentPlayer, hlt⟩ := Fin.ext e
        rw [hqe] at hq
        rcases hown with h0 | h0
        · rw [h0] at hq; cases hq
        · rw [h0] at hq
          have := Option.some.inj hq
          omega
      exact ⟨q, by rw [(pq q hqc).2]; exact hq⟩
  · by_cases hqc : q.val = s.currentPlayer
    · have e1 := getPlayerByIndex_fin s2 q
      rw [hqc, hcp2, hq] at e1
      cases Option.some.inj e1
      exact ⟨a1, a3⟩
    · rw [(pq q hqc).1] at hq
      rw [(pq q hqc).2] at hne hn0
      obtain ⟨pl, hpl, hsc⟩ := sameFrame_some_inv g1 hq
      obtain ⟨k1, k2⟩ := hJ.2.2 q pl hpl hne hn0
      exact ⟨by rw [hsc.1]; exact k1, by rw [hsc.2.2.1]; exact k2⟩

/-- The invariant of a game: after `n` finishing moves the ranks `1 .. n` are on the
leaderboard. -/
theorem gameRun_ranked {n : Nat} {s : GameState} (h : GameRun n s) : s.rankedUpTo n := by
  induction h with
  | start gamePlayers => exact rankedUpTo_start gamePlayers
  | deal cardIndices s1 _ hstep ih => exact rankedUpTo_stepsTo ih (newRound_stepsTo hstep)
  | move mv s1 fin _ hstep ih =>
    cases fin with
    | false => exact rankedUpTo_stepsTo ih (executeMove_stepsTo hstep)
    | true => exact (executeMove_ranked_fin ih hstep).1
  | fold s1 _ hstep ih => exact rankedUpTo_stepsTo ih (executeFold_stepsTo hstep)
  | turn s1 r _ hstep ih => exact rankedUpTo_stepsTo ih (endTurn_stepsTo ih hstep)
  | disconnect playerIndex s1 _ hstep ih => exact disconnectPlayer_ranked ih hstep

/-! ## Dealing -/

/-- The dealing loop hands out consecutive slices of the index vector. -/
theorem dealLoop_spec (cards : List Nat) (rc : Nat) :
    ∀ (l : List (Fin 4)) (cardIdx : Nat), cardIdx + l.length * rc ≤ cards.length →
      ∃ dealt, dealLoop cards rc l cardIdx = Except.ok dealt ∧ dealt.map Prod.fst = l ∧
        (∀ e ∈ dealt, e.2.length = rc ∧ ∀ c ∈ e.2, c ∈ cards) ∧
        dealt.flatMap Prod.snd = (cards.drop cardIdx).take (l.length * rc) := by
  intro l
  induction l with
  | nil =>
    intro cardIdx _
    exact ⟨[], rfl, rfl, fun e he => (by cases he), by simp⟩
  | cons p rest ih =>
    intro cardIdx hlen
    have hlen1 : cardIdx + rc + rest.length * rc ≤ cards.length := by
      simp only [List.length_cons, Nat.succ_mul] at hlen
      omega
    have hhere : cardIdx + rc ≤ cards.length := by omega
    obtain ⟨more, e1, h1, h2, h3⟩ := ih (cardIdx + rc) hlen1
    refine ⟨(p, (cards.drop cardIdx).take rc) :: more, ?_, ?_, ?_, ?_⟩
    · simp only [dealLoop, if_pos hhere, e1]
    · simp [h1]
    · intro e he
      rcases List.mem_cons.mp he with rfl | he
      · refine ⟨?_, fun c hc => List.mem_of_mem_drop (List.mem_of_mem_take hc)⟩
        simp only [List.length_take, List.length_drop]
        omega
      · exact h2 e he
    · rw [List.flatMap_cons, h3]
      have : (p :: rest).length * rc = rc + rest.length * rc := by
        simp only [List.length_cons, Nat.succ_mul]; omega
      rw [this, List.take_add, List.drop_drop]

/-! ## Start and simple moves among the legal moves -/

theorem Position.equals_fields {a b : Position} (h : a.equals b = true) :
    a.boardLocation = b.boardLocation ∧ a.index = b.index := by
  unfold Position.equals at h
  simp only [Bool.and_eq_true, decide_eq_true_eq] at h
  exact ⟨h.1.1, h.1.2⟩

/-- The index `getMarbleIndexByPos` finds for the position of a marble is the index of a marble
on an equal position. -/
theorem getMarbleIndexByPos_equals (cp : Player) (m : Fin 4) :
    ∃ k : Fin 4, cp.getMarbleIndexByPos (cp.marbles m) = some k.val ∧
      (cp.marbles k).equals (cp.marbles m) = true := by
  unfold Player.getMarbleIndexByPos
  cases h : seatIds.find? fun i => (cp.marbles i).equals (cp.marbles m) with
  | none =>
    rw [List.find?_eq_none] at h
    exact absurd (Position.equals_refl _) (h m (mem_seatIds m))
  | some k =>
    refine ⟨k, rfl, ?_⟩
    have := List.find?_some h
    simpa using this

/-- The rule loop keeps the moves of every rule of the list. -/
theorem ruleLoop_mem (s : GameState) (cp : Player) (card : Card) (c h : Nat)
    (rule : MoveType × Int) :
    ∀ (rules : List (MoveType × Int)), rule ∈ rules → ∀ mvs,
      ruleLoop s cp card false c h rules = Except.ok mvs →
      ∃ here, marbleLoop s cp card rule.1 rule.2 false c h seatIds = Except.ok here ∧
        ∀ mv ∈ here, mv ∈ mvs := by
  intro rules
  induction rules with
  | nil => intro hr; cases hr
  | cons r rest ih =>
    intro hr mvs hmvs
    unfold ruleLoop at hmvs
    simp only [Bool.false_eq_true, false_and, if_false] at hmvs
    cases hhere : marbleLoop s cp card r.1 r.2 false c h seatIds with
    | error err => simp [hhere] at hmvs
    | ok here =>
      cases hmore : ruleLoop s cp card false c h rest with
      | error err => simp [hhere, hmore] at hmvs
      | ok more =>
        simp only [hhere, hmore, Except.ok.injEq] at hmvs
        subst hmvs
        rcases List.mem_cons.1 hr with e | e
        · subst e
          exact ⟨here, hhere, fun mv hmv => List.mem_append_left _ hmv⟩
        · obtain ⟨h1, e1, f1⟩ := ih e more hmore
          exact ⟨h1, e1, fun mv hmv => List.mem_append_right _ (f1 mv hmv)⟩

/-- The hand loop keeps the moves of every card of the hand. -/
theorem handLoop_mem (s : GameState) (cp : Player) (c : Nat) (card : Card)
    (hcard : s.deck[c]? = some card) :
    ∀ (hand : List Nat) (j : Nat), hand[j]? = some c → ∀ handIndex mvs,
      handLoop s cp none false false hand handIndex = Except.ok mvs →
      ∃ here, ruleLoop s cp card false c (handIndex + j) card.moveRules = Except.ok here ∧
        ∀ mv ∈ here, mv ∈ mvs := by
  have hcardAt : s.cardAt c = Except.ok card := by
    unfold GameState.cardAt
    rw [hcard]
  intro hand
  induction hand with
  | nil => intro j hj; simp at hj
  | cons a rest ih =>
    intro j hj handIndex mvs hmvs
    unfold handLoop at hmvs
    cases hca : s.cardAt a with
    | error err => simp [hca] at hmvs
    | ok carda =>
      simp only [hca, toSetTarget, Bool.false_eq_true, or_self, if_false] at hmvs
      cases hhere : ruleLoop s cp carda false a handIndex carda.moveRules with
      | error err => simp [hhere] at hmvs
      | ok here =>
        cases hmore : handLoop s cp none false false rest (handIndex + 1) with
        | error err => simp [hhere, hmore] at hmvs
        | ok more =>
          simp only [hhere, hmore, Except.ok.injEq] at hmvs
          subst hmvs
          cases j with
          | zero =>
            simp only [List.getElem?_cons_zero, Option.some.injEq] at hj
            subst hj
            rw [hcardAt] at hca
            cases Except.ok.inj hca
            exact ⟨here, hhere, fun mv hmv => List.mem_append_left _ hmv⟩
          | succ j =>
            simp only [List.getElem?_cons_succ] at hj
            obtain ⟨h1, e1, f1⟩ := ih j hj (handIndex + 1) more hmore
            have hidx : handIndex + 1 + j = handIndex + (j + 1) := by omega
            rw [hidx] at e1
            exact ⟨h1, e1, fun mv hmv => List.mem_append_right _ (f1 mv hmv)⟩

/-! ## Names in the seat table -/

theorem isValidName_eq (players_ : Fin 4 → ClientInfo) (name : String) :
    isValidName players_ name = true ↔ name ≠ "" ∧ ∀ q : Fin 4, (players_ q).name ≠ name := by
  unfold isValidName
  by_cases he : name = ""
  · have hempty : ("" : String).isEmpty = true := by decide
    subst he
    simp [hempty]
  · have hne : name.isEmpty = false := by
      cases h : name.isEmpty with
      | false => rfl
      | true => exact absurd ((String.isEmpty_iff name).1 h) he
    simp only [hne, Bool.false_eq_true, if_false, Bool.not_eq_true', List.any_eq_false,
      decide_eq_true_eq, ne_eq, he, not_false_eq_true, true_and]
    constructor
    · intro h q
      exact h q (mem_seatIds q)
    · intro h q _
      exact h q

/-- In a seat table whose inactive seats hold the empty name, as in the lobby, a name is valid
exactly when it is non-empty and differs from the name of every active seat. -/
theorem isValidName_lobby (players_ : Fin 4 → ClientInfo) (name : String)
    (hlobby : ∀ q : Fin 4, (players_ q).isActive = false → (players_ q).name = "") :
    isValidName players_ name = true ↔
      name ≠ "" ∧ ∀ q : Fin 4, (players_ q).isActive = true → (players_ q).name ≠ name := by
  rw [isValidName_eq]
  constructor
  · rintro ⟨h1, h2⟩
    exact ⟨h1, fun q _ => h2 q⟩
  · rintro ⟨h1, h2⟩
    refine ⟨h1, fun q => ?_⟩
    cases ha : (players_ q).isActive with
    | true => exact h2 q ha
    | false =>
      rw [hlobby q ha]
      exact fun h => h1 h.symm

/-! ## The probing loop of the turn order -/

/-- The probing loop leaves after `k + 1` probes exactly at the first seat, in cyclic order from
`start`, that passes the test. -/
theorem probeSeat_exact (s : GameState) (active : Player → Bool) (start : Nat) (hs : start < 4)
    (k : Nat) (hsat : s.seatSatisfies active ((start + k) % 4) = true)
    (hbefore : ∀ j, j < k → s.seatSatisfies active ((start + j) % 4) = false) (fuel : Nat)
    (hf : k < fuel) :
    probeSeat s active fuel start = some ((start + k) % 4) := by
  have h := probeSeat_spec s active fuel start hs
  cases hp : probeSeat s active fuel start with
  | none =>
    rw [hp] at h
    have := h k hf
    rw [hsat] at this
    cases this
  | some n =>
    rw [hp] at h
    obtain ⟨k1, _, hn, hsat1, hbefore1⟩ := h
    have hkk : k1 = k := by
      rcases Nat.lt_trichotomy k1 k with hlt | heq | hgt
      · have := hbefore k1 hlt
        rw [← hn, hsat1] at this
        cases this
      · exact heq
      · have := hbefore1 k hgt
        rw [hsat] at this
        cases this
    rw [hn, hkk]

/-- The probing loop leaves, with some number of probes, exactly when a present seat passes the
test. -/
theorem probeSeat_leaves_iff (s : GameState) (active : Player → Bool) (start : Nat)
    (hs : start < 4) :
    (∃ fuel n, probeSeat s active fuel start = some n) ↔
      ∃ q : Fin 4, s.seatSatisfies active q.val = true := by
  constructor
  · rintro ⟨fuel, n, hp⟩
    have h := probeSeat_spec s active fuel start hs
    rw [hp] at h
    obtain ⟨k, _, hn, hsat, _⟩ := h
    have hn4 : n < 4 := by rw [hn]; exact Nat.mod_lt _ (by decide)
    exact ⟨⟨n, hn4⟩, hsat⟩
  · rintro ⟨q, hq⟩
    obtain ⟨n, hn⟩ := probeSeat_finds s active start hs q.val hq
    exact ⟨4, n, hn⟩

/-! ## Candidate end positions of a simple move -/

/-- The seat loop of `checkSimpleMove` returns early only at a present player whose start is
flagged blocked and whose start field the case distinction reports as covered. -/
theorem crossingScan_none (s : GameState) (i e : Nat) (V : Int) (sf : Nat) (l : List (Fin 4))
    (b : Bool) (h : crossingScan s i e V sf l b = none) :
    ∃ q ∈ l, ∃ pl, s.players q = some pl ∧ pathCoversStart i e V pl.startField = true ∧
      pl.isStartBlocked = true := by
  induction l generalizing b with
  | nil => cases h
  | cons q rest ih =>
    unfold crossingScan at h
    cases hp : s.players q with
    | none =>
      rw [hp] at h
      obtain ⟨q1, hq1, r⟩ := ih b h
      exact ⟨q1, List.mem_cons_of_mem _ hq1, r⟩
    | some pl =>
      rw [hp] at h
      simp only at h
      by_cases hc : (pathCoversStart i e V pl.startField && pl.isStartBlocked) = true
      · simp only [Bool.and_eq_true] at hc
        exact ⟨q, List.mem_cons_self _ _, pl, hp, hc.1, hc.2⟩
      · rw [if_neg hc] at h
        obtain ⟨q1, hq1, r⟩ := ih _ h
        exact ⟨q1, List.mem_cons_of_mem _ hq1, r⟩

/-- The flag `crossesOurStart` is set only at the seat of the current player, when its start
field is reported as covered and is not the end of the walk. -/
theorem crossingScan_true (s : GameState) (i e : Nat) (V : Int) (sf : Nat) (l : List (Fin 4))
    (b : Bool) (h : crossingScan s i e V sf l b = some true) :
    b = true ∨ ∃ q ∈ l, ∃ pl, s.players q = some pl ∧ q.val = s.currentPlayer ∧
      pathCoversStart i e V pl.startField = true ∧ e ≠ sf := by
  induction l generalizing b with
  | nil =>
    unfold crossingScan at h
    exact Or.inl (Option.some.inj h)
  | cons q rest ih =>
    unfold crossingScan at h
    cases hp : s.players q with
    | none =>
      rw [hp] at h
      rcases ih b h with hb | ⟨q1, hq1, r⟩
      · exact Or.inl hb
      · exact Or.inr ⟨q1, List.mem_cons_of_mem _ hq1, r⟩
    | some pl =>
      rw [hp] at h
      simp only at h
      by_cases hc : (pathCoversStart i e V pl.startField && pl.isStartBlocked) = true
      · rw [if_pos hc] at h; cases h
      · rw [if_neg hc] at h
        rcases ih _ h with hb | ⟨q1, hq1, r⟩
        · simp only [Bool.or_eq_true, Bool.and_eq_true, decide_eq_true_eq] at hb
          rcases hb with hb | ⟨⟨h1, h2⟩, h3⟩
          · exact Or.inl hb
          · exact Or.inr ⟨q, List.mem_cons_self _ _, pl, hp, h2, h1, h3⟩
        · exact Or.inr ⟨q1, List.mem_cons_of_mem _ hq1, r⟩

/-- The finish-entry offset of a walk that covers the start field `16 * c` without ending on
it: the start field is reached after `dist < |V|` steps, the offset is `|V| - dist - 1`, and the
`size_t` computation equals the computation in the integers. -/
theorem finishEntryIndex_eq (i c : Nat) (V : Int) (hi : i < 64) (hc : c < 4)
    (hV : (1 ≤ V ∧ V ≤ 13) ∨ (-13 ≤ V ∧ V ≤ -1))
    (hcov : pathCoversStart i (trackEndIndex i V) V (16 * c) = true)
    (hend : trackEndIndex i V ≠ 16 * c) :
    ∃ dist, dist < V.natAbs ∧ walkField i V dist = 16 * c ∧
      finishEntryIndex V (trackEndIndex i V) (16 * c) + dist + 1 = V.natAbs ∧
      finishEntryExact V (trackEndIndex i V) (16 * c) =
        (finishEntryIndex V (trackEndIndex i V) (16 * c) : Int) := by
  obtain ⟨j, hj, hjw⟩ := covers_on_walk i (16 * c) V hi (by omega) hV hcov
  have hlast := walkField_last i V
  rw [trackEndIndex_eq] at hend ⊢
  have hjne : j ≠ V.natAbs := by
    intro h
    rw [h, hlast] at hjw
    exact hend hjw
  refine ⟨j, by omega, hjw, ?_, ?_⟩
  · unfold walkField at hjw
    unfold finishEntryIndex sizeSub sizeMod
    rcases hV with hV | hV
    · have hneg : ¬ V < 0 := by omega
      have hpos : V > 0 := by omega
      simp only [hneg, if_false, hpos, if_true] at hjw ⊢
      omega
    · have hneg : V < 0 := by omega
      have hpos : ¬ V > 0 := by omega
      simp only [hneg, if_true, hpos, if_false] at hjw ⊢
      split <;> omega
  · unfold walkField at hjw
    unfold finishEntryExact finishEntryIndex sizeSub sizeMod
    rcases hV with hV | hV
    · have hneg : ¬ V < 0 := by omega
      have hpos : V > 0 := by omega
      simp only [hneg, if_false, hpos, if_true] at hjw ⊢
      omega
    · have hneg : V < 0 := by omega
      have hpos : ¬ V > 0 := by omega
      simp only [hneg, if_true, hpos, if_false] at hjw ⊢
      split <;> omega

theorem finishEntryFree_spec {s : GameState} {f : Nat} (h : finishEntryFree s f = true) :
    ∀ k, k ≤ f →
      ownOccupant s { boardLocation := BoardLocation.FINISH, index := k,
                      playerID := s.currentPlayer } = false := by
  intro k hk
  unfold finishEntryFree at h
  rw [List.all_eq_true] at h
  have := h k (List.mem_range.2 (by omega))
  simpa using this

/-! ## Split moves: the walk of a TRACK marble -/

theorem trackEndIndex_nat (i k : Nat) : trackEndIndex i (k : Int) = (i + k) % 64 := by
  rw [trackEndIndex_eq]
  omega

theorem sevenFinishCaptures_home (s : GameState) (o : Nat) (l : List MarbleIdentifier)
    (caps : List Movement) (h : sevenFinishCaptures s o l = Except.ok caps) :
    ∀ x ∈ caps, x.2.boardLocation = BoardLocation.HOME := by
  induction l generalizing caps with
  | nil =>
    unfold sevenFinishCaptures at h
    cases h
    intro x hx
    cases hx
  | cons a rest ih =>
    unfold sevenFinishCaptures at h
    cases hp : s.getPlayerByIndex a.playerID with
    | none => rw [hp] at h; cases h
    | some opp =>
      rw [hp] at h
      simp only at h
      cases hm : opp.getMarblePosition a.marbleIdx with
      | error e => rw [hm] at h; cases h
      | ok pos =>
        rw [hm] at h
        simp only at h
        cases hr : sevenFinishCaptures s o rest with
        | error e => rw [hr] at h; cases h
        | ok more =>
          rw [hr] at h
          simp only at h
          split at h
          · cases h
            exact ih _ hr
          · cases h
            intro x hx
            rcases List.mem_cons.1 hx with hx | hx
            · rw [hx]; rfl
            · exact ih _ hr x hx

/-- One iteration of `checkSevenMove` for a TRACK marble: the flag `crossesOurStart` after it,
and where the entries of `walkingOptions` come from. -/
theorem sevenStep_track {s : GameState} {cp : Player} {pos : Position}
    {mover : MarbleIdentifier} {k : Nat} {st st1 : SevenState} {b : Bool}
    (htrack : pos.boardLocation = BoardLocation.TRACK)
    (h : sevenStep s cp pos mover k st = Except.ok (st1, b)) :
    st1.crossesOurStart =
      (if st.crossesOurStart then true
        else if pos.index < trackEndIndex pos.index (k : Int) then
          decide (pos.index ≤ cp.startField ∧ trackEndIndex pos.index (k : Int) > cp.startField)
        else if pos.index > trackEndIndex pos.index (k : Int) then
          decide (cp.startField ≥ pos.index ∨ cp.startField < trackEndIndex pos.index (k : Int))
        else false) ∧
    ∀ x ∈ st1.walkingOptions,
      x ∈ st.walkingOptions ∨ x.2.boardLocation = BoardLocation.HOME ∨
      x.2 = { boardLocation := BoardLocation.TRACK, index := trackEndIndex pos.index (k : Int),
              playerID := s.currentPlayer } ∨
      (st1.crossesOurStart = true ∧
        sizeSub (sizeSub (trackEndIndex pos.index (k : Int)) cp.startField) 1 ≤ 3 ∧
        x.2 = { boardLocation := BoardLocation.FINISH,
                index := sizeSub (sizeSub (trackEndIndex pos.index (k : Int)) cp.startField) 1,
                playerID := s.currentPlayer }) := by
  unfold sevenStep at h
  have hnf : ¬ pos.boardLocation = BoardLocation.FINISH := by rw [htrack]; decide
  simp only [hnf, if_false] at h
  generalize trackEndIndex pos.index (k : Int) = e at h ⊢
  generalize (if st.crossesOurStart then true
        else if pos.index < e then
          decide (pos.index ≤ cp.startField ∧ e > cp.startField)
        else if pos.index > e then
          decide (cp.startField ≥ pos.index ∨ cp.startField < e)
        else false) = crosses at h ⊢
  generalize sizeSub (sizeSub e cp.startField) 1 = fi at h ⊢
  generalize isFieldOccupied s
    { boardLocation := BoardLocation.TRACK, index := e, playerID := s.currentPlayer } = o at h
  generalize (isFieldOccupied s
    { boardLocation := BoardLocation.FINISH, index := fi,
      playerID := s.currentPlayer }).isNone = ffree at h
  have hfinish : ∀ (sent : List MarbleIdentifier) (options : List Movement),
      (if (crosses && decide (fi ≤ 3) && !decide (cp.startBlocked = some mover.marbleIdx)) =
            true ∧ ffree = true then
          match sevenFinishCaptures s cp.startField sent with
          | Except.error e => Except.error e
          | Except.ok caps =>
            Except.ok (st.walkingOptions ++
              (mover, { boardLocation := BoardLocation.FINISH, index := fi,
                        playerID := s.currentPlayer }) :: caps)
        else Except.ok st.walkingOptions) = Except.ok options →
      ∀ x ∈ options, x ∈ st.walkingOptions ∨ x.2.boardLocation = BoardLocation.HOME ∨
        (crosses = true ∧ fi ≤ 3 ∧
          x.2 = { boardLocation := BoardLocation.FINISH, index := fi,
                  playerID := s.currentPlayer }) := by
    intro sent options hopt x hx
    split at hopt
    · rename_i hallow
      cases hcaps : sevenFinishCaptures s cp.startField sent with
      | error e => rw [hcaps] at hopt; cases hopt
      | ok caps =>
        rw [hcaps] at hopt
        cases hopt
        simp only [Bool.and_eq_true, decide_eq_true_eq] at hallow
        rcases List.mem_append.1 hx with hx | hx
        · exact Or.inl hx
        · rcases List.mem_cons.1 hx with hx | hx
          · right; right
            exact ⟨hallow.1.1.1, hallow.1.1.2, by rw [hx]⟩
          · exact Or.inr (Or.inl (sevenFinishCaptures_home s _ sent caps hcaps x hx))
    · cases hopt
      exact Or.inl hx
  have hsend : ∀ (sent : List MarbleIdentifier), ∀ x ∈ sent.map sendHome,
      x.2.boardLocation = BoardLocation.HOME := by
    intro sent x hx
    obtain ⟨a, _, rfl⟩ := List.mem_map.1 hx
    rfl
  have hrest : ∀ (sent : List MarbleIdentifier) (own : Bool),
      (match
        (if (crosses && decide (fi ≤ 3) && !decide (cp.startBlocked = some mover.marbleIdx)) =
              true ∧ ffree = true then
            match sevenFinishCaptures s cp.startField sent with
            | Except.error e => Except.error e
            | Except.ok caps =>
              Except.ok (st.walkingOptions ++
                (mover, { boardLocation := BoardLocation.FINISH, index := fi,
                          playerID := s.currentPlayer }) :: caps)
          else Except.ok st.walkingOptions) with
        | Except.error e => Except.error e
        | Except.ok options =>
          if own = true then
            Except.ok ({ crossesOurStart := crosses, sentHomeMarbles := sent,
                         walkingOptions := options }, true)
          else
            Except.ok
              ({ crossesOurStart := crosses, sentHomeMarbles := sent,
                 walkingOptions :=
                   options ++
                     (mover, { boardLocation := BoardLocation.TRACK, index := e,
                               playerID := s.currentPlayer }) :: List.map sendHome sent },
                true)) = Except.ok (st1, b) →
      st1.crossesOurStart = crosses ∧
      ∀ x ∈ st1.walkingOptions,
        x ∈ st.walkingOptions ∨ x.2.boardLocation = BoardLocation.HOME ∨
          x.2 = { boardLocation := BoardLocation.TRACK, index := e,
                  playerID := s.currentPlayer } ∨
          (st1.crossesOurStart = true ∧ fi ≤ 3 ∧
            x.2 = { boardLocation := BoardLocation.FINISH, index := fi,
                    playerID := s.currentPlayer }) := by
    intro sent own hres
    split at hres
    · cases hres
    · rename_i options hopt
      have hf := hfinish sent options hopt
      split at hres
      · cases hres
        refine ⟨rfl, fun x hx => ?_⟩
        rcases hf x hx with h1 | h1 | h1
        · exact Or.inl h1
        · exact Or.inr (Or.inl h1)
        · exact Or.inr (Or.inr (Or.inr h1))
      · cases hres
        refine ⟨rfl, fun x hx => ?_⟩
        rcases List.mem_append.1 hx with hx | hx
        · rcases hf x hx with h1 | h1 | h1
          · exact Or.inl h1
          · exact Or.inr (Or.inl h1)
          · exact Or.inr (Or.inr (Or.inr h1))
        · rcases List.mem_cons.1 hx with hx | hx
          · exact Or.inr (Or.inr (Or.inl (by rw [hx])))
          · exact Or.inr (Or.inl (hsend sent x hx))
  cases o with
  | none =>
    simp only [Bool.false_eq_true, if_false] at h
    have := hrest st.sentHomeMarbles false
    simp only [Bool.false_eq_true, if_false] at this
    exact this h
  | some occ =>
    simp only at h
    split at h
    · cases h
      exact ⟨rfl, fun x hx => Or.inl hx⟩
    · by_cases hown : occ.playerID = s.currentPlayer
      · simp only [hown, if_true, decide_True] at h
        have := hrest st.sentHomeMarbles true
        simp only [if_true] at this
        exact this h
      · simp only [hown, if_false, decide_False] at h
        cases hp : s.getPlayerByIndex occ.playerID with
        | none => rw [hp] at h; cases h
        | some opp =>
          rw [hp] at h
          simp only at h
          by_cases hob : opp.startBlocked = some occ.marbleIdx
          · simp only [hob, if_true] at h
            cases h
            exact ⟨rfl, fun x hx => Or.inl hx⟩
          · simp only [hob, if_false] at h
            have := hrest (st.sentHomeMarbles ++ [occ]) false
            simp only [Bool.false_eq_true, if_false] at this
            exact this h

/-- The arithmetic of `checkSevenMove` at step `k` of a walk from track index `i` for a player
with start field `16 * c`: when the flag `crossesOurStart` is set, the start field lies fewer
than `k` steps ahead, and a finish-entry offset of at most 3 is the number of steps left after
the start field, less one. -/
theorem sevenCross_steps (i c k : Nat) (prev : Bool) (hi : i < 64) (hc : c < 4) (hk1 : 1 ≤ k)
    (hk : k ≤ 7) (hprev : prev = true → (16 * c + 64 - i) % 64 < k)
    (hcr : (if prev then true
        else if i < (i + k) % 64 then decide (i ≤ 16 * c ∧ (i + k) % 64 > 16 * c)
        else if i > (i + k) % 64 then decide (16 * c ≥ i ∨ 16 * c < (i + k) % 64)
        else false) = true) :
    (16 * c + 64 - i) % 64 < k ∧
      (sizeSub (sizeSub ((i + k) % 64) (16 * c)) 1 ≤ 3 →
        (16 * c + 64 - i) % 64 + sizeSub (sizeSub ((i + k) % 64) (16 * c)) 1 + 1 = k) := by
  have hd : (16 * c + 64 - i) % 64 < k := by
    cases prev with
    | true => exact hprev rfl
    | false =>
      simp only [Bool.false_eq_true, if_false] at hcr
      split at hcr
      · simp only [decide_eq_true_eq] at hcr
        omega
      · split at hcr
        · simp only [decide_eq_true_eq] at hcr
          omega
        · cases hcr
  refine ⟨hd, ?_⟩
  unfold sizeSub sizeMod
  omega

/-- The capture loop `sevenFinishCaptures` returns on marbles of present players. -/
theorem sevenFinishCaptures_ok (s : GameState) (o : Nat) (l : List MarbleIdentifier)
    (h : ∀ a ∈ l, (s.getPlayerByIndex a.playerID).isSome = true ∧ a.marbleIdx < 4) :
    ∃ caps, sevenFinishCaptures s o l = Except.ok caps := by
  induction l with
  | nil => exact ⟨[], rfl⟩
  | cons a rest ih =>
    obtain ⟨more, hmore⟩ := ih (fun a1 h1 => h a1 (List.mem_cons_of_mem _ h1))
    obtain ⟨hp, hm⟩ := h a (List.mem_cons_self _ _)
    unfold sevenFinishCaptures
    cases hg : s.getPlayerByIndex a.playerID with
    | none => rw [hg] at hp; cases hp
    | some opp =>
      simp only [Player.getMarblePosition, hm, dif_pos, hmore]
      split
      · exact ⟨_, rfl⟩
      · exact ⟨_, rfl⟩

/-- One iteration of `checkSevenMove` for a TRACK marble returns, and every marble it records as
sent home is a marble of a present player. -/
theorem sevenStep_ok (s : GameState) (cp : Player) (pos : Position) (mover : MarbleIdentifier)
    (k : Nat) (st : SevenState) (htrack : pos.boardLocation = BoardLocation.TRACK)
    (hsent : ∀ a ∈ st.sentHomeMarbles,
      (s.getPlayerByIndex a.playerID).isSome = true ∧ a.marbleIdx < 4) :
    ∃ st1 b, sevenStep s cp pos mover k st = Except.ok (st1, b) ∧
      ∀ a ∈ st1.sentHomeMarbles,
        (s.getPlayerByIndex a.playerID).isSome = true ∧ a.marbleIdx < 4 := by
  unfold sevenStep
  have hnf : ¬ pos.boardLocation = BoardLocation.FINISH := by rw [htrack]; decide
  simp only [hnf, if_false]
  generalize trackEndIndex pos.index (k : Int) = e
  generalize (if st.crossesOurStart then true
        else if pos.index < e then
          decide (pos.index ≤ cp.startField ∧ e > cp.startField)
        else if pos.index > e then
          decide (cp.startField ≥ pos.index ∨ cp.startField < e)
        else false) = crosses
  generalize sizeSub (sizeSub e cp.startField) 1 = fi
  generalize (isFieldOccupied s
    { boardLocation := BoardLocation.FINISH, index := fi,
      playerID := s.currentPlayer }).isNone = ffree
  have hrest : ∀ (sent : List MarbleIdentifier) (own : Bool),
      (∀ a ∈ sent, (s.getPlayerByIndex a.playerID).isSome = true ∧ a.marbleIdx < 4) →
      ∃ (st1 : SevenState) (b : Bool),
        (match
          (if (crosses && decide (fi ≤ 3) && !decide (cp.startBlocked = some mover.marbleIdx)) =
                true ∧ ffree = true then
              match sevenFinishCaptures s cp.startField sent with
              | Except.error e => Except.error e
              | Except.ok caps =>
                Except.ok (st.walkingOptions ++
                  (mover, { boardLocation := BoardLocation.FINISH, index := fi,
                            playerID := s.currentPlayer }) :: caps)
            else Except.ok st.walkingOptions) with
          | Except.error e => Except.error e
          | Except.ok options =>
            if own = true then
              Except.ok ({ crossesOurStart := crosses, sentHomeMarbles := sent,
                           walkingOptions := options }, true)
            else
              Except.ok
                ({ crossesOurStart := crosses, sentHomeMarbles := sent,
                   walkingOptions :=
                     options ++
                       (mover, { boardLocation := BoardLocation.TRACK, index := e,
                                 playerID := s.currentPlayer }) :: List.map sendHome sent },
                  true)) = Except.ok (st1, b) ∧
        ∀ a ∈ st1.sentHomeMarbles,
          (s.getPlayerByIndex a.playerID).isSome = true ∧ a.marbleIdx < 4 := by
    intro sent own hs
    obtain ⟨caps, hcaps⟩ := sevenFinishCaptures_ok s cp.startField sent hs
    rw [hcaps]
    simp only
    by_cases hallow : (crosses && decide (fi ≤ 3) &&
        !decide (cp.startBlocked = some mover.marbleIdx)) = true ∧ ffree = true
    · rw [if_pos hallow]
      simp only
      split
      · exact ⟨_, _, rfl, hs⟩
      · exact ⟨_, _, rfl, hs⟩
    · rw [if_neg hallow]
      simp only
      split
      · exact ⟨_, _, rfl, hs⟩
      · exact ⟨_, _, rfl, hs⟩
  cases ho : isFieldOccupied s
    { boardLocation := BoardLocation.TRACK, index := e, playerID := s.currentPlayer } with
  | none =>
    simp only [Bool.false_eq_true, if_false]
    have := hrest st.sentHomeMarbles false hsent
    simpa only [Bool.false_eq_true, if_false] using this
  | some occ =>
    simp only
    split
    · exact ⟨_, _, rfl, hsent⟩
    · by_cases hown : occ.playerID = s.currentPlayer
      · simp only [hown, if_true, decide_True]
        have := hrest st.sentHomeMarbles true hsent
        simpa only [if_true] using this
      · simp only [hown, if_false, decide_False]
        obtain ⟨q, m, hocc, hst⟩ := isFieldOccupied_some_stands ho
        have hpres : (s.getPlayerByIndex occ.playerID).isSome = true := by
          rw [hocc]
          simp only
          rw [getPlayerByIndex_fin]
          unfold GameState.stands at hst
          cases hq : s.players q with
          | none => rw [hq] at hst; cases hst
          | some pl => rfl
        cases hp : s.getPlayerByIndex occ.playerID with
        | none => rw [hp] at hpres; cases hpres
        | some opp =>
          simp only
          by_cases hob : opp.startBlocked = some occ.marbleIdx
          · simp only [hob, if_true]
            exact ⟨_, _, rfl, hsent⟩
          · simp only [hob, if_false]
            have hs2 : ∀ a ∈ st.sentHomeMarbles ++ [occ],
                (s.getPlayerByIndex a.playerID).isSome = true ∧ a.marbleIdx < 4 := by
              intro a ha
              rcases List.mem_append.1 ha with ha | ha
              · exact hsent a ha
              · rw [List.mem_singleton.1 ha]
                refine ⟨hpres, ?_⟩
                rw [hocc]
                exact m.isLt
            have := hrest (st.sentHomeMarbles ++ [occ]) false hs2
            simpa only [Bool.false_eq_true, if_false] using this

/-- One iteration of `checkSevenMove` at step `k` for a TRACK marble keeps the invariant of the
walk: the flag `crossesOurStart` is set only when the start field lies fewer than `k` steps
ahead, and every option is a HOME entry of a captured marble or a stopping option of at most
`k` steps. -/
theorem sevenStep_inv {s : GameState} {cp : Player} {pos : Position} {mover : MarbleIdentifier}
    {k c : Nat} {st st1 : SevenState} {b : Bool}
    (htrack : pos.boardLocation = BoardLocation.TRACK) (hi : pos.index < 64)
    (hsf : cp.startField = 16 * c) (hc : c < 4) (hk1 : 1 ≤ k) (hk : k ≤ 7)
    (hcross : st.crossesOurStart = true → (16 * c + 64 - pos.index) % 64 < k)
    (hopt : ∀ x ∈ st.walkingOptions, x.2.boardLocation = BoardLocation.HOME ∨
      ∃ k1, 1 ≤ k1 ∧ k1 < k ∧ isOptionOfSteps cp.startField pos.index k1 x.2 = true)
    (h : sevenStep s cp pos mover k st = Except.ok (st1, b)) :
    (st1.crossesOurStart = true → (16 * c + 64 - pos.index) % 64 < k + 1) ∧
    ∀ x ∈ st1.walkingOptions, x.2.boardLocation = BoardLocation.HOME ∨
      ∃ k1, 1 ≤ k1 ∧ k1 < k + 1 ∧ isOptionOfSteps cp.startField pos.index k1 x.2 = true := by
  obtain ⟨hcr, hx⟩ := sevenStep_track htrack h
  rw [trackEndIndex_nat, hsf] at hcr
  have harith : st1.crossesOurStart = true →
      (16 * c + 64 - pos.index) % 64 < k ∧
      (sizeSub (sizeSub ((pos.index + k) % 64) (16 * c)) 1 ≤ 3 →
        (16 * c + 64 - pos.index) % 64 +
          sizeSub (sizeSub ((pos.index + k) % 64) (16 * c)) 1 + 1 = k) := by
    intro h1
    rw [hcr] at h1
    exact sevenCross_steps pos.index c k st.crossesOurStart hi hc hk1 hk hcross h1
  refine ⟨fun h1 => Nat.lt_succ_of_lt (harith h1).1, fun x hxm => ?_⟩
  rcases hx x hxm with h1 | h1 | h1 | ⟨h1, h2, h3⟩
  · rcases hopt x h1 with h2 | ⟨k1, h2, h3, h4⟩
    · exact Or.inl h2
    · exact Or.inr ⟨k1, h2, Nat.lt_succ_of_lt h3, h4⟩
  · exact Or.inl h1
  · right
    refine ⟨k, hk1, Nat.lt_succ_self k, ?_⟩
    rw [h1, trackEndIndex_nat]
    simp [isOptionOfSteps]
  · right
    refine ⟨k, hk1, Nat.lt_succ_self k, ?_⟩
    rw [trackEndIndex_nat, hsf] at h2 h3
    have := (harith h1).2 h2
    rw [h3, hsf]
    simp [isOptionOfSteps, this]

theorem rank_ofInt_toInt (r : Rank) : Rank.ofInt r.toInt = Except.ok r := by
  cases r <;> rfl

theorem suit_ofInt_toInt (r : Suit) : Suit.ofInt r.toInt = Except.ok r := by
  cases r <;> rfl

theorem boardLocation_ofInt_toInt (r : BoardLocation) :
    BoardLocation.ofInt r.toInt = Except.ok r := by
  cases r <;> rfl

theorem moveType_ofInt_toInt (r : MoveType) : MoveType.ofInt r.toInt = Except.ok r := by
  cases r <;> rfl

theorem Json.getSize_ofSize (n : Nat) : (Json.ofSize n).getSize = Except.ok n := by
  simp [Json.ofSize, Json.getSize]

theorem Json.getList_map {α : Type} (get : Json → Except JsonFault α) (put : α → Json)
    (f : α → α) (l : List α) (h : ∀ x ∈ l, get (put x) = Except.ok (f x)) :
    Json.getList get (l.map put) = Except.ok (l.map f) := by
  induction l with
  | nil => rfl
  | cons a rest ih =>
    rw [List.map_cons]
    unfold Json.getList
    rw [h a (List.mem_cons_self _ _), ih (fun x hx => h x (List.mem_cons_of_mem _ hx))]
    rfl

theorem Json.getArray4_ofArray4 {α : Type} (get : Json → Except JsonFault α) (put : α → Json)
    (f : α → α) (a : Fin 4 → α) (h : ∀ i, get (put (a i)) = Except.ok (f (a i))) :
    Json.getArray4 get (Json.ofArray4 put a) = Except.ok fun i => f (a i) := by
  unfold Json.getArray4 Json.ofArray4 Json.getArray
  simp only [seatIds, List.map_cons, List.map_nil, List.take, Json.getList, h]
  simp only [List.length_cons, List.length_nil]
  simp only [Nat.reduceAdd, Nat.lt_irrefl, if_false]
  congr 1
  funext i
  fin_cases i <;> rfl

theorem Json.getOptional_ofOptional {α : Type} (get : Json → Except JsonFault α)
    (put : α → Json) (f : α → α) (o : Option α)
    (h : ∀ v, get (put v) = Except.ok (f v)) (hnull : ∀ v, (put v).isNull = false) :
    Json.getOptional get (Json.ofOptional put o) = Except.ok (o.map f) := by
  cases o with
  | none => rfl
  | some v =>
    unfold Json.getOptional Json.ofOptional
    simp only [hnull, Bool.false_eq_true, if_false, h]
    rfl

theorem position_json_round_trip (p : Position) :
    Position.from_json (Position.to_json p) = Except.ok p := by
  unfold Position.from_json Position.to_json
  simp [Json.atKey, List.lookup, Json.getInt, boardLocation_ofInt_toInt, Json.getSize_ofSize,
    bind, Except.bind, pure, Except.pure]

theorem ruleFromJson_ruleToJson (rule : MoveType × Int) :
    ruleFromJson (ruleToJson rule) = Except.ok rule := by
  unfold ruleFromJson ruleToJson
  simp [Json.atKey, List.lookup, Json.getInt, moveType_ofInt_toInt, bind, Except.bind, pure,
    Except.pure]

theorem card_json_round_trip (card : Card) :
    Card.from_json (Card.to_json card) = Except.ok card := by
  unfold Card.from_json Card.to_json
  have hrules : Json.getList ruleFromJson (card.moveRules.map ruleToJson) =
      Except.ok card.moveRules := by
    have := Json.getList_map ruleFromJson ruleToJson id card.moveRules
      (fun x _ => ruleFromJson_ruleToJson x)
    rwa [List.map_id] at this
  simp [Json.atKey, List.lookup, Json.getInt, rank_ofInt_toInt, suit_ofInt_toInt, Json.items,
    hrules, bind, Except.bind, pure, Except.pure]

theorem player_json_round_trip (player : Player) :
    Player.from_json (Player.to_json player) = Except.ok player.withoutHand := by
  unfold Player.from_json Player.to_json
  have hmarbles : Json.getArray4 Position.from_json
      (Json.ofArray4 Position.to_json player.marbles) = Except.ok player.marbles :=
    Json.getArray4_ofArray4 Position.from_json Position.to_json (fun x => x) player.marbles
      (fun i => position_json_round_trip _)
  cases hb : player.startBlocked with
  | none =>
    simp [Json.atKey, List.lookup, Json.getSize_ofSize, Json.getString, Json.getBool,
      Json.isNull, hmarbles, bind, Except.bind, pure, Except.pure, Player.withoutHand, hb]
  | some k =>
    simp [Json.atKey, List.lookup, Json.getSize_ofSize, Json.getString, Json.getBool,
      Json.isNull, Json.ofSize, Json.getSize, hmarbles, bind, Except.bind, pure, Except.pure,
      Player.withoutHand, hb, Functor.map, Except.map]

theorem gameState_from_json_to_json (gs : GameState) (hdeck : gs.deck.length = 54) :
    GameState.from_json (GameState.to_json gs) = Except.ok gs.withoutHands := by
  unfold GameState.from_json GameState.to_json
  have hcards : Json.getArray 54 Card.from_json (Json.array (gs.deck.map Card.to_json)) =
      Except.ok gs.deck := by
    unfold Json.getArray
    have hlen : (gs.deck.map Card.to_json).length = 54 := by rw [List.length_map, hdeck]
    have htake : (gs.deck.map Card.to_json).take 54 = gs.deck.map Card.to_json := by
      rw [← hlen]; exact List.take_length _
    have := Json.getList_map Card.from_json Card.to_json id gs.deck
      (fun x _ => card_json_round_trip x)
    rw [List.map_id] at this
    simp only [htake, this, hlen, Nat.lt_irrefl, if_false]
  have hplayers : Json.getArray4 (Json.getOptional Player.from_json)
      (Json.ofArray4 (Json.ofOptional Player.to_json) gs.players) =
      Except.ok fun q => (gs.players q).map Player.withoutHand :=
    Json.getArray4_ofArray4 _ _ (fun o => o.map Player.withoutHand) gs.players
      (fun i => Json.getOptional_ofOptional _ _ _ _ player_json_round_trip (fun _ => rfl))
  have hboard : Json.getArray4 (Json.getOptional Json.getInt)
      (Json.ofArray4 (Json.ofOptional Json.number) gs.leaderBoard) =
      Except.ok gs.leaderBoard := by
    have := Json.getArray4_ofArray4 (Json.getOptional Json.getInt)
      (Json.ofOptional Json.number) id gs.leaderBoard
      (fun i => by
        have := Json.getOptional_ofOptional Json.getInt Json.number id (gs.leaderBoard i)
          (fun _ => rfl) (fun _ => rfl)
        simpa using this)
    exact this
  have hlast : Json.getOptional Json.getSize (Json.ofOptional Json.ofSize gs.lastPlayedCard) =
      Except.ok gs.lastPlayedCard := by
    have := Json.getOptional_ofOptional Json.getSize Json.ofSize id gs.lastPlayedCard
      Json.getSize_ofSize (fun _ => rfl)
    simpa using this
  simp [Json.atKey, List.lookup, Json.getSize_ofSize, hcards, hplayers, hboard, hlast, bind,
    Except.bind, pure, Except.pure, GameState.withoutHands]

theorem withoutHands_eq (gs : GameState)
    (h : ∀ q pl, gs.players q = some pl → pl.hand = []) : gs.withoutHands = gs := by
  unfold GameState.withoutHands
  have : (fun q => (gs.players q).map Player.withoutHand) = gs.players := by
    funext q
    cases hq : gs.players q with
    | none => rfl
    | some pl =>
      have := h q pl hq
      simp only [Option.map_some', Player.withoutHand]
      congr 1
      cases pl
      simp only at this
      subst this
      rfl
  rw [this]

/-! ## Flushing the transition buffer -/

/-- The first loop of `completeTransitionToGame` keeps the last buffered message that carries
the marker and, in arrival order, the messages that do not carry it. -/
theorem sortBuffer_spec (buffer : List String) :
    ∀ (gameStateMsg : Option String) (reordered : List String),
      sortBuffer buffer gameStateMsg reordered =
        (match (buffer.filter containsMarker).getLast? with
          | some msg => some msg
          | none => gameStateMsg,
         reordered ++ buffer.filter fun msg => !containsMarker msg) := by
  induction buffer with
  | nil =>
    intro g r
    simp [sortBuffer]
  | cons msg rest ih =>
    intro g r
    unfold sortBuffer
    by_cases hm : containsMarker msg = true
    · rw [if_pos hm, ih]
      simp only [List.filter_cons, hm, if_true, Bool.not_true, Bool.false_eq_true, if_false]
      cases hl : (rest.filter containsMarker).getLast? with
      | none =>
        have : rest.filter containsMarker = [] := List.getLast?_eq_none_iff.1 hl
        rw [this]
        rfl
      | some last =>
        have : (msg :: rest.filter containsMarker).getLast? = some last := by
          rw [List.getLast?_cons, hl]
          rfl
        rw [this]
    · rw [if_neg hm, ih]
      simp only [Bool.not_eq_true] at hm
      simp [List.filter_cons, hm]

/-- With the callback set, `completeTransitionToGame` delivers the last buffered message that
carries the marker, then the buffered messages without the marker in arrival order, and nothing
else; it empties the buffer and sets the routing state to GAME. -/
theorem completeTransitionToGame_delivers (c : Client) (hcb : c.callbackSet = true) :
    c.completeTransitionToGame =
      { c with
        transitionBuffer_ := [], state_ := ClientState.GAME,
        delivered := c.delivered ++ ((c.transitionBuffer_.filter containsMarker).getLast?).toList ++
          c.transitionBuffer_.filter fun msg => !containsMarker msg } := by
  unfold Client.completeTransitionToGame
  rw [sortBuffer_spec]
  simp only [hcb, if_true, List.nil_append]
  cases (c.transitionBuffer_.filter containsMarker).getLast? <;> rfl

/-! ## Split moves: the entries one step adds -/

theorem sevenFinishCaptures_mem (s : GameState) (o : Nat) (l : List MarbleIdentifier)
    (caps : List Movement) (h : sevenFinishCaptures s o l = Except.ok caps) :
    ∀ x ∈ caps, ∃ a ∈ l, x = sendHome a := by
  induction l generalizing caps with
  | nil =>
    unfold sevenFinishCaptures at h
    cases h
    intro x hx
    cases hx
  | cons a rest ih =>
    unfold sevenFinishCaptures at h
    cases hp : s.getPlayerByIndex a.playerID with
    | none => rw [hp] at h; cases h
    | some opp =>
      rw [hp] at h
      simp only at h
      cases hm : opp.getMarblePosition a.marbleIdx with
      | error e => rw [hm] at h; cases h
      | ok pos =>
        rw [hm] at h
        simp only at h
        cases hr : sevenFinishCaptures s o rest with
        | error e => rw [hr] at h; cases h
        | ok more =>
          rw [hr] at h
          simp only at h
          intro x hx
          split at h
          · cases h
            obtain ⟨a1, h1, h2⟩ := ih _ hr x hx
            exact ⟨a1, List.mem_cons_of_mem _ h1, h2⟩
          · cases h
            rcases List.mem_cons.1 hx with hx | hx
            · exact ⟨a, List.mem_cons_self _ _, hx⟩
            · obtain ⟨a1, h1, h2⟩ := ih _ hr x hx
              exact ⟨a1, List.mem_cons_of_mem _ h1, h2⟩

/-- One iteration of `checkSevenMove` for a TRACK marble appends its entries to
`walkingOptions`: entries that send a marble of another player to HOME, and entries of the
mover to the track field reached or, with `crossesOurStart` set, to a finish slot; the first
entry added is one of the mover. The marbles sent home stay marbles of other players. -/
theorem sevenStep_added {s : GameState} {cp : Player} {pos : Position}
    {mover : MarbleIdentifier} {k : Nat} {st st1 : SevenState} {b : Bool}
    (htrack : pos.boardLocation = BoardLocation.TRACK)
    (hsent : ∀ a ∈ st.sentHomeMarbles, a.playerID ≠ s.currentPlayer)
    (h : sevenStep s cp pos mover k st = Except.ok (st1, b)) :
    (∀ a ∈ st1.sentHomeMarbles, a.playerID ≠ s.currentPlayer) ∧
    ∃ added, st1.walkingOptions = st.walkingOptions ++ added ∧
      (∀ x rest, added = x :: rest → x.1 = mover) ∧
      ∀ x ∈ added,
        (x.1.playerID ≠ s.currentPlayer ∧ x.2.boardLocation = BoardLocation.HOME) ∨
        (x.1 = mover ∧
          (x.2 = { boardLocation := BoardLocation.TRACK,
                   index := trackEndIndex pos.index (k : Int), playerID := s.currentPlayer } ∨
           (st1.crossesOurStart = true ∧
            sizeSub (sizeSub (trackEndIndex pos.index (k : Int)) cp.startField) 1 ≤ 3 ∧
            x.2 = { boardLocation := BoardLocation.FINISH,
                    index := sizeSub (sizeSub (trackEndIndex pos.index (k : Int)) cp.startField) 1,
                    playerID := s.currentPlayer }))) := by
  unfold sevenStep at h
  have hnf : ¬ pos.boardLocation = BoardLocation.FINISH := by rw [htrack]; decide
  simp only [hnf, if_false] at h
  generalize trackEndIndex pos.index (k : Int) = e at h ⊢
  generalize (if st.crossesOurStart then true
        else if pos.index < e then
          decide (pos.index ≤ cp.startField ∧ e > cp.startField)
        else if pos.index > e then
          decide (cp.startField ≥ pos.index ∨ cp.startField < e)
        else false) = crosses at h ⊢
  generalize sizeSub (sizeSub e cp.startField) 1 = fi at h ⊢
  generalize isFieldOccupied s
    { boardLocation := BoardLocation.TRACK, index := e, playerID := s.currentPlayer } = o at h
  generalize (isFieldOccupied s
    { boardLocation := BoardLocation.FINISH, index := fi,
      playerID := s.currentPlayer }).isNone = ffree at h
  have hfinish : ∀ (sent : List MarbleIdentifier) (options : List Movement),
      (∀ a ∈ sent, a.playerID ≠ s.currentPlayer) →
      (if (crosses && decide (fi ≤ 3) && !decide (cp.startBlocked = some mover.marbleIdx)) =
            true ∧ ffree = true then
          match sevenFinishCaptures s cp.startField sent with
          | Except.error e => Except.error e
          | Except.ok caps =>
            Except.ok (st.walkingOptions ++
              (mover, { boardLocation := BoardLocation.FINISH, index := fi,
                        playerID := s.currentPlayer }) :: caps)
        else Except.ok st.walkingOptions) = Except.ok options →
      ∃ added, options = st.walkingOptions ++ added ∧
        (∀ x rest, added = x :: rest → x.1 = mover) ∧
        ∀ x ∈ added,
          (x.1.playerID ≠ s.currentPlayer ∧ x.2.boardLocation = BoardLocation.HOME) ∨
          (x.1 = mover ∧ crosses = true ∧ fi ≤ 3 ∧
            x.2 = { boardLocation := BoardLocation.FINISH, index := fi,
                    playerID := s.currentPlayer }) := by
    intro sent options hs hopt
    split at hopt
    · rename_i hallow
      cases hcaps : sevenFinishCaptures s cp.startField sent with
      | error e => rw [hcaps] at hopt; cases hopt
      | ok caps =>
        rw [hcaps] at hopt
        cases hopt
        simp only [Bool.and_eq_true, decide_eq_true_eq] at hallow
        refine ⟨_, rfl, ?_, ?_⟩
        · intro x rest hx
          cases hx
          rfl
        · intro x hx
          rcases List.mem_cons.1 hx with hx | hx
          · right
            exact ⟨by rw [hx], hallow.1.1.1, hallow.1.1.2, by rw [hx]⟩
          · left
            obtain ⟨a, ha, hxa⟩ := sevenFinishCaptures_mem s _ sent caps hcaps x hx
            rw [hxa]
            exact ⟨hs a ha, rfl⟩
    · cases hopt
      refine ⟨[], by simp, ?_, ?_⟩
      · intro x rest hx
        cases hx
      · intro x hx
        cases hx
  have hrest : ∀ (sent : List MarbleIdentifier) (own : Bool),
      (∀ a ∈ sent, a.playerID ≠ s.currentPlayer) →
      (match
        (if (crosses && decide (fi ≤ 3) && !decide (cp.startBlocked = some mover.marbleIdx)) =
              true ∧ ffree = true then
            match sevenFinishCaptures s cp.startField sent with
            | Except.error e => Except.error e
            | Except.ok caps =>
              Except.ok (st.walkingOptions ++
                (mover, { boardLocation := BoardLocation.FINISH, index := fi,
                          playerID := s.currentPlayer }) :: caps)
          else Except.ok st.walkingOptions) with
        | Except.error e => Except.error e
        | Except.ok options =>
          if own = true then
            Except.ok ({ crossesOurStart := crosses, sentHomeMarbles := sent,
                         walkingOptions := options }, true)
          else
            Except.ok
              ({ crossesOurStart := crosses, sentHomeMarbles := sent,
                 walkingOptions :=
                   options ++
                     (mover, { boardLocation := BoardLocation.TRACK, index := e,
                               playerID := s.currentPlayer }) :: List.map sendHome sent },
                true)) = Except.ok (st1, b) →
      (∀ a ∈ st1.sentHomeMarbles, a.playerID ≠ s.currentPlayer) ∧
      ∃ added, st1.walkingOptions = st.walkingOptions ++ added ∧
        (∀ x rest, added = x :: rest → x.1 = mover) ∧
        ∀ x ∈ added,
          (x.1.playerID ≠ s.currentPlayer ∧ x.2.boardLocation = BoardLocation.HOME) ∨
          (x.1 = mover ∧
            (x.2 = { boardLocation := BoardLocation.TRACK, index := e,
                     playerID := s.currentPlayer } ∨
             (st1.crossesOurStart = true ∧ fi ≤ 3 ∧
              x.2 = { boardLocation := BoardLocation.FINISH, index := fi,
                      playerID := s.currentPlayer }))) := by
    intro sent own hs hres
    split at hres
    · cases hres
    · rename_i options hopt
      obtain ⟨added, hadd, hhead, hall⟩ := hfinish sent options hs hopt
      split at hres
      · cases hres
        refine ⟨hs, added, hadd, hhead, fun x hx => ?_⟩
        rcases hall x hx with h1 | h1
        · exact Or.inl h1
        · exact Or.inr ⟨h1.1, Or.inr h1.2⟩
      · cases hres
        refine ⟨hs, added ++ (mover, (⟨BoardLocation.TRACK, e, s.currentPlayer⟩ : Position)) ::
          List.map sendHome sent, ?_, ?_, fun x hx => ?_⟩
        · simp only [hadd, List.append_assoc]
        · intro x rest hx
          cases added with
          | nil =>
            simp only [List.nil_append, List.cons.injEq] at hx
            rw [← hx.1]
          | cons y ys =>
            simp only [List.cons_append, List.cons.injEq] at hx
            rw [← hx.1]
            exact hhead y ys rfl
        · rcases List.mem_append.1 hx with hx | hx
          · rcases hall x hx with h1 | h1
            · exact Or.inl h1
            · exact Or.inr ⟨h1.1, Or.inr h1.2⟩
          · rcases List.mem_cons.1 hx with hx | hx
            · exact Or.inr ⟨by rw [hx], Or.inl (by rw [hx])⟩
            · obtain ⟨a, ha, rfl⟩ := List.mem_map.1 hx
              exact Or.inl ⟨hs a ha, rfl⟩
  have hstay : (∀ a ∈ st.sentHomeMarbles, a.playerID ≠ s.currentPlayer) ∧
      ∃ added, st.walkingOptions = st.walkingOptions ++ added ∧
        (∀ x rest, added = x :: rest → x.1 = mover) ∧
        ∀ x ∈ added,
          (x.1.playerID ≠ s.currentPlayer ∧ x.2.boardLocation = BoardLocation.HOME) ∨
          (x.1 = mover ∧
            (x.2 = { boardLocation := BoardLocation.TRACK, index := e,
                     playerID := s.currentPlayer } ∨
             (crosses = true ∧ fi ≤ 3 ∧
              x.2 = { boardLocation := BoardLocation.FINISH, index := fi,
                      playerID := s.currentPlayer }))) :=
    ⟨hsent, [], by simp, (fun x rest hx => by cases hx), (fun x hx => by cases hx)⟩
  cases o with
  | none =>
    simp only [Bool.false_eq_true, if_false] at h
    have := hrest st.sentHomeMarbles false hsent
    simp only [Bool.false_eq_true, if_false] at this
    exact this h
  | some occ =>
    simp only at h
    split at h
    · cases h
      exact hstay
    · by_cases hown : occ.playerID = s.currentPlayer
      · simp only [hown, if_true, decide_True] at h
        have := hrest st.sentHomeMarbles true hsent
        simp only [if_true] at this
        exact this h
      · simp only [hown, if_false, decide_False] at h
        cases hp : s.getPlayerByIndex occ.playerID with
        | none => rw [hp] at h; cases h
        | some opp =>
          rw [hp] at h
          simp only at h
          by_cases hob : opp.startBlocked = some occ.marbleIdx
          · simp only [hob, if_true] at h
            cases h
            exact hstay
          · simp only [hob, if_false] at h
            have hs1 : ∀ a ∈ st.sentHomeMarbles ++ [occ], a.playerID ≠ s.currentPlayer := by
              intro a ha
              rcases List.mem_append.1 ha with ha | ha
              · exact hsent a ha
              · rw [List.mem_singleton.1 ha]
                exact hown
            have := hrest (st.sentHomeMarbles ++ [occ]) false hs1
            simp only [Bool.false_eq_true, if_false] at this
            exact this h

/-- One iteration of `checkSevenMove` for a FINISH marble returns, and appends at most the entry
of the mover to the slot `k` further in. -/
theorem sevenStep_finish (s : GameState) (cp : Player) (pos : Position)
    (mover : MarbleIdentifier) (k : Nat) (st : SevenState)
    (hfin : pos.boardLocation = BoardLocation.FINISH) :
    ∃ st1 b, sevenStep s cp pos mover k st = Except.ok (st1, b) ∧
      st1.sentHomeMarbles = st.sentHomeMarbles ∧
      ∃ added, st1.walkingOptions = st.walkingOptions ++ added ∧
        (∀ x rest, added = x :: rest → x.1 = mover) ∧
        ∀ x ∈ added, x.1 = mover ∧ pos.index + k ≤ 3 ∧
          x.2 = { boardLocation := BoardLocation.FINISH, index := pos.index + k,
                  playerID := s.currentPlayer } := by
  unfold sevenStep
  simp only [hfin, if_true]
  by_cases h3 : pos.index + k > 3
  · simp only [h3, if_true]
    exact ⟨st, false, rfl, rfl, [], by simp, (fun x rest hx => by cases hx),
      (fun x hx => by cases hx)⟩
  · simp only [h3, if_false]
    split
    · exact ⟨st, false, rfl, rfl, [], by simp, (fun x rest hx => by cases hx),
        (fun x hx => by cases hx)⟩
    · refine ⟨_, true, rfl, rfl, _, rfl, ?_, ?_⟩
      · intro x rest hx
        cases hx
        rfl
      · intro x hx
        rw [List.mem_singleton.1 hx]
        exact ⟨rfl, by omega, rfl⟩

/-- The loop of `checkSevenMove` with one more partial value: under an invariant of the loop
state that every iteration keeps and returns on, the longer loop ends in the state of the
shorter one or in the state its last iteration makes of it. -/
theorem sevenLoop_last (s : GameState) (cp : Player) (pos : Position) (mover : MarbleIdentifier)
    (P : Nat → SevenState → Prop) (B : Nat)
    (hstep : ∀ k st, k ≤ B → P k st →
      ∃ st1 b, sevenStep s cp pos mover k st = Except.ok (st1, b) ∧ P (k + 1) st1)
    (hmono : ∀ k st, P k st → P (k + 1) st) :
    ∀ (n a : Nat) (st : SevenState), a + n ≤ B → P a st →
      ∃ st1 st2, sevenLoop s cp pos mover (List.range' a n) st = Except.ok st1 ∧
        sevenLoop s cp pos mover (List.range' a (n + 1)) st = Except.ok st2 ∧
        P (a + n) st1 ∧
        (st2 = st1 ∨ ∃ b, sevenStep s cp pos mover (a + n) st1 = Except.ok (st2, b)) := by
  have hmonoN : ∀ (n k : Nat) (st : SevenState), P k st → P (k + n) st := by
    intro n
    induction n with
    | zero => intro k st h; exact h
    | succ n ih => intro k st h; exact hmono _ _ (ih k st h)
  intro n
  induction n with
  | zero =>
    intro a st ha hP
    obtain ⟨st1, b, hst1, _⟩ := hstep a st (by omega) hP
    refine ⟨st, st1, rfl, ?_, hP, Or.inr ⟨b, hst1⟩⟩
    show sevenLoop s cp pos mover [a] st = Except.ok st1
    unfold sevenLoop
    rw [hst1]
    cases b <;> rfl
  | succ n ih =>
    intro a st ha hP
    obtain ⟨st1, b, hst1, hP1⟩ := hstep a st (by omega) hP
    rw [List.range'_succ a (n + 1), List.range'_succ a n]
    cases b with
    | false =>
      refine ⟨st1, st1, ?_, ?_, ?_, Or.inl rfl⟩
      · unfold sevenLoop
        rw [hst1]
      · unfold sevenLoop
        rw [hst1]
      · have := hmonoN n (a + 1) st1 hP1
        have he : a + 1 + n = a + (n + 1) := by omega
        rw [he] at this
        exact this
    | true =>
      obtain ⟨st2, st3, h2, h3, h4, h5⟩ := ih (a + 1) st1 (by omega) hP1
      have he : a + 1 + n = a + (n + 1) := by omega
      rw [he] at h4 h5
      refine ⟨st2, st3, ?_, ?_, h4, h5⟩
      · conv => lhs; unfold sevenLoop
        rw [hst1]
        exact h2
      · conv => lhs; unfold sevenLoop
        rw [hst1]
        exact h3

theorem sevenOptions_eq (s : GameState) (cp : Player) (pos : Position) (mIdx r : Nat)
    (hcp : s.getPlayerByIndex s.currentPlayer = some cp)
    (hk : cp.getMarbleIndexByPos pos = some mIdx) :
    sevenOptions s pos r =
      (sevenLoop s cp pos { playerID := s.currentPlayer, marbleIdx := mIdx } (List.range' 1 r)
        { crossesOurStart := false, sentHomeMarbles := [], walkingOptions := [] }).map
        fun st => st.walkingOptions := by
  unfold sevenOptions checkSevenMove
  simp only [hcp, hk, Int.toNat_ofNat]
  cases sevenLoop s cp pos { playerID := s.currentPlayer, marbleIdx := mIdx } (List.range' 1 r)
      { crossesOurStart := false, sentHomeMarbles := [], walkingOptions := [] } with
  | error e => rfl
  | ok st =>
    simp only [Except.map]
    by_cases hempty : st.walkingOptions.isEmpty = true
    · rw [if_pos hempty]
      simp only [Option.getD]
      rw [List.isEmpty_iff.1 hempty]
    · rw [if_neg hempty]
      rfl

/-- The step count of the controller for the track field `k` steps ahead. -/
theorem calculateMoveSteps_track (s : GameState) (me : Nat) (pos : Position) (k pid : Nat)
    (htrack : pos.boardLocation = BoardLocation.TRACK) (hi : pos.index < 64) (hk : k ≤ 63) :
    calculateMoveSteps s me pos
      { boardLocation := BoardLocation.TRACK, index := (pos.index + k) % 64, playerID := pid } =
      Except.ok k := by
  unfold calculateMoveSteps
  simp only [htrack]
  simp only [reduceCtorEq, false_and, and_false, if_false, true_and, and_self, if_true]
  unfold sizeSub sizeMod
  split
  · congr 1
    omega
  · congr 1
    omega

/-- The step count of the controller for a finish slot entered over the own start field. -/
theorem calculateMoveSteps_entry (s : GameState) (cp : Player) (pos : Position) (c fi k pid : Nat)
    (hcp : s.getPlayerByIndex s.currentPlayer = some cp)
    (hsf : cp.startField = 16 * c) (hc : c < 4)
    (htrack : pos.boardLocation = BoardLocation.TRACK) (hi : pos.index < 64) (hk : k ≤ 63)
    (hsum : (16 * c + 64 - pos.index) % 64 + fi + 1 = k) :
    calculateMoveSteps s s.currentPlayer pos
      { boardLocation := BoardLocation.FINISH, index := fi, playerID := pid } =
      Except.ok k := by
  unfold calculateMoveSteps
  simp only [htrack, hcp, hsf]
  simp only [reduceCtorEq, false_and, and_false, if_false, true_and, and_self, if_true]
  unfold sizeSub sizeMod
  split
  · congr 1
    omega
  · congr 1
    omega

/-- The step count of the controller inside the finish lane. -/
theorem calculateMoveSteps_lane (s : GameState) (me : Nat) (pos : Position) (k pid : Nat)
    (hfin : pos.boardLocation = BoardLocation.FINISH) (hk : pos.index + k ≤ 3) :
    calculateMoveSteps s me pos
      { boardLocation := BoardLocation.FINISH, index := pos.index + k, playerID := pid } =
      Except.ok k := by
  unfold calculateMoveSteps
  simp only [hfin, and_self, if_true]
  unfold sizeSub sizeMod
  congr 1
  omega

theorem stepEntries_nil (s : GameState) (pos : Position) (mover : MarbleIdentifier) (k : Nat) :
    stepEntries s pos mover k [] :=
  ⟨(fun _ _ h => by cases h), (fun _ h => by cases h)⟩

/-- Step `k + 1` of `checkSevenMove` on a TRACK marble: the loop returns for the budgets `k` and
`k + 1`, and the second result is the first with the entries of the step appended. -/
theorem sevenLoop_track_step (s : GameState) (cp : Player) (pos : Position)
    (mover : MarbleIdentifier) (c : Nat)
    (hcp : s.getPlayerByIndex s.currentPlayer = some cp)
    (htrack : pos.boardLocation = BoardLocation.TRACK) (hi : pos.index < 64)
    (hsf : cp.startField = 16 * c) (hc : c < 4) (k : Nat) (hk : k + 1 ≤ 7) :
    ∃ st1 st2 added,
      sevenLoop s cp pos mover (List.range' 1 k)
        { crossesOurStart := false, sentHomeMarbles := [], walkingOptions := [] } =
          Except.ok st1 ∧
      sevenLoop s cp pos mover (List.range' 1 (k + 1))
        { crossesOurStart := false, sentHomeMarbles := [], walkingOptions := [] } =
          Except.ok st2 ∧
      st2.walkingOptions = st1.walkingOptions ++ added ∧
      stepEntries s pos mover (k + 1) added := by
  let P : Nat → SevenState → Prop := fun a st =>
    1 ≤ a ∧
    (∀ x ∈ st.sentHomeMarbles, (s.getPlayerByIndex x.playerID).isSome = true ∧ x.marbleIdx < 4) ∧
    (∀ x ∈ st.sentHomeMarbles, x.playerID ≠ s.currentPlayer) ∧
    (st.crossesOurStart = true → (16 * c + 64 - pos.index) % 64 < a) ∧
    (∀ x ∈ st.walkingOptions, x.2.boardLocation = BoardLocation.HOME ∨
      ∃ k1, 1 ≤ k1 ∧ k1 < a ∧ isOptionOfSteps cp.startField pos.index k1 x.2 = true)
  have hstep : ∀ a st, a ≤ 7 → P a st →
      ∃ st1 b, sevenStep s cp pos mover a st = Except.ok (st1, b) ∧ P (a + 1) st1 := by
    intro a st ha ⟨h1, hsent, hopp, hcross, hopt⟩
    obtain ⟨st1, b, hst1, hsent1⟩ := sevenStep_ok s cp pos mover a st htrack hsent
    obtain ⟨hcross1, hopt1⟩ := sevenStep_inv htrack hi hsf hc h1 ha hcross hopt hst1
    exact ⟨st1, b, hst1, by omega, hsent1, (sevenStep_added htrack hopp hst1).1, hcross1, hopt1⟩
  have hmono : ∀ a st, P a st → P (a + 1) st := by
    intro a st ⟨h1, hsent, hopp, hcross, hopt⟩
    refine ⟨by omega, hsent, hopp, (fun h => by have := hcross h; omega), fun x hx => ?_⟩
    rcases hopt x hx with h | ⟨k1, h2, h3, h4⟩
    · exact Or.inl h
    · exact Or.inr ⟨k1, h2, by omega, h4⟩
  have hinit : P 1 { crossesOurStart := false, sentHomeMarbles := [], walkingOptions := [] } :=
    ⟨le_refl 1, (fun x hx => by cases hx), (fun x hx => by cases hx), (fun h => by cases h),
      (fun x hx => by cases hx)⟩
  obtain ⟨st1, st2, h1, h2, ⟨_, _, hopp, hcross, _⟩, hlast⟩ :=
    sevenLoop_last s cp pos mover P 7 hstep hmono k 1 _ (by omega) hinit
  rcases hlast with heq | ⟨b, hb⟩
  · exact ⟨st1, st2, [], h1, h2, by rw [heq, List.append_nil], stepEntries_nil _ _ _ _⟩
  · obtain ⟨_, added, hadd, hhead, hall⟩ := sevenStep_added htrack hopp hb
    obtain ⟨hcr, _⟩ := sevenStep_track htrack hb
    refine ⟨st1, st2, added, h1, h2, hadd, hhead, fun x hx => ?_⟩
    rcases hall x hx with hx1 | ⟨hx1, hx2⟩
    · exact Or.inl hx1
    · right
      refine ⟨hx1, ?_⟩
      have hk1 : 1 + k = k + 1 := by omega
      rw [trackEndIndex_nat] at hx2 hcr
      rcases hx2 with hx2 | ⟨hx2, hx3, hx4⟩
      · rw [hx2, ← hk1]
        exact calculateMoveSteps_track s _ pos (1 + k) _ htrack hi (by omega)
      · rw [hx2, hsf] at hcr
        rw [hsf] at hx3 hx4
        obtain ⟨_, hsum⟩ := sevenCross_steps pos.index c (1 + k) st1.crossesOurStart hi hc
          (by omega) (by omega) hcross hcr.symm
        rw [hx4, ← hk1]
        exact calculateMoveSteps_entry s cp pos c _ (1 + k) _ hcp hsf hc htrack hi (by omega)
          (hsum hx3)

/-- Step `k + 1` of `checkSevenMove` on a FINISH marble. -/
theorem sevenLoop_finish_step (s : GameState) (cp : Player) (pos : Position)
    (mover : MarbleIdentifier) (hfin : pos.boardLocation = BoardLocation.FINISH) (k : Nat) :
    ∃ st1 st2 added,
      sevenLoop s cp pos mover (List.range' 1 k)
        { crossesOurStart := false, sentHomeMarbles := [], walkingOptions := [] } =
          Except.ok st1 ∧
      sevenLoop s cp pos mover (List.range' 1 (k + 1))
        { crossesOurStart := false, sentHomeMarbles := [], walkingOptions := [] } =
          Except.ok st2 ∧
      st2.walkingOptions = st1.walkingOptions ++ added ∧
      stepEntries s pos mover (k + 1) added := by
  have hstep : ∀ a st, a ≤ k + 1 → True →
      ∃ st1 b, sevenStep s cp pos mover a st = Except.ok (st1, b) ∧ True := by
    intro a st _ _
    obtain ⟨st1, b, h, _⟩ := sevenStep_finish s cp pos mover a st hfin
    exact ⟨st1, b, h, trivial⟩
  obtain ⟨st1, st2, h1, h2, _, hlast⟩ :=
    sevenLoop_last s cp pos mover (fun _ _ => True) (k + 1) hstep (fun _ _ _ => trivial) k 1
      { crossesOurStart := false, sentHomeMarbles := [], walkingOptions := [] } (by omega) trivial
  rcases hlast with heq | ⟨b, hb⟩
  · exact ⟨st1, st2, [], h1, h2, by rw [heq, List.append_nil], stepEntries_nil _ _ _ _⟩
  · obtain ⟨st3, b3, hb3, _, added, hadd, hhead, hall⟩ :=
      sevenStep_finish s cp pos mover (1 + k) st1 hfin
    rw [hb] at hb3
    cases hb3
    refine ⟨st1, st2, added, h1, h2, hadd, hhead, fun x hx => ?_⟩
    obtain ⟨hx1, hx2, hx3⟩ := hall x hx
    right
    refine ⟨hx1, ?_⟩
    have hk1 : 1 + k = k + 1 := by omega
    rw [hx3, ← hk1]
    exact calculateMoveSteps_lane s _ pos (1 + k) _ hfin hx2

/-- The results of `checkSevenMove` for the budgets up to 7 on a TRACK or FINISH marble of the
current player are the concatenations of the entries of the single steps; each step begins
with an entry of the mover, if it has entries, and the target of every entry of the mover at
step `k` is `k` steps from the marble in the count of the controller. -/
theorem sevenOptions_steps (s : GameState) (cp : Player) (pos : Position) (mIdx : Nat)
    (hcp : s.getPlayerByIndex s.currentPlayer = some cp)
    (hwf : s.seatsWellFormed = true)
    (hk : cp.getMarbleIndexByPos pos = some mIdx)
    (hloc : pos.boardLocation ≠ BoardLocation.HOME) (hrange : pos.inRange) :
    ∃ steps : Nat → List Movement,
      (∀ k, k ≤ 7 → sevenOptions s pos k = Except.ok ((List.range' 1 k).flatMap steps)) ∧
      ∀ k, 1 ≤ k → k ≤ 7 →
        stepEntries s pos { playerID := s.currentPlayer, marbleIdx := mIdx } k (steps k) := by
  have hc : s.currentPlayer < 4 := getPlayerByIndex_lt hcp
  have hsf : cp.startField = 16 * s.currentPlayer := seatsWellFormed_current hwf hcp
  have key : ∀ k, k + 1 ≤ 7 → ∃ st1 st2 added,
      sevenLoop s cp pos { playerID := s.currentPlayer, marbleIdx := mIdx } (List.range' 1 k)
        { crossesOurStart := false, sentHomeMarbles := [], walkingOptions := [] } =
          Except.ok st1 ∧
      sevenLoop s cp pos { playerID := s.currentPlayer, marbleIdx := mIdx }
        (List.range' 1 (k + 1))
        { crossesOurStart := false, sentHomeMarbles := [], walkingOptions := [] } =
          Except.ok st2 ∧
      st2.walkingOptions = st1.walkingOptions ++ added ∧
      stepEntries s pos { playerID := s.currentPlayer, marbleIdx := mIdx } (k + 1) added := by
    intro k hk7
    cases hb : pos.boardLocation with
    | HOME => exact absurd hb hloc
    | FINISH => exact sevenLoop_finish_step s cp pos _ hb k
    | TRACK =>
      have hi : pos.index < 64 := by
        unfold Position.inRange at hrange
        by_contra hcon
        exact hrange (Or.inr (Or.inr ⟨hb, by omega⟩))
      exact sevenLoop_track_step s cp pos _ s.currentPlayer hcp hb hi hsf hc k hk7
  let opts : Nat → List Movement := fun k =>
    match sevenOptions s pos k with
    | Except.ok l => l
    | Except.error _ => []
  refine ⟨fun k => (opts k).drop (opts (k - 1)).length, ?_, ?_⟩
  · intro k
    induction k with
    | zero =>
      intro _
      rw [sevenOptions_eq s cp pos mIdx 0 hcp hk]
      rfl
    | succ k ih =>
      intro hk7
      obtain ⟨st1, st2, added, h1, h2, hadd, _⟩ := key k hk7
      have e1 : sevenOptions s pos k = Except.ok st1.walkingOptions := by
        rw [sevenOptions_eq s cp pos mIdx k hcp hk, h1]
        rfl
      have e2 : sevenOptions s pos (k + 1) = Except.ok st2.walkingOptions := by
        rw [sevenOptions_eq s cp pos mIdx (k + 1) hcp hk, h2]
        rfl
      have ih1 := ih (by omega)
      rw [e1] at ih1
      have ih2 : st1.walkingOptions = List.flatMap (List.range' 1 k)
          (fun k => (opts k).drop (opts (k - 1)).length) := by
        injection ih1
      rw [e2, List.range'_concat, List.flatMap_append, ← ih2]
      simp only [List.flatMap_cons, List.flatMap_nil, List.append_nil]
      have he : 1 + 1 * k = k + 1 := by omega
      have o1 : opts k = st1.walkingOptions := by
        show (match sevenOptions s pos k with
          | Except.ok l => l
          | Except.error _ => []) = _
        rw [e1]
      have o2 : opts (k + 1) = st2.walkingOptions := by
        show (match sevenOptions s pos (k + 1) with
          | Except.ok l => l
          | Except.error _ => []) = _
        rw [e2]
      rw [he, Nat.add_sub_cancel, o1, o2, hadd, List.drop_left]
  · intro k hk1 hk7
    obtain ⟨j, rfl⟩ : ∃ j, k = j + 1 := ⟨k - 1, by omega⟩
    obtain ⟨st1, st2, added, h1, h2, hadd, hent⟩ := key j hk7
    have e1 : sevenOptions s pos j = Except.ok st1.walkingOptions := by
      rw [sevenOptions_eq s cp pos mIdx j hcp hk, h1]
      rfl
    have e2 : sevenOptions s pos (j + 1) = Except.ok st2.walkingOptions := by
      rw [sevenOptions_eq s cp pos mIdx (j + 1) hcp hk, h2]
      rfl
    have o1 : opts j = st1.walkingOptions := by
      show (match sevenOptions s pos j with
        | Except.ok l => l
        | Except.error _ => []) = _
      rw [e1]
    have o2 : opts (j + 1) = st2.walkingOptions := by
      show (match sevenOptions s pos (j + 1) with
        | Except.ok l => l
        | Except.error _ => []) = _
      rw [e2]
    show stepEntries s pos _ (j + 1) ((opts (j + 1)).drop (opts (j + 1 - 1)).length)
    rw [Nat.add_sub_cancel, o1, o2, hadd, List.drop_left]
    exact hent

/-! ## Split moves among the legal moves -/

theorem flatMap_head {α β : Type} (f : α → List β) (L : List α) (x : β) (rest : List β)
    (h : L.flatMap f = x :: rest) : ∃ k ∈ L, ∃ rest1, f k = x :: rest1 := by
  induction L with
  | nil => cases h
  | cons a L ih =>
    rw [List.flatMap_cons] at h
    cases hfa : f a with
    | nil =>
      rw [hfa, List.nil_append] at h
      obtain ⟨k, hk, r1, hr1⟩ := ih h
      exact ⟨k, List.mem_cons_of_mem _ hk, r1, hr1⟩
    | cons y ys =>
      rw [hfa, List.cons_append] at h
      injection h with h1 h2
      exact ⟨a, List.mem_cons_self _ _, ys, by rw [hfa, h1]⟩

theorem sevenGroups_cons (cur : Nat) (m : Movement) (rest : List Movement) :
    sevenGroups cur (m :: rest) =
      (match rest, sevenGroups cur rest with
      | r :: _, g :: gs => if r.1.playerID ≠ cur then (m :: g) :: gs else [m] :: g :: gs
      | _, _ => [[m]]) := rfl

/-- The groups of the SEVEN expansion: the first group begins with the first entry, every later
group with an entry of the current player. -/
theorem sevenGroups_heads (cur : Nat) (l : List Movement) :
    (∀ g0 gs, sevenGroups cur l = g0 :: gs → ∃ x0 l0 g1, l = x0 :: l0 ∧ g0 = x0 :: g1) ∧
    ∀ g0 gs, sevenGroups cur l = g0 :: gs →
      ∀ g ∈ gs, ∃ x g1, g = x :: g1 ∧ x ∈ l ∧ x.1.playerID = cur := by
  induction l with
  | nil =>
    constructor
    · intro g0 gs h
      cases h
    · intro g0 gs h
      cases h
  | cons m rest ih =>
    obtain ⟨ih1, ih2⟩ := ih
    rw [sevenGroups_cons]
    cases rest with
    | nil =>
      simp only
      constructor
      · intro g0 gs h
        cases h
        exact ⟨m, [], [], rfl, rfl⟩
      · intro g0 gs h
        cases h
        intro g hg
        cases hg
    | cons r rest1 =>
      cases hgr : sevenGroups cur (r :: rest1) with
      | nil =>
        simp only
        constructor
        · intro g0 gs h
          cases h
          exact ⟨m, r :: rest1, [], rfl, rfl⟩
        · intro g0 gs h
          cases h
          intro g hg
          cases hg
      | cons g gs =>
        simp only
        obtain ⟨x0, l0, g1, hl0, hg0⟩ := ih1 g gs hgr
        have hx0 : x0 = r := by
          injection hl0 with h1 _
          exact h1.symm
        by_cases hopp : r.1.playerID ≠ cur
        · rw [if_pos hopp]
          constructor
          · intro g0 gs0 h
            cases h
            exact ⟨m, r :: rest1, g, rfl, rfl⟩
          · intro g0 gs0 h
            cases h
            intro g2 hg2
            obtain ⟨x, g3, h1, h2, h3⟩ := ih2 g gs hgr g2 hg2
            exact ⟨x, g3, h1, List.mem_cons_of_mem _ h2, h3⟩
        · rw [if_neg hopp]
          constructor
          · intro g0 gs0 h
            cases h
            exact ⟨m, r :: rest1, [], rfl, rfl⟩
          · intro g0 gs0 h
            cases h
            intro g2 hg2
            rcases List.mem_cons.1 hg2 with hg2 | hg2
            · exact ⟨r, g1, by rw [hg2, hg0, hx0],
                List.mem_cons_of_mem _ (List.mem_cons_self _ _), not_not.1 hopp⟩
            · obtain ⟨x, g3, h1, h2, h3⟩ := ih2 g gs hgr g2 hg2
              exact ⟨x, g3, h1, List.mem_cons_of_mem _ h2, h3⟩

theorem calculateMoveSteps_congr (s : GameState) (me : Nat) (a b t : Position)
    (h : a.equals b = true) : calculateMoveSteps s me a t = calculateMoveSteps s me b t := by
  obtain ⟨h1, h2⟩ := Position.equals_fields h
  unfold calculateMoveSteps
  rw [h1, h2]

/-- The split options `checkSevenMove` offers for a marble of the current player with a budget
`r` of at most 7, grouped into moves: the call returns, and every group begins with a movement
of a marble of the current player to a target between 1 and `r` steps from it. -/
theorem checkSevenMove_groups (s : GameState) (cp : Player) (m : Fin 4) (r : Nat)
    (hcp : s.getPlayerByIndex s.currentPlayer = some cp)
    (hwf : s.seatsWellFormed = true)
    (hloc : (cp.marbles m).boardLocation ≠ BoardLocation.HOME)
    (hrange : (cp.marbles m).inRange) (hr : r ≤ 7) :
    ∃ res, checkSevenMove s (cp.marbles m) (r : Int) = Except.ok res ∧
      ∀ options, res = some options → ∀ g ∈ sevenGroups s.currentPlayer options,
        ∃ (m1 : Fin 4) (target : Position) (rest : List Movement) (k : Nat),
          g = ({ playerID := s.currentPlayer, marbleIdx := m1.val }, target) :: rest ∧
          1 ≤ k ∧ k ≤ r ∧
          calculateMoveSteps s s.currentPlayer (cp.marbles m1) target = Except.ok k := by
  obtain ⟨m1, hm1, heq⟩ := getMarbleIndexByPos_equals cp m
  obtain ⟨steps, hsteps, hent⟩ :=
    sevenOptions_steps s cp (cp.marbles m) m1.val hcp hwf hm1 hloc hrange
  have hopt := hsteps r hr
  unfold sevenOptions at hopt
  cases hres : checkSevenMove s (cp.marbles m) (r : Int) with
  | error e => rw [hres] at hopt; cases hopt
  | ok res =>
    rw [hres] at hopt
    refine ⟨res, rfl, ?_⟩
    intro options ho g hg
    subst ho
    have hopts : options = (List.range' 1 r).flatMap steps := by
      injection hopt
    have hmem : ∀ x ∈ options, x.1.playerID = s.currentPlayer →
        ∃ k, 1 ≤ k ∧ k ≤ r ∧
          x.1 = { playerID := s.currentPlayer, marbleIdx := m1.val } ∧
          calculateMoveSteps s s.currentPlayer (cp.marbles m1) x.2 = Except.ok k := by
      intro x hx hown
      rw [hopts] at hx
      obtain ⟨k, hk, hxk⟩ := List.mem_flatMap.1 hx
      have hk1 : 1 ≤ k ∧ k ≤ r := by
        have := List.mem_range'_1.1 hk
        omega
      rcases (hent k hk1.1 (by omega)).2 x hxk with h1 | h1
      · exact absurd hown h1.1
      · exact ⟨k, hk1.1, hk1.2, h1.1, by rw [calculateMoveSteps_congr s _ _ _ _ heq]; exact h1.2⟩
    have hfirst : ∀ x rest, options = x :: rest → x.1.playerID = s.currentPlayer := by
      intro x rest hx
      rw [hopts] at hx
      obtain ⟨k, hk, r1, hr1⟩ := flatMap_head steps _ x rest hx
      have hk1 : 1 ≤ k ∧ k ≤ r := by
        have := List.mem_range'_1.1 hk
        omega
      rw [(hent k hk1.1 (by omega)).1 x r1 hr1]
    obtain ⟨hh1, hh2⟩ := sevenGroups_heads s.currentPlayer options
    cases hgs : sevenGroups s.currentPlayer options with
    | nil => rw [hgs] at hg; cases hg
    | cons g0 gs =>
      rw [hgs] at hg
      have hhead : ∃ x g1, g = x :: g1 ∧ x ∈ options ∧ x.1.playerID = s.currentPlayer := by
        rcases List.mem_cons.1 hg with hg | hg
        · obtain ⟨x0, l0, g1, hl, hg0⟩ := hh1 g0 gs hgs
          exact ⟨x0, g1, by rw [hg, hg0], by rw [hl]; exact List.mem_cons_self _ _,
            hfirst x0 l0 hl⟩
        · exact hh2 g0 gs hgs g hg
      obtain ⟨x, g1, hgx, hxo, hxown⟩ := hhead
      obtain ⟨k, hk1, hkr, hxm, hcalc⟩ := hmem x hxo hxown
      refine ⟨m1, x.2, g1, k, ?_, hk1, hkr, hcalc⟩
      rw [hgx, ← hxm]

/-- The marble loop of `computeLegalMoves` for a walking rule of value `r` in split mode
returns, and each of its moves carries the card id and hand index to set and begins with a
movement of a marble of the current player to a target between 1 and `r` steps from it. -/
theorem marbleLoop_seven (s : GameState) (cp : Player) (card : Card) (c h r : Nat)
    (hcp : s.getPlayerByIndex s.currentPlayer = some cp)
    (hwf : s.seatsWellFormed = true)
    (hrange : ∀ m : Fin 4, (cp.marbles m).inRange) (hr : r ≤ 7) :
    ∀ l : List (Fin 4), ∃ mvs,
      marbleLoop s cp card MoveType.SEVEN (r : Int) true c h l = Except.ok mvs ∧
      ∀ mv ∈ mvs, mv.cardID = c ∧ mv.handIndex = h ∧
        ∃ (m1 : Fin 4) (target : Position) (rest : List Movement) (k : Nat),
          mv.movements = ({ playerID := s.currentPlayer, marbleIdx := m1.val }, target) :: rest ∧
          1 ≤ k ∧ k ≤ r ∧
          calculateMoveSteps s s.currentPlayer (cp.marbles m1) target = Except.ok k := by
  intro l
  induction l with
  | nil => exact ⟨[], rfl, fun mv hmv => by cases hmv⟩
  | cons m rest ih =>
    obtain ⟨more, hmore, hall⟩ := ih
    unfold marbleLoop
    by_cases hloc : (cp.marbles m).boardLocation = BoardLocation.HOME
    · have hv : validateMove s card (cp.marbles m) (MoveType.SEVEN, (r : Int)) true =
          Except.ok none := by
        unfold validateMove
        simp only [hloc]
      rw [hv]
      exact ⟨more, hmore, hall⟩
    · obtain ⟨res, hres, hgroups⟩ := checkSevenMove_groups s cp m r hcp hwf hloc (hrange m) hr
      have hv : validateMove s card (cp.marbles m) (MoveType.SEVEN, (r : Int)) true =
          Except.ok res := by
        unfold validateMove
        cases hb : (cp.marbles m).boardLocation with
        | HOME => exact absurd hb hloc
        | FINISH => simp only [if_true]; exact hres
        | TRACK => simp only [if_true]; exact hres
      rw [hv]
      cases res with
      | none => exact ⟨more, hmore, hall⟩
      | some options =>
        simp only [hmore]
        refine ⟨_, rfl, ?_⟩
        intro mv hmv
        rcases List.mem_append.1 hmv with hmv | hmv
        · obtain ⟨g, hg, rfl⟩ := List.mem_map.1 hmv
          exact ⟨rfl, rfl, hgroups options rfl g hg⟩
        · exact hall mv hmv

/-- The card at the id `r - 1` of the standard deck, `r` from 1 to 7, has exactly one rule that
split mode uses, and uses it as a walking rule of value `r`. -/
theorem standardDeck_split_card (r : Nat) (hr1 : 1 ≤ r) (hr : r ≤ 7) :
    ∃ card, standardDeck[r - 1]? = some card ∧
      ∀ (s : GameState) (cp : Player) (c h : Nat),
        ruleLoop s cp card true c h card.moveRules =
          (marbleLoop s cp card MoveType.SEVEN (r : Int) true c h seatIds).map
            fun here => here ++ [] := by
  interval_cases r
  all_goals
    refine ⟨_, rfl, ?_⟩
    intro s cp c h
    simp +decide only [Card.new, Card.rulesOf, ruleLoop, Nat.cast_ofNat, Nat.cast_one,
      Int.Nat.cast_ofNat_Int, if_true, if_false, true_and, and_true, List.append_nil, Except.map]
    split <;> rename_i heq <;> rw [heq]

/-! ## Exclusive occupancy: assignments of positions -/

theorem Position.equals_iff (a b : Position) :
    a.equals b = true ↔
      a.boardLocation = b.boardLocation ∧ a.index = b.index ∧
        (a.playerID = b.playerID ∨ a.boardLocation = BoardLocation.TRACK) := by
  unfold Position.equals
  simp only [Bool.and_eq_true, Bool.or_eq_true, decide_eq_true_eq, and_assoc]

theorem Position.equals_symm {a b : Position} (h : a.equals b = true) : b.equals a = true := by
  rw [Position.equals_iff] at h ⊢
  obtain ⟨h1, h2, h3⟩ := h
  refine ⟨h1.symm, h2.symm, ?_⟩
  rcases h3 with h3 | h3
  · exact Or.inl h3.symm
  · exact Or.inr (h1 ▸ h3)

theorem Position.equals_trans {a b c : Position} (h1 : a.equals b = true)
    (h2 : b.equals c = true) : a.equals c = true := by
  rw [Position.equals_iff] at h1 h2 ⊢
  obtain ⟨a1, a2, a3⟩ := h1
  obtain ⟨b1, b2, b3⟩ := h2
  refine ⟨a1.trans b1, a2.trans b2, ?_⟩
  rcases a3 with a3 | a3
  · rcases b3 with b3 | b3
    · exact Or.inl (a3.trans b3)
    · exact Or.inr (a1 ▸ b3)
  · exact Or.inr a3

theorem Position.equals_of_loc {a b : Position} (h : a.boardLocation ≠ b.boardLocation) :
    a.equals b = false := by
  cases hab : a.equals b with
  | false => rfl
  | true => exact absurd ((Position.equals_iff a b).1 hab).1 h

theorem sendHome_equals {x y : MarbleIdentifier}
    (h : (sendHome x).2.equals (sendHome y).2 = true) : x = y := by
  rw [Position.equals_iff] at h
  obtain ⟨_, h2, h3⟩ := h
  rcases h3 with h3 | h3
  · cases x
    cases y
    simp only [sendHome] at h2 h3
    simp only [MarbleIdentifier.mk.injEq]
    exact ⟨h3, h2⟩
  · cases h3

theorem writtenPositions_some (f : MarbleIdentifier → Option Position) (l : List Movement)
    (y : MarbleIdentifier) (t : Position) (h : lastTarget l y = some t) :
    writtenPositions f l y = some t := by
  unfold writtenPositions
  rw [h]

theorem writtenPositions_none (f : MarbleIdentifier → Option Position) (l : List Movement)
    (y : MarbleIdentifier) (h : lastTarget l y = none) :
    writtenPositions f l y = f y := by
  unfold writtenPositions
  rw [h]

theorem lastTarget_mem {l : List Movement} {y : MarbleIdentifier} {t : Position}
    (h : lastTarget l y = some t) : (y, t) ∈ l := by
  induction l with
  | nil => cases h
  | cons x rest ih =>
    unfold lastTarget at h
    cases hr : lastTarget rest y with
    | some t1 =>
      rw [hr] at h
      cases h
      exact List.mem_cons_of_mem _ (ih hr)
    | none =>
      rw [hr] at h
      simp only at h
      split at h
      · rename_i hx
        cases h
        rw [← hx]
        exact List.mem_cons_self _ _
      · cases h

theorem lastTarget_isSome_of_mem {l : List Movement} {x : Movement} (h : x ∈ l) :
    lastTarget l x.1 ≠ none := by
  induction l with
  | nil => cases h
  | cons a rest ih =>
    unfold lastTarget
    cases hr : lastTarget rest x.1 with
    | some t => simp
    | none =>
      rcases List.mem_cons.1 h with h | h
      · simp [h]
      · exact absurd hr (ih h)

/-- A walk with captures keeps the occupancy exclusive and the HOME marbles in their slots. -/
theorem captureWalk_positions (f : MarbleIdentifier → Option Position) (mover : MarbleIdentifier)
    (l : List Movement) (hex : positionsExclusive f) (hho : positionsHomeOwn f)
    (hshape : ∀ x ∈ l, (x.1 = mover ∧ x.2.boardLocation ≠ BoardLocation.HOME) ∨
      (x.1 ≠ mover ∧ x.2 = (sendHome x.1).2))
    (hlast : ∀ t, lastTarget l mover = some t → ∀ y a, y ≠ mover → f y = some a →
      a.equals t = true → lastTarget l y ≠ none) :
    positionsExclusive (writtenPositions f l) ∧ positionsHomeOwn (writtenPositions f l) := by
  have hmover : ∀ t, lastTarget l mover = some t → t.boardLocation ≠ BoardLocation.HOME := by
    intro t ht
    rcases hshape _ (lastTarget_mem ht) with h | h
    · exact h.2
    · exact absurd rfl h.1
  have hother : ∀ y t, y ≠ mover → lastTarget l y = some t → t = (sendHome y).2 := by
    intro y t hy ht
    rcases hshape _ (lastTarget_mem ht) with h | h
    · exact absurd h.1 hy
    · exact h.2
  have hhome : ∀ y, ((sendHome y).2).boardLocation = BoardLocation.HOME := fun _ => rfl
  -- the position of a marble after the movements, by cases
  have hcases : ∀ y b, writtenPositions f l y = some b →
      (y = mover ∧ lastTarget l mover = some b ∧ b.boardLocation ≠ BoardLocation.HOME) ∨
      (y ≠ mover ∧ lastTarget l y ≠ none ∧ b = (sendHome y).2) ∨
      (lastTarget l y = none ∧ f y = some b) := by
    intro y b hb
    cases hl : lastTarget l y with
    | none =>
      rw [writtenPositions_none f l y hl] at hb
      exact Or.inr (Or.inr ⟨rfl, hb⟩)
    | some t =>
      rw [writtenPositions_some f l y t hl] at hb
      cases hb
      by_cases hy : y = mover
      · subst hy
        exact Or.inl ⟨rfl, hl, hmover _ hl⟩
      · exact Or.inr (Or.inl ⟨hy, by simp, hother y _ hy hl⟩)
  have hpair : ∀ x y a b, x ≠ y → writtenPositions f l x = some a →
      writtenPositions f l y = some b → a.equals b = true → lastTarget l x = none → False := by
    intro x y a b hxy ha hb hab hx
    rw [writtenPositions_none f l x hx] at ha
    rcases hcases y b hb with ⟨hy, hly, hloc⟩ | ⟨hy, hly, hby⟩ | ⟨hly, hfb⟩
    · subst hy
      exact hlast b hly x a hxy ha hab hx
    · have haloc : a.boardLocation = BoardLocation.HOME := by
        rw [((Position.equals_iff a b).1 hab).1, hby]
        exact hhome y
      have := hho x a ha haloc
      rw [this, hby] at hab
      exact hxy (sendHome_equals hab)
    · have := hex x y a b hxy ha hfb
      rw [this] at hab
      cases hab
  constructor
  · intro x y a b hxy ha hb
    cases hab : a.equals b with
    | false => rfl
    | true =>
      exfalso
      rcases hcases x a ha with ⟨hx, hlx, hloc⟩ | ⟨hx, hlx, hax⟩ | ⟨hlx, _⟩
      · rcases hcases y b hb with ⟨hy, _, _⟩ | ⟨hy, hly, hby⟩ | ⟨hly, _⟩
        · exact hxy (hx.trans hy.symm)
        · have h1 := ((Position.equals_iff a b).1 hab).1
          rw [hby] at h1
          exact hloc h1
        · exact hpair y x b a (Ne.symm hxy) hb ha (Position.equals_symm hab) hly
      · rcases hcases y b hb with ⟨hy, _, hloc⟩ | ⟨hy, hly, hby⟩ | ⟨hly, _⟩
        · have h1 := ((Position.equals_iff a b).1 hab).1
          rw [hax] at h1
          exact hloc h1.symm
        · rw [hax, hby] at hab
          exact hxy (sendHome_equals hab)
        · exact hpair y x b a (Ne.symm hxy) hb ha (Position.equals_symm hab) hly
      · exact hpair x y a b hxy ha hb hab hlx
  · intro x a ha hloc
    rcases hcases x a ha with ⟨_, _, h⟩ | ⟨_, _, h⟩ | ⟨_, h⟩
    · exact absurd hloc h
    · exact h
    · exact hho x a h hloc

/-- A swap of two marbles on TRACK keeps the occupancy exclusive and the HOME marbles in their
slots. -/
theorem swap_positions (f : MarbleIdentifier → Option Position) (mover other : MarbleIdentifier)
    (am ao tm : Position) (hex : positionsExclusive f) (hho : positionsHomeOwn f)
    (hne : mover ≠ other) (hm : f mover = some am) (ho : f other = some ao)
    (hmt : am.equals tm = true) (hlm : tm.boardLocation = BoardLocation.TRACK)
    (hlo : ao.boardLocation = BoardLocation.TRACK) :
    positionsExclusive (writtenPositions f [(mover, ao), (other, tm)]) ∧
      positionsHomeOwn (writtenPositions f [(mover, ao), (other, tm)]) := by
  have hw : ∀ y, writtenPositions f [(mover, ao), (other, tm)] y =
      if y = other then some tm else if y = mover then some ao else f y := by
    intro y
    unfold writtenPositions lastTarget lastTarget lastTarget
    by_cases h1 : other = y
    · simp [h1]
    · by_cases h2 : mover = y
      · have h3 : ¬ y = other := fun e => h1 e.symm
        simp [h1, h2, h3]
      · have h3 : ¬ y = other := fun e => h1 e.symm
        have h4 : ¬ y = mover := fun e => h2 e.symm
        simp [h1, h2, h3, h4]
  -- the marble whose field a marble holds after the swap
  have hsrc : ∀ y b, writtenPositions f [(mover, ao), (other, tm)] y = some b →
      ∃ z a, f z = some a ∧ a.equals b = true ∧
        (y = other → z = mover) ∧ (y = mover → z = other) ∧
        (y ≠ other → y ≠ mover → z = y) ∧ (z ≠ y → b.boardLocation = BoardLocation.TRACK) ∧
        (z = y → a = b) := by
    intro y b hb
    rw [hw] at hb
    by_cases h1 : y = other
    · rw [if_pos h1] at hb
      cases hb
      exact ⟨mover, am, hm, hmt, fun _ => rfl, fun e => absurd (e.symm.trans h1) hne,
        fun e => absurd h1 e, fun _ => hlm, fun e => absurd (e.trans h1) hne⟩
    · rw [if_neg h1] at hb
      by_cases h2 : y = mover
      · rw [if_pos h2] at hb
        cases hb
        exact ⟨other, ao, ho, Position.equals_refl _, fun e => absurd e h1, fun _ => rfl,
          fun _ e => absurd h2 e, fun _ => hlo, fun e => absurd (e.trans h2) (Ne.symm hne)⟩
      · rw [if_neg h2] at hb
        exact ⟨y, b, hb, Position.equals_refl _, fun e => absurd e h1, fun e => absurd e h2,
          fun _ _ => rfl, fun e => absurd rfl e, fun _ => rfl⟩
  constructor
  · intro x y a b hxy ha hb
    cases hab : a.equals b with
    | false => rfl
    | true =>
      exfalso
      obtain ⟨zx, ax, hzx, hax, x1, x2, x3, _, _⟩ := hsrc x a ha
      obtain ⟨zy, ay, hzy, hay, y1, y2, y3, _, _⟩ := hsrc y b hb
      have hz : zx ≠ zy := by
        intro e
        by_cases hx1 : x = other
        · by_cases hy2 : y = mover
          · have := x1 hx1
            have := y2 hy2
            exact hne (by rw [← x1 hx1, e, y2 hy2])
          · by_cases hy1 : y = other
            · exact hxy (hx1.trans hy1.symm)
            · have := y3 hy1 hy2
              rw [← e, x1 hx1] at this
              exact hy2 this.symm
        · by_cases hx2 : x = mover
          · by_cases hy1 : y = other
            · exact hne (by rw [← y1 hy1, ← e, x2 hx2])
            · by_cases hy2 : y = mover
              · exact hxy (hx2.trans hy2.symm)
              · have := y3 hy1 hy2
                rw [← e, x2 hx2] at this
                exact hy1 this.symm
          · have hxz := x3 hx1 hx2
            by_cases hy1 : y = other
            · have := y1 hy1
              rw [← e, hxz] at this
              exact hx2 this
            · by_cases hy2 : y = mover
              · have := y2 hy2
                rw [← e, hxz] at this
                exact hx1 this
              · have := y3 hy1 hy2
                rw [← e, hxz] at this
                exact hxy this
      have h1 := hex zx zy ax ay hz hzx hzy
      have h2 : ax.equals ay = true :=
        Position.equals_trans hax (Position.equals_trans hab (Position.equals_symm hay))
      rw [h1] at h2
      cases h2
  · intro x a ha hloc
    obtain ⟨z, az, hz, _, _, _, _, h6, h7⟩ := hsrc x a ha
    by_cases hzx : z = x
    · rw [h7 hzx, hzx] at hz
      exact hho x a hz hloc
    · have := h6 hzx
      rw [hloc] at this
      cases this

/-! ## Exclusive occupancy: the positions of a game state -/

theorem marbleAt_fin (s : GameState) (p m : Fin 4) :
    s.marbleAt { playerID := p.val, marbleIdx := m.val } =
      (s.players p).map fun pl => pl.marbles m := by
  unfold GameState.marbleAt
  simp only [getPlayerByIndex_val]
  cases s.players p with
  | none => rfl
  | some pl => simp

theorem marbleAt_some {s : GameState} {x : MarbleIdentifier} {a : Position}
    (h : s.marbleAt x = some a) :
    ∃ (p m : Fin 4) (pl : Player), x = { playerID := p.val, marbleIdx := m.val } ∧
      s.players p = some pl ∧ pl.marbles m = a := by
  unfold GameState.marbleAt at h
  cases hp : s.getPlayerByIndex x.playerID with
  | none => rw [hp] at h; cases h
  | some pl =>
    rw [hp] at h
    simp only at h
    obtain ⟨hlt, hpl⟩ := getPlayerByIndex_some hp
    by_cases hm : x.marbleIdx < 4
    · rw [dif_pos hm] at h
      cases h
      exact ⟨⟨x.playerID, hlt⟩, ⟨x.marbleIdx, hm⟩, pl, rfl, hpl, rfl⟩
    · rw [dif_neg hm] at h
      cases h

theorem exclusiveOccupancy_iff (s : GameState) :
    exclusiveOccupancy s = true ↔ positionsExclusive s.marbleAt := by
  unfold exclusiveOccupancy positionsExclusive
  rw [decide_eq_true_iff]
  constructor
  · intro h x y a b hxy hx hy
    obtain ⟨p, m, pl, rfl, hp, rfl⟩ := marbleAt_some hx
    obtain ⟨q, n, ql, rfl, hq, rfl⟩ := marbleAt_some hy
    have hne : p ≠ q ∨ m ≠ n := by
      by_contra hcon
      simp only [not_or, not_not] at hcon
      exact hxy (by rw [hcon.1, hcon.2])
    have := h p m q n hne
    unfold standsApart at this
    rw [hp, hq] at this
    simpa using this
  · intro h p m q n hne
    unfold standsApart
    cases hp : s.players p with
    | none => rfl
    | some pl =>
      cases hq : s.players q with
      | none => rfl
      | some ql =>
        simp only [Bool.not_eq_true']
        apply h { playerID := p.val, marbleIdx := m.val } { playerID := q.val, marbleIdx := n.val }
        · intro e
          injection e with e1 e2
          rcases hne with hne | hne
          · exact hne (Fin.ext e1)
          · exact hne (Fin.ext e2)
        · rw [marbleAt_fin, hp]; rfl
        · rw [marbleAt_fin, hq]; rfl

theorem homeInOwnSlot_iff (s : GameState) :
    homeInOwnSlot s = true ↔ positionsHomeOwn s.marbleAt := by
  unfold homeInOwnSlot positionsHomeOwn
  rw [decide_eq_true_iff]
  constructor
  · intro h x a hx hloc
    obtain ⟨p, m, pl, rfl, hp, rfl⟩ := marbleAt_some hx
    have := h p m
    unfold inOwnSlot at this
    rw [hp] at this
    simp only [decide_eq_true_eq] at this
    exact this hloc
  · intro h p m
    unfold inOwnSlot
    cases hp : s.players p with
    | none => rfl
    | some pl =>
      simp only [decide_eq_true_eq]
      intro hloc
      exact h { playerID := p.val, marbleIdx := m.val } (pl.marbles m)
        (by rw [marbleAt_fin, hp]; rfl) hloc

/-- One pass of the movement loop of `executeMove` writes the target into the position of the
marble moved and leaves every other position. -/
theorem applyMovement_marbleAt {s s1 : GameState} {x : Movement}
    (h : applyMovement s x = Except.ok s1) (y : MarbleIdentifier) :
    s1.marbleAt y = if x.1 = y then some x.2 else s.marbleAt y := by
  obtain ⟨q, m, pl, hq, hm, hpl, rfl⟩ := applyMovement_inv h
  unfold GameState.marbleAt
  rw [setPlayerAt_get]
  by_cases hy : y.playerID = q.val
  · have hget : s.getPlayerByIndex y.playerID = some pl := by
      rw [hy, getPlayerByIndex_val]
      exact hpl
    rw [if_pos ⟨hy, q.isLt⟩, hget]
    simp only [(startBlockUpdate_sameCore _ _ _ _).2]
    by_cases hlt : y.marbleIdx < 4
    · rw [dif_pos hlt, dif_pos hlt]
      by_cases hym : y.marbleIdx = m.val
      · have hxy : x.1 = y := by
          cases y
          cases hx1 : x.1
          rw [hx1] at hq hm
          simp only at hy hym hq hm
          simp only [MarbleIdentifier.mk.injEq]
          omega
        have hfin : (⟨y.marbleIdx, hlt⟩ : Fin 4) = m := Fin.ext hym
        rw [if_pos hxy, hfin]
        simp
      · have hxy : ¬ x.1 = y := by
          intro e
          rw [← e] at hym
          exact hym hm.symm
        have hfin : (⟨y.marbleIdx, hlt⟩ : Fin 4) ≠ m := fun e => hym (congrArg Fin.val e)
        rw [if_neg hxy]
        simp [Function.update, hfin]
    · have hxy : ¬ x.1 = y := by
        intro e
        rw [← e, ← hm] at hlt
        exact hlt m.isLt
      rw [dif_neg hlt, dif_neg hlt, if_neg hxy]
  · have hxy : ¬ x.1 = y := by
      intro e
      rw [← e] at hy
      exact hy hq.symm
    have hne : ¬ (y.playerID = q.val ∧ q.val < 4) := fun e => hy e.1
    rw [if_neg hne, if_neg hxy]

/-- The movement loop of `executeMove` leaves every marble on its last target in the list, or
where it was. -/
theorem applyMovements_marbleAt {l : List Movement} :
    ∀ {s s1 : GameState}, applyMovements s l = Except.ok s1 →
      ∀ y, s1.marbleAt y = writtenPositions s.marbleAt l y := by
  induction l with
  | nil =>
    intro s s1 h y
    cases h
    rfl
  | cons x rest ih =>
    intro s s1 h y
    unfold applyMovements at h
    cases hx : applyMovement s x with
    | error e => rw [hx] at h; cases h
    | ok s2 =>
      rw [hx] at h
      simp only at h
      rw [ih h y]
      unfold writtenPositions
      rw [applyMovement_marbleAt hx y]
      conv => rhs; unfold lastTarget
      cases lastTarget rest y with
      | some t => rfl
      | none =>
        simp only
        split <;> rfl

/-- The tail of `executeMove` moves no marble. -/
theorem finishTurn_marbleAt {s s1 : GameState} {i : Nat} {fin : Bool}
    (h : finishTurn s i = Except.ok (s1, fin)) (y : MarbleIdentifier) :
    s1.marbleAt y = s.marbleAt y := by
  obtain ⟨cp, c, hcp, hc, hM⟩ := finishTurn_inv h
  obtain ⟨s2, cp1, hs2, hget, _, _, _, _, _, hothers, hmarbles, _⟩ := finishTurn_spec hcp hc hM
  rw [h] at hs2
  injection hs2 with hs2
  injection hs2 with hs2 _
  subst hs2
  unfold GameState.marbleAt
  by_cases hy : y.playerID = s.currentPlayer
  · rw [hy, hget, hcp]
    simp only [hmarbles]
  · by_cases hlt : y.playerID < 4
    · have := (hothers ⟨y.playerID, hlt⟩ hy).1
      have e1 : s1.getPlayerByIndex y.playerID = s1.players ⟨y.playerID, hlt⟩ :=
        getPlayerByIndex_val s1 ⟨y.playerID, hlt⟩
      have e2 : s.getPlayerByIndex y.playerID = s.players ⟨y.playerID, hlt⟩ :=
        getPlayerByIndex_val s ⟨y.playerID, hlt⟩
      rw [e1, e2, this]
    · have e1 : s1.getPlayerByIndex y.playerID = none := by
        unfold GameState.getPlayerByIndex
        rw [dif_neg hlt]
      have e2 : s.getPlayerByIndex y.playerID = none := by
        unfold GameState.getPlayerByIndex
        rw [dif_neg hlt]
      rw [e1, e2]

/-- On the marbles of present seats, a card in the hand and a leaderboard in range,
`executeMove` returns, and the marbles stand where the movements of the move put them. -/
theorem executeMove_positions {s : GameState} {mv : Move} {cp : Player} {c : Nat}
    (hcp : s.getPlayerByIndex s.currentPlayer = some cp)
    (hwf : s.movementsWellFormed mv.movements = true)
    (hc : cp.hand[mv.handIndex]? = some c)
    (hlb : s.ranksInRange = true) :
    ∃ s2 fin, executeMove s mv = Except.ok (s2, fin) ∧
      ∀ y, s2.marbleAt y = writtenPositions s.marbleAt mv.movements y := by
  obtain ⟨s1, cp1, hs1, hframe, hget1, _, hc1, hM1, hexec⟩ := executeMove_run hcp hwf hc hlb
  have hcur : s1.currentPlayer = s.currentPlayer := hframe.1
  rw [← hcur] at hget1
  obtain ⟨s2, cp2, hs2, _⟩ := finishTurn_spec hget1 hc1 hM1
  refine ⟨s2, cp1.checkFinished, by rw [hexec, hs2], fun y => ?_⟩
  rw [finishTurn_marbleAt hs2 y, applyMovements_marbleAt hs1 y]

/-! ## Exclusive occupancy: walks with captures -/

theorem fieldMatches_eq_equals (pos marblePos : Position) :
    fieldMatches pos marblePos = pos.equals marblePos := by
  unfold fieldMatches Position.equals
  by_cases h : pos.boardLocation = BoardLocation.TRACK
  · rw [if_pos h]
    simp [h, eq_comm]
  · rw [if_neg h]

theorem stands_iff_marbleAt (s : GameState) (q k : Fin 4) (pos : Position) :
    s.stands q k pos = true ↔
      ∃ a, s.marbleAt { playerID := q.val, marbleIdx := k.val } = some a ∧
        a.equals pos = true := by
  unfold GameState.stands
  rw [marbleAt_fin]
  cases s.players q with
  | none => simp
  | some pl =>
    simp only [Option.map_some', Option.some.injEq, exists_eq_left', fieldMatches_eq_equals]
    constructor
    · exact Position.equals_symm
    · exact Position.equals_symm

theorem movementsWellFormed_iff (s : GameState) (l : List Movement) :
    s.movementsWellFormed l = true ↔ ∀ x ∈ l, s.marbleAt x.1 ≠ none := by
  unfold GameState.movementsWellFormed GameState.marbleAt
  rw [List.all_eq_true]
  constructor
  · intro h x hx
    have := h x hx
    simp only [Bool.and_eq_true, decide_eq_true_eq] at this
    cases hp : s.getPlayerByIndex x.1.playerID with
    | none => rw [hp] at this; simp at this
    | some pl => simp [this.1]
  · intro h x hx
    have := h x hx
    cases hp : s.getPlayerByIndex x.1.playerID with
    | none => rw [hp] at this; simp at this
    | some pl =>
      rw [hp] at this
      by_cases hlt : x.1.marbleIdx < 4
      · simp [hlt]
      · simp [hlt] at this

theorem lastTarget_append (l1 l2 : List Movement) (y : MarbleIdentifier) :
    lastTarget (l1 ++ l2) y =
      match lastTarget l2 y with
      | some t => some t
      | none => lastTarget l1 y := by
  induction l1 with
  | nil =>
    simp only [List.nil_append]
    cases lastTarget l2 y <;> rfl
  | cons x rest ih =>
    rw [List.cons_append]
    conv => lhs; unfold lastTarget
    rw [ih]
    cases lastTarget l2 y with
    | some t => rfl
    | none =>
      simp only
      conv => rhs; unfold lastTarget

theorem captureWalk_nil (s : GameState) (mover : MarbleIdentifier) : captureWalk s mover [] :=
  ⟨(fun _ h => by cases h), (fun _ h => by cases h)⟩

theorem captureWalk_free (s : GameState) (mover : MarbleIdentifier) (e : Position)
    (hfree : isFieldOccupied s e = none) (hloc : e.boardLocation ≠ BoardLocation.HOME) :
    captureWalk s mover [(mover, e)] := by
  constructor
  · intro x hx
    rw [List.mem_singleton.1 hx]
    exact Or.inl ⟨rfl, hloc⟩
  · intro t ht
    simp only [lastTarget, if_true] at ht
    cases ht
    exact Or.inl hfree

theorem captureWalk_capture (s : GameState) (mover occ : MarbleIdentifier) (e : Position)
    (hocc : isFieldOccupied s e = some occ) (hne : occ ≠ mover)
    (hloc : e.boardLocation ≠ BoardLocation.HOME) :
    captureWalk s mover [(mover, e), sendHome occ] := by
  have hne1 : ¬ (sendHome occ).1 = mover := hne
  constructor
  · intro x hx
    simp only [List.mem_cons, List.mem_singleton, List.not_mem_nil, or_false] at hx
    rcases hx with rfl | rfl
    · exact Or.inl ⟨rfl, hloc⟩
    · exact Or.inr ⟨hne, rfl⟩
  · intro t ht
    simp only [lastTarget, hne1, if_false, if_true] at ht
    cases ht
    refine Or.inr ⟨occ, hocc, hne, ?_⟩
    have : (sendHome occ).1 = occ := rfl
    simp [lastTarget, this]

theorem captureWalk_append (s : GameState) (mover : MarbleIdentifier) (l1 l2 : List Movement)
    (h1 : ∀ x ∈ l1, (x.1 = mover ∧ x.2.boardLocation ≠ BoardLocation.HOME) ∨
      (x.1 ≠ mover ∧ x.2 = (sendHome x.1).2))
    (h2 : captureWalk s mover l2) (hlast : lastTarget l2 mover ≠ none) :
    captureWalk s mover (l1 ++ l2) := by
  constructor
  · intro x hx
    rcases List.mem_append.1 hx with hx | hx
    · exact h1 x hx
    · exact h2.1 x hx
  · intro t ht
    rw [lastTarget_append] at ht
    cases hl : lastTarget l2 mover with
    | none => exact absurd hl hlast
    | some t2 =>
      rw [hl] at ht
      cases ht
      rcases h2.2 t hl with h | ⟨occ, ho, hne, hlo⟩
      · exact Or.inl h
      · refine Or.inr ⟨occ, ho, hne, ?_⟩
        rw [lastTarget_append]
        cases hlo2 : lastTarget l2 occ with
        | none => exact absurd hlo2 hlo
        | some t3 => simp

/-- The three outcomes of the occupation test on one candidate end position. -/
theorem occupationBlock_cases (s : GameState) (mover : MarbleIdentifier) (e : Position) :
    (occupationBlock s mover e = [] ∧
      ∃ occ, isFieldOccupied s e = some occ ∧ occ.playerID = s.currentPlayer) ∨
    (occupationBlock s mover e = [(mover, e)] ∧ isFieldOccupied s e = none) ∨
    ∃ occ, occupationBlock s mover e = [(mover, e), sendHome occ] ∧
      isFieldOccupied s e = some occ ∧ occ.playerID ≠ s.currentPlayer := by
  unfold occupationBlock
  cases h : isFieldOccupied s e with
  | none => exact Or.inr (Or.inl ⟨rfl, rfl⟩)
  | some occ =>
    by_cases ho : occ.playerID = s.currentPlayer
    · exact Or.inl ⟨by simp [ho], occ, rfl, ho⟩
    · exact Or.inr (Or.inr ⟨occ, by simp [ho], rfl, ho⟩)

/-- The occupation test of `checkSimpleMove` appends one block per candidate end position. -/
theorem occupationTest_blocks (s : GameState) (cp : Player) (marblePos : Position) (k : Nat)
    (hk : cp.getMarbleIndexByPos marblePos = some k) (ends : List Position) :
    ∀ acc, occupationTest s cp marblePos ends acc =
      Except.ok (acc ++ ends.flatMap
        (occupationBlock s { playerID := s.currentPlayer, marbleIdx := k })) := by
  induction ends with
  | nil =>
    intro acc
    unfold occupationTest
    simp
  | cons e rest ih =>
    intro acc
    unfold occupationTest
    rw [List.flatMap_cons]
    cases hocc : isFieldOccupied s e with
    | none =>
      have hb : occupationBlock s { playerID := s.currentPlayer, marbleIdx := k } e =
          [({ playerID := s.currentPlayer, marbleIdx := k }, e)] := by
        unfold occupationBlock
        rw [hocc]
      simp only [hk]
      rw [ih, hb]
      simp only [List.append_assoc]
    | some occ =>
      simp only
      by_cases ho : occ.playerID = s.currentPlayer
      · have hb : occupationBlock s { playerID := s.currentPlayer, marbleIdx := k } e = [] := by
          unfold occupationBlock
          rw [hocc]
          simp only [ho, if_true]
        rw [if_pos ho, ih, hb]
        simp
      · have hb : occupationBlock s { playerID := s.currentPlayer, marbleIdx := k } e =
            [({ playerID := s.currentPlayer, marbleIdx := k }, e), sendHome occ] := by
          unfold occupationBlock
          rw [hocc]
          simp only [ho, if_false]
        rw [if_neg ho]
        simp only [hk]
        rw [ih, hb]
        simp only [List.append_assoc]
        rfl

theorem possibleEndPositions_notHome {s : GameState} {cp : Player} {marblePos : Position}
    {moveValue : Int} {ends : List Position}
    (h : possibleEndPositions s cp marblePos moveValue = some ends) :
    ∀ e ∈ ends, e.boardLocation ≠ BoardLocation.HOME := by
  unfold possibleEndPositions at h
  intro e he
  by_cases h0 : moveValue = 0
  · rw [if_pos h0] at h
    cases h
    rw [List.mem_singleton.1 he]
    simp
  · rw [if_neg h0] at h
    simp only at h
    by_cases hf : marblePos.boardLocation = BoardLocation.FINISH
    · rw [if_pos hf] at h
      split at h
      · cases h
      · split at h
        · cases h
        · cases h
          rw [List.mem_singleton.1 he]
          simp
    · rw [if_neg hf] at h
      split at h
      · cases h
        rw [List.mem_singleton.1 he]
        simp
      · split at h
        · cases h
        · split at h
          · cases h
            simp only [List.mem_cons, List.mem_singleton, List.not_mem_nil, or_false] at he
            rcases he with rfl | rfl <;> simp
          · cases h
            rw [List.mem_singleton.1 he]
            simp

/-- A result of `checkSimpleMove` for a marble found by its position is the list of the
blocks of at most two candidate end positions, none of them in HOME. -/
theorem checkSimpleMove_blocks {s : GameState} {cp : Player} {marblePos : Position}
    {moveValue : Int} {k : Nat} {moved : List Movement}
    (hcp : s.getPlayerByIndex s.currentPlayer = some cp)
    (hk : cp.getMarbleIndexByPos marblePos = some k)
    (h : checkSimpleMove s marblePos moveValue = Except.ok (some moved)) :
    ∃ ends : List Position, ends.length ≤ 2 ∧
      (∀ e ∈ ends, e.boardLocation ≠ BoardLocation.HOME) ∧
      moved = ends.flatMap (occupationBlock s { playerID := s.currentPlayer, marbleIdx := k }) := by
  unfold checkSimpleMove at h
  rw [hcp] at h
  simp only at h
  cases hends : possibleEndPositions s cp marblePos moveValue with
  | none => rw [hends] at h; cases h
  | some ends =>
    rw [hends] at h
    simp only at h
    split at h
    · cases h
    · split at h
      · cases h
      · rename_i hlen
        rw [occupationTest_blocks s cp marblePos k hk ends []] at h
        simp only [List.nil_append] at h
        split at h
        · cases h
        · injection h with h
          injection h with h
          exact ⟨ends, by omega, possibleEndPositions_notHome hends, h.symm⟩

/-- The moves `computeLegalMoves` makes of a START or SIMPLE result: the whole result, or for a
fork its first entry, or its second entry with the capture that follows it. -/
theorem expandSimple_cases (s : GameState) (c h : Nat) (moved : List Movement) (mv : Move)
    (hmv : mv ∈ expandSimple s c h moved) :
    mv.cardID = c ∧ mv.handIndex = h ∧
    (mv.movements = moved ∨
      ∃ m0 m1 rest, moved = m0 :: m1 :: rest ∧ m0.1.playerID = m1.1.playerID ∧
        (mv.movements = [m0] ∨
         (mv.movements = [m1] ∧ ∀ m2 r, rest = m2 :: r →
            ¬ (m2.1.playerID ≠ s.currentPlayer ∧ m2.2.boardLocation = BoardLocation.HOME)) ∨
         ∃ m2 r, rest = m2 :: r ∧ mv.movements = [m1, m2])) := by
  unfold expandSimple at hmv
  match moved with
  | [] =>
    simp only [List.mem_singleton] at hmv
    subst hmv
    exact ⟨rfl, rfl, Or.inl rfl⟩
  | [m0] =>
    simp only [List.mem_singleton] at hmv
    subst hmv
    exact ⟨rfl, rfl, Or.inl rfl⟩
  | m0 :: m1 :: rest =>
    simp only at hmv
    split at hmv
    · rename_i hfork
      simp only [List.mem_cons, List.mem_singleton, List.not_mem_nil, or_false] at hmv
      rcases hmv with rfl | rfl
      · exact ⟨rfl, rfl, Or.inr ⟨m0, m1, rest, rfl, hfork.2.1, Or.inl rfl⟩⟩
      · refine ⟨rfl, rfl, Or.inr ⟨m0, m1, rest, rfl, hfork.2.1, Or.inr ?_⟩⟩
        cases rest with
        | nil =>
          left
          exact ⟨rfl, fun m2 r hr => by cases hr⟩
        | cons m2 r =>
          simp only
          split
          · right
            exact ⟨m2, r, rfl, rfl⟩
          · rename_i hcond
            left
            refine ⟨rfl, fun m3 r3 hr => ?_⟩
            injection hr with h1 h2
            subst h1
            exact hcond
    · simp only [List.mem_singleton] at hmv
      subst hmv
      exact ⟨rfl, rfl, Or.inl rfl⟩

/-- The blocks of a list of candidate end positions outside HOME form a walk with captures,
and the mover moves in them unless they are empty. -/
theorem captureWalk_blocks (s : GameState) (mover : MarbleIdentifier)
    (hown : mover.playerID = s.currentPlayer) (ends : List Position)
    (hloc : ∀ e ∈ ends, e.boardLocation ≠ BoardLocation.HOME) :
    captureWalk s mover (ends.flatMap (occupationBlock s mover)) ∧
      (ends.flatMap (occupationBlock s mover) = [] ∨
        lastTarget (ends.flatMap (occupationBlock s mover)) mover ≠ none) := by
  induction ends with
  | nil => exact ⟨captureWalk_nil s mover, Or.inl rfl⟩
  | cons e rest ih =>
    obtain ⟨ih1, ih2⟩ := ih (fun e1 he1 => hloc e1 (List.mem_cons_of_mem _ he1))
    have hle := hloc e (List.mem_cons_self _ _)
    rw [List.flatMap_cons]
    have hstep : ∀ B : List Movement, captureWalk s mover B → lastTarget B mover ≠ none →
        captureWalk s mover (B ++ rest.flatMap (occupationBlock s mover)) ∧
          (B ++ rest.flatMap (occupationBlock s mover) = [] ∨
            lastTarget (B ++ rest.flatMap (occupationBlock s mover)) mover ≠ none) := by
      intro B hB hBl
      rcases ih2 with hnil | hlast
      · rw [hnil, List.append_nil]
        exact ⟨hB, Or.inr hBl⟩
      · refine ⟨captureWalk_append s mover B _ hB.1 ih1 hlast, Or.inr ?_⟩
        rw [lastTarget_append]
        cases hl : lastTarget (rest.flatMap (occupationBlock s mover)) mover with
        | none => exact absurd hl hlast
        | some t => simp
    rcases occupationBlock_cases s mover e with ⟨hb, _⟩ | ⟨hb, hfree⟩ | ⟨occ, hb, hocc, hopp⟩
    · rw [hb, List.nil_append]
      exact ⟨ih1, ih2⟩
    · rw [hb]
      exact hstep _ (captureWalk_free s mover e hfree hle) (by simp [lastTarget])
    · rw [hb]
      have hne : occ ≠ mover := fun e1 => hopp (by rw [e1, hown])
      have hne1 : ¬ (sendHome occ).1 = mover := hne
      exact hstep _ (captureWalk_capture s mover occ e hocc hne hle)
        (by simp [lastTarget, hne1])

/-- Every move `computeLegalMoves` makes of the blocks of at most two candidate end positions
outside HOME is a walk with captures, made of entries of the blocks. -/
theorem expandSimple_captureWalk (s : GameState) (c h : Nat) (mover : MarbleIdentifier)
    (hown : mover.playerID = s.currentPlayer) (ends : List Position) (hlen : ends.length ≤ 2)
    (hloc : ∀ e ∈ ends, e.boardLocation ≠ BoardLocation.HOME) (mv : Move)
    (hmv : mv ∈ expandSimple s c h (ends.flatMap (occupationBlock s mover))) :
    mv.cardID = c ∧ mv.handIndex = h ∧ captureWalk s mover mv.movements ∧
      ∀ x ∈ mv.movements, x ∈ ends.flatMap (occupationBlock s mover) := by
  obtain ⟨hc, hh, hcases⟩ := expandSimple_cases s c h _ mv hmv
  refine ⟨hc, hh, ?_⟩
  rcases hcases with hwhole | ⟨m0, m1, rest, hmoved, hpid, hfork⟩
  · rw [hwhole]
    exact ⟨(captureWalk_blocks s mover hown ends hloc).1, fun x hx => hx⟩
  · have hcap : ∀ occ : MarbleIdentifier, occ.playerID ≠ s.currentPlayer →
        ¬ mover.playerID = (sendHome occ).1.playerID := by
      intro occ ho e
      exact ho (by rw [← hown, e]; rfl)
    have hsub : ∀ l : List Movement, (∀ x ∈ l, x ∈ m0 :: m1 :: rest) →
        ∀ x ∈ l, x ∈ ends.flatMap (occupationBlock s mover) := by
      intro l hl x hx
      rw [hmoved]
      exact hl x hx
    match ends, hlen, hloc, hmoved with
    | [], _, _, hmoved => cases hmoved
    | [e1], _, hloc, hmoved =>
      exfalso
      simp only [List.flatMap_cons, List.flatMap_nil, List.append_nil] at hmoved
      rcases occupationBlock_cases s mover e1 with ⟨hb, _⟩ | ⟨hb, _⟩ | ⟨occ, hb, _, hopp⟩
      · rw [hb] at hmoved; cases hmoved
      · rw [hb] at hmoved; cases hmoved
      · rw [hb] at hmoved
        cases hmoved
        exact hcap occ hopp hpid
    | [e1, e2], _, hloc, hmoved =>
      have hl1 := hloc e1 (List.mem_cons_self _ _)
      have hl2 := hloc e2 (List.mem_cons_of_mem _ (List.mem_cons_self _ _))
      simp only [List.flatMap_cons, List.flatMap_nil, List.append_nil] at hmoved
      rcases occupationBlock_cases s mover e1 with ⟨hb1, _⟩ | ⟨hb1, hf1⟩ | ⟨occ1, hb1, _, hopp1⟩
      · exfalso
        rw [hb1, List.nil_append] at hmoved
        rcases occupationBlock_cases s mover e2 with ⟨hb, _⟩ | ⟨hb, _⟩ | ⟨occ, hb, _, hopp⟩
        · rw [hb] at hmoved; cases hmoved
        · rw [hb] at hmoved; cases hmoved
        · rw [hb] at hmoved
          cases hmoved
          exact hcap occ hopp hpid
      · rw [hb1] at hmoved
        rcases occupationBlock_cases s mover e2 with ⟨hb2, _⟩ | ⟨hb2, hf2⟩ |
          ⟨occ2, hb2, ho2, hopp2⟩
        · rw [hb2] at hmoved; cases hmoved
        · rw [hb2] at hmoved
          cases hmoved
          rcases hfork with h1 | ⟨h1, _⟩ | ⟨m2, r, hr, _⟩
          · rw [h1]
            exact ⟨captureWalk_free s mover e1 hf1 hl1, hsub _ (by simp)⟩
          · rw [h1]
            exact ⟨captureWalk_free s mover e2 hf2 hl2, hsub _ (by simp)⟩
          · cases hr
        · rw [hb2] at hmoved
          cases hmoved
          have hne : occ2 ≠ mover := fun e => hopp2 (by rw [e, hown])
          rcases hfork with h1 | ⟨_, h2⟩ | ⟨m2, r, hr, h1⟩
          · rw [h1]
            exact ⟨captureWalk_free s mover e1 hf1 hl1, hsub _ (by simp)⟩
          · exact absurd ⟨hopp2, rfl⟩ (h2 (sendHome occ2) [] rfl)
          · cases hr
            rw [h1]
            exact ⟨captureWalk_capture s mover occ2 e2 ho2 hne hl2, hsub _ (by simp)⟩
      · exfalso
        rw [hb1] at hmoved
        simp only [List.cons_append, List.nil_append] at hmoved
        cases hmoved
        exact hcap occ1 hopp1 hpid
    | _ :: _ :: _ :: _, hlen, _, _ =>
      simp only [List.length_cons] at hlen
      omega

/-- A marble that holds a field is the one `isFieldOccupied` finds on it when the occupancy is
exclusive. -/
theorem isFieldOccupied_marbleAt {s : GameState} (hex : positionsExclusive s.marbleAt)
    {t : Position} {y : MarbleIdentifier} {a : Position}
    (hy : s.marbleAt y = some a) (hat : a.equals t = true) :
    isFieldOccupied s t = some y := by
  cases ho : isFieldOccupied s t with
  | none =>
    obtain ⟨p, m, pl, rfl, hp, rfl⟩ := marbleAt_some hy
    have := (isFieldOccupied_none_iff s t).1 ho p m
    have h2 : s.stands p m t = true :=
      (stands_iff_marbleAt s p m t).2 ⟨_, hy, hat⟩
    rw [this] at h2
    cases h2
  | some occ =>
    obtain ⟨q, k, rfl, hst⟩ := isFieldOccupied_some_stands ho
    obtain ⟨b, hb, hbt⟩ := (stands_iff_marbleAt s q k t).1 hst
    by_cases hyo : y = { playerID := q.val, marbleIdx := k.val }
    · rw [hyo]
    · have := hex y _ a b hyo hy hb
      rw [Position.equals_trans hat (Position.equals_symm hbt)] at this
      cases this

/-- On a state with exclusive occupancy and the HOME marbles in their slots, the positions
after a walk with captures have both properties. -/
theorem captureWalk_keeps (s : GameState) (mover : MarbleIdentifier) (l : List Movement)
    (hex : positionsExclusive s.marbleAt) (hho : positionsHomeOwn s.marbleAt)
    (hwalk : captureWalk s mover l) :
    positionsExclusive (writtenPositions s.marbleAt l) ∧
      positionsHomeOwn (writtenPositions s.marbleAt l) := by
  apply captureWalk_positions s.marbleAt mover l hex hho hwalk.1
  intro t ht y a hy hya hat
  rcases hwalk.2 t ht with hnone | ⟨occ, hocc, _, hlast⟩
  · rw [isFieldOccupied_marbleAt hex hya hat] at hnone
    cases hnone
  · rw [isFieldOccupied_marbleAt hex hya hat] at hocc
    injection hocc with hocc
    rw [hocc]
    exact hlast

/-! ## Exclusive occupancy: the moves of the marble loop -/

theorem marbleAt_current (s : GameState) (cp : Player) (m : Fin 4)
    (hcp : s.getPlayerByIndex s.currentPlayer = some cp) :
    s.marbleAt { playerID := s.currentPlayer, marbleIdx := m.val } = some (cp.marbles m) := by
  unfold GameState.marbleAt
  simp only [hcp]
  simp

/-- Under exclusive occupancy every marble of the current player is identified by its
position. -/
theorem exclusive_marbleIdentified (s : GameState) (cp : Player)
    (hcp : s.getPlayerByIndex s.currentPlayer = some cp)
    (hex : positionsExclusive s.marbleAt) (m : Fin 4) : cp.marbleIdentified m = true := by
  unfold Player.marbleIdentified
  rw [List.all_eq_true]
  intro j _
  by_cases hjm : j = m
  · simp [hjm]
  · have hne : ({ playerID := s.currentPlayer, marbleIdx := j.val } : MarbleIdentifier) ≠
        { playerID := s.currentPlayer, marbleIdx := m.val } := by
      intro e
      injection e with _ e2
      exact hjm (Fin.ext e2)
    have := hex _ _ _ _ hne (marbleAt_current s cp j hcp) (marbleAt_current s cp m hcp)
    simp [this]

theorem swapTargets_mem {s : GameState} {t : MarbleIdentifier × Position}
    (ht : t ∈ swapTargets s) :
    t.1.playerID ≠ s.currentPlayer ∧ s.marbleAt t.1 = some t.2 ∧
      t.2.boardLocation = BoardLocation.TRACK := by
  unfold swapTargets at ht
  obtain ⟨q, _, hq⟩ := List.mem_flatMap.1 ht
  cases hp : s.players q with
  | none => rw [hp] at hq; cases hq
  | some opp =>
    rw [hp] at hq
    simp only at hq
    split at hq
    · cases hq
    · rename_i hne
      obtain ⟨k, hk, rfl⟩ := List.mem_map.1 hq
      have hk2 := (List.mem_filter.1 hk).2
      simp only [Bool.and_eq_true, decide_eq_true_eq] at hk2
      refine ⟨hne, ?_, hk2.1⟩
      rw [marbleAt_fin, hp]
      rfl

/-- Every move of the marble loop for a SIMPLE rule comes from the result of `validateMove`
for a marble of the list. -/
theorem marbleLoop_simple_inv (s : GameState) (cp : Player) (card : Card) (V : Int)
    (c h : Nat) (l : List (Fin 4)) :
    ∀ mvs, marbleLoop s cp card MoveType.SIMPLE V false c h l = Except.ok mvs →
      ∀ mv ∈ mvs, ∃ (m : Fin 4) (moved : List Movement),
        validateMove s card (cp.marbles m) (MoveType.SIMPLE, V) false = Except.ok (some moved) ∧
        mv ∈ expandSimple s c h moved := by
  induction l with
  | nil =>
    intro mvs hmvs mv hmv
    unfold marbleLoop at hmvs
    cases hmvs
    cases hmv
  | cons m rest ih =>
    intro mvs hmvs mv hmv
    unfold marbleLoop at hmvs
    cases hr : validateMove s card (cp.marbles m) (MoveType.SIMPLE, V) false with
    | error e => rw [hr] at hmvs; cases hmvs
    | ok r =>
      rw [hr] at hmvs
      cases r with
      | none => exact ih mvs hmvs mv hmv
      | some moved =>
        simp only at hmvs
        cases hrec : marbleLoop s cp card MoveType.SIMPLE V false c h rest with
        | error err => simp [hrec] at hmvs
        | ok more =>
          simp only [hrec, Except.ok.injEq] at hmvs
          subst hmvs
          rcases List.mem_append.1 hmv with hmem | hmem
          · exact ⟨m, moved, hr, hmem⟩
          · exact ih more hrec mv hmem

/-- The SWAP moves duplicated for the later marbles swap a TRACK marble of the player with a
swap target. -/
theorem dupSwap_inv (cp : Player) (c h : Nat) (mover : MarbleIdentifier) (marblePos : Position)
    (targets : List (MarbleIdentifier × Position)) (l : List (Fin 4)) :
    ∀ mvs, dupSwap cp c h (targets.flatMap fun t => [(mover, t.2), (t.1, marblePos)]) l =
        Except.ok mvs →
      ∀ mv ∈ mvs, mv.handIndex = h ∧ ∃ (m : Fin 4) (t : MarbleIdentifier × Position),
        t ∈ targets ∧ (cp.marbles m).boardLocation = BoardLocation.TRACK ∧
        mv.movements = [({ mover with marbleIdx := m.val }, t.2), (t.1, cp.marbles m)] := by
  induction l with
  | nil =>
    intro mvs hmvs mv hmv
    unfold dupSwap at hmvs
    cases hmvs
    cases hmv
  | cons m1 rest1 ih =>
    intro mvs hmvs mv hmv
    unfold dupSwap at hmvs
    split at hmvs
    · exact ih mvs hmvs mv hmv
    · rename_i htrack
      simp only [ne_eq, Decidable.not_not] at htrack
      split at hmvs
      · exact ih mvs hmvs mv hmv
      · rw [dupSwapFor_pairs] at hmvs
        simp only at hmvs
        cases hrec : dupSwap cp c h
            (targets.flatMap fun t => [(mover, t.2), (t.1, marblePos)]) rest1 with
        | error err => simp [hrec] at hmvs
        | ok more =>
          simp only [hrec, Except.ok.injEq] at hmvs
          subst hmvs
          rcases List.mem_append.1 hmv with hmem | hmem
          · obtain ⟨t, ht, rfl⟩ := List.mem_map.1 hmem
            exact ⟨rfl, m1, t, ht, htrack, rfl⟩
          · exact ih more hrec mv hmem

/-- Every move of the marble loop for the SWAP rule swaps a TRACK marble of the current player
with a swap target, under exclusive occupancy. -/
theorem marbleLoop_swap_inv (s : GameState) (cp : Player) (card : Card) (V : Int)
    (c h : Nat) (hcp : s.getPlayerByIndex s.currentPlayer = some cp)
    (hdist : ∀ m : Fin 4, cp.marbleIdentified m = true) (l : List (Fin 4)) :
    ∀ mvs, marbleLoop s cp card MoveType.SWAP V false c h l = Except.ok mvs →
      ∀ mv ∈ mvs, mv.handIndex = h ∧ ∃ (m : Fin 4) (t : MarbleIdentifier × Position),
        t ∈ swapTargets s ∧ (cp.marbles m).boardLocation = BoardLocation.TRACK ∧
        mv.movements =
          [({ playerID := s.currentPlayer, marbleIdx := m.val }, t.2), (t.1, cp.marbles m)] := by
  induction l with
  | nil =>
    intro mvs hmvs mv hmv
    unfold marbleLoop at hmvs
    cases hmvs
    cases hmv
  | cons m rest ih =>
    intro mvs hmvs mv hmv
    unfold marbleLoop at hmvs
    cases hr : validateMove s card (cp.marbles m) (MoveType.SWAP, V) false with
    | error e => rw [hr] at hmvs; cases hmvs
    | ok r =>
      rw [hr] at hmvs
      cases r with
      | none => exact ih mvs hmvs mv hmv
      | some moved =>
        obtain ⟨htrack, _⟩ := validateMove_swap_eq hr
        obtain ⟨_, rfl⟩ := validateMove_swap_shape s cp card V m hcp (hdist m) moved hr
        simp only [expandSwap_pairs] at hmvs
        cases hd : dupSwap cp c h ((swapTargets s).flatMap fun t =>
            [(({ playerID := s.currentPlayer, marbleIdx := m.val } : MarbleIdentifier), t.2),
             (t.1, cp.marbles m)]) rest with
        | error err => simp [hd] at hmvs
        | ok dups =>
          simp only [hd, Except.ok.injEq] at hmvs
          subst hmvs
          rcases List.mem_append.1 hmv with hmem | hmem
          · obtain ⟨t, ht, rfl⟩ := List.mem_map.1 hmem
            exact ⟨rfl, m, t, ht, htrack, rfl⟩
          · exact dupSwap_inv cp c h _ _ _ rest dups hd mv hmem

/-- The entries of the blocks of `checkSimpleMove` move marbles of present seats. -/
theorem occupationBlock_present (s : GameState) (mover : MarbleIdentifier)
    (hm : s.marbleAt mover ≠ none) (ends : List Position) :
    ∀ x ∈ ends.flatMap (occupationBlock s mover), s.marbleAt x.1 ≠ none := by
  intro x hx
  obtain ⟨e, _, hxe⟩ := List.mem_flatMap.1 hx
  rcases occupationBlock_cases s mover e with ⟨hb, _⟩ | ⟨hb, _⟩ | ⟨occ, hb, hocc, _⟩
  · rw [hb] at hxe; cases hxe
  · rw [hb] at hxe
    rw [List.mem_singleton.1 hxe]
    exact hm
  · rw [hb] at hxe
    simp only [List.mem_cons, List.mem_singleton, List.not_mem_nil, or_false] at hxe
    rcases hxe with rfl | rfl
    · exact hm
    · obtain ⟨q, k, rfl, hst⟩ := isFieldOccupied_some_stands hocc
      obtain ⟨a, ha, _⟩ := (stands_iff_marbleAt s q k e).1 hst
      show s.marbleAt { playerID := q.val, marbleIdx := k.val } ≠ none
      rw [ha]
      simp

/-- A move of the marble loop for a SIMPLE rule: it carries the hand index of the loop, moves
marbles of present seats and leaves positions with exclusive occupancy and the HOME marbles in
their slots. -/
theorem simpleMove_keeps (s : GameState) (cp : Player) (card : Card) (V : Int) (c h : Nat)
    (hcp : s.getPlayerByIndex s.currentPlayer = some cp)
    (hex : positionsExclusive s.marbleAt) (hho : positionsHomeOwn s.marbleAt)
    (mvs : List Move)
    (hloop : marbleLoop s cp card MoveType.SIMPLE V false c h seatIds = Except.ok mvs)
    (mv : Move) (hmv : mv ∈ mvs) :
    mv.handIndex = h ∧ s.movementsWellFormed mv.movements = true ∧
      positionsExclusive (writtenPositions s.marbleAt mv.movements) ∧
      positionsHomeOwn (writtenPositions s.marbleAt mv.movements) := by
  obtain ⟨m, moved, hval, hexp⟩ := marbleLoop_simple_inv s cp card V c h seatIds mvs hloop mv hmv
  have hsimple := validateMove_simple_eq hval
  have hk := getMarbleIndexByPos_own cp m (exclusive_marbleIdentified s cp hcp hex m)
  obtain ⟨ends, hlen, hloc, rfl⟩ := checkSimpleMove_blocks hcp hk hsimple
  obtain ⟨_, hh, hwalk, hsub⟩ :=
    expandSimple_captureWalk s c h { playerID := s.currentPlayer, marbleIdx := m.val } rfl ends
      hlen hloc mv hexp
  refine ⟨hh, ?_, captureWalk_keeps s _ mv.movements hex hho hwalk⟩
  rw [movementsWellFormed_iff]
  intro x hx
  apply occupationBlock_present s { playerID := s.currentPlayer, marbleIdx := m.val } _ ends x
    (hsub x hx)
  rw [marbleAt_current s cp m hcp]
  simp

/-- A move of the marble loop for the SWAP rule, likewise. -/
theorem swapMove_keeps (s : GameState) (cp : Player) (card : Card) (V : Int) (c h : Nat)
    (hcp : s.getPlayerByIndex s.currentPlayer = some cp)
    (hex : positionsExclusive s.marbleAt) (hho : positionsHomeOwn s.marbleAt)
    (mvs : List Move)
    (hloop : marbleLoop s cp card MoveType.SWAP V false c h seatIds = Except.ok mvs)
    (mv : Move) (hmv : mv ∈ mvs) :
    mv.handIndex = h ∧ s.movementsWellFormed mv.movements = true ∧
      positionsExclusive (writtenPositions s.marbleAt mv.movements) ∧
      positionsHomeOwn (writtenPositions s.marbleAt mv.movements) := by
  obtain ⟨hh, m, t, ht, htrack, hmoves⟩ :=
    marbleLoop_swap_inv s cp card V c h hcp (exclusive_marbleIdentified s cp hcp hex) seatIds mvs
      hloop mv hmv
  obtain ⟨hopp, hat, hlt⟩ := swapTargets_mem ht
  have hm := marbleAt_current s cp m hcp
  have hne : ({ playerID := s.currentPlayer, marbleIdx := m.val } : MarbleIdentifier) ≠ t.1 := by
    intro e
    rw [← e] at hopp
    exact hopp rfl
  refine ⟨hh, ?_, ?_⟩
  · rw [movementsWellFormed_iff, hmoves]
    intro x hx
    simp only [List.mem_cons, List.mem_singleton, List.not_mem_nil, or_false] at hx
    rcases hx with rfl | rfl
    · simp only [hm]
      simp
    · simp only [hat]
      simp
  · rw [hmoves]
    exact swap_positions s.marbleAt _ t.1 (cp.marbles m) t.2 (cp.marbles m) hex hho hne hm hat
      (Position.equals_refl _) htrack hlt

/-! ## Execution of a turn as a mutation -/

theorem executeMoveInPlace_loop (l : List Movement) :
    ∀ (s s1 : GameState), applyMovements s l = Except.ok s1 →
      applyMovementsInPlace s l = (s1, none) := by
  induction l with
  | nil => intro s s1 h; cases h; rfl
  | cons x rest ih =>
    intro s s1 h
    unfold applyMovements at h
    unfold applyMovementsInPlace
    cases hx : applyMovement s x with
    | error e => rw [hx] at h; cases h
    | ok s2 => rw [hx] at h; exact ih s2 s1 h

/-- A call of `executeMove` that returns leaves the object in the state of the functional
model. -/
theorem executeMoveInPlace_ok {s s1 : GameState} {mv : Move} {fin : Bool}
    (h : executeMove s mv = Except.ok (s1, fin)) :
    executeMoveInPlace s mv = (s1, Except.ok fin) := by
  unfold executeMove at h
  unfold executeMoveInPlace
  cases hl : applyMovements s mv.movements with
  | error e => rw [hl] at h; cases h
  | ok s2 =>
    rw [hl] at h
    rw [executeMoveInPlace_loop _ _ _ hl]
    simp only at h
    simp only [h]

/-- The return value of `executeMove` as a mutation is the one of the functional model, a fault
included. -/
theorem executeMoveInPlace_result (s : GameState) (mv : Move) :
    (executeMoveInPlace s mv).2 = (executeMove s mv).map fun r => r.2 := by
  have hloop : ∀ (l : List Movement) (s : GameState) (e : Fault),
      applyMovements s l = Except.error e → (applyMovementsInPlace s l).2 = some e := by
    intro l
    induction l with
    | nil => intro s e h; cases h
    | cons x rest ih =>
      intro s e h
      unfold applyMovements at h
      unfold applyMovementsInPlace
      cases hx : applyMovement s x with
      | error e1 =>
        rw [hx] at h
        cases h
        rfl
      | ok s2 =>
        rw [hx] at h
        exact ih s2 e h
  unfold executeMove executeMoveInPlace
  cases hl : applyMovements s mv.movements with
  | error e =>
    have := hloop _ _ _ hl
    cases hp : applyMovementsInPlace s mv.movements with
    | mk s1 o =>
      rw [hp] at this
      simp only at this
      subst this
      rfl
  | ok s1 =>
    rw [executeMoveInPlace_loop _ _ _ hl]
    simp only
    cases finishTurn s1 mv.handIndex with
    | error e => rfl
    | ok r => rfl

/-! ## The start-blocked flag along the movements of a move -/

/-- The movement loop changes the start-blocked flag and the marbles of the current player as
`ownTrace` says. -/
theorem applyMovements_trace {l : List Movement} (c : Nat) :
    ∀ {s s1 : GameState} {cp : Player}, s.currentPlayer = c →
      s.getPlayerByIndex c = some cp → applyMovements s l = Except.ok s1 →
      ∃ cp1, s1.getPlayerByIndex c = some cp1 ∧
        (cp1.startBlocked, cp1.marbles) = ownTrace c (cp.startBlocked, cp.marbles) l := by
  induction l with
  | nil =>
    intro s s1 cp hc hcp h
    simp only [applyMovements] at h
    cases Except.ok.inj h
    exact ⟨cp, hcp, rfl⟩
  | cons x rest ih =>
    intro s s1 cp hc hcp h
    simp only [applyMovements] at h
    cases hx : applyMovement s x with
    | error e => simp [hx] at h
    | ok s2 =>
      simp only [hx] at h
      have hlt := getPlayerByIndex_lt hcp
      have hcpf : s.players ⟨c, hlt⟩ = some cp := by
        rw [← getPlayerByIndex_fin]; exact hcp
      obtain ⟨g1, g2⟩ := applyMovement_frame hx
      have hc2 : s2.currentPlayer = c := g1.1.trans hc
      obtain ⟨q, m1, pl, hq, hm, hpl, hs2⟩ := applyMovement_inv hx
      by_cases hown : x.1.playerID = c
      · have hqc : q = ⟨c, hlt⟩ := Fin.ext (hq.trans hown)
        subst hqc
        rw [hcpf] at hpl
        cases Option.some.inj hpl
        have hcp2 : s2.getPlayerByIndex c = some (startBlockUpdate s.currentPlayer x.1
            (cp.marbles m1).isInHome { cp with marbles := Function.update cp.marbles m1 x.2 }) := by
          rw [hs2, setPlayerAt_get]; simp [hlt]
        obtain ⟨cp1, k1, k2⟩ := ih hc2 hcp2 h
        have hm4 : x.1.marbleIdx < 4 := hm ▸ m1.isLt
        have hme : (⟨x.1.marbleIdx, hm4⟩ : Fin 4) = m1 := Fin.ext hm.symm
        have hstep : ownTrace c (cp.startBlocked, cp.marbles) (x :: rest) =
            ownTrace c (flagAfterMovement cp.startBlocked (cp.marbles m1).isInHome x.1.marbleIdx,
              Function.update cp.marbles m1 x.2) rest := by
          rw [ownTrace, dif_pos (And.intro hown hm4)]
          simp only [hme]
        refine ⟨cp1, k1, ?_⟩
        rw [hstep, k2, (startBlockUpdate_sameCore _ _ _ _).2, startBlockUpdate_flag]
        simp only [flagAfterMovement, hc, hown, if_true]
      · have hcp2 : s2.getPlayerByIndex c = some cp := by
          have := g2 ⟨c, hlt⟩ (fun e => hown e.symm)
          rw [← getPlayerByIndex_fin] at this
          exact this.trans hcpf
        obtain ⟨cp1, k1, k2⟩ := ih hc2 hcp2 h
        refine ⟨cp1, k1, ?_⟩
        rw [k2]
        have hneg : ¬ (x.1.playerID = c ∧ x.1.marbleIdx < 4) := fun e => hown e.1
        simp only [ownTrace, dif_neg hneg]

/-! ## Claims -/

/-- C2, evaluated at two failing inputs. In the state of the test `ValidMoveWithKickout` the
engine derives for the FIVE and marble 0 the movement to TRACK 10 together with the return of
seat 1's marble to HOME, and `isValidTurn` accepts the move that omits the capture entry; in the
state of the test `validateSwapMove` the engine derives one swap pair and `isValidTurn` accepts
the move that holds only the mover's half of it. -/
theorem isValidTurn_accepts_incomplete_move :
    validateMove kickoutState (Card.new Rank.FIVE Suit.CLUBS)
        { boardLocation := BoardLocation.TRACK, index := 5, playerID := 0 }
        (MoveType.SIMPLE, 5) false =
      Except.ok (some [({ playerID := 0, marbleIdx := 0 },
          { boardLocation := BoardLocation.TRACK, index := 10, playerID := 0 }),
        ({ playerID := 1, marbleIdx := 0 },
         { boardLocation := BoardLocation.HOME, index := 0, playerID := 1 })]) ∧
    isValidTurn kickoutState
        { cardID := 4, handIndex := 0,
          movements := [({ playerID := 0, marbleIdx := 0 },
            { boardLocation := BoardLocation.TRACK, index := 10, playerID := 0 })] } =
      Except.ok true ∧
    validateMove swapState (Card.new Rank.JACK Suit.CLUBS)
        { boardLocation := BoardLocation.TRACK, index := 20, playerID := 0 }
        (MoveType.SWAP, 0) false =
      Except.ok (some [({ playerID := 0, marbleIdx := 0 },
          { boardLocation := BoardLocation.TRACK, index := 30, playerID := 1 }),
        ({ playerID := 1, marbleIdx := 0 },
         { boardLocation := BoardLocation.TRACK, index := 20, playerID := 0 })]) ∧
    isValidTurn swapState
        { cardID := 10, handIndex := 0,
          movements := [({ playerID := 0, marbleIdx := 0 },
            { boardLocation := BoardLocation.TRACK, index := 30, playerID := 1 })] } =
      Except.ok true := by
  decide

/-- C3: on a state whose current player is present, holds card ids of the deck, and has its
marbles on pairwise distinct positions, `computeLegalMoves()` returns and `isValidTurn` accepts
every move of the returned list. -/
theorem isValidTurn_accepts_legal_moves (s : GameState) (cp : Player)
    (hcp : s.getPlayerByIndex s.currentPlayer = some cp)
    (hhand : ∀ c ∈ cp.hand, c < s.deck.length)
    (hdist : ∀ m : Fin 4, cp.marbleIdentified m = true) :
    ∃ moves, computeLegalMoves s none false = Except.ok moves ∧
      ∀ mv ∈ moves, isValidTurn s mv = Except.ok true := by
  obtain ⟨moves, hmoves⟩ := computeLegalMoves_ok s cp hcp hhand
  refine ⟨moves, hmoves, ?_⟩
  intro mv hmv
  unfold computeLegalMoves at hmoves
  simp only [hcp] at hmoves
  obtain ⟨card, hcard, rule, hrule, hj⟩ := handLoop_justified s cp hcp hdist cp.hand 0 moves hmoves mv hmv
  exact isValidTurn_of_justified s cp mv card rule hcp hcard hrule hj

/-- C3, at a concrete input: the fifteen legal moves of `richState` are all accepted. -/
theorem isValidTurn_accepts_legal_moves_witness :
    (computeLegalMoves richState none false).map List.length = Except.ok 15 ∧
    ∃ moves, computeLegalMoves richState none false = Except.ok moves ∧
      ∀ mv ∈ moves, isValidTurn richState mv = Except.ok true :=
  ⟨by decide, isValidTurn_accepts_legal_moves richState richP0 rfl (by decide) (by decide)⟩

/-- C4: for a non-fold move whose card id denotes a JOKER or a SEVEN card, `isValidTurn` returns
true exactly when the marble of the first movement belongs to the current player, whatever the
destinations and the further movements are. -/
theorem isValidTurn_joker_seven_stub (s : GameState) (mv : Move) (first : Movement)
    (rest : List Movement) (card : Card)
    (hmv : mv.movements = first :: rest)
    (hcard : s.deck[mv.cardID]? = some card)
    (hrank : card.rank = Rank.JOKER ∨ card.rank = Rank.SEVEN) :
    isValidTurn s mv = Except.ok (decide (first.1.playerID = s.currentPlayer)) := by
  unfold isValidTurn GameState.cardAt
  rw [hmv]
  simp only [hcard]
  by_cases h : first.1.playerID = s.currentPlayer
  · rcases hrank with hr | hr <;> simp [h, hr]
  · simp [h]

/-- C4, at a concrete input: a joker move of seat 0 with arbitrary destinations is accepted. -/
theorem isValidTurn_joker_seven_stub_witness :
    isValidTurn twoPlayers
      { cardID := 52, handIndex := 9,
        movements := [({ playerID := 0, marbleIdx := 2 },
                       { boardLocation := BoardLocation.FINISH, index := 3, playerID := 0 }),
                      ({ playerID := 1, marbleIdx := 0 },
                       { boardLocation := BoardLocation.TRACK, index := 40, playerID := 1 })] } =
      Except.ok true :=
  (isValidTurn_joker_seven_stub twoPlayers _
    ({ playerID := 0, marbleIdx := 2 },
     { boardLocation := BoardLocation.FINISH, index := 3, playerID := 0 })
    [({ playerID := 1, marbleIdx := 0 },
      { boardLocation := BoardLocation.TRACK, index := 40, playerID := 1 })]
    (Card.new Rank.JOKER Suit.JOKER) rfl (by decide) (Or.inl rfl)).trans (by decide)

/-- The START rule on a start field whose marbles are of one kind: for a HOME marble `m` of the
current player (seats keyed by id with start field `16 * id`, no other marble of the player on
the home slot of `m`), validating the START rule
yields no move when the start field (TRACK index `16 * currentPlayer`) holds a marble of the
player and none of another player, the single movement of `m` onto the start field when the
field is empty, and that movement followed by the return of the opponent marble to the
opponent's home slot of its own index when exactly that opponent marble stands there. -/
theorem validateMove_start (s : GameState) (cp : Player) (m : Fin 4) (card : Card)
    (sevenCall : Bool)
    (hcp : s.getPlayerByIndex s.currentPlayer = some cp)
    (hwf : s.seatsWellFormed = true)
    (hhome : (cp.marbles m).boardLocation = BoardLocation.HOME)
    (hid : cp.marbleIdentified m = true) :
    ((∃ q k : Fin 4, q.val = s.currentPlayer ∧
          s.stands q k { boardLocation := BoardLocation.TRACK, index := 16 * s.currentPlayer,
                         playerID := s.currentPlayer } = true) →
        (∀ q k : Fin 4,
          s.stands q k { boardLocation := BoardLocation.TRACK, index := 16 * s.currentPlayer,
                         playerID := s.currentPlayer } = true → q.val = s.currentPlayer) →
        validateMove s card (cp.marbles m) (MoveType.START, 0) sevenCall = Except.ok none) ∧
    ((∀ q k : Fin 4,
          s.stands q k { boardLocation := BoardLocation.TRACK, index := 16 * s.currentPlayer,
                         playerID := s.currentPlayer } = false) →
        validateMove s card (cp.marbles m) (MoveType.START, 0) sevenCall =
          Except.ok (some [({ playerID := s.currentPlayer, marbleIdx := m.val },
            { boardLocation := BoardLocation.TRACK, index := 16 * s.currentPlayer,
              playerID := s.currentPlayer })])) ∧
    (∀ q k : Fin 4, q.val ≠ s.currentPlayer →
        s.stands q k { boardLocation := BoardLocation.TRACK, index := 16 * s.currentPlayer,
                       playerID := s.currentPlayer } = true →
        (∀ q1 k1 : Fin 4,
          s.stands q1 k1 { boardLocation := BoardLocation.TRACK, index := 16 * s.currentPlayer,
                           playerID := s.currentPlayer } = true → q1 = q ∧ k1 = k) →
        validateMove s card (cp.marbles m) (MoveType.START, 0) sevenCall =
          Except.ok (some [({ playerID := s.currentPlayer, marbleIdx := m.val },
              { boardLocation := BoardLocation.TRACK, index := 16 * s.currentPlayer,
                playerID := s.currentPlayer }),
            ({ playerID := q.val, marbleIdx := k.val },
             { boardLocation := BoardLocation.HOME, index := k.val, playerID := q.val })])) := by
  have hv : validateMove s card (cp.marbles m) (MoveType.START, 0) sevenCall =
      checkSimpleMove s (cp.marbles m) 0 := by
    simp [validateMove, hhome, checkStartMove]
  have hends : possibleEndPositions s cp (cp.marbles m) 0 =
      some [{ boardLocation := BoardLocation.TRACK, index := 16 * s.currentPlayer,
              playerID := s.currentPlayer }] := by
    simp [possibleEndPositions, seatsWellFormed_current hwf hcp]
  rw [hv]
  exact checkSimpleMove_single hcp hid hends

/-- The START rule at a concrete input: with a marble of seat 1 on seat 0's start field, the
rule for HOME marble 0 of seat 0 yields the start movement and the return of that marble to
HOME. -/
theorem validateMove_start_witness :
    validateMove startCaptureState (Card.new Rank.ACE Suit.CLUBS)
        { boardLocation := BoardLocation.HOME, index := 0, playerID := 0 }
        (MoveType.START, 0) false =
      Except.ok (some [({ playerID := 0, marbleIdx := 0 },
          { boardLocation := BoardLocation.TRACK, index := 0, playerID := 0 }),
        ({ playerID := 1, marbleIdx := 0 },
         { boardLocation := BoardLocation.HOME, index := 0, playerID := 1 })]) :=
  (validateMove_start startCaptureState ((Player.new 0 "ID0").withHand [0]) 0
    (Card.new Rank.ACE Suit.CLUBS) false rfl (by decide) rfl (by decide)).2.2 1 0
    (by decide) (by decide) (by decide)

/-- C5, failing input: in `sharedStartBase` every field holds at most one marble, and marble 0
of seat 0 stands on TRACK 16, the start field of seat 1, the current player. The legal moves
hold the START of marble 1 of seat 1 without a capture, and `isValidTurn` accepts it. After
that move and the end of the turn seat 1 is to play again, and its marble 1 and marble 0 of
seat 0 both stand on TRACK 16. For marble 0 of seat 1, in HOME, the START rule now yields the
movement onto TRACK 16 and the return of the marble of seat 0 to HOME, although a marble of
seat 1 stands on the start field, and `computeLegalMoves` lists that start for the KING. -/
theorem validateMove_start_beside_own_marble :
    exclusiveOccupancy sharedStartBase = true ∧
    ((computeLegalMoves sharedStartBase none false).map fun moves =>
        decide (dupStartOfSeat1 ∈ moves)) = Except.ok true ∧
    isValidTurn sharedStartBase dupStartOfSeat1 = Except.ok true ∧
    (sharedStart.map fun s =>
        (s.currentPlayer,
         s.stands 1 1 { boardLocation := BoardLocation.TRACK, index := 16, playerID := 1 },
         s.stands 0 0 { boardLocation := BoardLocation.TRACK, index := 16, playerID := 1 })) =
      Except.ok (1, true, true) ∧
    (sharedStart.bind fun s =>
        validateMove s (Card.new Rank.KING Suit.CLUBS)
          { boardLocation := BoardLocation.HOME, index := 0, playerID := 1 }
          (MoveType.START, 0) false) =
      Except.ok (some [({ playerID := 1, marbleIdx := 0 },
          { boardLocation := BoardLocation.TRACK, index := 16, playerID := 1 }),
        ({ playerID := 0, marbleIdx := 0 },
         { boardLocation := BoardLocation.HOME, index := 0, playerID := 0 })]) ∧
    (sharedStart.bind fun s =>
        (computeLegalMoves s none false).map fun moves =>
          decide ({ cardID := 12, handIndex := 0,
                    movements := [({ playerID := 1, marbleIdx := 0 },
                        { boardLocation := BoardLocation.TRACK, index := 16, playerID := 1 }),
                      ({ playerID := 0, marbleIdx := 0 },
                        { boardLocation := BoardLocation.HOME, index := 0, playerID := 0 })] }
            ∈ moves)) = Except.ok true :=
  ⟨by decide, by decide, by decide, by decide, by decide, by decide⟩

/-- The plain walk onto a field whose marbles are of one kind: a TRACK marble `m` of the current
player at index `i < 64` (seats keyed by id with
start field `16 * id`, no other marble of the player on the field of `m`), a SIMPLE value `V` in
`1 .. 13` or `-4`, and a walk (origin, intermediate fields and destination) that touches neither
the mover's own start field nor a start field flagged blocked. With `d = (i + V) mod 64` in
`0 .. 63`,
`checkSimpleMove` returns no move when `d` holds a marble of the mover and none of another
player, exactly the movement of `m` to TRACK `d` when `d` is empty, and that movement followed
by the return of the opponent marble to the opponent's home slot of its own index when exactly
that opponent marble stands on `d`. -/
theorem checkSimpleMove_track_plain (s : GameState) (cp : Player) (m : Fin 4) (V : Int)
    (hcp : s.getPlayerByIndex s.currentPlayer = some cp)
    (hwf : s.seatsWellFormed = true)
    (htrack : (cp.marbles m).boardLocation = BoardLocation.TRACK)
    (hi : (cp.marbles m).index < 64)
    (hid : cp.marbleIdentified m = true)
    (hV : (1 ≤ V ∧ V ≤ 13) ∨ V = -4)
    (hwalk : ∀ j, j ≤ V.natAbs →
      walkField (cp.marbles m).index V j ≠ cp.startField ∧
        s.blockedStartAt (walkField (cp.marbles m).index V j) = false) :
    ((∃ q k : Fin 4, q.val = s.currentPlayer ∧
          s.stands q k { boardLocation := BoardLocation.TRACK,
                         index := ((((cp.marbles m).index : Int) + V) % 64).toNat,
                         playerID := s.currentPlayer } = true) →
        (∀ q k : Fin 4,
          s.stands q k { boardLocation := BoardLocation.TRACK,
                         index := ((((cp.marbles m).index : Int) + V) % 64).toNat,
                         playerID := s.currentPlayer } = true → q.val = s.currentPlayer) →
        checkSimpleMove s (cp.marbles m) V = Except.ok none) ∧
    ((∀ q k : Fin 4,
          s.stands q k { boardLocation := BoardLocation.TRACK,
                         index := ((((cp.marbles m).index : Int) + V) % 64).toNat,
                         playerID := s.currentPlayer } = false) →
        checkSimpleMove s (cp.marbles m) V =
          Except.ok (some [({ playerID := s.currentPlayer, marbleIdx := m.val },
            { boardLocation := BoardLocation.TRACK,
              index := ((((cp.marbles m).index : Int) + V) % 64).toNat,
              playerID := s.currentPlayer })])) ∧
    (∀ q k : Fin 4, q.val ≠ s.currentPlayer →
        s.stands q k { boardLocation := BoardLocation.TRACK,
                       index := ((((cp.marbles m).index : Int) + V) % 64).toNat,
                       playerID := s.currentPlayer } = true →
        (∀ q1 k1 : Fin 4,
          s.stands q1 k1 { boardLocation := BoardLocation.TRACK,
                           index := ((((cp.marbles m).index : Int) + V) % 64).toNat,
                           playerID := s.currentPlayer } = true → q1 = q ∧ k1 = k) →
        checkSimpleMove s (cp.marbles m) V =
          Except.ok (some [({ playerID := s.currentPlayer, marbleIdx := m.val },
              { boardLocation := BoardLocation.TRACK,
                index := ((((cp.marbles m).index : Int) + V) % 64).toNat,
                playerID := s.currentPlayer }),
            ({ playerID := q.val, marbleIdx := k.val },
             { boardLocation := BoardLocation.HOME, index := k.val, playerID := q.val })])) :=
  checkSimpleMove_single hcp hid
    (possibleEndPositions_track_plain s cp m V hcp hwf htrack hi hV hwalk)

/-- The plain walk at a concrete input: the capture of the test `validateSimpleMove`. -/
theorem checkSimpleMove_track_plain_witness :
    checkSimpleMove kickoutState
        { boardLocation := BoardLocation.TRACK, index := 5, playerID := 0 } 5 =
      Except.ok (some [({ playerID := 0, marbleIdx := 0 },
          { boardLocation := BoardLocation.TRACK, index := 10, playerID := 0 }),
        ({ playerID := 1, marbleIdx := 0 },
         { boardLocation := BoardLocation.HOME, index := 0, playerID := 1 })]) :=
  (checkSimpleMove_track_plain kickoutState walkerP0 0 5 rfl (by decide) rfl (by decide)
    (by decide) (by decide) (by decide)).2.2 1 0 (by decide) (by decide) (by decide)

/-- C6, failing input: in `sharedTrackBase` every field holds at most one marble. `isValidTurn`
accepts the TWO of seat 1 that takes its marble 1 from TRACK 28 onto TRACK 30 without sending
the marble of seat 0 that stands there home. After that move and the end of the turn seat 1 is
to play again, and its marble 1 and marble 0 of seat 0 both stand on TRACK 30. The walk of five
fields of marble 0 of seat 1 from TRACK 25 touches no start field; `checkSimpleMove` returns the
movement onto TRACK 30 and the return of the marble of seat 0 to HOME, although a marble of the
mover stands on TRACK 30, and `computeLegalMoves` lists that walk for the FIVE. -/
theorem checkSimpleMove_beside_own_marble :
    exclusiveOccupancy sharedTrackBase = true ∧
    isValidTurn sharedTrackBase bareTwoMove = Except.ok true ∧
    (sharedTrack.map fun s =>
        (s.currentPlayer,
         s.stands 1 0 { boardLocation := BoardLocation.TRACK, index := 25, playerID := 1 },
         s.stands 1 1 { boardLocation := BoardLocation.TRACK, index := 30, playerID := 1 },
         s.stands 0 0 { boardLocation := BoardLocation.TRACK, index := 30, playerID := 1 })) =
      Except.ok (1, true, true, true) ∧
    (sharedTrack.bind fun s =>
        checkSimpleMove s { boardLocation := BoardLocation.TRACK, index := 25, playerID := 1 } 5) =
      Except.ok (some [({ playerID := 1, marbleIdx := 0 },
          { boardLocation := BoardLocation.TRACK, index := 30, playerID := 1 }),
        ({ playerID := 0, marbleIdx := 0 },
         { boardLocation := BoardLocation.HOME, index := 0, playerID := 0 })]) ∧
    (sharedTrack.bind fun s =>
        (computeLegalMoves s none false).map fun moves =>
          decide ({ cardID := 4, handIndex := 0,
                    movements := [({ playerID := 1, marbleIdx := 0 },
                        { boardLocation := BoardLocation.TRACK, index := 30, playerID := 1 }),
                      ({ playerID := 0, marbleIdx := 0 },
                        { boardLocation := BoardLocation.HOME, index := 0, playerID := 0 })] }
            ∈ moves)) = Except.ok true :=
  ⟨by decide, by decide, by decide, by decide, by decide⟩

/-- C7: for a TRACK marble of the current player (index below 64, seats keyed by id with start
field `16 * id`) and a SIMPLE value `V` in `1 .. 13` or `-4`, if the start field of a present
player whose start is flagged blocked is one of the `|V|` fields
the marble steps onto (the fields after the origin, destination included, with wrap-around),
`checkSimpleMove` returns no move; the mover standing on its own blocked start field, where the
crossing check is skipped, is included. -/
theorem checkSimpleMove_blocked_start_crossed (s : GameState) (cp : Player) (m : Fin 4)
    (V : Int) (j : Nat)
    (hcp : s.getPlayerByIndex s.currentPlayer = some cp)
    (hwf : s.seatsWellFormed = true)
    (htrack : (cp.marbles m).boardLocation = BoardLocation.TRACK)
    (hi : (cp.marbles m).index < 64)
    (hV : (1 ≤ V ∧ V ≤ 13) ∨ V = -4)
    (hj1 : 1 ≤ j) (hj : j ≤ V.natAbs)
    (hblocked : s.blockedStartAt (walkField (cp.marbles m).index V j) = true) :
    checkSimpleMove s (cp.marbles m) V = Except.ok none := by
  have hV0 : V ≠ 0 := by omega
  have hV2 : (1 ≤ V ∧ V ≤ 13) ∨ (-13 ≤ V ∧ V ≤ -1) := by omega
  obtain ⟨q, pl, hp, hb, hsf⟩ := blockedStartAt_elim hblocked
  have hplsf := (seatsWellFormed_spec hwf hp).2
  have hcpsf := seatsWellFormed_current hwf hcp
  obtain ⟨hcur, -⟩ := getPlayerByIndex_some hcp
  have hends : possibleEndPositions s cp (cp.marbles m) V = none := by
    unfold possibleEndPositions
    have hspecial : ¬ (cp.isStartBlocked = true ∧ (cp.marbles m).index = cp.startField) := by
      rintro ⟨-, hon⟩
      have hq := q.isLt
      unfold walkField at hsf
      rw [hon, hcpsf, hplsf] at hsf
      split at hsf <;> omega
    have hscan := crossingScan_blocked s (cp.marbles m).index
      (trackEndIndex (cp.marbles m).index V) V cp.startField seatIds false q pl (mem_seatIds q) hp
      (walk_covered _ _ V hi hV2 j hj1 hj hsf.symm) hb
    simp only [hV0, if_false, htrack, hspecial, hscan]
    simp
  simp [checkSimpleMove, hcp, hends]

/-- C7, at a concrete input: the test `CannotCrossBlockedStartField`. -/
theorem checkSimpleMove_blocked_start_crossed_witness :
    checkSimpleMove blockedCrossState
        { boardLocation := BoardLocation.TRACK, index := 13, playerID := 0 } 5 =
      Except.ok none :=
  checkSimpleMove_blocked_start_crossed blockedCrossState approachP0 0 5 3 rfl (by decide) rfl
    (by decide) (by decide) (by decide) (by decide) (by decide)

/-- C8: when the current player's start is flagged blocked and the moving marble stands on the
player's own start field, `checkSimpleMove` with a non-zero value `V` returns, and every
movement it offers is the mover going to TRACK `(startField + V) mod 64` or the return of
another player's marble to HOME; no movement has a FINISH destination. -/
theorem checkSimpleMove_from_blocked_start (s : GameState) (cp : Player) (m : Fin 4) (V : Int)
    (hcp : s.getPlayerByIndex s.currentPlayer = some cp)
    (hblocked : cp.isStartBlocked = true)
    (htrack : (cp.marbles m).boardLocation = BoardLocation.TRACK)
    (hon : (cp.marbles m).index = cp.startField)
    (hV : V ≠ 0) :
    ∃ r, checkSimpleMove s (cp.marbles m) V = Except.ok r ∧
      ∀ moves, r = some moves → ∀ mv ∈ moves,
        mv.2.boardLocation ≠ BoardLocation.FINISH ∧
        (mv.1.playerID = s.currentPlayer →
          mv.2 = { boardLocation := BoardLocation.TRACK,
                   index := (((cp.startField : Int) + V) % 64).toNat,
                   playerID := s.currentPlayer }) := by
  have hends : possibleEndPositions s cp (cp.marbles m) V =
      some [{ boardLocation := BoardLocation.TRACK,
              index := (((cp.startField : Int) + V) % 64).toNat,
              playerID := s.currentPlayer }] := by
    unfold possibleEndPositions
    simp [hV, htrack, hblocked, hon, trackEndIndex_eq]
  obtain ⟨r, hr, hshape⟩ := checkSimpleMove_single_shape hcp hends
  refine ⟨r, hr, ?_⟩
  intro moves hm mv hmv
  rcases hshape moves hm mv hmv with ⟨h1, h2⟩ | ⟨h1, h2⟩
  · exact ⟨by rw [h2]; simp, fun _ => h2⟩
  · exact ⟨by rw [h2]; simp, fun h => absurd h h1⟩

/-- C8, at a concrete input: the test `BlockedStartPreventesFinishEntry`; the move offered is
the one to TRACK 3. -/
theorem checkSimpleMove_from_blocked_start_witness :
    checkSimpleMove onStartState
        { boardLocation := BoardLocation.TRACK, index := 0, playerID := 0 } 3 =
      Except.ok (some [({ playerID := 0, marbleIdx := 0 },
          { boardLocation := BoardLocation.TRACK, index := 3, playerID := 0 })]) ∧
    ∃ r, checkSimpleMove onStartState (onStartP0.marbles 0) 3 = Except.ok r ∧
      ∀ moves, r = some moves → ∀ mv ∈ moves,
        mv.2.boardLocation ≠ BoardLocation.FINISH ∧
        (mv.1.playerID = onStartState.currentPlayer →
          mv.2 = { boardLocation := BoardLocation.TRACK,
                   index := (((onStartP0.startField : Int) + 3) % 64).toNat,
                   playerID := onStartState.currentPlayer }) :=
  ⟨by decide,
   checkSimpleMove_from_blocked_start onStartState onStartP0 0 3 rfl (by decide) rfl
    (by decide) (by decide)⟩

/-- C12, failing input: seat 0 holds an ACE with all four marbles in HOME and marble 0 of seat 1
stands on seat 0's start field. `validateMove` gives the start of marble 1 of seat 0 the second
movement that sends the marble of seat 1 home, and so does the first START move of
`computeLegalMoves`; the START moves for marbles 1, 2 and 3 have the single movement of the
own marble. `isValidTurn` accepts such a move, and after `executeMove` the marble of seat 0 and
the marble of seat 1 both stand on TRACK 0. -/
theorem computeLegalMoves_start_duplicates_drop_capture :
    validateMove startCaptureState (Card.new Rank.ACE Suit.CLUBS)
        { boardLocation := BoardLocation.HOME, index := 1, playerID := 0 }
        (MoveType.START, 0) false =
      Except.ok (some [({ playerID := 0, marbleIdx := 1 },
          { boardLocation := BoardLocation.TRACK, index := 0, playerID := 0 }),
        ({ playerID := 1, marbleIdx := 0 },
          { boardLocation := BoardLocation.HOME, index := 0, playerID := 1 })]) ∧
    computeLegalMoves startCaptureState none false =
      Except.ok [
        { cardID := 0, handIndex := 0,
          movements := [({ playerID := 0, marbleIdx := 0 },
              { boardLocation := BoardLocation.TRACK, index := 0, playerID := 0 }),
            ({ playerID := 1, marbleIdx := 0 },
              { boardLocation := BoardLocation.HOME, index := 0, playerID := 1 })] },
        { cardID := 0, handIndex := 0,
          movements := [({ playerID := 0, marbleIdx := 1 },
              { boardLocation := BoardLocation.TRACK, index := 0, playerID := 0 })] },
        { cardID := 0, handIndex := 0,
          movements := [({ playerID := 0, marbleIdx := 2 },
              { boardLocation := BoardLocation.TRACK, index := 0, playerID := 0 })] },
        { cardID := 0, handIndex := 0,
          movements := [({ playerID := 0, marbleIdx := 3 },
              { boardLocation := BoardLocation.TRACK, index := 0, playerID := 0 })] }] ∧
    isValidTurn startCaptureState duplicateStartMove = Except.ok true ∧
    (executeMove startCaptureState duplicateStartMove).map (fun r =>
        (r.1.stands 0 1 { boardLocation := BoardLocation.TRACK, index := 0, playerID := 0 },
          r.1.stands 1 0 { boardLocation := BoardLocation.TRACK, index := 0, playerID := 0 })) =
      Except.ok (true, true) :=
  ⟨by decide, by decide, by decide, by decide⟩

/-- C13, counterexample: seat 0 holds a TWO and a SIX and finishes with the TWO at hand index 0;
the old hand without the element at index 0 is `[5]`, but after `executeMove` the hand is
empty (the last played card is the TWO). -/
theorem executeMove_finish_clears_hand :
    lastStepP0.hand.eraseIdx lastStepMove.handIndex = [5] ∧
    (executeMove lastStepState lastStepMove).map (fun r =>
        (r.2, (r.1.getPlayerByIndex 0).map (fun pl => pl.hand), r.1.lastPlayedCard)) =
      Except.ok (true, some [], some 1) := by
  decide

/-- C13, amended: for a move whose hand index is valid (every movement naming a present seat
and a marble index below 4, no leaderboard entry at the largest `int`), `executeMove` returns
and records the card at that hand index as the last played card; if the player did not finish,
the hand is the old hand without the element at that index, in the old order, and the player
is active in the round exactly when it was before and the new hand is not empty; if the player
finished, the hand is empty. -/
theorem executeMove_hand (s : GameState) (mv : Move) (cp : Player)
    (hcp : s.getPlayerByIndex s.currentPlayer = some cp)
    (hwf : s.movementsWellFormed mv.movements = true)
    (hidx : mv.handIndex < cp.hand.length)
    (hlb : s.ranksInRange = true) :
    ∃ s1 fin cp1, executeMove s mv = Except.ok (s1, fin) ∧
      s1.getPlayerByIndex s.currentPlayer = some cp1 ∧
      s1.lastPlayedCard = cp.hand[mv.handIndex]? ∧
      (fin = false →
        cp1.hand = cp.hand.eraseIdx mv.handIndex ∧
        cp1.activeInRound = (cp.activeInRound && !cp1.hand.isEmpty)) ∧
      (fin = true → cp1.hand = []) := by
  have hc : cp.hand[mv.handIndex]? = some (cp.hand[mv.handIndex]) :=
    List.getElem?_eq_getElem hidx
  obtain ⟨s1, cp1, _, g1, hcp1, hcore, hc1, hM, hrun⟩ := executeMove_run hcp hwf hc hlb
  obtain ⟨s2, cp2, e2, p1, _, p3, _, _, _, _, _, _, _, _, pf, pt⟩ := finishTurn_spec
    (by rw [g1.1]; exact hcp1) hc1 hM
  refine ⟨s2, cp1.checkFinished, cp2, hrun.trans e2, ?_, ?_, ?_, ?_⟩
  · rw [← g1.1]; exact p1
  · rw [p3, hc]
  · intro hf
    obtain ⟨q1, q2, _, _⟩ := pf hf
    rw [q1, q2, hcore.1, hcore.2.1]
    exact ⟨rfl, rfl⟩
  · intro hf
    exact (pt hf).1

/-- C13, amended, on the start of seat 0 with its only card. -/
theorem executeMove_hand_witness :
    ∃ s1 fin cp1, executeMove aceState startMove = Except.ok (s1, fin) ∧
      s1.getPlayerByIndex aceState.currentPlayer = some cp1 ∧
      s1.lastPlayedCard = ((Player.new 0 "ID0").withHand [0]).hand[startMove.handIndex]? ∧
      (fin = false →
        cp1.hand = ((Player.new 0 "ID0").withHand [0]).hand.eraseIdx startMove.handIndex ∧
        cp1.activeInRound =
          (((Player.new 0 "ID0").withHand [0]).activeInRound && !cp1.hand.isEmpty)) ∧
      (fin = true → cp1.hand = []) :=
  executeMove_hand aceState startMove ((Player.new 0 "ID0").withHand [0]) rfl (by decide)
    (by decide) (by decide)

/-- C14: on a move of well-formed movements and a valid hand index, `executeMove` returns; the
start-blocked flag of every seat other than the current player is what it was; the flag of the
current player is the result of the movements of the move in turn, each movement of a marble of
the current player unsetting the flag if that marble is the one recorded as start-blocking,
setting it to the index of the marble if the marble stood in HOME, and leaving it as it is
otherwise, the movements of other marbles leaving it as it is (`ownTrace`). In particular, when
the move holds exactly one movement of the current player, of marble `m`, the flag is unset if
`m` was the start-blocking marble, is `m` if `m` was not and stood in HOME, and is what it was
otherwise; when the move holds no movement of the current player the flag is what it was. -/
theorem executeMove_startBlocked (s : GameState) (mv : Move) (cp : Player)
    (hcp : s.getPlayerByIndex s.currentPlayer = some cp)
    (hwf : s.movementsWellFormed mv.movements = true)
    (hidx : mv.handIndex < cp.hand.length)
    (hlb : s.ranksInRange = true) :
    ∃ s1 fin cp1, executeMove s mv = Except.ok (s1, fin) ∧
      s1.getPlayerByIndex s.currentPlayer = some cp1 ∧
      (∀ (q : Fin 4) (pl : Player), q.val ≠ s.currentPlayer → s.players q = some pl →
        ∃ pl1, s1.players q = some pl1 ∧ pl1.startBlocked = pl.startBlocked) ∧
      (∀ (q : Fin 4), s.players q = none → s1.players q = none) ∧
      (∀ (m : Fin 4) (pos : Position),
        mv.movements.filter (fun x => decide (x.1.playerID = s.currentPlayer)) =
          [({ playerID := s.currentPlayer, marbleIdx := m.val }, pos)] →
        cp1.startBlocked =
          (if cp.startBlocked = some m.val then none
           else if (cp.marbles m).boardLocation = BoardLocation.HOME then some m.val
           else cp.startBlocked)) ∧
      (mv.movements.filter (fun x => decide (x.1.playerID = s.currentPlayer)) = [] →
        cp1.startBlocked = cp.startBlocked) ∧
      cp1.startBlocked =
        (ownTrace s.currentPlayer (cp.startBlocked, cp.marbles) mv.movements).1 := by
  have hc : cp.hand[mv.handIndex]? = some (cp.hand[mv.handIndex]) :=
    List.getElem?_eq_getElem hidx
  obtain ⟨s1, cp1, h1, g1, hcp1, hcore, hc1, hM, hrun⟩ := executeMove_run hcp hwf hc hlb
  obtain ⟨s2, cp2, e2, p1, _, _, _, _, _, pq, _, pb, _, _, _, _⟩ := finishTurn_spec
    (by rw [g1.1]; exact hcp1) hc1 hM
  obtain ⟨o1, o2⟩ := applyMovements_own s.currentPlayer rfl hcp h1
  obtain ⟨cp1b, hcp1b, htrace⟩ := applyMovements_trace s.currentPlayer rfl hcp h1
  refine ⟨s2, cp1.checkFinished, cp2, hrun.trans e2, ?_, ?_, ?_, ?_, ?_, ?_⟩
  · rw [← g1.1]; exact p1
  · intro q pl hq hpl
    obtain ⟨pl1, hpl1, hflag⟩ := applyMovements_flags h1 q pl hq hpl
    exact ⟨pl1, by rw [(pq q (by rw [g1.1]; exact hq)).1]; exact hpl1, hflag⟩
  · intro q hq
    have h7 := g1.2.2.2.2.2.2 q
    have hq1 : s1.players q = none := by
      cases hs1 : s1.players q with
      | none => rfl
      | some b => simp only [hq, hs1] at h7
    by_cases hqc : q.val = s1.currentPlayer
    · have := getPlayerByIndex_fin s1 q
      rw [hqc, g1.1, hcp1, hq1] at this
      cases this
    · rw [(pq q hqc).1]; exact hq1
  · intro m pos hf
    obtain ⟨cp1a, hcp1a, hflag, _⟩ := o2 m pos hf
    rw [hcp1] at hcp1a
    cases Option.some.inj hcp1a
    rw [pb, hflag]
    simp [Position.isInHome]
  · intro hf
    have := o1 hf
    rw [hcp1] at this
    cases Option.some.inj this
    exact pb
  · rw [hcp1] at hcp1b
    cases Option.some.inj hcp1b
    rw [pb, ← htrace]

/-- C14, on two moves of seat 0. A SEVEN split in two movements of its own marbles, the first
of the start-blocking marble 1, the second of marble 0 on the track: the flag, which was `1`,
is unset. The start of marble 0 from HOME with an ACE: the flag, which was unset, is `0`. -/
theorem executeMove_startBlocked_witness :
    (sevenBlockedP0.startBlocked = some 1 ∧
      ∃ s1 fin cp1, executeMove sevenBlockedState splitBlockedMove = Except.ok (s1, fin) ∧
        s1.getPlayerByIndex sevenBlockedState.currentPlayer = some cp1 ∧
        cp1.startBlocked = none) ∧
    (((Player.new 0 "ID0").withHand [0]).startBlocked = none ∧
      ∃ s1 fin cp1, executeMove aceState startMove = Except.ok (s1, fin) ∧
        s1.getPlayerByIndex aceState.currentPlayer = some cp1 ∧
        cp1.startBlocked = some 0) := by
  refine ⟨⟨rfl, ?_⟩, ⟨rfl, ?_⟩⟩
  · obtain ⟨s1, fin, cp1, h1, h2, _, _, _, _, h7⟩ :=
      executeMove_startBlocked sevenBlockedState splitBlockedMove sevenBlockedP0 rfl (by decide)
        (by decide) (by decide)
    exact ⟨s1, fin, cp1, h1, h2, h7.trans (by decide)⟩
  · obtain ⟨s1, fin, cp1, h1, h2, _, _, _, _, h7⟩ :=
      executeMove_startBlocked aceState startMove ((Player.new 0 "ID0").withHand [0]) rfl
        (by decide) (by decide) (by decide)
    exact ⟨s1, fin, cp1, h1, h2, h7.trans (by decide)⟩

/-- C15: on a move of well-formed movements and a valid hand index. First, when no leaderboard
entry is the largest `int` and some entry is unset or not negative (the current player's own
entry being unset suffices), `executeMove` returns; it returns `true` exactly when afterwards
all four marbles of the current player are in FINISH; in that case the player's hand is empty,
the player is active neither in the round nor in the game, and its leaderboard entry is the
largest finish rank that was on the leaderboard, or 0 if there was none, plus 1; otherwise no
player's `activeInGame` and no leaderboard entry has changed. Second, in a game that has seen
`n` finishing moves, `executeMove` returns, and if it returns `true` the entry is `n + 1`:
the `k`-th player to finish receives rank `k`. -/
theorem executeMove_finish (s : GameState) (mv : Move) (cp : Player)
    (hcp : s.getPlayerByIndex s.currentPlayer = some cp)
    (hwf : s.movementsWellFormed mv.movements = true)
    (hidx : mv.handIndex < cp.hand.length) :
    (s.ranksInRange = true → (∃ q, 0 ≤ rankValue (s.leaderBoard q)) →
      ∃ s1 fin cp1, executeMove s mv = Except.ok (s1, fin) ∧
        s1.getPlayerByIndex s.currentPlayer = some cp1 ∧
        (fin = true ↔ ∀ m, (cp1.marbles m).boardLocation = BoardLocation.FINISH) ∧
        (fin = true →
          cp1.hand = [] ∧ cp1.activeInRound = false ∧ cp1.activeInGame = false ∧
          s1.rankAt s.currentPlayer = some (largestFinishRank s + 1)) ∧
        (fin = false →
          (∀ q, (s1.players q).map (fun pl => pl.activeInGame) =
            (s.players q).map (fun pl => pl.activeInGame)) ∧
          s1.leaderBoard = s.leaderBoard)) ∧
    (∀ n, GameRun n s →
      ∃ s1 fin, executeMove s mv = Except.ok (s1, fin) ∧
        (fin = true → s1.rankAt s.currentPlayer = some ((n : Int) + 1))) := by
  have hc : cp.hand[mv.handIndex]? = some (cp.hand[mv.handIndex]) :=
    List.getElem?_eq_getElem hidx
  have hfinish : ∀ pl : Player, pl.checkFinished = true ↔
      ∀ m, (pl.marbles m).boardLocation = BoardLocation.FINISH := by
    intro pl
    unfold Player.checkFinished Position.isInFinish
    rw [List.all_eq_true]
    exact ⟨fun h m => by simpa using h m (mem_seatIds m), fun h m _ => by simpa using h m⟩
  refine ⟨fun hlb hnn => ?_, fun n hrun => ?_⟩
  · obtain ⟨s1, cp1, _, g1, hcp1, hcore, hc1, hM, hrun⟩ := executeMove_run hcp hwf hc hlb
    obtain ⟨s2, cp2, e2, p1, _, _, _, _, _, pq, pm, _, _, _, pf, pt⟩ := finishTurn_spec
      (by rw [g1.1]; exact hcp1) hc1 hM
    rw [g1.1] at p1 pq
    have hlt := getPlayerByIndex_lt hcp
    refine ⟨s2, cp1.checkFinished, cp2, hrun.trans e2, p1, ?_, fun hf => ?_, fun hf => ?_⟩
    · rw [hfinish, pm]
    · obtain ⟨a1, a2, a3, a4⟩ := pt hf
      refine ⟨a1, a2, a3, ?_⟩
      rw [g1.1, maxLeaderBoardEntry_congr g1.2.1, largestFinishRank_eq s hnn] at a4
      exact a4
    · obtain ⟨_, _, a3, a4⟩ := pf hf
      refine ⟨fun q => ?_, by rw [a4, g1.2.1]⟩
      have h7 := g1.2.2.2.2.2.2 q
      by_cases hqc : q.val = s.currentPlayer
      · have e1 := getPlayerByIndex_fin s2 q
        have e0 := getPlayerByIndex_fin s q
        rw [hqc, p1] at e1
        rw [hqc, hcp] at e0
        rw [← e1, ← e0]
        simp only [Option.map_some', a3, hcore.2.2.1]
      · rw [(pq q hqc).1]
        cases hs : s.players q <;> cases hs1 : s1.players q <;> simp only [hs, hs1] at h7 ⊢
        simp only [Option.map_some', h7.2.2.1]
  · have hJ := gameRun_ranked hrun
    obtain ⟨s1, cp1, _, g1, hcp1, _, hc1, hM, hrun1⟩ :=
      executeMove_run hcp hwf hc (rankedUpTo_inRange hJ)
    obtain ⟨s2, cp2, e2, _⟩ := finishTurn_spec (by rw [g1.1]; exact hcp1) hc1 hM
    refine ⟨s2, cp1.checkFinished, hrun1.trans e2, fun hf => ?_⟩
    have hex : executeMove s mv = Except.ok (s2, true) := by
      rw [← hf]; exact hrun1.trans e2
    exact (executeMove_ranked_fin hJ hex).2

/-- C15, on a game of three seats: after the deal seat 0 finishes and the turn ends, which is a
game that has seen one finishing move (`GameRun 1`); the leaderboard holds rank 1 for seat 0
and no other entry. The move that takes the four marbles of seat 1 onto its finish lane returns
`true`, empties the hand of seat 1, takes it out of round and game and gives it rank 2, the
largest rank on the leaderboard plus 1: the second player to finish receives rank 2. -/
theorem executeMove_finish_witness :
    GameRun 1 runSecondTurn ∧
    runSecondTurn.ranksInRange = true ∧
    (∃ q, 0 ≤ rankValue (runSecondTurn.leaderBoard q)) ∧
    largestFinishRank runSecondTurn = 1 ∧
    ((executeMove runSecondTurn (finishingMove 1 6)).map fun r =>
        (r.2, r.1.rankAt 1, seatIds.map r.1.leaderBoard)) =
      Except.ok (true, some 2, [some 1, some 2, none, none]) ∧
    (∃ s1 fin cp1, executeMove runSecondTurn (finishingMove 1 6) = Except.ok (s1, fin) ∧
        s1.getPlayerByIndex runSecondTurn.currentPlayer = some cp1 ∧
        (fin = true ↔ ∀ m, (cp1.marbles m).boardLocation = BoardLocation.FINISH) ∧
        (fin = true →
          cp1.hand = [] ∧ cp1.activeInRound = false ∧ cp1.activeInGame = false ∧
          s1.rankAt runSecondTurn.currentPlayer = some (largestFinishRank runSecondTurn + 1)) ∧
        (fin = false →
          (∀ q, (s1.players q).map (fun pl => pl.activeInGame) =
            (runSecondTurn.players q).map (fun pl => pl.activeInGame)) ∧
          s1.leaderBoard = runSecondTurn.leaderBoard)) ∧
    (∃ s1 fin, executeMove runSecondTurn (finishingMove 1 6) = Except.ok (s1, fin) ∧
        (fin = true → s1.rankAt runSecondTurn.currentPlayer = some (((1 : Nat) : Int) + 1))) := by
  have hrun : GameRun 1 runSecondTurn :=
    GameRun.turn runSecondTurn (false, false)
      (GameRun.move (finishingMove 0 0) runFirstFinish true
        (GameRun.deal (List.range 54) runDealt
          (GameRun.start ![some "ID0", some "ID1", some "ID2", none]) rfl) rfl) rfl
  have hrange : runSecondTurn.ranksInRange = true := by decide
  have hsome : ∃ q, 0 ≤ rankValue (runSecondTurn.leaderBoard q) := ⟨0, by decide⟩
  have h := executeMove_finish runSecondTurn (finishingMove 1 6)
    (valueOr (Player.new 1 "ID1") (runSecondTurn.playerAt 1)) rfl (by decide) (by decide)
  exact ⟨hrun, hrange, hsome, by decide, by decide, h.1 hrange hsome, h.2 1 hrun⟩

/-- C16: with a present player active in the game, `endTurn` returns a state and the pair
`(gameEnded, roundEnded)`; `gameEnded` holds exactly when any two present players that are
active in the game are the same player, `roundEnded` exactly when no present player is active
in the round; when `gameEnded` holds, the leaderboard entry of the player that is still active
in the game is 0, the other entries, the players, the round start player, the round card count
and the current player are what they were. -/
theorem endTurn_result (s : GameState) (hq : ∃ q, seatActiveInGame s q = true) :
    ∃ s1 gameEnded roundEnded, endTurn s = Except.ok (s1, (gameEnded, roundEnded)) ∧
      (gameEnded = true ↔
        ∀ q1 q2, seatActiveInGame s q1 = true → seatActiveInGame s q2 = true → q1 = q2) ∧
      (roundEnded = true ↔ ∀ q, seatActiveInRound s q = false) ∧
      (gameEnded = true → ∀ q, seatActiveInGame s q = true →
        s1.leaderBoard q = some 0 ∧ (∀ q1, q1 ≠ q → s1.leaderBoard q1 = s.leaderBoard q1) ∧
        s1.players = s.players ∧ s1.roundStartPlayer = s.roundStartPlayer ∧
        s1.roundCardCount = s.roundCardCount ∧ s1.currentPlayer = s.currentPlayer) := by
  obtain ⟨c1, c2, c3⟩ := endTurn_cases s
  cases hg : checkGameEnd s with
  | true =>
    obtain ⟨r, s1, hr, e1, p1, p2, p3, p4, _, _, p7⟩ := c1 hg hq
    refine ⟨s1, true, checkRoundEnd s, e1, ?_, checkRoundEnd_iff s, ?_⟩
    · exact ⟨fun _ => (checkGameEnd_iff s).mp hg, fun _ => rfl⟩
    · intro _ q hqa
      have hqr : q = r := (checkGameEnd_iff s).mp hg q r hqa hr
      subst hqr
      refine ⟨by rw [p7, Function.update_same], fun q1 hq1 => ?_, p1, p3, p4, p2⟩
      rw [p7, Function.update_noteq hq1]
  | false =>
    have hng : ¬ ∀ q1 q2, seatActiveInGame s q1 = true → seatActiveInGame s q2 = true →
        q1 = q2 := fun h => by
      rw [(checkGameEnd_iff s).mpr h] at hg; cases hg
    cases hr : checkRoundEnd s with
    | true =>
      obtain ⟨n, _, e1⟩ := c2 hg hr
      refine ⟨_, false, true, e1, ?_, ?_, fun h => by cases h⟩
      · exact ⟨fun h => (by cases h), fun h => absurd h hng⟩
      · exact ⟨fun _ => (checkRoundEnd_iff s).mp hr, fun _ => rfl⟩
    | false =>
      obtain ⟨n, _, e1⟩ := c3 hg hr
      refine ⟨_, false, false, e1, ?_, ?_, fun h => by cases h⟩
      · exact ⟨fun h => (by cases h), fun h => absurd h hng⟩
      · refine ⟨fun h => (by cases h), fun h => ?_⟩
        rw [(checkRoundEnd_iff s).mpr h] at hr; cases hr

/-- C16, on a fresh two-seat game. -/
theorem endTurn_result_witness :
    ∃ s1 gameEnded roundEnded, endTurn twoPlayers = Except.ok (s1, (gameEnded, roundEnded)) ∧
      (gameEnded = true ↔
        ∀ q1 q2, seatActiveInGame twoPlayers q1 = true → seatActiveInGame twoPlayers q2 = true →
          q1 = q2) ∧
      (roundEnded = true ↔ ∀ q, seatActiveInRound twoPlayers q = false) ∧
      (gameEnded = true → ∀ q, seatActiveInGame twoPlayers q = true →
        s1.leaderBoard q = some 0 ∧
        (∀ q1, q1 ≠ q → s1.leaderBoard q1 = twoPlayers.leaderBoard q1) ∧
        s1.players = twoPlayers.players ∧ s1.roundStartPlayer = twoPlayers.roundStartPlayer ∧
        s1.roundCardCount = twoPlayers.roundCardCount ∧
        s1.currentPlayer = twoPlayers.currentPlayer) :=
  endTurn_result twoPlayers ⟨0, by decide⟩

/-- C17: when two different present players are active in the game, no present player is
active in the round and the round card count is between 2 and 6, `endTurn` returns
`(false, true)`; the round start player is the first seat after the old one, in cyclic order,
that is present and active in the game; the round card count is 6 after 2 and one less
otherwise, so again between 2 and 6; every player is the old player with `activeInRound` set to
its `activeInGame`; leaderboard and current player are what they were. -/
theorem endTurn_round_end (s : GameState)
    (hgame : ∃ q1 q2, q1 ≠ q2 ∧ seatActiveInGame s q1 = true ∧ seatActiveInGame s q2 = true)
    (hround : ∀ q, seatActiveInRound s q = false)
    (hcount : 2 ≤ s.roundCardCount ∧ s.roundCardCount ≤ 6) :
    ∃ s1, endTurn s = Except.ok (s1, (false, true)) ∧
      (∃ d, 1 ≤ d ∧ d ≤ 4 ∧ s1.roundStartPlayer = (s.roundStartPlayer + d) % 4 ∧
        s.seatSatisfies (fun pl => pl.activeInGame) s1.roundStartPlayer = true ∧
        ∀ j, 1 ≤ j → j < d →
          s.seatSatisfies (fun pl => pl.activeInGame) ((s.roundStartPlayer + j) % 4) = false) ∧
      s1.roundCardCount = (if s.roundCardCount = 2 then 6 else s.roundCardCount - 1) ∧
      2 ≤ s1.roundCardCount ∧ s1.roundCardCount ≤ 6 ∧
      (∀ q, s1.players q =
        (s.players q).map fun pl => { pl with activeInRound := pl.activeInGame }) ∧
      s1.leaderBoard = s.leaderBoard ∧ s1.currentPlayer = s.currentPlayer := by
  obtain ⟨q1, q2, hne, h1, h2⟩ := hgame
  have hg : checkGameEnd s = false := by
    cases h : checkGameEnd s with
    | false => rfl
    | true => exact absurd ((checkGameEnd_iff s).mp h q1 q2 h1 h2) hne
  have hr : checkRoundEnd s = true := (checkRoundEnd_iff s).mpr hround
  obtain ⟨n, hn, e1⟩ := (endTurn_cases s).2.1 hg hr
  have hspec := probeSeat_spec s (fun pl => pl.activeInGame) 4 ((s.roundStartPlayer + 1) % 4)
    (Nat.mod_lt _ (by decide))
  rw [hn] at hspec
  obtain ⟨k, hk, hnk, hsat, hbefore⟩ := hspec
  refine ⟨_, e1, ⟨k + 1, by omega, by omega, ?_, hsat, fun j hj1 hjd => ?_⟩, ?_, ?_, ?_, ?_,
    rfl, rfl⟩
  · show n = _
    rw [hnk]; omega
  · have := hbefore (j - 1) (by omega)
    have he : ((s.roundStartPlayer + 1) % 4 + (j - 1)) % 4 = (s.roundStartPlayer + j) % 4 := by
      omega
    rw [he] at this
    exact this
  · show (if s.roundCardCount > 2 then s.roundCardCount - 1 else 6) = _
    split_ifs <;> omega
  · show 2 ≤ (if s.roundCardCount > 2 then s.roundCardCount - 1 else 6)
    split_ifs <;> omega
  · show (if s.roundCardCount > 2 then s.roundCardCount - 1 else 6) ≤ 6
    split_ifs <;> omega
  · intro q
    show (s.players q).map _ = _
    have hq := hround q
    unfold seatActiveInRound at hq
    cases hp : s.players q with
    | none => rfl
    | some pl =>
      rw [hp] at hq
      simp only at hq
      simp only [Option.map_some']
      congr 1
      cases hga : pl.activeInGame with
      | true => simp
      | false =>
        simp only [Bool.false_eq_true, if_false]
        cases pl
        simp only at hq hga
        simp [hq, hga]

/-- C17, on a two-seat game whose players have both left the round. -/
theorem endTurn_round_end_witness :
    ∃ s1, endTurn roundOverState = Except.ok (s1, (false, true)) ∧
      (∃ d, 1 ≤ d ∧ d ≤ 4 ∧ s1.roundStartPlayer = (roundOverState.roundStartPlayer + d) % 4 ∧
        roundOverState.seatSatisfies (fun pl => pl.activeInGame) s1.roundStartPlayer = true ∧
        ∀ j, 1 ≤ j → j < d →
          roundOverState.seatSatisfies (fun pl => pl.activeInGame)
            ((roundOverState.roundStartPlayer + j) % 4) = false) ∧
      s1.roundCardCount =
        (if roundOverState.roundCardCount = 2 then 6 else roundOverState.roundCardCount - 1) ∧
      2 ≤ s1.roundCardCount ∧ s1.roundCardCount ≤ 6 ∧
      (∀ q, s1.players q =
        (roundOverState.players q).map fun pl => { pl with activeInRound := pl.activeInGame }) ∧
      s1.leaderBoard = roundOverState.leaderBoard ∧
      s1.currentPlayer = roundOverState.currentPlayer :=
  endTurn_round_end roundOverState ⟨0, 1, by decide, by decide, by decide⟩ (by decide)
    (by decide)

/-- C18, failing input: seat 0, the only player still in the round, plays its last card, a TWO
that takes its last marble into the finish lane, while seats 1 and 2 are active in the game.
The move is accepted by `isValidTurn`; `executeMove` returns `true` and `endTurn` then returns
`(false, true)`, the game goes on into a new round with seats 1 and 2 active in the round, and
the current player is still seat 0, which is active neither in the round nor in the game. -/
theorem endTurn_keeps_finished_current_player :
    isValidTurn roundFinishState lastStepMove = Except.ok true ∧
    seatActiveInRound roundFinishState 0 = true ∧
    ((executeMove roundFinishState lastStepMove).bind fun r =>
      (endTurn r.1).map fun t =>
        (r.2, t.2, t.1.currentPlayer, seatActiveInRound t.1 0, seatActiveInGame t.1 0,
          seatActiveInRound t.1 1, seatActiveInRound t.1 2)) =
      Except.ok (true, (false, true), 0, false, false, true, true) :=
  ⟨by decide, by decide, by decide⟩

/-- C19: for every outcome of the shuffle, a permutation of the ids `0 .. 53` of a deck of 54
cards, and a round card count of at most 6, `dealCards` returns a map with one hand for each
seat that is present and active in the game and for no other seat; each hand has exactly
`roundCardCount` ids, all below 54, and no id occurs twice in the hands, within a hand or
across hands. -/
theorem dealCards_hands (s : GameState) (cardIndices : List Nat)
    (hdeck : s.deck.length = 54)
    (hperm : cardIndices.Perm (List.range s.deck.length))
    (hcount : s.roundCardCount ≤ 6) :
    ∃ dealt, dealCards s cardIndices = Except.ok dealt ∧
      (dealt.map Prod.fst).Nodup ∧
      (∀ q, q ∈ dealt.map Prod.fst ↔ seatActiveInGame s q = true) ∧
      (∀ e ∈ dealt, e.2.length = s.roundCardCount ∧ ∀ c ∈ e.2, c < 54) ∧
      (dealt.flatMap Prod.snd).Nodup := by
  have hlen : cardIndices.length = 54 := by
    rw [hperm.length_eq, List.length_range, hdeck]
  have hnodup : cardIndices.Nodup := hperm.nodup_iff.mpr (List.nodup_range _)
  have hact : (getActivePlayerIndices s).length ≤ 4 := by
    unfold getActivePlayerIndices
    exact (List.length_filter_le _ _).trans (by simp [seatIds])
  have hfit : 0 + (getActivePlayerIndices s).length * s.roundCardCount ≤ cardIndices.length := by
    rw [hlen]
    have : (getActivePlayerIndices s).length * s.roundCardCount ≤ 4 * 6 :=
      Nat.mul_le_mul hact hcount
    omega
  obtain ⟨raw, e1, h1, h2, h3⟩ := dealLoop_spec cardIndices s.roundCardCount
    (getActivePlayerIndices s) 0 hfit
  have hkeys : (raw.map fun entry =>
      (entry.1, entry.2.insertionSort fun a b => cardBefore a b = true)).map Prod.fst =
      getActivePlayerIndices s := by
    rw [List.map_map, ← h1]
    rfl
  refine ⟨_, by unfold dealCards; rw [e1], ?_, ?_, ?_, ?_⟩
  · rw [hkeys]
    unfold getActivePlayerIndices
    exact List.Nodup.filter _ (by decide)
  · intro q
    rw [hkeys]
    unfold getActivePlayerIndices
    rw [List.mem_filter]
    exact ⟨fun h => h.2, fun h => ⟨mem_seatIds q, h⟩⟩
  · intro e he
    obtain ⟨e0, he0, rfl⟩ := List.mem_map.mp he
    obtain ⟨hl, hc⟩ := h2 e0 he0
    refine ⟨by simp only [List.length_insertionSort]; exact hl, fun c hcm => ?_⟩
    have hc0 : c ∈ e0.2 := (List.perm_insertionSort _ _).mem_iff.mp hcm
    have := hperm.mem_iff.mp (hc c hc0)
    rw [hdeck] at this
    exact List.mem_range.mp this
  · rw [List.flatMap_map]
    have hp : (raw.flatMap fun a =>
        (a.1, a.2.insertionSort fun a b => cardBefore a b = true).2).Perm
        (raw.flatMap Prod.snd) :=
      List.Perm.flatMap_left raw (fun a _ => List.perm_insertionSort _ _)
    refine hp.nodup_iff.mpr ?_
    rw [h3]
    exact (hnodup.sublist (List.drop_sublist _ _)).sublist (List.take_sublist _ _)

/-- C19, on the unshuffled index vector and a fresh four-seat game. -/
theorem dealCards_hands_witness :
    ∃ dealt, dealCards fourPlayers (List.range 54) = Except.ok dealt ∧
      (dealt.map Prod.fst).Nodup ∧
      (∀ q, q ∈ dealt.map Prod.fst ↔ seatActiveInGame fourPlayers q = true) ∧
      (∀ e ∈ dealt, e.2.length = fourPlayers.roundCardCount ∧ ∀ c ∈ e.2, c < 54) ∧
      (dealt.flatMap Prod.snd).Nodup :=
  dealCards_hands fourPlayers (List.range 54) (by decide) (List.Perm.refl _) (by decide)

/-- C20: for a present seat `p`, another seat being active in the round and another seat being
active in the game, `disconnectPlayer(p)` returns; afterwards the hand of `p` is empty, each
marble of `p` that was on TRACK is in HOME slot of its own index and the others are where they
were, `p` is active neither in the game nor in the round, the leaderboard entry of `p` is its
old value if it had one and -1 otherwise, and every other player is what it was; if two
different seats other than `p` are active in the game, the game has not ended and no other
leaderboard entry has changed; if exactly one seat other than `p` is active in the game, the
leaderboard entry of that seat is 0. -/
theorem disconnectPlayer_effect (s : GameState) (p : Fin 4) (pl : Player)
    (hp : s.players p = some pl)
    (hround : ∃ q, q ≠ p ∧ seatActiveInRound s q = true)
    (hgame : ∃ q, q ≠ p ∧ seatActiveInGame s q = true) :
    ∃ s1 pl1, disconnectPlayer s p.val = Except.ok s1 ∧ s1.players p = some pl1 ∧
      pl1.hand = [] ∧
      (∀ m, pl1.marbles m =
        if (pl.marbles m).boardLocation = BoardLocation.TRACK then
          { boardLocation := BoardLocation.HOME, index := m.val, playerID := p.val }
        else pl.marbles m) ∧
      pl1.activeInGame = false ∧ pl1.activeInRound = false ∧
      s1.leaderBoard p =
        (match s.leaderBoard p with
         | some v => some v
         | none => some (-1)) ∧
      (∀ q, q ≠ p → s1.players q = s.players q) ∧
      ((∃ q1 q2, q1 ≠ q2 ∧ q1 ≠ p ∧ q2 ≠ p ∧ seatActiveInGame s q1 = true ∧
          seatActiveInGame s q2 = true) →
        checkGameEnd s1 = false ∧ ∀ q, q ≠ p → s1.leaderBoard q = s.leaderBoard q) ∧
      (∀ q, q ≠ p → seatActiveInGame s q = true →
        (∀ q1, q1 ≠ p → q1 ≠ q → seatActiveInGame s q1 = false) →
        s1.leaderBoard q = some 0) := by
  obtain ⟨s1, e1, p1, p3, p4, p5, p6, p7⟩ := disconnectSeat_spec s p pl hp hround
  have hact : ∀ q, seatActiveInGame s1 q = if q = p then false else seatActiveInGame s q := by
    intro q
    unfold seatActiveInGame
    rw [p1]
    by_cases h : q = p
    · subst h; simp
    · simp [h, Function.update_noteq h]
  have hpl1 : s1.players p = some
      { pl with
        activeInGame := false
        activeInRound := false
        hand := []
        marbles := fun mIdx =>
          if (pl.marbles mIdx).boardLocation ≠ BoardLocation.TRACK then pl.marbles mIdx
          else { boardLocation := BoardLocation.HOME, index := mIdx.val, playerID := p.val } } := by
    rw [p1, Function.update_same]
  have hmar : ∀ m : Fin 4,
      (if (pl.marbles m).boardLocation ≠ BoardLocation.TRACK then pl.marbles m
        else ({ boardLocation := BoardLocation.HOME, index := m.val, playerID := p.val } :
          Position)) =
      if (pl.marbles m).boardLocation = BoardLocation.TRACK then
        { boardLocation := BoardLocation.HOME, index := m.val, playerID := p.val }
      else pl.marbles m := by
    intro m
    by_cases h : (pl.marbles m).boardLocation = BoardLocation.TRACK <;> simp [h]
  have hothers : ∀ q, q ≠ p → s1.players q = s.players q := by
    intro q hq
    rw [p1, Function.update_noteq hq]
  unfold disconnectPlayer
  rw [dif_pos p.isLt]
  simp only [Fin.eta, e1]
  cases hg : checkGameEnd s1 with
  | false =>
    simp only [Bool.false_eq_true, if_false]
    refine ⟨s1, _, rfl, hpl1, rfl, hmar, rfl, rfl, ?_, hothers, ?_, ?_⟩
    · rw [p7, Function.update_same]
    · intro _
      refine ⟨hg, fun q hq => ?_⟩
      rw [p7, Function.update_noteq hq]
    · intro q hq hqa hsole
      exfalso
      have hall : ∀ q1 q2, seatActiveInGame s1 q1 = true → seatActiveInGame s1 q2 = true →
          q1 = q2 := by
        intro q1 q2 h1 h2
        rw [hact] at h1 h2
        by_cases e1 : q1 = p
        · simp [e1] at h1
        · by_cases e2 : q2 = p
          · simp [e2] at h2
          · simp only [e1, e2, if_false] at h1 h2
            have a1 : q1 = q := by
              by_contra hne
              rw [hsole q1 e1 hne] at h1; cases h1
            have a2 : q2 = q := by
              by_contra hne
              rw [hsole q2 e2 hne] at h2; cases h2
            rw [a1, a2]
      rw [(checkGameEnd_iff s1).mpr hall] at hg
      cases hg
  | true =>
    simp only [if_true]
    obtain ⟨q0, hq0, hq0a⟩ := hgame
    have hex : ∃ q, seatActiveInGame s1 q = true := ⟨q0, by rw [hact]; simp [hq0, hq0a]⟩
    obtain ⟨r, s2, hr, e2, r1, _, _, _, _, _, r7⟩ := rankRemainingPlayer_spec s1 hex
    have hrp : r ≠ p := by
      intro e
      rw [hact, e] at hr
      simp at hr
    rw [e2]
    refine ⟨s2, _, rfl, by rw [r1]; exact hpl1, rfl, hmar, rfl, rfl, ?_, ?_, ?_, ?_⟩
    · rw [r7, Function.update_noteq (Ne.symm hrp), p7, Function.update_same]
    · intro q hq
      rw [r1]; exact hothers q hq
    · intro ⟨q1, q2, hne, h1p, h2p, h1, h2⟩
      exfalso
      have a1 : seatActiveInGame s1 q1 = true := by rw [hact]; simp [h1p, h1]
      have a2 : seatActiveInGame s1 q2 = true := by rw [hact]; simp [h2p, h2]
      exact hne ((checkGameEnd_iff s1).mp hg q1 q2 a1 a2)
    · intro q hq hqa _
      have a1 : seatActiveInGame s1 q = true := by rw [hact]; simp [hq, hqa]
      have : q = r := (checkGameEnd_iff s1).mp hg q r a1 hr
      rw [this, r7, Function.update_same]

/-- C20, on the disconnection of seat 1 from a fresh four-seat game. -/
theorem disconnectPlayer_effect_witness :
    ∃ s1 pl1, disconnectPlayer fourPlayers (1 : Fin 4).val = Except.ok s1 ∧
      s1.players 1 = some pl1 ∧ pl1.hand = [] ∧
      (∀ m, pl1.marbles m =
        if ((Player.new 1 "ID1").marbles m).boardLocation = BoardLocation.TRACK then
          { boardLocation := BoardLocation.HOME, index := m.val, playerID := (1 : Fin 4).val }
        else (Player.new 1 "ID1").marbles m) ∧
      pl1.activeInGame = false ∧ pl1.activeInRound = false ∧
      s1.leaderBoard 1 =
        (match fourPlayers.leaderBoard 1 with
         | some v => some v
         | none => some (-1)) ∧
      (∀ q, q ≠ 1 → s1.players q = fourPlayers.players q) ∧
      ((∃ q1 q2, q1 ≠ q2 ∧ q1 ≠ 1 ∧ q2 ≠ 1 ∧ seatActiveInGame fourPlayers q1 = true ∧
          seatActiveInGame fourPlayers q2 = true) →
        checkGameEnd s1 = false ∧ ∀ q, q ≠ 1 → s1.leaderBoard q = fourPlayers.leaderBoard q) ∧
      (∀ q, q ≠ 1 → seatActiveInGame fourPlayers q = true →
        (∀ q1, q1 ≠ 1 → q1 ≠ q → seatActiveInGame fourPlayers q1 = false) →
        s1.leaderBoard q = some 0) :=
  disconnectPlayer_effect fourPlayers 1 (Player.new 1 "ID1") rfl ⟨0, by decide, by decide⟩
    ⟨0, by decide, by decide⟩

/-- C21, counterexample: in a two-seat game seat 0 holds the ACE of clubs; after serialization
and deserialization the hand of seat 0 is empty. -/
theorem gameState_json_counterexample :
    (aceState.players 0).map (fun pl => pl.hand) = some [0] ∧
    (GameState.from_json (GameState.to_json aceState)).map
      (fun gs => (gs.players 0).map fun pl => pl.hand) = Except.ok (some []) :=
  ⟨by decide, by decide⟩

/-- C21, amended: for every game state with its 54 deck cards, deserializing the JSON
serialization returns the state in which the hand of every present player is empty and
everything else is as before: the deck cards with rank, suit and move rules, absent seats, id,
name, start field, start-blocked marker, marble positions and activity flags of every present
player, current player, round start player, round card count, last played card and
leaderboard. The hand is not serialized; a state without cards in hand comes back unchanged. -/
theorem gameState_json_round_trip (gs : GameState) (hdeck : gs.deck.length = 54) :
    GameState.from_json (GameState.to_json gs) = Except.ok gs.withoutHands ∧
    ((∀ q pl, gs.players q = some pl → pl.hand = []) →
      GameState.from_json (GameState.to_json gs) = Except.ok gs) := by
  refine ⟨gameState_from_json_to_json gs hdeck, fun h => ?_⟩
  rw [gameState_from_json_to_json gs hdeck, withoutHands_eq gs h]

/-- C21, on a fresh four-seat game. -/
theorem gameState_json_round_trip_witness :
    fourPlayers.deck.length = 54 ∧
    GameState.from_json (GameState.to_json fourPlayers) = Except.ok fourPlayers.withoutHands ∧
    ((∀ q pl, fourPlayers.players q = some pl → pl.hand = []) →
      GameState.from_json (GameState.to_json fourPlayers) = Except.ok fourPlayers) :=
  ⟨by decide, gameState_json_round_trip fourPlayers (by decide)⟩

/-- C22: `Position::equals` is reflexive and symmetric; two TRACK positions are equal exactly
when their indices are equal, whatever the owner ids; two HOME positions, and two FINISH
positions, are equal exactly when index and owner id are equal; positions in different zones
are never equal. -/
theorem position_equals_laws :
    (∀ a : Position, a.equals a = true) ∧
    (∀ a b : Position, a.equals b = b.equals a) ∧
    (∀ a b : Position, a.boardLocation = BoardLocation.TRACK →
      b.boardLocation = BoardLocation.TRACK → (a.equals b = true ↔ a.index = b.index)) ∧
    (∀ a b : Position, a.boardLocation = b.boardLocation →
      a.boardLocation ≠ BoardLocation.TRACK →
      (a.equals b = true ↔ a.index = b.index ∧ a.playerID = b.playerID)) ∧
    (∀ a b : Position, a.boardLocation ≠ b.boardLocation → a.equals b = false) := by
  refine ⟨fun a => ?_, fun a b => ?_, fun a b ha hb => ?_, fun a b hab ha => ?_,
    fun a b hab => ?_⟩
  · simp [Position.equals]
  · unfold Position.equals
    by_cases h1 : a.boardLocation = b.boardLocation
    · by_cases h2 : a.index = b.index
      · by_cases h3 : a.playerID = b.playerID
        · simp [h1, h2, h3]
        · have h3b : ¬ b.playerID = a.playerID := fun h => h3 h.symm
          simp [h1, h2, h3, h3b]
      · have h2b : ¬ b.index = a.index := fun h => h2 h.symm
        simp [h2, h2b]
    · have h1b : ¬ b.boardLocation = a.boardLocation := fun h => h1 h.symm
      simp [h1, h1b]
  · simp [Position.equals, ha, hb]
  · unfold Position.equals
    have ha1 : decide (a.boardLocation = BoardLocation.TRACK) = false := by simpa using ha
    rw [ha1]
    simp [hab]
  · simp [Position.equals, hab]

/-- C23, failing input: the constructor of `Move` throws exactly for a card id above 54, so it
accepts the card id 54, one past the last index of the 54-card deck, and stores it; validating
the constructed move in a fresh game then reads the deck outside its bounds. -/
theorem move_constructor_accepts_card_54 :
    (∀ (cID hIndex : Nat) (moves : List Movement),
      (Move.new cID hIndex moves = Except.error Fault.outOfRange ↔ cID > 54) ∧
      (cID ≤ 54 → Move.new cID hIndex moves =
        Except.ok { cardID := cID, handIndex := hIndex, movements := moves })) ∧
    Move.new 54 0 card54Move.movements = Except.ok card54Move ∧
    fourPlayers.deck.length = 54 ∧
    fourPlayers.cardAt 54 = Except.error Fault.nullDeref ∧
    isValidTurn fourPlayers card54Move = Except.error Fault.nullDeref := by
  refine ⟨fun cID hIndex moves => ⟨?_, fun h => ?_⟩, by decide, by decide, by decide, by decide⟩
  · unfold Move.new
    by_cases h : cID > 54
    · simp [h]
    · simp [h]
  · unfold Move.new
    rw [if_neg (by omega)]

/-- C24, failing input: after the game-start broadcast the client receives, before
`completeTransitionToGame` is called, a game-state update, the dealt cards and a second
game-state update. None of them is delivered before the call; the call delivers the second
update and then the dealt cards, and the first update, which was queued, is never delivered. -/
theorem completeTransitionToGame_drops_update :
    (lobbyClient.handleServerMessage gameStartMessage).state_ = ClientState.TRANSITIONING ∧
    (lobbyClient.handleServerMessage gameStartMessage).delivered = [gameStartMessage.dump] ∧
    (transitionMessages.foldl Client.handleServerMessage
      (lobbyClient.handleServerMessage gameStartMessage)).delivered = [gameStartMessage.dump] ∧
    (transitionMessages.foldl Client.handleServerMessage
      (lobbyClient.handleServerMessage gameStartMessage)).transitionBuffer_ =
      [updateText "1", cardsDealtText, updateText "2"] ∧
    (transitionMessages.foldl Client.handleServerMessage
      (lobbyClient.handleServerMessage gameStartMessage)).completeTransitionToGame =
      { state_ := ClientState.GAME, transitionBuffer_ := [], pendingMessages_ := [],
        callbackSet := true,
        delivered := [gameStartMessage.dump, updateText "2", cardsDealtText] } := by
  refine ⟨by decide, by decide, by decide, by decide, by decide⟩

/-- C25, counterexample: in a seat table where seat 0 is connected as "Anna" and the
disconnected seat 1 still holds the name "Bob", the name "Bob" is non-empty and differs from
the name of every active seat, and `isValidName` rejects it. -/
theorem isValidName_counterexample :
    isValidName leftSeatTable "Bob" = false ∧ "Bob" ≠ "" ∧
      ∀ q : Fin 4, (leftSeatTable q).isActive = true → (leftSeatTable q).name ≠ "Bob" := by
  refine ⟨by decide, by decide, ?_⟩
  intro q
  fin_cases q <;> decide

/-- C25, amended: `isValidName(name)` is true exactly when the name is non-empty and differs
from the name stored in every one of the four seats, active or not; a name left behind in an
inactive seat makes a name invalid. -/
theorem isValidName_iff (players_ : Fin 4 → ClientInfo) (name : String) :
    isValidName players_ name = true ↔ name ≠ "" ∧ ∀ q : Fin 4, (players_ q).name ≠ name :=
  isValidName_eq players_ name

/-- C26, failing input: in a four-seat game the current player, seat 0, holds a joker and has
marbles on FINISH 3, FINISH 2, TRACK 15 and TRACK 14, and marble 0 of seat 1 blocks the start
field 16. `validJokerFold` returns `true` and `hasLegalMoves` returns `false`, and the joker
played as a FOUR offers two moves, four steps backward for each TRACK marble. -/
theorem validJokerFold_misses_backward_move :
    (∀ q : Fin 4, (jokerFoldState.players q).isSome = true) ∧
    ((jokerFoldState.getPlayerByIndex jokerFoldState.currentPlayer).map fun pl =>
      pl.hasJokerInHand) = some true ∧
    validJokerFold jokerFoldState = Except.ok true ∧
    hasLegalMoves jokerFoldState = Except.ok false ∧
    computeLegalMoves jokerFoldState (some (3, 0, 52)) false =
      Except.ok
        [{ cardID := 52, handIndex := 0,
           movements := [({ playerID := 0, marbleIdx := 2 },
             { boardLocation := BoardLocation.TRACK, index := 11, playerID := 0 })] },
         { cardID := 52, handIndex := 0,
           movements := [({ playerID := 0, marbleIdx := 3 },
             { boardLocation := BoardLocation.TRACK, index := 10, playerID := 0 })] }] :=
  ⟨by decide, by decide, by decide, by decide, by decide⟩

/-- C27, counterexample: in the state of the test `CannotCrossBlockedStartField` marble 0 of the
current player stands on TRACK 13 and a walk of 5 covers the blocked start field 16 of seat 1;
`checkSimpleMove` returns no move from inside the seat loop, before any candidate end position
is added. -/
theorem checkSimpleMove_counterexample :
    blockedCrossState.getPlayerByIndex blockedCrossState.currentPlayer = some approachP0 ∧
    (approachP0.marbles 0).boardLocation = BoardLocation.TRACK ∧
    possibleEndPositions blockedCrossState approachP0 (approachP0.marbles 0) 5 = none ∧
    checkSimpleMove blockedCrossState (approachP0.marbles 0) 5 = Except.ok none :=
  ⟨rfl, by decide, by decide, by decide⟩

/-- C27, amended: for a TRACK marble of the current player at index `i < 64` (seats keyed by id)
and a value `V ≠ 0` with `|V| ≤ 13`, the candidate computation of `checkSimpleMove` has one of
three outcomes. Either it returns no move from inside the seat loop, which happens only when the
mover does not stand on its own blocked start field and a blocked start field lies on the walk,
origin included. Or it reaches the security checks with one candidate, the TRACK continuation.
Or it reaches them with two, a FINISH entry and the TRACK continuation; then the walk reaches
the mover's own start field after `dist < |V|` steps, the FINISH index `f` satisfies
`f + dist + 1 = |V|` and `f ≤ 3`, the `size_t` computation of `f` equals the computation in the
integers, and none of the finish slots `0 .. f` holds a marble of the mover. -/
theorem checkSimpleMove_candidates (s : GameState) (cp : Player) (m : Fin 4) (V : Int)
    (hcp : s.getPlayerByIndex s.currentPlayer = some cp)
    (hwf : s.seatsWellFormed = true)
    (htrack : (cp.marbles m).boardLocation = BoardLocation.TRACK)
    (hi : (cp.marbles m).index < 64)
    (hV0 : V ≠ 0) (hV : V.natAbs ≤ 13) :
    (possibleEndPositions s cp (cp.marbles m) V = none ∧
      ¬ (cp.isStartBlocked = true ∧ (cp.marbles m).index = cp.startField) ∧
      ∃ j, j ≤ V.natAbs ∧ s.blockedStartAt (walkField (cp.marbles m).index V j) = true) ∨
    possibleEndPositions s cp (cp.marbles m) V =
      some [{ boardLocation := BoardLocation.TRACK,
              index := ((((cp.marbles m).index : Int) + V) % 64).toNat,
              playerID := s.currentPlayer }] ∨
    ∃ dist f,
      possibleEndPositions s cp (cp.marbles m) V =
        some [{ boardLocation := BoardLocation.FINISH, index := f, playerID := s.currentPlayer },
              { boardLocation := BoardLocation.TRACK,
                index := ((((cp.marbles m).index : Int) + V) % 64).toNat,
                playerID := s.currentPlayer }] ∧
      dist < V.natAbs ∧ walkField (cp.marbles m).index V dist = cp.startField ∧
      f + dist + 1 = V.natAbs ∧ f ≤ 3 ∧
      finishEntryExact V (trackEndIndex (cp.marbles m).index V) cp.startField = (f : Int) ∧
      ∀ k, k ≤ f →
        ownOccupant s { boardLocation := BoardLocation.FINISH, index := k,
                        playerID := s.currentPlayer } = false := by
  have hV2 : (1 ≤ V ∧ V ≤ 13) ∨ (-13 ≤ V ∧ V ≤ -1) := by omega
  obtain ⟨hcur, hpcur⟩ := getPlayerByIndex_some hcp
  have hsf : cp.startField = 16 * s.currentPlayer := seatsWellFormed_current hwf hcp
  unfold possibleEndPositions
  simp only [hV0, if_false, htrack]
  rw [if_neg (by decide)]
  by_cases hblk : cp.isStartBlocked = true ∧ (cp.marbles m).index = cp.startField
  · rw [if_pos hblk]
    right; left
    rw [trackEndIndex_eq]
  · rw [if_neg hblk]
    cases hscan : crossingScan s (cp.marbles m).index (trackEndIndex (cp.marbles m).index V) V
        cp.startField seatIds false with
    | none =>
      left
      refine ⟨rfl, hblk, ?_⟩
      obtain ⟨q, _, pl, hp, hc, hb⟩ := crossingScan_none _ _ _ _ _ _ _ hscan
      have hplsf := (seatsWellFormed_spec hwf hp).2
      have hlt : pl.startField < 64 := by have := q.isLt; omega
      obtain ⟨j, hj, hjw⟩ := covers_on_walk _ _ V hi hlt hV2 hc
      exact ⟨j, hj, by rw [hjw]; exact blockedStartAt_true hp hb⟩
    | some crosses =>
      simp only
      by_cases hfin : crosses = true ∧
          finishEntryIndex V (trackEndIndex (cp.marbles m).index V) cp.startField ≤ 3 ∧
          finishEntryFree s
            (finishEntryIndex V (trackEndIndex (cp.marbles m).index V) cp.startField) = true
      · rw [if_pos hfin]
        right; right
        obtain ⟨hcr, hle, hfree⟩ := hfin
        subst hcr
        rcases crossingScan_true _ _ _ _ _ _ _ hscan with hb | ⟨q, _, pl, hp, hq, hc, hne⟩
        · cases hb
        · have hqe : q = ⟨s.currentPlayer, hcur⟩ := Fin.ext hq
          rw [hqe, hpcur] at hp
          cases hp
          rw [hsf] at hc hne
          obtain ⟨dist, hd, hdw, hsum, hexact⟩ :=
            finishEntryIndex_eq _ _ V hi hcur hV2 hc hne
          refine ⟨dist, finishEntryIndex V (trackEndIndex (cp.marbles m).index V) cp.startField,
            ?_, hd, by rw [hsf]; exact hdw, by rw [hsf]; exact hsum, hle,
            by rw [hsf]; exact hexact, finishEntryFree_spec hfree⟩
          rw [trackEndIndex_eq]
      · rw [if_neg hfin]
        right; left
        rw [trackEndIndex_eq]

/-- C27, on the last step of seat 0: from TRACK 63 a walk of 2 reaches the start field 0 after
one step and offers FINISH 0 and TRACK 1. -/
theorem checkSimpleMove_candidates_witness :
    possibleEndPositions lastStepState lastStepP0 (lastStepP0.marbles 3) 2 =
      some [{ boardLocation := BoardLocation.FINISH, index := 0, playerID := 0 },
            { boardLocation := BoardLocation.TRACK, index := 1, playerID := 0 }] ∧
    ((possibleEndPositions lastStepState lastStepP0 (lastStepP0.marbles 3) 2 = none ∧
      ¬ (lastStepP0.isStartBlocked = true ∧
          (lastStepP0.marbles 3).index = lastStepP0.startField) ∧
      ∃ j, j ≤ (2 : Int).natAbs ∧
        lastStepState.blockedStartAt (walkField (lastStepP0.marbles 3).index 2 j) = true) ∨
    possibleEndPositions lastStepState lastStepP0 (lastStepP0.marbles 3) 2 =
      some [{ boardLocation := BoardLocation.TRACK,
              index := ((((lastStepP0.marbles 3).index : Int) + 2) % 64).toNat,
              playerID := lastStepState.currentPlayer }] ∨
    ∃ dist f,
      possibleEndPositions lastStepState lastStepP0 (lastStepP0.marbles 3) 2 =
        some [{ boardLocation := BoardLocation.FINISH, index := f,
                playerID := lastStepState.currentPlayer },
              { boardLocation := BoardLocation.TRACK,
                index := ((((lastStepP0.marbles 3).index : Int) + 2) % 64).toNat,
                playerID := lastStepState.currentPlayer }] ∧
      dist < (2 : Int).natAbs ∧
      walkField (lastStepP0.marbles 3).index 2 dist = lastStepP0.startField ∧
      f + dist + 1 = (2 : Int).natAbs ∧ f ≤ 3 ∧
      finishEntryExact 2 (trackEndIndex (lastStepP0.marbles 3).index 2) lastStepP0.startField =
        (f : Int) ∧
      ∀ k, k ≤ f →
        ownOccupant lastStepState
          { boardLocation := BoardLocation.FINISH, index := k,
            playerID := lastStepState.currentPlayer } = false) :=
  ⟨by decide,
    checkSimpleMove_candidates lastStepState lastStepP0 3 2 rfl (by decide) (by decide)
      (by decide) (by decide) (by decide)⟩

/-- C29: the probing loop of `updateCurrentPlayer` leaves, for some number of probes, exactly
when a present seat is active in the round; the call then returns, and otherwise it never does.
When it returns, it has left at probe `k + 1` with `k < 4`, the new current player is the seat
`(old + 1 + k) mod 4`, present and active in the round, no seat probed before it is, and nothing
else in the state has changed; when the old current player is the only such seat, the state is
unchanged. -/
theorem updateCurrentPlayer_terminates (s : GameState) :
    ((∃ fuel n, probeSeat s (fun pl => pl.activeInRound) fuel ((s.currentPlayer + 1) % 4) =
        some n) ↔ ∃ q, seatActiveInRound s q = true) ∧
    ((∃ s1, updateCurrentPlayer s = Except.ok s1) ↔ ∃ q, seatActiveInRound s q = true) ∧
    (updateCurrentPlayer s = Except.error Fault.nonTermination ↔
      ¬ ∃ q, seatActiveInRound s q = true) ∧
    (∀ s1, updateCurrentPlayer s = Except.ok s1 →
      ∃ k, k < 4 ∧
        probeSeat s (fun pl => pl.activeInRound) (k + 1) ((s.currentPlayer + 1) % 4) =
          some s1.currentPlayer ∧
        s1 = { s with currentPlayer := (s.currentPlayer + 1 + k) % 4 } ∧
        s.seatSatisfies (fun pl => pl.activeInRound) ((s.currentPlayer + 1 + k) % 4) = true ∧
        ∀ j, j < k →
          s.seatSatisfies (fun pl => pl.activeInRound) ((s.currentPlayer + 1 + j) % 4) = false) ∧
    ((∃ q, seatActiveInRound s q = true) →
      (∀ q, seatActiveInRound s q = true → q.val = s.currentPlayer) →
      updateCurrentPlayer s = Except.ok s) := by
  have hs : (s.currentPlayer + 1) % 4 < 4 := Nat.mod_lt _ (by decide)
  have hshift : ∀ j, ((s.currentPlayer + 1) % 4 + j) % 4 = (s.currentPlayer + 1 + j) % 4 := by
    intro j; omega
  have hiff : (∃ q : Fin 4, s.seatSatisfies (fun pl => pl.activeInRound) q.val = true) ↔
      ∃ q, seatActiveInRound s q = true := by
    constructor
    · rintro ⟨q, hq⟩
      exact ⟨q, by rw [seatActiveInRound_eq]; exact hq⟩
    · rintro ⟨q, hq⟩
      exact ⟨q, by rw [← seatActiveInRound_eq]; exact hq⟩
  have hok : (∃ s1, updateCurrentPlayer s = Except.ok s1) ↔ ∃ q, seatActiveInRound s q = true := by
    rw [← hiff]
    constructor
    · rintro ⟨s1, h1⟩
      apply (probeSeat_leaves_iff s _ _ hs).1
      unfold updateCurrentPlayer at h1
      cases hp : probeSeat s (fun pl => pl.activeInRound) 4 ((s.currentPlayer + 1) % 4) with
      | none => rw [hp] at h1; cases h1
      | some n => exact ⟨4, n, hp⟩
    · rintro ⟨q, hq⟩
      obtain ⟨n, hn⟩ := probeSeat_finds s _ _ hs q.val hq
      exact ⟨_, by unfold updateCurrentPlayer; rw [hn]⟩
  have hres : ∀ s1, updateCurrentPlayer s = Except.ok s1 →
      ∃ k, k < 4 ∧
        probeSeat s (fun pl => pl.activeInRound) (k + 1) ((s.currentPlayer + 1) % 4) =
          some s1.currentPlayer ∧
        s1 = { s with currentPlayer := (s.currentPlayer + 1 + k) % 4 } ∧
        s.seatSatisfies (fun pl => pl.activeInRound) ((s.currentPlayer + 1 + k) % 4) = true ∧
        ∀ j, j < k →
          s.seatSatisfies (fun pl => pl.activeInRound) ((s.currentPlayer + 1 + j) % 4) =
            false := by
    intro s1 h1
    unfold updateCurrentPlayer at h1
    have hspec := probeSeat_spec s (fun pl => pl.activeInRound) 4 _ hs
    cases hp : probeSeat s (fun pl => pl.activeInRound) 4 ((s.currentPlayer + 1) % 4) with
    | none => rw [hp] at h1; cases h1
    | some n =>
      rw [hp] at h1 hspec
      obtain ⟨k, hk, hn, hsat, hbefore⟩ := hspec
      cases h1
      rw [hshift] at hn
      have hbefore1 : ∀ j, j < k →
          s.seatSatisfies (fun pl => pl.activeInRound) ((s.currentPlayer + 1 + j) % 4) =
            false := by
        intro j hj
        rw [← hshift]
        exact hbefore j hj
      refine ⟨k, hk, ?_, by rw [hn], by rw [← hn]; exact hsat, hbefore1⟩
      have := probeSeat_exact s (fun pl => pl.activeInRound) _ hs k
        (by rw [hshift, ← hn]; exact hsat) hbefore (k + 1) (Nat.lt_succ_self k)
      rw [this, hshift, hn]
  refine ⟨?_, hok, ?_, hres, ?_⟩
  · rw [← hiff]
    exact probeSeat_leaves_iff s _ _ hs
  · rw [← hok]
    unfold updateCurrentPlayer
    cases hp : probeSeat s (fun pl => pl.activeInRound) 4 ((s.currentPlayer + 1) % 4) with
    | none => simp
    | some n => simp
  · intro hex honly
    obtain ⟨s1, h1⟩ := hok.2 hex
    obtain ⟨k, hk, _, hs1, hsat, _⟩ := hres s1 h1
    have hlt : (s.currentPlayer + 1 + k) % 4 < 4 := Nat.mod_lt _ (by decide)
    have := honly ⟨_, hlt⟩ (by rw [seatActiveInRound_eq]; exact hsat)
    simp only at this
    rw [h1, hs1, this]

/-- C30, failing input: seats 0, 1 and 2 play a round that seat 0 started; seats 0 and 1 have
played their cards and seat 2 plays its last card. `endTurn` reports a round end without a game
end and moves `roundStartPlayer` to seat 1, while `currentPlayer` stays seat 2; dealing the
next round changes neither, so seat 2 has the first turn of the round. -/
theorem endTurn_round_start_is_not_current :
    lastTurnState.currentPlayer = 2 ∧ lastTurnState.roundStartPlayer = 0 ∧
    isValidTurn lastTurnState lastTurnMove = Except.ok true ∧
    ((executeMove lastTurnState lastTurnMove).bind fun r =>
      (endTurn r.1).map fun t => (t.2, t.1.currentPlayer, t.1.roundStartPlayer)) =
      Except.ok ((false, true), 2, 1) ∧
    ((executeMove lastTurnState lastTurnMove).bind fun r =>
      (endTurn r.1).bind fun t =>
        (newRound t.1 (List.range 54)).map fun u => (u.currentPlayer, u.roundStartPlayer)) =
      Except.ok (2, 1) ∧
    (GameState.new ![some "ID0", some "ID1", some "ID2", none]).currentPlayer =
      (GameState.new ![some "ID0", some "ID1", some "ID2", none]).roundStartPlayer :=
  ⟨by decide, by decide, by decide, by decide, by decide, by decide⟩

/-- C31: for a TRACK or FINISH marble of the current player (seats keyed by id, position within
the range the `Position` constructor accepts) and a budget `r ≤ 7`, the results of
`checkSevenMove` for the budgets `k ≤ r` are the concatenations of the entries of the unit steps
`1 .. k`, so that `steps k` holds what the `k`-th step adds; each entry of step `k` either sends
a marble of another player to HOME or moves a marble of the current player to a destination for
which `calculateMoveSteps` returns `k`. -/
theorem calculateMoveSteps_of_seven_options (s : GameState) (cp : Player) (m : Fin 4) (r : Nat)
    (hcp : s.getPlayerByIndex s.currentPlayer = some cp)
    (hwf : s.seatsWellFormed = true)
    (hloc : (cp.marbles m).boardLocation ≠ BoardLocation.HOME)
    (hrange : (cp.marbles m).inRange) (hr : r ≤ 7) :
    ∃ steps : Nat → List Movement,
      (∀ k, k ≤ r →
        sevenOptions s (cp.marbles m) k = Except.ok ((List.range' 1 k).flatMap steps)) ∧
      ∀ k, 1 ≤ k → k ≤ r → ∀ x ∈ steps k,
        (x.1.playerID ≠ s.currentPlayer ∧ x.2.boardLocation = BoardLocation.HOME) ∨
        (x.1.playerID = s.currentPlayer ∧
          calculateMoveSteps s s.currentPlayer (cp.marbles m) x.2 = Except.ok k) := by
  obtain ⟨m1, hm1⟩ := getMarbleIndexByPos_isSome cp m
  obtain ⟨steps, h1, h2⟩ := sevenOptions_steps s cp (cp.marbles m) m1.val hcp hwf hm1 hloc hrange
  refine ⟨steps, fun k hk => h1 k (by omega), fun k hk1 hk x hx => ?_⟩
  rcases (h2 k hk1 (by omega)).2 x hx with h | h
  · exact Or.inl h
  · exact Or.inr ⟨by rw [h.1], h.2⟩

theorem calculateMoveSteps_of_seven_options_witness :
    ∃ steps : Nat → List Movement,
      (∀ k, k ≤ 7 →
        sevenOptions passFinishState (passFinishP0.marbles 0) k =
          Except.ok ((List.range' 1 k).flatMap steps)) ∧
      ∀ k, 1 ≤ k → k ≤ 7 → ∀ x ∈ steps k,
        (x.1.playerID ≠ passFinishState.currentPlayer ∧
          x.2.boardLocation = BoardLocation.HOME) ∨
        (x.1.playerID = passFinishState.currentPlayer ∧
          calculateMoveSteps passFinishState passFinishState.currentPlayer
            (passFinishP0.marbles 0) x.2 = Except.ok k) :=
  calculateMoveSteps_of_seven_options passFinishState passFinishP0 0 7 rfl (by decide)
    (by decide) (by decide) (by decide)

/-- The options of a split budget: for a remaining budget `r` from 1 to 7 on a state with the
standard deck (seats keyed
by id, marble positions in range, `c` a card id), `computeLegalMoves` in split mode with the
synthetic card id `r - 1`, the hand index `h` and the real card id `c` returns; its rule loop
is the marble loop of the one walking rule of value `r`; every move carries `c` and `h` and
begins with a movement of a marble of the current player to a destination that
`calculateMoveSteps` counts as `k` steps away from the field of that marble, with
`1 ≤ k ≤ r`. -/
theorem computeLegalMoves_split_budget (s : GameState) (cp : Player) (r h c : Nat)
    (hcp : s.getPlayerByIndex s.currentPlayer = some cp)
    (hwf : s.seatsWellFormed = true) (hdeck : s.deck = standardDeck)
    (hrange : ∀ m : Fin 4, (cp.marbles m).inRange)
    (hr1 : 1 ≤ r) (hr : r ≤ 7) (hc : c < 54) :
    ∃ card moves, s.cardAt (r - 1) = Except.ok card ∧
      computeLegalMoves s (some (r - 1, h, c)) true = Except.ok moves ∧
      ruleLoop s cp card true c h card.moveRules = Except.ok moves ∧
      marbleLoop s cp card MoveType.SEVEN (r : Int) true c h seatIds = Except.ok moves ∧
      ∀ mv ∈ moves, mv.cardID = c ∧ mv.handIndex = h ∧
        ∃ (m : Fin 4) (target : Position) (rest : List Movement) (k : Nat),
          mv.movements =
            ({ playerID := s.currentPlayer, marbleIdx := m.val }, target) :: rest ∧
          1 ≤ k ∧ k ≤ r ∧
          calculateMoveSteps s s.currentPlayer (cp.marbles m) target = Except.ok k := by
  obtain ⟨card, hcard, hrules⟩ := standardDeck_split_card r hr1 hr
  obtain ⟨moves, hloop, hall⟩ := marbleLoop_seven s cp card c h r hcp hwf hrange hr seatIds
  have hcardAt : s.cardAt (r - 1) = Except.ok card := by
    unfold GameState.cardAt
    rw [hdeck, hcard]
  have hrl : ruleLoop s cp card true c h card.moveRules = Except.ok moves := by
    rw [hrules, hloop]
    simp [Except.map]
  obtain ⟨real, hreal⟩ := cardAt_ok s c (by rw [hdeck]; exact hc)
  refine ⟨card, moves, hcardAt, ?_, hrl, hloop, ?_⟩
  · unfold computeLegalMoves
    simp only [hcp, hreal]
    unfold handLoop
    simp only [hcardAt, toSetTarget, or_true, if_true, hrl]
    unfold handLoop
    simp
  · intro mv hmv
    obtain ⟨h1, h2, m, target, rest, k, h3, h4, h5, h6⟩ := hall mv hmv
    exact ⟨h1, h2, m, target, rest, k, h3, h4, h5, h6⟩

theorem computeLegalMoves_split_budget_witness :
    ∃ card moves, sevenState.cardAt (3 - 1) = Except.ok card ∧
      computeLegalMoves sevenState (some (3 - 1, 0, 6)) true = Except.ok moves ∧
      ruleLoop sevenState sevenP0 card true 6 0 card.moveRules = Except.ok moves ∧
      marbleLoop sevenState sevenP0 card MoveType.SEVEN ((3 : Nat) : Int) true 6 0 seatIds =
        Except.ok moves ∧
      ∀ mv ∈ moves, mv.cardID = 6 ∧ mv.handIndex = 0 ∧
        ∃ (m : Fin 4) (target : Position) (rest : List Movement) (k : Nat),
          mv.movements =
            ({ playerID := sevenState.currentPlayer, marbleIdx := m.val }, target) :: rest ∧
          1 ≤ k ∧ k ≤ 3 ∧
          calculateMoveSteps sevenState sevenState.currentPlayer (sevenP0.marbles m) target =
            Except.ok k :=
  computeLegalMoves_split_budget sevenState sevenP0 3 0 6 rfl (by decide) rfl (by decide)
    (by decide) (by decide) (by decide)

/-- C32, failing input. First, in `splitPickerState` the option of one step of marble 1 is among
the moves `computeLegalMoves` offers for the budget 7; with marble 0 selected and the list reset
by the click on marble 2, the click on TRACK 21 counts the distance from TRACK 5, the field of
the selected marble 0: the total is 16, and the option of one step is sent as the play of the
SEVEN. Second, in `laneState`, with marble 1 on FINISH 0 selected and the list reset by the
click on marble 2, the click on TRACK 10 takes the option of five steps of marble 0 and counts
0 steps; the next options are those of the budget 7, and after the clicks on TRACK 10 and
TRACK 17 the total is 7 and the split sent takes marble 0 from TRACK 5 over TRACK 10 to
TRACK 17, twelve steps. -/
theorem onBoardPositionClicked_split_total_miscounted :
    ((computeLegalMoves splitPickerState (some (6, 0, 6)) true).map fun moves =>
        decide (oneStepOption ∈ moves)) = Except.ok true ∧
    (splitMissed.map fun c =>
        (c.selectedMarble_, decide (oneStepOption ∈ c.filteredMoves_),
          c.totalSevenMoveValue_)) =
      Except.ok (some { playerID := 0, marbleIdx := 0 }, true, 0) ∧
    (splitMissed.bind fun c =>
        c.countSevenPart { playerID := 0, marbleIdx := 0 }
          { boardLocation := BoardLocation.TRACK, index := 21, playerID := 0 }) =
      Except.ok 16 ∧
    ((clicks splitMissed
        [{ boardLocation := BoardLocation.TRACK, index := 21, playerID := 0 }]).map
        fun c => c.sentMoves) = Except.ok [oneStepOption] ∧
    (laneFirstPart.map fun c =>
        (c.totalSevenMoveValue_, c.builtSevenMove_.movements, c.sentMoves)) =
      Except.ok (0, [({ playerID := 0, marbleIdx := 0 },
          { boardLocation := BoardLocation.TRACK, index := 10, playerID := 0 })], []) ∧
    ((clicks laneFirstPart
        [{ boardLocation := BoardLocation.TRACK, index := 10, playerID := 0 }]).bind fun c =>
        c.countSevenPart { playerID := 0, marbleIdx := 0 }
          { boardLocation := BoardLocation.TRACK, index := 17, playerID := 0 }) =
      Except.ok 7 ∧
    ((clicks laneFirstPart
        [{ boardLocation := BoardLocation.TRACK, index := 10, playerID := 0 },
         { boardLocation := BoardLocation.TRACK, index := 17, playerID := 0 }]).map
        fun c => c.sentMoves) =
      Except.ok [{ cardID := 6, handIndex := 0,
                   movements := [({ playerID := 0, marbleIdx := 0 },
                       { boardLocation := BoardLocation.TRACK, index := 10, playerID := 0 }),
                     ({ playerID := 0, marbleIdx := 0 },
                       { boardLocation := BoardLocation.TRACK, index := 17, playerID := 0 })] }] :=
  ⟨by decide, by decide, by decide, by decide, by decide, by decide, by decide⟩

/-- C33, failing input: in `pickerState` seat 0 has selected the ACE and marble 0, so that the filtered list
holds the two moves of marble 0. A click on marble 2 of seat 0, which has no move, keeps marble 0
selected but leaves the five moves of the card in the filtered list, three of them of other
marbles; the next click on TRACK 21 sends the move of marble 1. -/
theorem onBoardPositionClicked_failed_pick_resets_list :
    (pickerSelected.map fun c => (c.selectedHandIndex_, c.selectedMarble_, c.filteredMarbles)) =
      Except.ok (0, some { playerID := 0, marbleIdx := 0 },
        [some { playerID := 0, marbleIdx := 0 }, some { playerID := 0, marbleIdx := 0 }]) ∧
    (pickerMissed.map fun c => (c.selectedHandIndex_, c.selectedMarble_, c.filteredMarbles)) =
      Except.ok (0, some { playerID := 0, marbleIdx := 0 },
        [some { playerID := 0, marbleIdx := 0 }, some { playerID := 0, marbleIdx := 1 },
         some { playerID := 0, marbleIdx := 0 }, some { playerID := 0, marbleIdx := 1 },
         some { playerID := 0, marbleIdx := 3 }]) ∧
    ((pickerMissed.bind fun c =>
        c.onBoardPositionClicked
          { boardLocation := BoardLocation.TRACK, index := 21, playerID := 0 }).map
        fun c => c.sentMoves) =
      Except.ok [{ cardID := 0, handIndex := 0,
                   movements := [({ playerID := 0, marbleIdx := 1 },
                     { boardLocation := BoardLocation.TRACK, index := 21, playerID := 0 })] }] :=
  ⟨by decide, by decide, by decide⟩

/-- C34, failing input: in the fresh four-seat game seat 0 is the current player; `disconnectPlayer(1)` makes
seat 1 the current player, the seat that has just been disconnected, while seats 0, 2 and 3 are
active in the round, and `disconnectPlayer(2)` moves the turn from seat 0 to seat 1. -/
theorem disconnectPlayer_moves_turn_of_other_seat :
    fourPlayers.currentPlayer = 0 ∧
    ((disconnectPlayer fourPlayers 1).map fun s =>
        (s.currentPlayer, seatIds.map (seatActiveInRound s))) =
      Except.ok (1, [true, false, true, true]) ∧
    ((disconnectPlayer fourPlayers 2).map fun s =>
        (s.currentPlayer, seatIds.map (seatActiveInRound s))) =
      Except.ok (1, [true, true, false, true]) :=
  ⟨by decide, by decide, by decide⟩

/-- C35, failing input: in `walkerState` seat 0 holds one card, the FIVE with id 4. `isValidTurn` accepts the
move that names the ACE with id 0 at hand index 0 and walks one step, and `executeMove` then
removes the FIVE from the hand. -/
theorem isValidTurn_accepts_card_not_in_hand :
    (walkerState.players 0).map (fun pl => pl.hand) = some [4] ∧
    (walkerState.cardAt 0).map (fun card => card.rank) = Except.ok Rank.ACE ∧
    isValidTurn walkerState wrongCardMove = Except.ok true ∧
    ((executeMove walkerState wrongCardMove).map fun r =>
        (r.1.lastPlayedCard, (r.1.players 0).map fun pl => pl.hand)) =
      Except.ok (some 4, some []) :=
  ⟨by decide, by decide, by decide, by decide⟩

/-- C36, failing input: in a two-seat game whose current player holds a JOKER, the scan of `validJokerFold`
dereferences the empty seat 2, and so do `hasLegalMoves` and the validation of a fold. -/
theorem validJokerFold_reads_absent_seat :
    jokerBlockedStarts jokerTwoSeats seatIds = Except.error Fault.nullDeref ∧
    validJokerFold jokerTwoSeats = Except.error Fault.nullDeref ∧
    hasLegalMoves jokerTwoSeats = Except.error Fault.nullDeref ∧
    isValidTurn jokerTwoSeats foldMove = Except.error Fault.nullDeref :=
  ⟨by decide, by decide, by decide, by decide⟩

/-- C37, failing input: in `walkerState` seat 0 holds one card; the move `badIndexMove` has hand index 1.
`isValidTurn` accepts it, `executeMove` throws the out-of-range error of `popCardFromHand`, and
the state it leaves has marble 0 of seat 0 on TRACK 10 instead of TRACK 5. -/
theorem executeMove_not_atomic :
    isValidTurn walkerState badIndexMove = Except.ok true ∧
    (walkerState.players 0).map (fun pl => pl.marbles 0) =
      some { boardLocation := BoardLocation.TRACK, index := 5, playerID := 0 } ∧
    (executeMoveInPlace walkerState badIndexMove).2 = Except.error Fault.outOfRange ∧
    ((executeMoveInPlace walkerState badIndexMove).1.players 0).map (fun pl => pl.marbles 0) =
      some { boardLocation := BoardLocation.TRACK, index := 10, playerID := 0 } :=
  ⟨by decide, by decide, by decide, by decide⟩

/-- C38: on a state in which no two marbles occupy the same field and every HOME marble sits in
its own home slot (leaderboard in range), every move that the marble loop of
`computeLegalMoves()` produces for a SIMPLE or SWAP rule of a card in the hand of the current
player is among the moves `computeLegalMoves()` returns, `executeMove` returns on it, and the
state it yields has the same two properties. -/
theorem executeMove_keeps_exclusive_occupancy (s : GameState) (cp : Player) (card : Card)
    (rule : MoveType × Int) (h c : Nat) (here : List Move) (mv : Move)
    (hcp : s.getPlayerByIndex s.currentPlayer = some cp)
    (hexcl : exclusiveOccupancy s = true) (hhome : homeInOwnSlot s = true)
    (hranks : s.ranksInRange = true)
    (hhand : cp.hand[h]? = some c) (hcard : s.deck[c]? = some card)
    (hrule : rule ∈ card.moveRules)
    (htype : rule.1 = MoveType.SIMPLE ∨ rule.1 = MoveType.SWAP)
    (hloop : marbleLoop s cp card rule.1 rule.2 false c h seatIds = Except.ok here)
    (hmv : mv ∈ here) :
    (∀ moves, computeLegalMoves s none false = Except.ok moves → mv ∈ moves) ∧
    ∃ s1 fin, executeMove s mv = Except.ok (s1, fin) ∧
      exclusiveOccupancy s1 = true ∧ homeInOwnSlot s1 = true := by
  constructor
  · intro moves hmoves
    unfold computeLegalMoves at hmoves
    simp only [hcp] at hmoves
    obtain ⟨here1, h1, hsub1⟩ := handLoop_mem s cp c card hcard cp.hand h hhand 0 moves hmoves
    obtain ⟨here2, h2, hsub2⟩ := ruleLoop_mem s cp card c (0 + h) rule card.moveRules hrule
      here1 h1
    rw [Nat.zero_add, hloop] at h2
    injection h2 with h2
    exact hsub1 mv (hsub2 mv (by rw [← h2]; exact hmv))
  · have hex := (exclusiveOccupancy_iff s).1 hexcl
    have hho := (homeInOwnSlot_iff s).1 hhome
    have hkeep : mv.handIndex = h ∧ s.movementsWellFormed mv.movements = true ∧
        positionsExclusive (writtenPositions s.marbleAt mv.movements) ∧
        positionsHomeOwn (writtenPositions s.marbleAt mv.movements) := by
      rcases htype with ht | ht
      · rw [ht] at hloop
        exact simpleMove_keeps s cp card rule.2 c h hcp hex hho here hloop mv hmv
      · rw [ht] at hloop
        exact swapMove_keeps s cp card rule.2 c h hcp hex hho here hloop mv hmv
    obtain ⟨hh, hwf, hex1, hho1⟩ := hkeep
    obtain ⟨s1, fin, hexec, hpos⟩ :=
      executeMove_positions hcp hwf (by rw [hh]; exact hhand) hranks
    have hfun : s1.marbleAt = writtenPositions s.marbleAt mv.movements := funext hpos
    refine ⟨s1, fin, hexec, ?_, ?_⟩
    · rw [exclusiveOccupancy_iff, hfun]
      exact hex1
    · rw [homeInOwnSlot_iff, hfun]
      exact hho1

theorem executeMove_keeps_exclusive_occupancy_witness :
    (∀ moves, computeLegalMoves kickoutState none false = Except.ok moves →
      kickoutMove ∈ moves) ∧
    ∃ s1 fin, executeMove kickoutState kickoutMove = Except.ok (s1, fin) ∧
      exclusiveOccupancy s1 = true ∧ homeInOwnSlot s1 = true :=
  executeMove_keeps_exclusive_occupancy kickoutState walkerP0 (Card.new Rank.FIVE Suit.CLUBS)
    (MoveType.SIMPLE, 5) 0 4 [kickoutMove] kickoutMove rfl (by decide) (by decide) (by decide)
    (by decide) (by decide) (by decide) (by decide) (by decide) (by decide)

/-- C39, failing input: a fresh three-seat game is dealt the unshuffled deck, seat 0 plays the START move of
its ACE, a move `computeLegalMoves` returns, the turn ends and seat 0 disconnects. In the state
reached seat 0 has `startBlocked` set to marble 0, its start field counts as blocked, and its
marble 0 is in HOME. -/
theorem disconnectPlayer_keeps_startBlocked :
    ((newRound threePlayers (List.range 54)).bind fun s1 =>
      (computeLegalMoves s1 none false).bind fun moves =>
        (executeMove s1 startMove).bind fun r =>
          (endTurn r.1).bind fun t =>
            (disconnectPlayer t.1 0).map fun s5 =>
              (decide (startMove ∈ moves),
                (s5.players 0).map (fun pl => (pl.startBlocked, pl.marbles 0)),
                s5.blockedStartAt 0)) =
      Except.ok (true,
        some (some 0, { boardLocation := BoardLocation.HOME, index := 0, playerID := 0 }),
        true) := by
  decide

/-- C40, failing input: in `passFinishState` marble 0 of seat 0 stands on TRACK 63 and marble 1 of seat 0 on
FINISH 0. The third step of `checkSevenMove` offers FINISH 1, past the own marble, which the
budget 2 does not offer; `checkSimpleMove` with value 3 offers TRACK 2 alone. -/
theorem checkSevenMove_enters_finish_past_own_marble :
    checkSevenMove passFinishState (passFinishP0.marbles 0) 2 =
      Except.ok (some
        [({ playerID := 0, marbleIdx := 0 },
          { boardLocation := BoardLocation.TRACK, index := 0, playerID := 0 }),
         ({ playerID := 0, marbleIdx := 0 },
          { boardLocation := BoardLocation.TRACK, index := 1, playerID := 0 })]) ∧
    checkSevenMove passFinishState (passFinishP0.marbles 0) 3 =
      Except.ok (some
        [({ playerID := 0, marbleIdx := 0 },
          { boardLocation := BoardLocation.TRACK, index := 0, playerID := 0 }),
         ({ playerID := 0, marbleIdx := 0 },
          { boardLocation := BoardLocation.TRACK, index := 1, playerID := 0 }),
         ({ playerID := 0, marbleIdx := 0 },
          { boardLocation := BoardLocation.FINISH, index := 1, playerID := 0 }),
         ({ playerID := 0, marbleIdx := 0 },
          { boardLocation := BoardLocation.TRACK, index := 2, playerID := 0 })]) ∧
    checkSimpleMove passFinishState (passFinishP0.marbles 0) 3 =
      Except.ok (some
        [({ playerID := 0, marbleIdx := 0 },
          { boardLocation := BoardLocation.TRACK, index := 2, playerID := 0 })]) :=
  ⟨by decide, by decide, by decide⟩

end BraendiDog
